import Mathlib

/-! Drift chamber builder (`DriftChamber_o1_v01.cpp`)

A shallow embedding of `CDCHBuild::build_layer` and its helpers
`apply_wire_coating` and `PlaceWires`, followed by properties of the build.

Modelling conventions.

* `double` quantities live in an arbitrary linearly ordered field `R`; the
  functions of `<math.h>` / `TMath` that the builder calls (`sin`, `cos`,
  `atan`, `sqrt`, `Pi`, `std::to_string`) are the fields of `MathOps R`.
  Arithmetic is exact.  A quotient by zero is `0` in `R` where C++ gives an
  infinity or a NaN; this only concerns a superlayer without wires.
* `int` quantities are mathematical integers (`Int`; overflow of a C++ `int`
  is undefined behaviour and is not modelled); `/` on two `int`s is
  `Int.tdiv` (C++ truncation).  Loop counters start at `0` and are `Nat`.
* `float` quantities (only the three wire-count ratios, the bounds of the
  field wire loops and the operand of the parity test) are `CFloat`: a
  rational, an infinity or a NaN.  They are evaluated twice.  In
  `build_layer` the quotients and the loop bounds are taken exactly, without
  rounding.  In `build_layer_binary32` every conversion from `int` and every
  `float` operation rounds to binary32 (round to nearest, ties to even, each
  operation rounded by itself), and the loops compare their `int` counter
  with the `float` bound after converting the counter.  The two builds are
  equal when the counts of sense wires and of bottom field wires of every
  superlayer are below `2 ^ 24` in absolute value (`build_layer_binary32_eq`).
* The framework calls with a side effect (`Volume(...)`,
  `setVisAttributes`, `placeVolume`, `registerVolume`, `addPhysVolID`, ...)
  are recorded, in program order, as a list of `Event`s.  A `VolId` is the
  identity of one `dd4hep::Volume` object: one constructor per creation
  site, indexed by the loop indices at which the site is executed.
  `volume(name)` is the volume that was just registered under `name`.
* The locals of `build_layer` that are assigned after their declaration are
  the fields of `State`; a block of statements is a function on `State`, in
  which every statement rebinds `st` (with `have`, so that each statement
  is checked against the previous state only).
* An exception ends the build: the result keeps the events issued before
  the `throw` and the error that was thrown.
-/

namespace CDCH

/-! ## Numbers -/

/-- Functions of `<math.h>`, `TMath` and `<string>` called by the builder. -/
structure MathOps (R : Type) where
  pi : R
  sin : R → R
  cos : R → R
  atan : R → R
  sqrt : R → R
  to_string : R → String

/-- A `float` value: an exact rational, a signed infinity, or a NaN. -/
inductive CFloat where
  | finite (q : ℚ)
  | infinite (negative : Bool)
  | nan
  deriving DecidableEq

/-- The C++ expression `a / float(b)` for two `int`s `a` and `b`, with the
conversions and the quotient taken exactly (without rounding);
`int_div_float_binary32` is the expression in binary32. -/
def CFloat.int_div_float (a b : Int) : CFloat :=
  if b = 0 then (if a = 0 then CFloat.nan else CFloat.infinite (decide (a < 0)))
  else CFloat.finite ((a : ℚ) / (b : ℚ))

/-- Conversion of an `int` to `float`, taken exactly (without rounding);
`floatOfInt` is the conversion in binary32. -/
def CFloat.ofInt (a : Int) : CFloat := CFloat.finite (a : ℚ)

/-- The function `ceilf` of `<math.h>`. -/
def ceilf : CFloat → CFloat
  | CFloat.finite q => CFloat.finite ((⌈q⌉ : Int) : ℚ)
  | CFloat.infinite s => CFloat.infinite s
  | CFloat.nan => CFloat.nan

/-- The C++ comparison `x != y` on floats: a NaN differs from everything. -/
def CFloat.ne : CFloat → CFloat → Bool
  | CFloat.finite p, CFloat.finite q => decide (p ≠ q)
  | CFloat.infinite s, CFloat.infinite t => decide (s ≠ t)
  | CFloat.nan, _ => true
  | _, CFloat.nan => true
  | _, _ => true

/-- Conversion of a rational to `int`: truncation toward zero. -/
def truncToInt (q : ℚ) : Int := Int.tdiv q.num (q.den : Int)

/-- The values taken by `sub_phi_index` in
`for (int sub_phi_index = phi_index * ratio;
      sub_phi_index < (phi_index * ratio) + ratio; sub_phi_index++)`
for a float `ratio`, with the product and the sum taken exactly (without
rounding); `sub_phi_indices_binary32` is the loop in binary32.  The start is
truncated to `int`, the bound is not.
A non-finite ratio never reaches these loops (the ratio test throws, or the
enclosing loop over `phi_index` is empty). -/
def sub_phi_indices (phi_index : Nat) : CFloat → List Int
  | CFloat.finite q =>
      let start : Int := truncToInt ((phi_index : ℚ) * q)
      let bound : ℚ := (phi_index : ℚ) * q + q
      (List.range (⌈bound⌉ - start).toNat).map (fun (k : Nat) => start + (k : Int))
  | _ => []

/-! ## Geometry objects -/

/-- The dynamic call of `apply_wire_coating` that created a coating. -/
inductive WireSite where
  | innerGuardFirst | innerGuardSecond | initField
  | bottom (SL iring : Nat)
  | sense (SL iring : Nat)
  | center (SL iring : Nat)
  | top (SL iring : Nat)
  | outField | outerGuardFirst | outerGuardSecond
  deriving DecidableEq

/-- Identity of a `dd4hep::Volume` object. -/
inductive VolId where
  | null
  | parentVol
  | lvEndcapWallGas | lvEndcapWallCopper | lvEndcapWallKapton | lvEndcapWallCarbon
  | lvInnerWallCarbon | lvInnerWallCopper | lvInnerWallGas
  | lvOuterWallCarbon1 | lvOuterWallCarbon2 | lvOuterWallCopper | lvOuterWallFoam
  | lvLayerInit | lvLayer_0 | lvLayerOut | lvLayerOutG
  | Gwire_inner | Gwire_outer
  | lvFwire_init | lvFwire_out
  | lvFwire (SL iring : Nat)
  | lvSwire (SL iring : Nat)
  | whole_ring_hyperboloid_volume (SL iring : Nat)
  | cellID_volume (SL iring phi_index : Nat)
  | lvWireWrapVol (site : WireSite)
  | lvWireVol (site : WireSite)
  deriving DecidableEq

/-- An elementary rigid motion. -/
inductive Motion (R : Type) where
  | RotationZ (angle : R)
  | RotationX (angle : R)
  | Translation3D (x y z : R)

/-- A transform: the product, left to right, of elementary motions
(the empty list is the identity). -/
abbrev Transform (R : Type) := List (Motion R)

/-- Solids requested from the framework. -/
inductive Solid (R : Type) where
  | Tube (rmin rmax dz : R)
  | TubeSegment (rmin rmax dz startPhi endPhi : R)
  | Hyperboloid (rin stin rout stout dz : R)
  | IntersectionSolid (a b : Solid R) (pos : Transform R)

/-- One call into the framework, in program order. -/
inductive Event (R : Type) where
  | newVolume (id : VolId) (name : String) (solid : Solid R) (material : String)
  | setVisAttributes (id : VolId) (vis : String)
  | setSensitiveDetector (id : VolId)
  | registerVolume (name : String) (id : VolId)
  | placeVolume (mother child : VolId) (tr : Transform R)
  | addPhysVolID (mother child : VolId) (key : String) (value : Int)
  | newDetElement (name : String)
  | setPlacement (mother child : VolId)

/-- The two exceptions thrown by `build_layer`. -/
inductive BuildError where
  | parity
  | ratio
  deriving DecidableEq

/-- The text of the `std::runtime_error`. -/
def BuildError.message : BuildError → String
  | BuildError.parity => "Error: Failed to build CDCH. Please make sure that '(nStoFWireRatio - nVerticalFWire) * (nSWire + SuperLayerIndex * nSDeltaWire)' is always an even number"
  | BuildError.ratio => "Error: Failed to build CDCH. Please make sure that the number of wires in top/center cell rings is always a multiple of the number of wires in the middle of the cell"

/-- The struct `wire`. -/
structure wire (R : Type) where
  mother_volume : VolId
  type : String
  num : Int
  radius : R
  phi : R
  phioffset : R
  stereo : R
  halfalpha : R
  thickness : R
  halflength : R
  volume : VolId
  name : String

/-- The constants read with `dd4hep::_toDouble` / `dd4hep::_toInt`. -/
structure Params (R : Type) where
  alpha : R
  r0 : R
  rOut : R
  zHalfLength : R
  CarbonInnerWallThick : R
  CopperInnerWallThick : R
  GasInnerWallThick : R
  Carbon1OuterWallThick : R
  Carbon2OuterWallThick : R
  CopperOuterWallThick : R
  FoamOuterWallThick : R
  GasEndcapWallThick : R
  CopperEndcapWallThick : R
  KaptonEndcapWallThick : R
  CarbonEndcapWallThick : R
  FWireShellThickIn : R
  FWireShellThickOut : R
  SWireShellThickIn : R
  SWireShellThickOut : R
  CntFWireShellThickIn : R
  CntFWireShellThickOut : R
  InGWireShellThickIn : R
  InGWireShellThickOut : R
  secure : R
  capGasLayer : R
  extShiftFW : R
  cellDimension : R
  inGuardRad : R
  outGuardRad : R
  nSDeltaWire : Int
  nSWire : Int
  nInGWire : Int
  nOutGWire : Int
  nStoFWireRatio : Int
  nVerticalFWire : Int
  nSuperLayer : Int
  nRing : Int
  nFieldWireShells : Int

/-! ## Constants derived from the parameters (lines 118-192) -/

section Derived

variable {R : Type} [LinearOrderedField R]

def Params.halfalpha (P : Params R) : R := (1 / 2) * P.alpha
def Params.inner_radius (P : Params R) : R := P.r0
def Params.outer_radius (P : Params R) : R := P.rOut
def Params.halflength (P : Params R) : R := P.zHalfLength
/-- Line 141: read from the key `CDCH:InGWireShellThickIn`. -/
def Params.OutGWireShellThickIn (P : Params R) : R := P.InGWireShellThickIn
/-- Line 142: read from the key `CDCH:InGWireShellThickOut`. -/
def Params.OutGWireShellThickOut (P : Params R) : R := P.InGWireShellThickOut
def Params.nHorizontalFWire (P : Params R) : Int := P.nStoFWireRatio - P.nVerticalFWire
def Params.envelop_Inner_thickness (P : Params R) : R :=
  P.CarbonInnerWallThick + P.CopperInnerWallThick + P.GasInnerWallThick
def Params.envelop_Outer_thickness (P : Params R) : R :=
  P.Carbon1OuterWallThick + P.Carbon2OuterWallThick + P.CopperOuterWallThick + P.FoamOuterWallThick
def Params.FWireDiameter (P : Params R) : R := P.FWireShellThickIn + P.FWireShellThickOut
def Params.FWradii (P : Params R) : R := (1 / 2) * P.FWireDiameter
def Params.CntFWireDiameter (P : Params R) : R := P.CntFWireShellThickIn + P.CntFWireShellThickOut
def Params.CntFWradii (P : Params R) : R := (1 / 2) * P.CntFWireDiameter
def Params.SWireDiameter (P : Params R) : R := P.SWireShellThickIn + P.SWireShellThickOut
def Params.SWradii (P : Params R) : R := (1 / 2) * P.SWireDiameter
def Params.inGWireDiameter (P : Params R) : R := P.InGWireShellThickIn + P.InGWireShellThickOut
def Params.inGWradii (P : Params R) : R := (1 / 2) * P.inGWireDiameter
def Params.fakeLayerInIWthick (P : Params R) : R := -(1 / 10000) + P.GasInnerWallThick
def Params.inner_radius_0 (P : Params R) : R :=
  P.inner_radius + P.envelop_Inner_thickness - P.fakeLayerInIWthick
/-- The rendering factor `enlarge` (line 216). -/
def enlarge : R := 1

/-- The function `diff_of_squares`. -/
def diff_of_squares (a b : R) : R := a ^ 2 - b ^ 2

/-! ## The mutable locals of `build_layer` -/

/-- A default-constructed `struct wire`: empty strings, null volume handles.
The numeric members are indeterminate in C++; no path reads them before
they are assigned. -/
def wire.uninitialised : wire R :=
  { mother_volume := VolId.null, type := "", num := 0, radius := 0, phi := 0, phioffset := 0,
    stereo := 0, halfalpha := 0, thickness := 0, halflength := 0, volume := VolId.null,
    name := "" }

/-- The variables of `build_layer` that are assigned after their declaration. -/
structure State (R : Type) where
  epsilon : R
  phi_ring : R
  phi_ring1 : R
  nFWire : Int
  nFWire1 : Int
  num_wire : Int
  sign_epsilon : Int
  phi : R
  scaleFactor : R
  dropFactor : R
  epsilonFactor : R
  delta_radius_ring : R
  senseWireRing_radius_0 : R
  iradius : R
  idelta_radius : R
  radius_ring_0 : R
  radius_ringOut_0 : R
  drop : R
  radius_ring : R
  radius_ringIn_0 : R
  radius_ringIn : R
  radius_ringOut : R
  epsilonIn : R
  epsilonOut : R
  ringangle : R
  cellBase : R
  inscribedRadius : R
  circumscribedRadius : R
  zlength : R
  cellStaggering : R
  epsilonInGwRing : R
  epsilonOutGwRing : R
  radius_ringIn_whole_cell : R
  epsilonIn_whole_cell : R
  lvLayerVol : List (VolId × String)
  lvFwireVol : List VolId
  lvGwireVol : List VolId
  wirecol : String
  gascol : String
  ground_wires : wire R
  field_wires_bottom : wire R
  field_wires_center : wire R
  field_wires_top : wire R
  sense_wires : wire R

/-- The values given by the declarations of lines 160-210 and 273-279. -/
def State.initial (P : Params R) : State R :=
  let radius_ring_0 : R :=
    P.inner_radius + P.envelop_Inner_thickness + P.FWradii + P.secure + P.capGasLayer
  { epsilon := 0, phi_ring := 0, phi_ring1 := 0, nFWire := 0, nFWire1 := 0, num_wire := 0,
    sign_epsilon := -1, phi := 0, scaleFactor := 0, dropFactor := 0, epsilonFactor := 0,
    delta_radius_ring := P.cellDimension, senseWireRing_radius_0 := 0, iradius := 0,
    idelta_radius := 0,
    radius_ring_0 := radius_ring_0,
    radius_ringOut_0 := radius_ring_0 - P.FWradii - P.secure,
    drop := 0, radius_ring := 0, radius_ringIn_0 := 0, radius_ringIn := 0, radius_ringOut := 0,
    epsilonIn := 0, epsilonOut := 0, ringangle := 0, cellBase := 0, inscribedRadius := 0,
    circumscribedRadius := 0, zlength := 0, cellStaggering := 0, epsilonInGwRing := 0,
    epsilonOutGwRing := 0, radius_ringIn_whole_cell := 0, epsilonIn_whole_cell := 0,
    lvLayerVol := [], lvFwireVol := [], lvGwireVol := [], wirecol := "", gascol := "",
    ground_wires := wire.uninitialised, field_wires_bottom := wire.uninitialised,
    field_wires_center := wire.uninitialised, field_wires_top := wire.uninitialised,
    sense_wires := wire.uninitialised }

/-- The method `back()` of a vector of volume handles. -/
def back (v : List VolId) : VolId := v.getLastD VolId.null

/-- The method `back()` of `lvLayerVol`, whose entries carry the name given
to the constructor (read back by `name()` at the end of the build). -/
def backLayer (v : List (VolId × String)) : VolId := (v.getLastD (VolId.null, "")).1

/-! ## `apply_wire_coating` and `PlaceWires` -/

/-- The function `apply_wire_coating(w, outwrap, halflength, material)`:
builds the coating tube and the total-wire tube, places the conductor
`w.volume` and the coating in the total wire, and stores the total wire in
`w.volume`.  `site` names the two volume objects that this call creates. -/
def apply_wire_coating (site : WireSite) (w : wire R) (outwrap halflength : R)
    (material : String) : wire R × List (Event R) :=
  let WrapTube : Solid R := Solid.Tube w.thickness (w.thickness + (1 / 2) * outwrap) halflength
  let TotalWire : Solid R := Solid.Tube 0 (w.thickness + (1 / 2) * outwrap) halflength
  ({ w with volume := VolId.lvWireVol site },
   [ Event.newVolume (VolId.lvWireWrapVol site) (w.name ++ "_coating") WrapTube material,
     Event.newVolume (VolId.lvWireVol site) (w.name ++ "_totalWire") TotalWire "Air",
     Event.placeVolume (VolId.lvWireVol site) w.volume [Motion.Translation3D 0 0 0],
     Event.placeVolume (VolId.lvWireVol site) (VolId.lvWireWrapVol site)
       [Motion.Translation3D 0 0 0] ])

/-- The function `PlaceWires(w, outwrap, halflength, copyNunOffset, SL, iring)`:
coats the wire and places it `w.num` times in `w.mother_volume`.  The two
name strings it assembles from `SL` and `iring` are never used, and so is
`copyNunOffset`. -/
def PlaceWires (site : WireSite) (w : wire R) (outwrap halflength : R) :
    wire R × List (Event R) :=
  let T : Transform R := [Motion.Translation3D w.radius 0 0, Motion.RotationX w.stereo]
  let c := apply_wire_coating site w outwrap halflength "G4_Au"
  let w := c.1
  (w, c.2 ++ (List.range w.num.toNat).map (fun (n : Nat) =>
        Event.placeVolume w.mother_volume w.volume
          (Motion.RotationZ (w.phioffset + w.phi * ((n : Nat) : R)) :: T)))

/-! ## Results of a piece of the build -/

/-- The state at five points of one ring iteration. -/
structure RingInfo (R : Type) where
  SL : Nat
  iring : Nat
  /-- State on entry of the loop body (line 403). -/
  entry : State R
  /-- State after the bottom field wires are described and coated (line 465). -/
  bottom : State R
  /-- State after the sense and central field wires (line 542). -/
  central : State R
  /-- State after the upper layer radii (line 555). -/
  upper : State R
  /-- State after the top field wires are described and coated (line 603). -/
  top : State R

/-- What a piece of `build_layer` leaves behind: the locals, the framework
calls it made, the rings it went through, and the exception if one was
thrown. -/
structure Outcome (R : Type) where
  st : State R
  events : List (Event R)
  rings : List (RingInfo R)
  error : Option BuildError

/-- A piece that cannot throw. -/
def Outcome.ok (r : State R × List (Event R)) : Outcome R :=
  { st := r.1, events := r.2, rings := [], error := none }

/-- A `throw`. -/
def Outcome.throw (st : State R) (e : BuildError) : Outcome R :=
  { st := st, events := [], rings := [], error := some e }

/-- Sequencing: `f` runs after `a` unless `a` threw. -/
def Outcome.andThen (a : Outcome R) (f : State R → Outcome R) : Outcome R :=
  match a.error with
  | some _ => a
  | none =>
    let b := f a.st
    { st := b.st, events := a.events ++ b.events, rings := a.rings ++ b.rings, error := b.error }

/-- The loop `for (int i = start; ...; i++) body`, with `n` iterations left. -/
def forLoop (body : Nat → State R → Outcome R) : Nat → Nat → State R → Outcome R
  | _, 0, st => Outcome.ok (st, [])
  | i, n + 1, st => (body i st).andThen (forLoop body (i + 1) n)

/-! ## Walls (lines 222-267) -/

def Endcap_Gas (P : Params R) : Solid R :=
  Solid.Tube P.inner_radius P.outer_radius ((1 / 2) * P.GasEndcapWallThick)
def Endcap_Copper (P : Params R) : Solid R :=
  Solid.Tube P.inner_radius P.outer_radius ((1 / 2) * P.CopperEndcapWallThick)
def Endcap_Kapton (P : Params R) : Solid R :=
  Solid.Tube P.inner_radius P.outer_radius ((1 / 2) * P.KaptonEndcapWallThick)
def Endcap_Carbon (P : Params R) : Solid R :=
  Solid.Tube P.inner_radius P.outer_radius ((1 / 2) * P.CarbonEndcapWallThick)
def InnerWall_Carbon (P : Params R) : Solid R :=
  Solid.Tube P.inner_radius (P.inner_radius + P.CarbonInnerWallThick) P.halflength
def InnerWall_Copper (P : Params R) : Solid R :=
  Solid.Tube (P.inner_radius + P.CarbonInnerWallThick)
    (P.inner_radius + P.CarbonInnerWallThick + P.CopperInnerWallThick) P.halflength
def InnerWall_Gas (P : Params R) : Solid R :=
  Solid.Tube (P.inner_radius + P.CarbonInnerWallThick + P.CopperInnerWallThick)
    (P.inner_radius + P.envelop_Inner_thickness) P.halflength
def OuterWall_Copper (P : Params R) : Solid R :=
  Solid.Tube (P.outer_radius - P.envelop_Outer_thickness)
    (P.outer_radius - P.Carbon1OuterWallThick - P.Carbon2OuterWallThick - P.FoamOuterWallThick)
    P.halflength
def OuterWall_Carbon1 (P : Params R) : Solid R :=
  Solid.Tube
    (P.outer_radius - P.Carbon1OuterWallThick - P.Carbon2OuterWallThick - P.FoamOuterWallThick)
    (P.outer_radius - P.Carbon2OuterWallThick - P.FoamOuterWallThick) P.halflength
def OuterWall_Foam (P : Params R) : Solid R :=
  Solid.Tube (P.outer_radius - P.Carbon2OuterWallThick - P.FoamOuterWallThick)
    (P.outer_radius - P.Carbon2OuterWallThick) P.halflength
def OuterWall_Carbon2 (P : Params R) : Solid R :=
  Solid.Tube (P.outer_radius - P.Carbon2OuterWallThick) P.outer_radius P.halflength

/-- The wall volumes and the detector element created before the loops. -/
def wall_volumes (P : Params R) : List (Event R) :=
  [ Event.newVolume VolId.lvEndcapWallGas "lvEndcapWallGasVol" (Endcap_Gas P) "GasHe_90Isob_10",
    Event.newVolume VolId.lvEndcapWallCopper "lvEndcapWallCopperVol" (Endcap_Copper P) "G4_Cu",
    Event.newVolume VolId.lvEndcapWallKapton "lvEndcapWallKaptonVol" (Endcap_Kapton P) "Kapton",
    Event.newVolume VolId.lvEndcapWallCarbon "lvEndcapWallCarbonVol" (Endcap_Carbon P)
      "CarbonFiber",
    Event.newVolume VolId.lvInnerWallCarbon "lvInnerWallCarbonVol" (InnerWall_Carbon P)
      "CarbonFiber",
    Event.newVolume VolId.lvInnerWallCopper "lvInnerWallCopperVol" (InnerWall_Copper P) "G4_Cu",
    Event.newVolume VolId.lvInnerWallGas "lvInnerWallGasVol" (InnerWall_Gas P) "GasHe_90Isob_10",
    Event.newVolume VolId.lvOuterWallCarbon1 "lvOuterWallCarbon1Vol" (OuterWall_Carbon1 P)
      "CarbonFiber",
    Event.newVolume VolId.lvOuterWallCarbon2 "lvOuterWallCarbon2Vol" (OuterWall_Carbon2 P)
      "CarbonFiber",
    Event.newVolume VolId.lvOuterWallCopper "lvOuterWallCopperVol" (OuterWall_Copper P) "G4_Cu",
    Event.newVolume VolId.lvOuterWallFoam "lvOuterWallFoamVol" (OuterWall_Foam P)
      "GasHe_90Isob_10",
    Event.newDetElement "CDCH" ]

/-! ## Start of a superlayer (lines 284-310) -/

/-- Lines 284-288: the wire counts of superlayer `SL`. -/
def superlayer_wire_counts (M : MathOps R) (P : Params R) (SL : Nat) (st : State R) : State R :=
  let st := { st with num_wire := P.nSWire + (SL : Int) * P.nSDeltaWire }
  let st := { st with phi := 2 * M.pi / ((st.num_wire : Int) : R) }
  let st := { st with nFWire := P.nHorizontalFWire * st.num_wire }
  let st := { st with phi_ring := 2 * M.pi / ((st.nFWire : Int) : R) }
  let st := { st with nFWire1 := Int.tdiv st.nFWire 2 }
  st

/-- Line 289: the condition `ceilf(nFWire1) != nFWire1` on the `int` `nFWire1`. -/
def parity_test (st : State R) : Bool :=
  CFloat.ne (ceilf (CFloat.ofInt st.nFWire1)) (CFloat.ofInt st.nFWire1)

/-- Lines 291-310: periods, factors and colours of superlayer `SL`. -/
def superlayer_factors (M : MathOps R) (P : Params R) (SL : Nat) (st : State R) : State R :=
  let st := { st with phi_ring1 := 2 * st.phi_ring }
  let st := { st with
    scaleFactor := (1 + M.pi / ((st.num_wire : Int) : R)) / (1 - M.pi / ((st.num_wire : Int) : R)) }
  let st := { st with dropFactor := 1 / M.cos P.halfalpha - 1 }
  let st := { st with epsilonFactor := M.sin P.halfalpha / P.halflength }
  let st := { st with ringangle := -(1 / 2) * st.phi }
  let st := { st with gascol := "vCDCH:Gas1" }
  let st := { st with gascol :=
    if SL % 3 = 0 then "vCDCH:Gas1"
    else if (SL + 1) % 3 = 0 then "vCDCH:Gas2"
    else if (SL + 2) % 3 = 0 then "vCDCH:Gas3"
    else st.gascol }
  let st := { st with wirecol :=
    if SL % 3 = 0 then "vCDCH:Wire1"
    else if (SL + 1) % 3 = 0 then "vCDCH:Wire2"
    else if (SL + 2) % 3 = 0 then "vCDCH:Wire3"
    else st.wirecol }
  st

/-! ## The block `if (SL == 0)` (lines 314-386) -/

/-- Lines 314-346: the initial layer and the inner guard wires. -/
def inner_guard_ring (M : MathOps R) (P : Params R) (st : State R) : State R × List (Event R) :=
  let stereoOut0 : R := M.atan (st.radius_ringOut_0 * (1 * st.dropFactor * st.epsilonFactor))
  let HypeLayer0 : Solid R :=
    Solid.Hyperboloid P.inner_radius_0 0 (st.radius_ringOut_0 - P.secure) stereoOut0 P.halflength
  have ev : List (Event R) :=
    [ Event.newVolume VolId.lvLayerInit "lvLayerInit" HypeLayer0 "GasHe_90Isob_10" ]
  have st : State R := { st with lvLayerVol := st.lvLayerVol ++ [(VolId.lvLayerInit, "lvLayerInit")] }
  have ev : List (Event R) := ev ++ [ Event.setVisAttributes (backLayer st.lvLayerVol) "vCDCH:Pb" ]
  have st : State R := { st with
    epsilonInGwRing := M.atan (P.inGuardRad * (1 + st.dropFactor) * st.epsilonFactor) }
  have st : State R := { st with zlength := P.halflength }
  have st : State R := { st with zlength := st.zlength - M.sin st.epsilonInGwRing * P.inGWradii }
  have st : State R := { st with zlength := st.zlength / M.cos st.epsilonInGwRing }
  have st : State R := { st with ground_wires := { st.ground_wires with
    mother_volume := backLayer st.lvLayerVol
    type := "G"
    num := Int.tdiv P.nInGWire 2
    radius := P.inGuardRad - P.inGWradii
    phi := st.phi_ring1
    phioffset := st.ringangle
    stereo := st.epsilonInGwRing
    halfalpha := P.halfalpha
    thickness := (1 / 2) * P.InGWireShellThickIn * enlarge
    halflength := st.zlength } }
  let Gwire : Solid R := Solid.Tube 0 st.ground_wires.thickness P.halflength
  have ev : List (Event R) := ev ++ [ Event.newVolume VolId.Gwire_inner "Gwire_inner" Gwire "G4_Al" ]
  have st : State R := { st with lvGwireVol := st.lvGwireVol ++ [VolId.Gwire_inner] }
  have ev : List (Event R) := ev ++ [ Event.setVisAttributes (back st.lvGwireVol) st.wirecol ]
  have st : State R := { st with ground_wires := { st.ground_wires with volume := back st.lvGwireVol } }
  have p : wire R × List (Event R) := PlaceWires WireSite.innerGuardFirst st.ground_wires P.FWireShellThickOut P.halflength
  have st : State R := { st with ground_wires := p.1 }
  have ev : List (Event R) := ev ++ p.2
  have st : State R := { st with ground_wires := { st.ground_wires with
    radius := P.inGuardRad + P.inGWradii + P.extShiftFW
    phioffset := st.ringangle + st.phi_ring
    stereo := -1 * st.epsilonInGwRing } }
  have p : wire R × List (Event R) := PlaceWires WireSite.innerGuardSecond st.ground_wires P.FWireShellThickOut P.halflength
  have st : State R := { st with ground_wires := p.1 }
  have ev : List (Event R) := ev ++ p.2
  (st, ev)

/-- Lines 348-386: the layer `lvLayer_0` and its field wires. -/
def initial_field_layer (M : MathOps R) (P : Params R) (SL : Nat) (st : State R) :
    State R × List (Event R) :=
  have st : State R := { st with drop := st.radius_ring_0 * st.dropFactor }
  have st : State R := { st with radius_ring := st.radius_ring_0 + st.drop }
  have st : State R := { st with epsilon := M.atan (st.radius_ring * st.epsilonFactor) }
  have st : State R := { st with radius_ringIn_0 := st.radius_ring_0 - P.FWradii - 2 * P.secure }
  have st : State R := { st with radius_ringIn := st.radius_ringIn_0 + st.drop }
  have st : State R := { st with radius_ringOut_0 := st.radius_ring_0 + P.FWradii }
  have st : State R := { st with radius_ringOut := st.radius_ringOut_0 + st.drop }
  have st : State R := { st with
    epsilonIn := M.atan (M.sqrt (st.radius_ringIn ^ 2 - st.radius_ringIn_0 ^ 2) / P.halflength) }
  have st : State R := { st with
    epsilonOut :=
      M.atan (M.sqrt (st.radius_ringOut ^ 2 - st.radius_ringOut_0 ^ 2) / P.halflength) }
  let HypeLayer1 : Solid R :=
    Solid.Hyperboloid st.radius_ringIn_0 st.epsilonIn st.radius_ringOut_0 st.epsilonOut
      P.halflength
  have ev : List (Event R) :=
    [ Event.newVolume VolId.lvLayer_0 "lvLayer_0" HypeLayer1 "GasHe_90Isob_10" ]
  have st : State R := { st with lvLayerVol := st.lvLayerVol ++ [(VolId.lvLayer_0, "lvLayer_0")] }
  have ev : List (Event R) := ev ++ [ Event.setVisAttributes (backLayer st.lvLayerVol) "vCDCH:Plastic" ]
  have st : State R := { st with zlength := P.halflength }
  have st : State R := { st with zlength := st.zlength - M.sin st.epsilon * P.FWradii }
  have st : State R := { st with zlength := st.zlength / M.cos st.epsilon }
  have st : State R := { st with field_wires_top := { st.field_wires_top with
    mother_volume := backLayer st.lvLayerVol
    type := "F"
    num := st.nFWire1
    radius := st.radius_ringIn_0 - P.FWradii - P.extShiftFW
    phi := st.phi_ring1
    phioffset := st.ringangle + st.cellStaggering - st.phi_ring
    stereo := ((st.sign_epsilon : Int) : R) * st.epsilon
    halfalpha := P.halfalpha
    thickness := (1 / 2) * P.FWireShellThickIn * enlarge
    halflength := st.zlength } }
  let lvFwireName : String := "lvFwire_" ++ toString SL ++ "_init"
  let Fwire : Solid R := Solid.Tube 0 st.field_wires_top.thickness P.halflength
  have ev : List (Event R) := ev ++ [ Event.newVolume VolId.lvFwire_init lvFwireName Fwire "G4_Al" ]
  have st : State R := { st with lvFwireVol := st.lvFwireVol ++ [VolId.lvFwire_init] }
  have ev : List (Event R) := ev ++ [ Event.setVisAttributes (back st.lvFwireVol) st.wirecol ]
  have st : State R := { st with field_wires_top := { st.field_wires_top with volume := back st.lvFwireVol } }
  have p : wire R × List (Event R) := PlaceWires WireSite.initField st.field_wires_top P.FWireShellThickOut P.halflength
  have st : State R := { st with field_wires_top := p.1 }
  have ev : List (Event R) := ev ++ p.2
  have st : State R := { st with radius_ring_0 := st.radius_ring_0 + P.FWradii }
  (st, ev)

/-- The statement `if (SL == 0) { ... } else { ... }` of lines 312-391. -/
def first_superlayer_block (M : MathOps R) (P : Params R) (SL : Nat) (st : State R) :
    State R × List (Event R) :=
  if SL = 0 then
    let g := inner_guard_ring M P st
    let f := initial_field_layer M P SL g.1
    (f.1, g.2 ++ f.2)
  else
    ({ st with
        delta_radius_ring :=
          2 * M.pi * st.radius_ringOut_0 / (((st.num_wire : Int) : R) - M.pi) }, [])

/-! ## One ring (lines 403-685) -/

/-- The text `"lvWire_SL<SL>_ring<iring>_type<type>_stereo<stereo>"` that starts
the names of the wires of a ring. -/
def wire_name (M : MathOps R) (SL iring : Nat) (w : wire R) : String :=
  "lvWire_SL" ++ toString SL ++ "_ring" ++ toString iring ++ "_type" ++ w.type ++ "_stereo" ++
    M.to_string w.stereo

/-- Lines 403-465: bottom layer radii and the bottom field wires. -/
def ring_bottom (M : MathOps R) (P : Params R) (SL iring : Nat) (st : State R) :
    State R × List (Event R) :=
  have st : State R := { st with inscribedRadius := (1 / 2) * st.delta_radius_ring }
  have st : State R := { st with circumscribedRadius := st.inscribedRadius * M.sqrt 2 }
  have st : State R := { st with senseWireRing_radius_0 := st.radius_ring_0 + st.inscribedRadius }
  have st : State R := { st with sign_epsilon := st.sign_epsilon * -1 }
  have st : State R := { st with radius_ringIn_0 := st.radius_ringOut_0 }
  have st : State R := { st with radius_ringIn := st.radius_ringOut }
  have st : State R := { st with epsilonIn := st.epsilonOut }
  have st : State R := { st with
    radius_ringOut_0 := st.radius_ringIn_0 + P.FWireDiameter + 2 * P.secure }
  have st : State R := { st with radius_ringOut := st.radius_ringOut_0 + st.drop }
  have st : State R := { st with
    epsilonOut :=
      M.atan (M.sqrt (diff_of_squares st.radius_ringOut st.radius_ringOut_0) / P.halflength) }
  have st : State R := { st with zlength := P.halflength }
  have st : State R := { st with radius_ringIn_whole_cell := st.radius_ringIn_0 }
  have st : State R := { st with epsilonIn_whole_cell := st.epsilonIn }
  have st : State R := { st with zlength := st.zlength - M.sin st.epsilon * P.FWradii }
  have st : State R := { st with zlength := st.zlength / M.cos st.epsilon }
  have st : State R := { st with cellStaggering := if iring % 2 = 1 then st.phi_ring else 0 }
  have st : State R := { st with field_wires_bottom := { st.field_wires_bottom with
    type := "F"
    num := st.nFWire1
    radius := st.radius_ringIn_0 + P.FWradii + P.extShiftFW
    phi := st.phi_ring1
    phioffset := st.ringangle + st.cellStaggering
    stereo := ((st.sign_epsilon : Int) : R) * st.epsilon
    halfalpha := P.halfalpha
    thickness := (1 / 2) * P.FWireShellThickIn * enlarge
    halflength := st.zlength } }
  have st : State R := { st with field_wires_bottom := { st.field_wires_bottom with
    name := wire_name M SL iring st.field_wires_bottom ++ "_bottom" } }
  let lvFwireName : String := "lvFwire_" ++ toString SL ++ "_" ++ toString iring
  let Fwire : Solid R := Solid.Tube 0 st.field_wires_bottom.thickness P.halflength
  have ev : List (Event R) :=
    [ Event.newVolume (VolId.lvFwire SL iring) lvFwireName Fwire "G4_Al" ]
  have st : State R := { st with lvFwireVol := st.lvFwireVol ++ [VolId.lvFwire SL iring] }
  have ev : List (Event R) := ev ++ [ Event.setVisAttributes (back st.lvFwireVol) st.wirecol ]
  have st : State R := { st with
    field_wires_bottom := { st.field_wires_bottom with volume := back st.lvFwireVol } }
  have p : wire R × List (Event R) :=
    apply_wire_coating (WireSite.bottom SL iring) st.field_wires_bottom P.FWireShellThickOut
      P.halflength "G4_Au"
  have st : State R := { st with field_wires_bottom := p.1 }
  have ev : List (Event R) := ev ++ p.2
  (st, ev)

/-- Lines 471-542: central layer radii, the sense wire and the central
field wires. -/
def ring_central (M : MathOps R) (P : Params R) (SL iring : Nat) (st : State R) :
    State R × List (Event R) :=
  have st : State R := { st with iradius := st.radius_ring_0 }
  have st : State R := { st with radius_ring_0 := st.radius_ring_0 + st.delta_radius_ring }
  have st : State R := { st with drop := st.radius_ring_0 * st.dropFactor }
  have st : State R := { st with radius_ringIn_0 := st.radius_ringOut_0 }
  have st : State R := { st with radius_ringIn := st.radius_ringOut }
  have st : State R := { st with epsilonIn := st.epsilonOut }
  have st : State R := { st with
    radius_ringOut_0 := st.radius_ring_0 - P.FWireDiameter - 2 * P.secure }
  have st : State R := { st with radius_ringOut := st.radius_ringOut_0 + st.drop }
  have st : State R := { st with
    epsilonOut :=
      M.atan (M.sqrt (diff_of_squares st.radius_ringOut st.radius_ringOut_0) / P.halflength) }
  have st : State R := { st with zlength := P.halflength }
  have st : State R := { st with zlength := st.zlength - M.sin st.epsilon * P.CntFWradii }
  have st : State R := { st with zlength := st.zlength / M.cos st.epsilon }
  have st : State R := { st with sense_wires := { st.sense_wires with
    type := "S"
    num := st.num_wire
    radius := st.senseWireRing_radius_0
    phi := st.phi
    phioffset := st.cellStaggering
    stereo := ((st.sign_epsilon : Int) : R) * st.epsilon
    halfalpha := P.halfalpha
    thickness := (1 / 2) * P.SWireShellThickIn * enlarge
    halflength := st.zlength } }
  have st : State R := { st with sense_wires := { st.sense_wires with
    name := wire_name M SL iring st.sense_wires } }
  let lvSwireName : String := "lvSwire_" ++ toString SL ++ "_" ++ toString iring
  let Swire : Solid R := Solid.Tube 0 st.sense_wires.thickness P.halflength
  have ev : List (Event R) :=
    [ Event.newVolume (VolId.lvSwire SL iring) lvSwireName Swire "G4_W",
      Event.setVisAttributes (VolId.lvSwire SL iring) st.wirecol ]
  have st : State R := { st with
    sense_wires := { st.sense_wires with volume := VolId.lvSwire SL iring } }
  have p : wire R × List (Event R) :=
    apply_wire_coating (WireSite.sense SL iring) st.sense_wires P.SWireShellThickOut
      P.halflength "G4_Au"
  have st : State R := { st with sense_wires := p.1 }
  have ev : List (Event R) := ev ++ p.2
  have st : State R := { st with idelta_radius := st.delta_radius_ring * (1 / 2) }
  have st : State R := { st with iradius := st.iradius + st.idelta_radius }
  have st : State R := { st with
    epsilon := M.atan (st.iradius * (1 + st.dropFactor) * st.epsilonFactor) }
  have st : State R := { st with field_wires_center := { st.field_wires_center with
    type := "F"
    num := st.num_wire
    radius := st.iradius
    phi := st.phi
    phioffset := st.ringangle + st.cellStaggering
    stereo := ((st.sign_epsilon : Int) : R) * st.epsilon
    halfalpha := P.halfalpha
    thickness := (1 / 2) * P.FWireShellThickIn * enlarge
    halflength := st.zlength
    volume := back st.lvFwireVol } }
  have st : State R := { st with field_wires_center := { st.field_wires_center with
    name := wire_name M SL iring st.field_wires_center ++ "_middle" } }
  have p : wire R × List (Event R) :=
    apply_wire_coating (WireSite.center SL iring) st.field_wires_center P.FWireShellThickOut
      P.halflength "G4_Au"
  have st : State R := { st with field_wires_center := p.1 }
  have ev : List (Event R) := ev ++ p.2
  (st, ev)

/-- Lines 549-555: upper layer radii. -/
def ring_upper (M : MathOps R) (P : Params R) (st : State R) : State R :=
  have st : State R := { st with radius_ringIn_0 := st.radius_ringOut_0 }
  have st : State R := { st with radius_ringIn := st.radius_ringOut }
  have st : State R := { st with epsilonIn := st.epsilonOut }
  have st : State R := { st with
    radius_ringOut_0 := st.radius_ringIn_0 + P.FWireDiameter + 2 * P.secure }
  have st : State R := { st with radius_ringOut := st.radius_ringOut_0 + st.drop }
  have st : State R := { st with
    epsilonOut :=
      M.atan (M.sqrt (diff_of_squares st.radius_ringOut st.radius_ringOut_0) / P.halflength) }
  have st : State R := { st with zlength := P.halflength }
  st

/-- The solid `whole_ring_hyperboloid` of line 568, from the state after line 555. -/
def whole_ring_hyperboloid (st : State R) : Solid R :=
  Solid.Hyperboloid st.radius_ringIn_whole_cell st.epsilonIn_whole_cell st.radius_ringOut_0
    st.epsilonOut st.zlength

/-- The text `"hyperboloid_SL_<SL>_ring_<iring>"`. -/
def wholeHyperboloidVolumeName (SL iring : Nat) : String :=
  "hyperboloid_SL_" ++ toString SL ++ "_ring_" ++ toString iring

/-- Lines 567-578: the volume of the whole ring is created, registered,
placed in the parent volume and tagged. -/
def whole_ring_volume (SL iring : Nat) (st : State R) : List (Event R) :=
  [ Event.newVolume (VolId.whole_ring_hyperboloid_volume SL iring)
      (wholeHyperboloidVolumeName SL iring) (whole_ring_hyperboloid st) "GasHe_90Isob_10",
    Event.setVisAttributes (VolId.whole_ring_hyperboloid_volume SL iring) st.gascol,
    Event.registerVolume (wholeHyperboloidVolumeName SL iring)
      (VolId.whole_ring_hyperboloid_volume SL iring),
    Event.placeVolume VolId.parentVol (VolId.whole_ring_hyperboloid_volume SL iring) [],
    Event.setPlacement VolId.parentVol (VolId.whole_ring_hyperboloid_volume SL iring),
    Event.addPhysVolID VolId.parentVol (VolId.whole_ring_hyperboloid_volume SL iring)
      "superLayer" (SL : Int),
    Event.addPhysVolID VolId.parentVol (VolId.whole_ring_hyperboloid_volume SL iring)
      "ring" (iring : Int) ]

/-- Lines 584-603: the top field wires. -/
def ring_top (M : MathOps R) (P : Params R) (SL iring : Nat) (st : State R) :
    State R × List (Event R) :=
  have st : State R := { st with zlength := st.zlength - M.sin st.epsilon * P.FWradii }
  have st : State R := { st with zlength := st.zlength / M.cos st.epsilon }
  have st : State R := { st with field_wires_top := { st.field_wires_top with
    type := "F"
    num := st.nFWire1
    radius := st.radius_ringIn_0 - P.FWradii - P.extShiftFW
    phi := st.phi_ring1
    phioffset := st.ringangle + st.cellStaggering
    stereo := ((st.sign_epsilon : Int) : R) * st.epsilon
    halfalpha := P.halfalpha
    thickness := (1 / 2) * P.FWireShellThickIn * enlarge
    halflength := st.zlength
    volume := back st.lvFwireVol } }
  have st : State R := { st with field_wires_top := { st.field_wires_top with
    name := wire_name M SL iring st.field_wires_top ++ "_top" } }
  have p : wire R × List (Event R) :=
    apply_wire_coating (WireSite.top SL iring) st.field_wires_top P.FWireShellThickOut
      P.halflength "G4_Au"
  have st : State R := { st with field_wires_top := p.1 }
  (st, p.2)

/-! ## Ratio test and cells (lines 613-674) -/

/-- Line 629. -/
def middle_to_middle_num_wire_ratio (st : State R) : CFloat :=
  CFloat.int_div_float st.field_wires_center.num st.sense_wires.num

/-- Line 630. -/
def middle_to_bottom_num_wire_ratio (st : State R) : CFloat :=
  CFloat.int_div_float st.field_wires_bottom.num st.sense_wires.num

/-- Line 631. -/
def middle_to_top_num_wire_ratio (st : State R) : CFloat :=
  CFloat.int_div_float st.field_wires_top.num st.sense_wires.num

/-- Line 632: the condition under which the ratio error is thrown. -/
def ratio_test (st : State R) : Bool :=
  CFloat.ne (ceilf (middle_to_middle_num_wire_ratio st)) (middle_to_middle_num_wire_ratio st) ||
  CFloat.ne (ceilf (middle_to_bottom_num_wire_ratio st)) (middle_to_bottom_num_wire_ratio st) ||
  CFloat.ne (ceilf (middle_to_top_num_wire_ratio st)) (middle_to_top_num_wire_ratio st)

/-- Line 613. -/
def cellID_tube_for_boolean (P : Params R) (st : State R) : Solid R :=
  Solid.TubeSegment 0 (st.sense_wires.radius * 2) P.halflength (-st.sense_wires.phi / 2)
    (st.sense_wires.phi / 2)

/-- The text `"cellIDvolume_SL_<SL>_ring_<iring>_phi_<phi_index>"`. -/
def cellID_volume_name (SL iring phi_index : Nat) : String :=
  "cellIDvolume_SL_" ++ toString SL ++ "_ring_" ++ toString iring ++ "_phi_" ++
    toString phi_index

/-- The placements made by one of the three field wire loops (lines 655-673)
in the cell `phi_index`. -/
def field_wire_placements (SL iring phi_index : Nat) (w : wire R) (ratio : CFloat) :
    List (Event R) :=
  (sub_phi_indices phi_index ratio).map (fun sub_phi_index =>
    Event.placeVolume (VolId.cellID_volume SL iring phi_index) w.volume
      [ Motion.RotationZ (w.phioffset + w.phi * ((sub_phi_index : Int) : R)),
        Motion.Translation3D w.radius 0 0,
        Motion.RotationX w.stereo ])

/-- Lines 636-673: the body of the loop over `phi_index`.  `hyp` is the solid
`whole_ring_hyperboloid`, `st` the state after line 603. -/
def cell (P : Params R) (SL iring : Nat) (hyp : Solid R) (st : State R) (phi_index : Nat) :
    List (Event R) :=
  let iRot : Motion R :=
    Motion.RotationZ (st.sense_wires.phioffset + st.sense_wires.phi * ((phi_index : Nat) : R))
  let total_transformation : Transform R :=
    [ iRot, Motion.Translation3D st.sense_wires.radius 0 0,
      Motion.RotationX st.sense_wires.stereo ]
  let cellID_shape : Solid R :=
    Solid.IntersectionSolid hyp (cellID_tube_for_boolean P st)
      [ Motion.RotationZ
          (st.sense_wires.phioffset + st.sense_wires.phi * ((phi_index : Nat) : R)),
        Motion.RotationX st.sense_wires.stereo ]
  [ Event.newVolume (VolId.cellID_volume SL iring phi_index)
      (cellID_volume_name SL iring phi_index) cellID_shape "GasHe_90Isob_10",
    Event.setVisAttributes (VolId.cellID_volume SL iring phi_index) st.gascol,
    Event.setSensitiveDetector (VolId.cellID_volume SL iring phi_index),
    Event.placeVolume (VolId.whole_ring_hyperboloid_volume SL iring)
      (VolId.cellID_volume SL iring phi_index) [],
    Event.addPhysVolID (VolId.whole_ring_hyperboloid_volume SL iring)
      (VolId.cellID_volume SL iring phi_index) "phi" (phi_index : Int),
    Event.addPhysVolID (VolId.whole_ring_hyperboloid_volume SL iring)
      (VolId.cellID_volume SL iring phi_index) "hitorigin" 0,
    Event.addPhysVolID (VolId.whole_ring_hyperboloid_volume SL iring)
      (VolId.cellID_volume SL iring phi_index) "stereo"
      (if st.sense_wires.stereo > 0 then 0 else 1),
    Event.addPhysVolID (VolId.whole_ring_hyperboloid_volume SL iring)
      (VolId.cellID_volume SL iring phi_index) "layerInCell" 0,
    Event.placeVolume (VolId.cellID_volume SL iring phi_index) st.sense_wires.volume
      total_transformation ] ++
  field_wire_placements SL iring phi_index st.field_wires_bottom
    (middle_to_bottom_num_wire_ratio st) ++
  field_wire_placements SL iring phi_index st.field_wires_center
    (middle_to_middle_num_wire_ratio st) ++
  field_wire_placements SL iring phi_index st.field_wires_top
    (middle_to_top_num_wire_ratio st)

/-- Lines 635-674: the loop `for (phi_index = 0; phi_index < sense_wires.num; phi_index++)`. -/
def cells (P : Params R) (SL iring : Nat) (hyp : Solid R) (st : State R) : List (Event R) :=
  (List.range st.sense_wires.num.toNat).flatMap (cell P SL iring hyp st)

/-- The states of the ring `(SL, iring)` entered with the locals `st`. -/
def ring_info (M : MathOps R) (P : Params R) (SL iring : Nat) (st : State R) : RingInfo R :=
  let b := ring_bottom M P SL iring st
  let c := ring_central M P SL iring b.1
  let u := ring_upper M P c.1
  let t := ring_top M P SL iring u
  { SL := SL, iring := iring, entry := st, bottom := b.1, central := c.1, upper := u,
    top := t.1 }

/-- The framework calls of lines 403-603, which precede the ratio test. -/
def ring_geometry_events (M : MathOps R) (P : Params R) (SL iring : Nat) (st : State R) :
    List (Event R) :=
  let b := ring_bottom M P SL iring st
  let c := ring_central M P SL iring b.1
  let u := ring_upper M P c.1
  let t := ring_top M P SL iring u
  b.2 ++ c.2 ++ whole_ring_volume SL iring u ++ t.2

/-- The body of the loop over `iring` (lines 403-685). -/
def ring_iteration (M : MathOps R) (P : Params R) (SL iring : Nat) (st : State R) :
    Outcome R :=
  let r := ring_info M P SL iring st
  let ev := ring_geometry_events M P SL iring st
  if ratio_test r.top then
    { st := r.top, events := ev, rings := [r], error := some BuildError.ratio }
  else
    { st := { r.top with delta_radius_ring := r.top.delta_radius_ring * r.top.scaleFactor },
      events := ev ++ cells P SL iring (whole_ring_hyperboloid r.upper) r.top,
      rings := [r],
      error := none }

/-! ## The block `if (SL == (nSuperLayer - 1))` (lines 690-767) -/

/-- Lines 690-723: the layer `lvLayerOut` and its field wires. -/
def outer_field_layer (M : MathOps R) (P : Params R) (SL : Nat) (st : State R) :
    State R × List (Event R) :=
  have st : State R := { st with radius_ringIn_0 := st.radius_ringOut_0 }
  have st : State R := { st with radius_ringIn := st.radius_ringOut }
  have st : State R := { st with epsilonIn := st.epsilonOut }
  have st : State R := { st with
    radius_ringOut_0 := st.radius_ring_0 + P.FWireDiameter + 2 * P.secure }
  have st : State R := { st with radius_ringOut := st.radius_ringOut_0 + st.drop }
  have st : State R := { st with
    epsilonOut :=
      M.atan (M.sqrt (diff_of_squares st.radius_ringOut st.radius_ringOut_0) / P.halflength) }
  let HypeLayerOut : Solid R :=
    Solid.Hyperboloid st.radius_ringIn_0 st.epsilonIn st.radius_ringOut_0 st.epsilonOut
      P.halflength
  have ev : List (Event R) :=
    [ Event.newVolume VolId.lvLayerOut "lvLayerOut" HypeLayerOut "GasHe_90Isob_10" ]
  have st : State R := { st with
    lvLayerVol := st.lvLayerVol ++ [(VolId.lvLayerOut, "lvLayerOut")] }
  have ev : List (Event R) :=
    ev ++ [ Event.setVisAttributes (backLayer st.lvLayerVol) "vCDCH:Plastic" ]
  have st : State R := { st with zlength := P.halflength }
  have st : State R := { st with zlength := st.zlength - M.sin st.epsilon * P.FWradii }
  have st : State R := { st with zlength := st.zlength / M.cos st.epsilon }
  have st : State R := { st with field_wires_bottom := { st.field_wires_bottom with
    mother_volume := backLayer st.lvLayerVol
    type := "F"
    num := st.nFWire1
    radius := st.radius_ringIn_0 + P.FWradii + P.extShiftFW
    phi := st.phi_ring1
    phioffset := st.ringangle + st.cellStaggering + st.phi_ring
    stereo := -1 * ((st.sign_epsilon : Int) : R) * st.epsilon
    halfalpha := P.halfalpha
    thickness := (1 / 2) * P.FWireShellThickIn * enlarge
    halflength := st.zlength } }
  let lvFwireName : String := "lvFwire_" ++ toString SL ++ "_out"
  let Fwire : Solid R := Solid.Tube 0 st.field_wires_bottom.thickness P.halflength
  have ev : List (Event R) :=
    ev ++ [ Event.newVolume VolId.lvFwire_out lvFwireName Fwire "G4_Al" ]
  have st : State R := { st with lvFwireVol := st.lvFwireVol ++ [VolId.lvFwire_out] }
  have ev : List (Event R) := ev ++ [ Event.setVisAttributes (back st.lvFwireVol) st.wirecol ]
  have st : State R := { st with
    field_wires_bottom := { st.field_wires_bottom with volume := back st.lvFwireVol } }
  have p : wire R × List (Event R) :=
    PlaceWires WireSite.outField st.field_wires_bottom P.FWireShellThickOut P.halflength
  have st : State R := { st with field_wires_bottom := p.1 }
  have ev : List (Event R) := ev ++ p.2
  (st, ev)

/-- Lines 729-767: the layer `lvLayerOutG` and the outer guard wires. -/
def outer_guard_ring (M : MathOps R) (P : Params R) (st : State R) :
    State R × List (Event R) :=
  have st : State R := { st with radius_ringIn_0 := st.radius_ringOut_0 }
  have st : State R := { st with radius_ringIn := st.radius_ringOut }
  have st : State R := { st with epsilonIn := st.epsilonOut }
  have st : State R := { st with
    radius_ringOut_0 := st.radius_ring_0 + P.FWireDiameter + 2 * P.secure }
  have st : State R := { st with radius_ringOut := st.radius_ringOut_0 + st.drop }
  have st : State R := { st with
    epsilonOut :=
      M.atan (M.sqrt (diff_of_squares st.radius_ringOut st.radius_ringOut_0) / P.halflength) }
  let HypeLayerOutG : Solid R :=
    Solid.Hyperboloid st.radius_ringIn_0 st.epsilonOut
      (P.outer_radius - P.envelop_Outer_thickness - 1 / 10000) 0 P.halflength
  have ev : List (Event R) :=
    [ Event.newVolume VolId.lvLayerOutG "lvLayerOutG" HypeLayerOutG "GasHe_90Isob_10" ]
  have st : State R := { st with
    lvLayerVol := st.lvLayerVol ++ [(VolId.lvLayerOutG, "lvLayerOutG")] }
  have ev : List (Event R) :=
    ev ++ [ Event.setVisAttributes (backLayer st.lvLayerVol) "vCDCH:Pb" ]
  have st : State R := { st with
    epsilonOutGwRing := M.atan (P.outGuardRad * (1 + st.dropFactor) * st.epsilonFactor) }
  have st : State R := { st with zlength := P.halflength }
  have st : State R := { st with zlength := st.zlength - M.sin st.epsilonOutGwRing * P.inGWradii }
  have st : State R := { st with zlength := st.zlength / M.cos st.epsilonOutGwRing }
  have st : State R := { st with ground_wires := { st.ground_wires with
    mother_volume := backLayer st.lvLayerVol
    type := "G"
    num := Int.tdiv P.nOutGWire 2
    radius := P.outGuardRad - P.inGWradii
    phi := st.phi_ring1
    phioffset := st.ringangle
    stereo := st.epsilonOutGwRing
    halfalpha := P.halfalpha
    thickness := (1 / 2) * P.OutGWireShellThickIn * enlarge
    halflength := st.zlength } }
  let Gwire : Solid R := Solid.Tube 0 st.ground_wires.thickness P.halflength
  have ev : List (Event R) :=
    ev ++ [ Event.newVolume VolId.Gwire_outer "Gwire_outer" Gwire "G4_Al" ]
  have st : State R := { st with lvGwireVol := st.lvGwireVol ++ [VolId.Gwire_outer] }
  have ev : List (Event R) := ev ++ [ Event.setVisAttributes (back st.lvGwireVol) st.wirecol ]
  have st : State R := { st with
    ground_wires := { st.ground_wires with volume := back st.lvGwireVol } }
  have p : wire R × List (Event R) :=
    PlaceWires WireSite.outerGuardFirst st.ground_wires P.FWireShellThickOut P.halflength
  have st : State R := { st with ground_wires := p.1 }
  have ev : List (Event R) := ev ++ p.2
  have st : State R := { st with ground_wires := { st.ground_wires with
    radius := P.outGuardRad + P.inGWradii + P.extShiftFW
    phioffset := st.ringangle + st.phi_ring
    stereo := -1 * st.epsilonOutGwRing } }
  have p : wire R × List (Event R) :=
    PlaceWires WireSite.outerGuardSecond st.ground_wires P.FWireShellThickOut P.halflength
  have st : State R := { st with ground_wires := p.1 }
  have ev : List (Event R) := ev ++ p.2
  (st, ev)

/-- The statement `if (SL == (nSuperLayer - 1)) { ... }` of lines 688-768. -/
def last_superlayer_block (M : MathOps R) (P : Params R) (SL : Nat) (st : State R) :
    State R × List (Event R) :=
  if (SL : Int) = P.nSuperLayer - 1 then
    let f := outer_field_layer M P SL st
    let g := outer_guard_ring M P f.1
    (g.1, f.2 ++ g.2)
  else (st, [])

/-! ## The loops and the end of the build -/

/-- The locals with which the loop over `iring` of superlayer `SL` starts, when
the superlayer is entered with the locals `st`. -/
def ring_loop_entry (M : MathOps R) (P : Params R) (SL : Nat) (st : State R) : State R :=
  (first_superlayer_block M P SL (superlayer_factors M P SL (superlayer_wire_counts M P SL st))).1

/-- The body of the loop over `SL` (lines 284-768). -/
def superlayer_iteration (M : MathOps R) (P : Params R) (SL : Nat) (st : State R) :
    Outcome R :=
  let st := superlayer_wire_counts M P SL st
  if parity_test st then Outcome.throw st BuildError.parity
  else
    (Outcome.ok (first_superlayer_block M P SL (superlayer_factors M P SL st))).andThen
      (fun st => (forLoop (ring_iteration M P SL) 0 P.nRing.toNat st).andThen
        (fun st => Outcome.ok (last_superlayer_block M P SL st)))

/-- Lines 772-780: every entry of `lvLayerVol` is registered under its name
and the volume registered under that name is placed in the parent volume. -/
def register_layers (st : State R) : List (Event R) :=
  st.lvLayerVol.flatMap (fun v =>
    [ Event.registerVolume v.2 v.1, Event.placeVolume VolId.parentVol v.1 [] ])

def PosEndcapGas (P : Params R) : R := P.halflength + (1 / 2) * P.GasEndcapWallThick
def PosEndcapCopper (P : Params R) : R :=
  P.halflength + P.GasEndcapWallThick + (1 / 2) * P.CopperEndcapWallThick
def PosEndcapKapton (P : Params R) : R :=
  P.halflength + P.GasEndcapWallThick + P.CopperEndcapWallThick +
    (1 / 2) * P.KaptonEndcapWallThick
def PosEndcapCarbon (P : Params R) : R :=
  P.halflength + P.GasEndcapWallThick + P.CopperEndcapWallThick + P.KaptonEndcapWallThick +
    (1 / 2) * P.CarbonEndcapWallThick

/-- Lines 788-802: the walls are placed in the parent volume. -/
def place_walls (P : Params R) : List (Event R) :=
  [ Event.placeVolume VolId.parentVol VolId.lvInnerWallCarbon [],
    Event.placeVolume VolId.parentVol VolId.lvInnerWallCopper [],
    Event.placeVolume VolId.parentVol VolId.lvInnerWallGas [],
    Event.placeVolume VolId.parentVol VolId.lvOuterWallCarbon1 [],
    Event.placeVolume VolId.parentVol VolId.lvOuterWallCarbon2 [],
    Event.placeVolume VolId.parentVol VolId.lvOuterWallCopper [],
    Event.placeVolume VolId.parentVol VolId.lvOuterWallFoam [],
    Event.placeVolume VolId.parentVol VolId.lvEndcapWallGas
      [Motion.Translation3D 0 0 (PosEndcapGas P)],
    Event.placeVolume VolId.parentVol VolId.lvEndcapWallCopper
      [Motion.Translation3D 0 0 (PosEndcapCopper P)],
    Event.placeVolume VolId.parentVol VolId.lvEndcapWallKapton
      [Motion.Translation3D 0 0 (PosEndcapKapton P)],
    Event.placeVolume VolId.parentVol VolId.lvEndcapWallCarbon
      [Motion.Translation3D 0 0 (PosEndcapCarbon P)],
    Event.placeVolume VolId.parentVol VolId.lvEndcapWallGas
      [Motion.Translation3D 0 0 (-PosEndcapGas P)],
    Event.placeVolume VolId.parentVol VolId.lvEndcapWallCopper
      [Motion.Translation3D 0 0 (-PosEndcapCopper P)],
    Event.placeVolume VolId.parentVol VolId.lvEndcapWallKapton
      [Motion.Translation3D 0 0 (-PosEndcapKapton P)],
    Event.placeVolume VolId.parentVol VolId.lvEndcapWallCarbon
      [Motion.Translation3D 0 0 (-PosEndcapCarbon P)] ]

/-- The method `CDCHBuild::build_layer`. -/
def build_layer (M : MathOps R) (P : Params R) : Outcome R :=
  (Outcome.ok (State.initial P, wall_volumes P)).andThen
    (fun st => (forLoop (superlayer_iteration M P) 0 P.nSuperLayer.toNat st).andThen
      (fun st => Outcome.ok (st, register_layers st ++ place_walls P)))

/-! ## Reading a list of framework calls -/

/-- The pair `(mother, child)` of a call of `placeVolume`. -/
def Event.placement : Event R → Option (VolId × VolId)
  | Event.placeVolume mother child _ => some (mother, child)
  | _ => none

/-- The volume created by a call of the constructor `Volume(name, solid, material)`. -/
def Event.creation : Event R → Option VolId
  | Event.newVolume id _ _ _ => some id
  | _ => none

/-- The pair `(name, volume)` of a call of `registerVolume`. -/
def Event.registration : Event R → Option (String × VolId)
  | Event.registerVolume name id => some (name, id)
  | _ => none

/-- The tag `(key, value)` that a call of `addPhysVolID` adds to the placement
of `child` in `mother`. -/
def Event.physVolID (mother child : VolId) : Event R → Option (String × Int)
  | Event.addPhysVolID m c key value => if m = mother ∧ c = child then some (key, value) else none
  | _ => none

/-- All placements `(mother, child)`, in program order. -/
def placements (evs : List (Event R)) : List (VolId × VolId) := evs.filterMap Event.placement

/-- The volumes placed in `mother`, in program order (with repetitions). -/
def placedIn (mother : VolId) (evs : List (Event R)) : List VolId :=
  ((placements evs).filter (fun p => decide (p.1 = mother))).map Prod.snd

/-- The volumes created, in program order. -/
def created (evs : List (Event R)) : List VolId := evs.filterMap Event.creation

/-- The registrations `(name, volume)`, in program order. -/
def registered (evs : List (Event R)) : List (String × VolId) := evs.filterMap Event.registration

/-- The tags of the placement of `child` in `mother`, in program order. -/
def physVolIDs (mother child : VolId) (evs : List (Event R)) : List (String × Int) :=
  evs.filterMap (Event.physVolID mother child)

/-- Whether a volume is a cell of the ring `(SL, iring)`. -/
def isCellOf (SL iring : Nat) : VolId → Bool
  | VolId.cellID_volume s i _ => decide (s = SL ∧ i = iring)
  | _ => false

/-- The placements `(cell, wire)` made inside the cells of the ring `(SL, iring)`. -/
def wirePlacementsInCells (SL iring : Nat) (evs : List (Event R)) : List (VolId × VolId) :=
  (placements evs).filter (fun p => isCellOf SL iring p.1)

/-! ## A concrete instance -/

/-- Numeric functions over the rationals with which the model can be run:
`Pi = 355/113` and the small-angle values `sin x = x`, `cos x = 1`,
`atan x = x`; `sqrt` and `std::to_string` are stand-ins.  The errors, the
counts and the identities of the volumes do not depend on them. -/
def exampleMath : MathOps ℚ :=
  { pi := 355 / 113, sin := fun x => x, cos := fun _ => 1, atan := fun x => x,
    sqrt := fun x => x, to_string := fun _ => "" }

/-- Parameters of a chamber with the given loop bounds and wire counts
(lengths in millimetres, angles in radians). -/
def exampleParams (nSuperLayer nRing nSWire nSDeltaWire nStoFWireRatio nVerticalFWire : Int) :
    Params ℚ :=
  { alpha := 1 / 2, r0 := 345, rOut := 2000, zHalfLength := 2000,
    CarbonInnerWallThick := 1 / 5, CopperInnerWallThick := 1 / 1000,
    GasInnerWallThick := 10, Carbon1OuterWallThick := 5 / 2, Carbon2OuterWallThick := 5 / 2,
    CopperOuterWallThick := 1 / 50, FoamOuterWallThick := 10, GasEndcapWallThick := 250,
    CopperEndcapWallThick := 1 / 2, KaptonEndcapWallThick := 1 / 2,
    CarbonEndcapWallThick := 5, FWireShellThickIn := 1 / 25, FWireShellThickOut := 1 / 2000,
    SWireShellThickIn := 1 / 50, SWireShellThickOut := 1 / 2000,
    CntFWireShellThickIn := 1 / 25, CntFWireShellThickOut := 1 / 2000,
    InGWireShellThickIn := 1 / 20, InGWireShellThickOut := 1 / 2000, secure := 1 / 1000,
    capGasLayer := 1 / 500, extShiftFW := 1 / 500, cellDimension := 12, inGuardRad := 354,
    outGuardRad := 1927, nSDeltaWire := nSDeltaWire, nSWire := nSWire, nInGWire := 8,
    nOutGWire := 8, nStoFWireRatio := nStoFWireRatio, nVerticalFWire := nVerticalFWire,
    nSuperLayer := nSuperLayer, nRing := nRing, nFieldWireShells := 1 }

/-- The first ring of the first superlayer. -/
def first_ring (M : MathOps R) (P : Params R) : RingInfo R :=
  ring_info M P 0 0 (ring_loop_entry M P 0 (State.initial P))

/-- The second ring of the first superlayer. -/
def second_ring (M : MathOps R) (P : Params R) : RingInfo R :=
  ring_info M P 0 1 (ring_iteration M P 0 0 (ring_loop_entry M P 0 (State.initial P))).st

/-- The order in which the loops go through the rings: by superlayer, then by
ring. -/
def RingInfo.before (a b : RingInfo R) : Prop :=
  a.SL < b.SL ∨ (a.SL = b.SL ∧ a.iring < b.iring)

instance RingInfo.decidableBefore (a b : RingInfo R) : Decidable (a.before b) :=
  inferInstanceAs (Decidable (a.SL < b.SL ∨ (a.SL = b.SL ∧ a.iring < b.iring)))

/-- Whether a volume is the whole-ring volume of some ring. -/
def isWholeRing : VolId → Bool
  | VolId.whole_ring_hyperboloid_volume _ _ => true
  | _ => false

/-- Whether a volume is a cell of some ring. -/
def isCell : VolId → Bool
  | VolId.cellID_volume _ _ _ => true
  | _ => false

/-- Whether a placement `(mother, child)` is made by a ring iteration for its
gas volumes: a whole ring in the parent volume, a cell in a whole ring, a
wire in a cell. -/
def ringOwned : VolId × VolId → Bool
  | (VolId.whole_ring_hyperboloid_volume _ _, _) => true
  | (VolId.cellID_volume _ _ _, _) => true
  | (VolId.parentVol, VolId.whole_ring_hyperboloid_volume _ _) => true
  | _ => false

/-- One superlayer, one ring, 201 sense wires and one horizontal field wire per
sense wire: the product `1 * 201` is odd. -/
def oddProductParams : Params ℚ := exampleParams 1 1 201 0 3 2

/-- One superlayer, one ring, 201 sense wires, `nStoFWireRatio = 4` and
`nVerticalFWire = 2`: the product `2 * 201` is even. -/
def rejectScenarioParams : Params ℚ := exampleParams 1 1 201 0 4 2

/-- One superlayer, one ring, 200 sense wires, `nStoFWireRatio = 4` and
`nVerticalFWire = 2`. -/
def acceptScenarioParams : Params ℚ := exampleParams 1 1 200 0 4 2

/-- One superlayer, one ring, 200 sense wires and one horizontal field wire per
sense wire: the product `1 * 200` is even and `nFWire1 = 100`. -/
def halfRatioParams : Params ℚ := exampleParams 1 1 200 0 3 2

/-- One superlayer of two rings with 200 sense wires. -/
def twoRingParams : Params ℚ := exampleParams 1 2 200 0 4 2

/-! ## Positions in the loops -/

/-- The locals with which superlayer `SL` is entered: those left by the
iterations `0, ..., SL - 1` of the loop over the superlayers. -/
def superlayer_entry (M : MathOps R) (P : Params R) (SL : Nat) : State R :=
  (forLoop (superlayer_iteration M P) 0 SL (State.initial P)).st

/-- The locals with which ring `iring` of superlayer `SL` is entered: those
left by the iterations `0, ..., iring - 1` of the loop over the rings of the
superlayer.  For `iring = nRing` they are the locals with which this loop is
left. -/
def ring_entry (M : MathOps R) (P : Params R) (SL iring : Nat) : State R :=
  (forLoop (ring_iteration M P SL) 0 iring (ring_loop_entry M P SL (superlayer_entry M P SL))).st

/-! ## Reading the solids -/

/-- The solid given to the constructor of the volume `id` by the first call
that creates it. -/
def solidOf (id : VolId) (evs : List (Event R)) : Option (Solid R) :=
  evs.findSome? (fun e =>
    match e with
    | Event.newVolume i _ s _ => if i = id then some s else none
    | _ => none)

/-- The radii `(rmin, rmax)` of a tube, and the radii `(rin, rout)` at `z = 0`
of a hyperboloid. -/
def Solid.radialRange : Solid R → Option (R × R)
  | Solid.Tube rmin rmax _ => some (rmin, rmax)
  | Solid.Hyperboloid rin _ rout _ _ => some (rin, rout)
  | _ => none

/-- The half length `dz` of a tube or of a hyperboloid. -/
def Solid.halfLength : Solid R → Option R
  | Solid.Tube _ _ dz => some dz
  | Solid.Hyperboloid _ _ _ _ dz => some dz
  | _ => none

/-- The transforms of the placements of `child` in `mother`, in program order. -/
def transformsIn (mother child : VolId) (evs : List (Event R)) : List (Transform R) :=
  evs.filterMap (fun e =>
    match e with
    | Event.placeVolume m c tr => if m = mother ∧ c = child then some tr else none
    | _ => none)

/-- Two superlayers of one ring with 200 sense wires each. -/
def twoLayerParams : Params ℚ := exampleParams 2 1 200 0 4 2

/-- Three superlayers of one ring with 200 sense wires each. -/
def threeLayerParams : Params ℚ := exampleParams 3 1 200 0 4 2

/-- The first ring of superlayer `SL`, if the build reaches that superlayer. -/
def superlayer_first_ring (M : MathOps R) (P : Params R) (SL : Nat) : RingInfo R :=
  ring_info M P SL 0 (ring_entry M P SL 0)

/-- The framework calls of the ring iterations of a build that reaches all of
them, in program order. -/
def all_ring_events (M : MathOps R) (P : Params R) : List (Event R) :=
  (List.range P.nSuperLayer.toNat).flatMap (fun SL =>
    (List.range P.nRing.toNat).flatMap (fun iring =>
      (ring_iteration M P SL iring (ring_entry M P SL iring)).events))

/-- The number that a list of decimal digits writes. -/
def decodeDigits (l : List Char) : Nat := l.foldl (fun a c => a * 10 + (c.toNat - 48)) 0

/-- The pairs `(SL, iring)` that the two loops go through, in program order. -/
def ring_pairs (P : Params R) : List (Nat × Nat) :=
  (List.range P.nSuperLayer.toNat).flatMap (fun SL =>
    (List.range P.nRing.toNat).map (fun iring => (SL, iring)))

/-- Whether a volume is one of the four layers that the first-superlayer and
the last-superlayer block push to `lvLayerVol`. -/
def isLayerVolume : VolId → Bool
  | VolId.lvLayerInit => true
  | VolId.lvLayer_0 => true
  | VolId.lvLayerOut => true
  | VolId.lvLayerOutG => true
  | _ => false

/-- Whether a volume is the total wire created by a call of `PlaceWires`.
Every call of `PlaceWires` calls `apply_wire_coating` once, which creates one
total wire; the calls of `PlaceWires` are those of lines 341, 346, 384, 723,
762 and 767, and the other calls of `apply_wire_coating` (lines 465, 516, 542
and 603) are made by the ring iteration itself. -/
def isPlaceWiresVolume : VolId → Bool
  | VolId.lvWireVol WireSite.innerGuardFirst => true
  | VolId.lvWireVol WireSite.innerGuardSecond => true
  | VolId.lvWireVol WireSite.initField => true
  | VolId.lvWireVol WireSite.outField => true
  | VolId.lvWireVol WireSite.outerGuardFirst => true
  | VolId.lvWireVol WireSite.outerGuardSecond => true
  | _ => false

/-- The transforms with which `child` is placed in the cells of the ring
`(SL, iring)`, in program order. -/
def cellTransforms (SL iring : Nat) (child : VolId) (evs : List (Event R)) :
    List (Transform R) :=
  evs.filterMap (fun e =>
    match e with
    | Event.placeVolume m c tr =>
      if isCellOf SL iring m = true ∧ c = child then some tr else none
    | _ => none)

/-- The transforms of the loop of `PlaceWires` (lines 106-109) for the wire
`w`: for `n = 0, ..., w.num - 1`, the rotation by `w.phioffset + w.phi * n`
about the axis after the translation to `w.radius` and the rotation by
`w.stereo`. -/
def placeWiresTransforms (w : wire R) : List (Transform R) :=
  (List.range w.num.toNat).map (fun (n : Nat) =>
    [Motion.RotationZ (w.phioffset + w.phi * ((n : Nat) : R)),
      Motion.Translation3D w.radius 0 0, Motion.RotationX w.stereo])

/-- Two superlayers of one ring: one sense wire in the first superlayer, three
in the second one, and one field wire per sense wire in the bottom and in the
top layer together. -/
def oddSecondLayerParams : Params ℚ := exampleParams 2 1 1 2 3 2

/-- Two superlayers of two rings each, with 200 sense wires each. -/
def squareCellParams : Params ℚ := exampleParams 2 2 200 0 4 2

/-- The volume and the solid of a call that creates a volume. -/
def Event.creationSolid : Event R → Option (VolId × Solid R)
  | Event.newVolume id _ s _ => some (id, s)
  | _ => none

/-- The volumes that a list of calls creates, each with its solid, in program
order. -/
def createdSolids (evs : List (Event R)) : List (VolId × Solid R) :=
  evs.filterMap Event.creationSolid

/-- Whether a volume is the conductor of a wire (`Gwire_inner`, `Gwire_outer`,
`lvFwire_*`, `lvSwire_*`), the coating of a wire (line 62) or a total wire
(line 64). -/
def isWireVolume : VolId → Bool
  | VolId.Gwire_inner => true
  | VolId.Gwire_outer => true
  | VolId.lvFwire_init => true
  | VolId.lvFwire_out => true
  | VolId.lvFwire _ _ => true
  | VolId.lvSwire _ _ => true
  | VolId.lvWireWrapVol _ => true
  | VolId.lvWireVol _ => true
  | _ => false

/-- Whether a volume is one of the layers `lvLayerInit`, `lvLayer_0`,
`lvLayerOut`, `lvLayerOutG` or the volume of a whole ring. -/
def isHyperboloidVolume : VolId → Bool
  | VolId.lvLayerInit => true
  | VolId.lvLayer_0 => true
  | VolId.lvLayerOut => true
  | VolId.lvLayerOutG => true
  | VolId.whole_ring_hyperboloid_volume _ _ => true
  | _ => false

/-- Whether a solid is a `dd4hep::Hyperboloid`. -/
def Solid.isHyperboloid : Solid R → Bool
  | Solid.Hyperboloid _ _ _ _ _ => true
  | _ => false

/-- A created volume that is a wire, a layer or a whole ring, or whose solid is
a hyperboloid, has a solid of half length `h`. -/
def halfLengthIs (h : R) (x : VolId × Solid R) : Prop :=
  (isWireVolume x.1 = true ∨ isHyperboloidVolume x.1 = true ∨ x.2.isHyperboloid = true) →
    x.2.halfLength = some h

/-- The solids with which a list of calls creates the volume `id`, in program
order. -/
def solidsOf (id : VolId) (evs : List (Event R)) : List (Solid R) :=
  ((createdSolids evs).filter (fun x => decide (x.1 = id))).map Prod.snd

/-! ## Binary32 arithmetic

The type `float` as IEEE 754 binary32 with the default rounding (to nearest,
ties to even) and every `float` operation rounded to `float`
(`FLT_EVAL_METHOD` 0, no contraction of `a * b + c`).  A finite value is kept
as the rational that it is; `CFloat.finite 0` stands for both zeros (the only
zero divisor of the builder is `float(0)`, a positive zero). -/

/-- Rounding of a rational to the nearest integer, ties to the even one. -/
def roundHalfEven (x : ℚ) : Int :=
  if x - ((⌊x⌋ : Int) : ℚ) < 1 / 2 then ⌊x⌋
  else if 1 / 2 < x - ((⌊x⌋ : Int) : ℚ) then ⌊x⌋ + 1
  else if ⌊x⌋ % 2 = 0 then ⌊x⌋ else ⌊x⌋ + 1

/-- The exponent of the binade of `q` in binary32: the largest `e` with
`2 ^ e ≤ |q|`, and `-126` for zero and for the subnormal numbers. -/
def binary32Exponent (q : ℚ) : Int := max (Int.log 2 |q|) (-126)

/-- The value of type `float` nearest to `q`: a multiple of
`2 ^ (e - 23)` in the binade of exponent `e` (24 significant bits), and an
infinity when the rounded magnitude reaches `2 ^ 128`. -/
def roundToFloat (q : ℚ) : CFloat :=
  if (2 : ℚ) ^ (128 : Nat) ≤
      |((roundHalfEven (q / (2 : ℚ) ^ (binary32Exponent q - 23)) : Int) : ℚ) *
        (2 : ℚ) ^ (binary32Exponent q - 23)| then
    CFloat.infinite (decide (q < 0))
  else
    CFloat.finite (((roundHalfEven (q / (2 : ℚ) ^ (binary32Exponent q - 23)) : Int) : ℚ) *
      (2 : ℚ) ^ (binary32Exponent q - 23))

/-- Conversion of an `int` to `float`, which rounds. -/
def floatOfInt (a : Int) : CFloat := roundToFloat ((a : Int) : ℚ)

/-- The `float` quotient `x / y`. -/
def CFloat.div : CFloat → CFloat → CFloat
  | CFloat.nan, _ => CFloat.nan
  | _, CFloat.nan => CFloat.nan
  | CFloat.infinite _, CFloat.infinite _ => CFloat.nan
  | CFloat.infinite s, CFloat.finite q => CFloat.infinite (xor s (decide (q < 0)))
  | CFloat.finite _, CFloat.infinite _ => CFloat.finite 0
  | CFloat.finite p, CFloat.finite q =>
      if q = 0 then (if p = 0 then CFloat.nan else CFloat.infinite (decide (p < 0)))
      else roundToFloat (p / q)

/-- The `float` product `x * y`. -/
def CFloat.mul : CFloat → CFloat → CFloat
  | CFloat.nan, _ => CFloat.nan
  | _, CFloat.nan => CFloat.nan
  | CFloat.infinite s, CFloat.infinite t => CFloat.infinite (xor s t)
  | CFloat.infinite s, CFloat.finite q =>
      if q = 0 then CFloat.nan else CFloat.infinite (xor s (decide (q < 0)))
  | CFloat.finite p, CFloat.infinite t =>
      if p = 0 then CFloat.nan else CFloat.infinite (xor (decide (p < 0)) t)
  | CFloat.finite p, CFloat.finite q => roundToFloat (p * q)

/-- The `float` sum `x + y`. -/
def CFloat.add : CFloat → CFloat → CFloat
  | CFloat.nan, _ => CFloat.nan
  | _, CFloat.nan => CFloat.nan
  | CFloat.infinite s, CFloat.infinite t => if s = t then CFloat.infinite s else CFloat.nan
  | CFloat.infinite s, CFloat.finite _ => CFloat.infinite s
  | CFloat.finite _, CFloat.infinite t => CFloat.infinite t
  | CFloat.finite p, CFloat.finite q => roundToFloat (p + q)

/-- The comparison `x < y` on floats: false when an operand is a NaN. -/
def CFloat.lt : CFloat → CFloat → Bool
  | CFloat.finite p, CFloat.finite q => decide (p < q)
  | CFloat.finite _, CFloat.infinite t => !t
  | CFloat.infinite s, CFloat.finite _ => s
  | CFloat.infinite s, CFloat.infinite t => s && !t
  | _, _ => false

/-- The C++ expression `a / float(b)` for two `int`s `a` and `b`, in
binary32: `b` is converted by the cast, `a` by the usual arithmetic
conversions, and the quotient is rounded. -/
def int_div_float_binary32 (a b : Int) : CFloat := CFloat.div (floatOfInt a) (floatOfInt b)

/-! ## The build with the `float`s in binary32

The wire-count ratios of lines 629-631, the ratio test of line 632, the parity
test of line 289 and the three field wire loops of lines 655-671, evaluated in
binary32, and the build made with them.  Everything else is shared with the
build above, in which the ratios are exact rationals. -/

/-- Line 289 in binary32: `nFWire1` is converted to `float` on both sides. -/
def parity_test_binary32 (st : State R) : Bool :=
  CFloat.ne (ceilf (floatOfInt st.nFWire1)) (floatOfInt st.nFWire1)

/-- Line 629 in binary32. -/
def middle_to_middle_num_wire_ratio_binary32 (st : State R) : CFloat :=
  int_div_float_binary32 st.field_wires_center.num st.sense_wires.num

/-- Line 630 in binary32. -/
def middle_to_bottom_num_wire_ratio_binary32 (st : State R) : CFloat :=
  int_div_float_binary32 st.field_wires_bottom.num st.sense_wires.num

/-- Line 631 in binary32. -/
def middle_to_top_num_wire_ratio_binary32 (st : State R) : CFloat :=
  int_div_float_binary32 st.field_wires_top.num st.sense_wires.num

/-- Line 632 in binary32: the condition under which the ratio error is thrown. -/
def ratio_test_binary32 (st : State R) : Bool :=
  CFloat.ne (ceilf (middle_to_middle_num_wire_ratio_binary32 st))
    (middle_to_middle_num_wire_ratio_binary32 st) ||
  CFloat.ne (ceilf (middle_to_bottom_num_wire_ratio_binary32 st))
    (middle_to_bottom_num_wire_ratio_binary32 st) ||
  CFloat.ne (ceilf (middle_to_top_num_wire_ratio_binary32 st))
    (middle_to_top_num_wire_ratio_binary32 st)

/-- The values of `s` in `for (int s = start; s < bound; s++)` for a `float`
`bound`: `s` is converted to `float` for the comparison.  The loop makes at
most `fuel` turns. -/
def floatBoundedLoop (bound : CFloat) : Nat → Int → List Int
  | 0, _ => []
  | fuel + 1, s =>
      if CFloat.lt (floatOfInt s) bound = true then s :: floatBoundedLoop bound fuel (s + 1)
      else []

/-- The values taken by `sub_phi_index` in
`for (int sub_phi_index = phi_index * ratio;
      sub_phi_index < (phi_index * ratio) + ratio; sub_phi_index++)`
in binary32: `phi_index` is converted to `float`, the product and the sum are
rounded, the start is truncated to `int`.  An `int` has `2 ^ 32` values, so
the loop makes at most `2 ^ 32` turns.  A product that is not finite has no
conversion to `int`; it is not reached, the ratio being finite whenever the
loop over `phi_index` is entered. -/
def sub_phi_indices_binary32 (phi_index : Nat) (ratio : CFloat) : List Int :=
  match CFloat.mul (floatOfInt (phi_index : Int)) ratio with
  | CFloat.finite p =>
      floatBoundedLoop (CFloat.add (CFloat.finite p) ratio) (2 ^ 32) (truncToInt p)
  | _ => []

/-- The placements made by one of the three field wire loops (lines 655-673)
in the cell `phi_index`, with the loop evaluated in binary32. -/
def field_wire_placements_binary32 (SL iring phi_index : Nat) (w : wire R) (ratio : CFloat) :
    List (Event R) :=
  (sub_phi_indices_binary32 phi_index ratio).map (fun sub_phi_index =>
    Event.placeVolume (VolId.cellID_volume SL iring phi_index) w.volume
      [ Motion.RotationZ (w.phioffset + w.phi * ((sub_phi_index : Int) : R)),
        Motion.Translation3D w.radius 0 0,
        Motion.RotationX w.stereo ])

/-- Lines 636-673 with the ratios and the field wire loops in binary32. -/
def cell_binary32 (P : Params R) (SL iring : Nat) (hyp : Solid R) (st : State R)
    (phi_index : Nat) : List (Event R) :=
  let iRot : Motion R :=
    Motion.RotationZ (st.sense_wires.phioffset + st.sense_wires.phi * ((phi_index : Nat) : R))
  let total_transformation : Transform R :=
    [ iRot, Motion.Translation3D st.sense_wires.radius 0 0,
      Motion.RotationX st.sense_wires.stereo ]
  let cellID_shape : Solid R :=
    Solid.IntersectionSolid hyp (cellID_tube_for_boolean P st)
      [ Motion.RotationZ
          (st.sense_wires.phioffset + st.sense_wires.phi * ((phi_index : Nat) : R)),
        Motion.RotationX st.sense_wires.stereo ]
  [ Event.newVolume (VolId.cellID_volume SL iring phi_index)
      (cellID_volume_name SL iring phi_index) cellID_shape "GasHe_90Isob_10",
    Event.setVisAttributes (VolId.cellID_volume SL iring phi_index) st.gascol,
    Event.setSensitiveDetector (VolId.cellID_volume SL iring phi_index),
    Event.placeVolume (VolId.whole_ring_hyperboloid_volume SL iring)
      (VolId.cellID_volume SL iring phi_index) [],
    Event.addPhysVolID (VolId.whole_ring_hyperboloid_volume SL iring)
      (VolId.cellID_volume SL iring phi_index) "phi" (phi_index : Int),
    Event.addPhysVolID (VolId.whole_ring_hyperboloid_volume SL iring)
      (VolId.cellID_volume SL iring phi_index) "hitorigin" 0,
    Event.addPhysVolID (VolId.whole_ring_hyperboloid_volume SL iring)
      (VolId.cellID_volume SL iring phi_index) "stereo"
      (if st.sense_wires.stereo > 0 then 0 else 1),
    Event.addPhysVolID (VolId.whole_ring_hyperboloid_volume SL iring)
      (VolId.cellID_volume SL iring phi_index) "layerInCell" 0,
    Event.placeVolume (VolId.cellID_volume SL iring phi_index) st.sense_wires.volume
      total_transformation ] ++
  field_wire_placements_binary32 SL iring phi_index st.field_wires_bottom
    (middle_to_bottom_num_wire_ratio_binary32 st) ++
  field_wire_placements_binary32 SL iring phi_index st.field_wires_center
    (middle_to_middle_num_wire_ratio_binary32 st) ++
  field_wire_placements_binary32 SL iring phi_index st.field_wires_top
    (middle_to_top_num_wire_ratio_binary32 st)

/-- Lines 635-674 with the ratios and the field wire loops in binary32. -/
def cells_binary32 (P : Params R) (SL iring : Nat) (hyp : Solid R) (st : State R) :
    List (Event R) :=
  (List.range st.sense_wires.num.toNat).flatMap (cell_binary32 P SL iring hyp st)

/-- The body of the loop over `iring` (lines 403-685) with the `float`s in
binary32. -/
def ring_iteration_binary32 (M : MathOps R) (P : Params R) (SL iring : Nat) (st : State R) :
    Outcome R :=
  let r := ring_info M P SL iring st
  let ev := ring_geometry_events M P SL iring st
  if ratio_test_binary32 r.top then
    { st := r.top, events := ev, rings := [r], error := some BuildError.ratio }
  else
    { st := { r.top with delta_radius_ring := r.top.delta_radius_ring * r.top.scaleFactor },
      events := ev ++ cells_binary32 P SL iring (whole_ring_hyperboloid r.upper) r.top,
      rings := [r],
      error := none }

/-- The body of the loop over `SL` (lines 284-768) with the `float`s in
binary32. -/
def superlayer_iteration_binary32 (M : MathOps R) (P : Params R) (SL : Nat) (st : State R) :
    Outcome R :=
  let st := superlayer_wire_counts M P SL st
  if parity_test_binary32 st then Outcome.throw st BuildError.parity
  else
    (Outcome.ok (first_superlayer_block M P SL (superlayer_factors M P SL st))).andThen
      (fun st => (forLoop (ring_iteration_binary32 M P SL) 0 P.nRing.toNat st).andThen
        (fun st => Outcome.ok (last_superlayer_block M P SL st)))

/-- The method `CDCHBuild::build_layer` with the `float`s in binary32. -/
def build_layer_binary32 (M : MathOps R) (P : Params R) : Outcome R :=
  (Outcome.ok (State.initial P, wall_volumes P)).andThen
    (fun st => (forLoop (superlayer_iteration_binary32 M P) 0 P.nSuperLayer.toNat st).andThen
      (fun st => Outcome.ok (st, register_layers st ++ place_walls P)))

/-- Each of the first `n` superlayers has fewer than `2 ^ 24` sense wires and
fewer than `2 ^ 24` bottom (and top) field wires, in absolute value: binary32
holds these counts exactly. -/
def Params.countsBelowTwoPow24 (P : Params R) (n : Nat) : Prop :=
  ∀ SL : Nat, SL < n →
    |P.nSWire + (SL : Int) * P.nSDeltaWire| < 2 ^ 24 ∧
    |Int.tdiv (P.nHorizontalFWire * (P.nSWire + (SL : Int) * P.nSDeltaWire)) 2| < 2 ^ 24

/-- One superlayer, one ring, 3 sense wires and 16777217 horizontal field wires
per sense wire: the product `16777217 * 3 = 50331651` is odd, and its half
`25165825` is not a `float`. -/
def roundedOddProductParams : Params ℚ := exampleParams 1 1 3 0 16777219 2

/-- One superlayer, one ring, 2 sense wires and 33554434 horizontal field wires
per sense wire: `nFWire1 = 33554434` is twice `16777217`, and neither is a
`float`. -/
def roundedRatioParams : Params ℚ := exampleParams 1 1 2 0 33554436 2

end Derived

/-! # Properties -/

set_option linter.unusedSectionVars false

section Lemmas

variable {R : Type} [LinearOrderedField R]

/-! ## Floats -/

/-- The test of line 289 is false whatever the value of `nFWire1`. -/
theorem parity_test_eq_false (st : State R) : parity_test st = false := by
  simp [parity_test, ceilf, CFloat.ofInt, CFloat.ne]

theorem ceil_div_eq_iff_dvd (a b : Int) (hb : b ≠ 0) :
    (((⌈(a : ℚ) / (b : ℚ)⌉ : Int) : ℚ) = (a : ℚ) / (b : ℚ)) ↔ b ∣ a := by
  have hb' : (b : ℚ) ≠ 0 := by exact_mod_cast hb
  constructor
  · intro h
    refine ⟨⌈(a : ℚ) / (b : ℚ)⌉, ?_⟩
    have h2 : (a : ℚ) = (b : ℚ) * ((⌈(a : ℚ) / (b : ℚ)⌉ : Int) : ℚ) := by
      rw [h]; field_simp
    exact_mod_cast h2
  · rintro ⟨k, rfl⟩
    have h2 : ((b * k : Int) : ℚ) / (b : ℚ) = ((k : Int) : ℚ) := by
      push_cast; field_simp
    rw [h2, Int.ceil_intCast]

/-- For a nonzero divisor the C++ test `ceilf(a / float(b)) != a / float(b)`
holds exactly when `b` does not divide `a`. -/
theorem ne_ceilf_int_div_float (a b : Int) (hb : b ≠ 0) :
    CFloat.ne (ceilf (CFloat.int_div_float a b)) (CFloat.int_div_float a b) = true ↔ ¬ b ∣ a := by
  simp [CFloat.int_div_float, hb, ceilf, CFloat.ne, ceil_div_eq_iff_dvd a b hb]

/-- With a zero divisor the test holds exactly for `0 / 0` (a NaN). -/
theorem ne_ceilf_int_div_float_zero (a : Int) :
    CFloat.ne (ceilf (CFloat.int_div_float a 0)) (CFloat.int_div_float a 0) = true ↔ a = 0 := by
  by_cases ha : a = 0 <;> simp [CFloat.int_div_float, ha, ceilf, CFloat.ne]

theorem int_div_float_of_dvd (a b : Int) (hb : b ≠ 0) (h : b ∣ a) :
    CFloat.int_div_float a b = CFloat.finite (((a / b : Int)) : ℚ) := by
  have hb' : (b : ℚ) ≠ 0 := by exact_mod_cast hb
  obtain ⟨k, rfl⟩ := h
  simp [CFloat.int_div_float, hb]

theorem truncToInt_intCast (z : Int) : truncToInt ((z : Int) : ℚ) = z := by
  simp [truncToInt]

/-- For an integer ratio `r` the loop over `sub_phi_index` in the cell
`phi_index` runs through `phi_index * r, ..., phi_index * r + r - 1`. -/
theorem sub_phi_indices_intCast (phi_index : Nat) (r : Int) :
    sub_phi_indices phi_index (CFloat.finite ((r : Int) : ℚ)) =
      (List.range r.toNat).map (fun (k : Nat) => (phi_index : Int) * r + (k : Int)) := by
  have h1 : ((phi_index : Nat) : ℚ) * ((r : Int) : ℚ) = (((phi_index : Int) * r : Int) : ℚ) := by
    push_cast; rfl
  have h2 : ((phi_index : Nat) : ℚ) * ((r : Int) : ℚ) + ((r : Int) : ℚ) =
      (((phi_index : Int) * r + r : Int) : ℚ) := by
    push_cast; rfl
  simp only [sub_phi_indices]
  rw [h2, h1, truncToInt_intCast, Int.ceil_intCast]
  simp

/-! ## Sequencing and loops -/

theorem Outcome.andThen_ok (r : State R × List (Event R)) (f : State R → Outcome R) :
    (Outcome.ok r).andThen f =
      { st := (f r.1).st, events := r.2 ++ (f r.1).events, rings := (f r.1).rings,
        error := (f r.1).error } := by
  simp [Outcome.andThen, Outcome.ok]

theorem Outcome.andThen_of_error_none (a : Outcome R) (f : State R → Outcome R)
    (h : a.error = none) :
    a.andThen f =
      { st := (f a.st).st, events := a.events ++ (f a.st).events,
        rings := a.rings ++ (f a.st).rings, error := (f a.st).error } := by
  simp [Outcome.andThen, h]

theorem Outcome.andThen_of_error_some (a : Outcome R) (f : State R → Outcome R)
    (e : BuildError) (h : a.error = some e) : a.andThen f = a := by
  simp [Outcome.andThen, h]

theorem forLoop_zero (body : Nat → State R → Outcome R) (i : Nat) (st : State R) :
    forLoop body i 0 st = Outcome.ok (st, []) := rfl

theorem forLoop_succ (body : Nat → State R → Outcome R) (i n : Nat) (st : State R) :
    forLoop body i (n + 1) st = (body i st).andThen (forLoop body (i + 1) n) := rfl

/-- An error that leaves a sequence was thrown by its first or by its second part. -/
theorem Outcome.andThen_error (a : Outcome R) (f : State R → Outcome R) (e : BuildError)
    (h : (a.andThen f).error = some e) : a.error = some e ∨ (f a.st).error = some e := by
  cases ha : a.error with
  | none => rw [Outcome.andThen_of_error_none a f ha] at h; exact Or.inr h
  | some e' => rw [Outcome.andThen_of_error_some a f e' ha] at h; exact Or.inl (ha.symm.trans h)

/-- An error that leaves a loop was thrown by one of its iterations. -/
theorem forLoop_error (body : Nat → State R → Outcome R) (e : BuildError) :
    ∀ (n i : Nat) (st : State R), (forLoop body i n st).error = some e →
      ∃ j st', (body j st').error = some e := by
  intro n
  induction n with
  | zero => intro i st h; simp [forLoop_zero, Outcome.ok] at h
  | succ n ih =>
    intro i st h
    rw [forLoop_succ] at h
    rcases Outcome.andThen_error _ _ e h with h1 | h1
    · exact ⟨i, st, h1⟩
    · exact ih _ _ h1

/-! ## The states of a ring -/

theorem ring_info_SL (M : MathOps R) (P : Params R) (SL iring : Nat) (st : State R) :
    (ring_info M P SL iring st).SL = SL := rfl

theorem ring_info_iring (M : MathOps R) (P : Params R) (SL iring : Nat) (st : State R) :
    (ring_info M P SL iring st).iring = iring := rfl

theorem ring_info_entry (M : MathOps R) (P : Params R) (SL iring : Nat) (st : State R) :
    (ring_info M P SL iring st).entry = st := rfl

theorem ring_info_sense_num (M : MathOps R) (P : Params R) (SL iring : Nat) (st : State R) :
    (ring_info M P SL iring st).top.sense_wires.num = st.num_wire := rfl

theorem ring_info_center_num (M : MathOps R) (P : Params R) (SL iring : Nat) (st : State R) :
    (ring_info M P SL iring st).top.field_wires_center.num = st.num_wire := rfl

theorem ring_info_bottom_num (M : MathOps R) (P : Params R) (SL iring : Nat) (st : State R) :
    (ring_info M P SL iring st).top.field_wires_bottom.num = st.nFWire1 := rfl

theorem ring_info_top_num (M : MathOps R) (P : Params R) (SL iring : Nat) (st : State R) :
    (ring_info M P SL iring st).top.field_wires_top.num = st.nFWire1 := rfl

theorem ring_info_sign_epsilon (M : MathOps R) (P : Params R) (SL iring : Nat) (st : State R) :
    (ring_info M P SL iring st).top.sign_epsilon = st.sign_epsilon * -1 := rfl

theorem ring_info_sense_volume (M : MathOps R) (P : Params R) (SL iring : Nat) (st : State R) :
    (ring_info M P SL iring st).top.sense_wires.volume = VolId.lvWireVol (WireSite.sense SL iring) :=
  rfl

theorem ring_info_bottom_volume (M : MathOps R) (P : Params R) (SL iring : Nat) (st : State R) :
    (ring_info M P SL iring st).top.field_wires_bottom.volume =
      VolId.lvWireVol (WireSite.bottom SL iring) := rfl

theorem ring_info_center_volume (M : MathOps R) (P : Params R) (SL iring : Nat) (st : State R) :
    (ring_info M P SL iring st).top.field_wires_center.volume =
      VolId.lvWireVol (WireSite.center SL iring) := rfl

theorem ring_info_top_volume (M : MathOps R) (P : Params R) (SL iring : Nat) (st : State R) :
    (ring_info M P SL iring st).top.field_wires_top.volume =
      VolId.lvWireVol (WireSite.top SL iring) := rfl

/-! ## The ratio test -/

/-- With a nonzero number of sense wires, the ratio test of line 632 holds
exactly when one of the three field wire counts is not a multiple of it. -/
theorem ratio_test_iff (st : State R) (hN : st.sense_wires.num ≠ 0) :
    ratio_test st = true ↔
      (¬ st.sense_wires.num ∣ st.field_wires_center.num ∨
       ¬ st.sense_wires.num ∣ st.field_wires_bottom.num) ∨
       ¬ st.sense_wires.num ∣ st.field_wires_top.num := by
  simp only [ratio_test, Bool.or_eq_true, middle_to_middle_num_wire_ratio,
    middle_to_bottom_num_wire_ratio, middle_to_top_num_wire_ratio,
    ne_ceilf_int_div_float _ _ hN]

/-- Without sense wires the central ratio is `0 / 0` and the test holds. -/
theorem ratio_test_of_num_zero (st : State R) (hN : st.sense_wires.num = 0)
    (hc : st.field_wires_center.num = 0) : ratio_test st = true := by
  simp [ratio_test, middle_to_middle_num_wire_ratio, hN, hc, CFloat.int_div_float, ceilf,
    CFloat.ne]

theorem ring_iteration_rings (M : MathOps R) (P : Params R) (SL iring : Nat) (st : State R) :
    (ring_iteration M P SL iring st).rings = [ring_info M P SL iring st] := by
  unfold ring_iteration; dsimp only; split <;> rfl

theorem ring_iteration_error_ratio (M : MathOps R) (P : Params R) (SL iring : Nat)
    (st : State R) :
    (ring_iteration M P SL iring st).error = some BuildError.ratio ↔
      ratio_test (ring_info M P SL iring st).top = true := by
  unfold ring_iteration; dsimp only; split <;> simp_all

theorem ring_iteration_error_none (M : MathOps R) (P : Params R) (SL iring : Nat)
    (st : State R) :
    (ring_iteration M P SL iring st).error = none ↔
      ratio_test (ring_info M P SL iring st).top = false := by
  unfold ring_iteration; dsimp only; split <;> simp_all

theorem ring_iteration_error_ne_parity (M : MathOps R) (P : Params R) (SL iring : Nat)
    (st : State R) : (ring_iteration M P SL iring st).error ≠ some BuildError.parity := by
  unfold ring_iteration; dsimp only; split <;> simp

theorem ring_iteration_events_of_ratio (M : MathOps R) (P : Params R) (SL iring : Nat)
    (st : State R) (h : ratio_test (ring_info M P SL iring st).top = true) :
    (ring_iteration M P SL iring st).events = ring_geometry_events M P SL iring st := by
  unfold ring_iteration; dsimp only; rw [if_pos h]

theorem ring_iteration_events_of_pass (M : MathOps R) (P : Params R) (SL iring : Nat)
    (st : State R) (h : ratio_test (ring_info M P SL iring st).top = false) :
    (ring_iteration M P SL iring st).events =
      ring_geometry_events M P SL iring st ++
        cells P SL iring (whole_ring_hyperboloid (ring_info M P SL iring st).upper)
          (ring_info M P SL iring st).top := by
  unfold ring_iteration; dsimp only; rw [if_neg (by simp [h])]

theorem ring_iteration_st_of_pass (M : MathOps R) (P : Params R) (SL iring : Nat)
    (st : State R) (h : ratio_test (ring_info M P SL iring st).top = false) :
    (ring_iteration M P SL iring st).st =
      { (ring_info M P SL iring st).top with
        delta_radius_ring :=
          (ring_info M P SL iring st).top.delta_radius_ring *
            (ring_info M P SL iring st).top.scaleFactor } := by
  unfold ring_iteration; dsimp only; rw [if_neg (by simp [h])]

/-! ## What the blocks keep -/

theorem ring_loop_entry_num_wire (M : MathOps R) (P : Params R) (SL : Nat) (st : State R) :
    (ring_loop_entry M P SL st).num_wire = P.nSWire + (SL : Int) * P.nSDeltaWire := by
  unfold ring_loop_entry first_superlayer_block; split <;> rfl

theorem ring_loop_entry_nFWire1 (M : MathOps R) (P : Params R) (SL : Nat) (st : State R) :
    (ring_loop_entry M P SL st).nFWire1 =
      Int.tdiv (P.nHorizontalFWire * (P.nSWire + (SL : Int) * P.nSDeltaWire)) 2 := by
  unfold ring_loop_entry first_superlayer_block; split <;> rfl

theorem ring_loop_entry_sign_epsilon (M : MathOps R) (P : Params R) (SL : Nat) (st : State R) :
    (ring_loop_entry M P SL st).sign_epsilon = st.sign_epsilon := by
  unfold ring_loop_entry first_superlayer_block; split <;> rfl

theorem last_superlayer_block_sign_epsilon (M : MathOps R) (P : Params R) (SL : Nat)
    (st : State R) : (last_superlayer_block M P SL st).1.sign_epsilon = st.sign_epsilon := by
  unfold last_superlayer_block; split <;> rfl

theorem ring_iteration_num_wire (M : MathOps R) (P : Params R) (SL iring : Nat) (st : State R) :
    (ring_iteration M P SL iring st).st.num_wire = st.num_wire := by
  unfold ring_iteration; dsimp only; split <;> rfl

theorem ring_iteration_nFWire1 (M : MathOps R) (P : Params R) (SL iring : Nat) (st : State R) :
    (ring_iteration M P SL iring st).st.nFWire1 = st.nFWire1 := by
  unfold ring_iteration; dsimp only; split <;> rfl

theorem ring_iteration_sign_epsilon (M : MathOps R) (P : Params R) (SL iring : Nat)
    (st : State R) : (ring_iteration M P SL iring st).st.sign_epsilon = st.sign_epsilon * -1 := by
  unfold ring_iteration; dsimp only; split <;> rfl

/-! ## The shape of a superlayer and of the build -/

theorem superlayer_iteration_eq (M : MathOps R) (P : Params R) (SL : Nat) (st : State R) :
    superlayer_iteration M P SL st =
      (Outcome.ok (first_superlayer_block M P SL
          (superlayer_factors M P SL (superlayer_wire_counts M P SL st)))).andThen
        (fun st => (forLoop (ring_iteration M P SL) 0 P.nRing.toNat st).andThen
          (fun st => Outcome.ok (last_superlayer_block M P SL st))) := by
  unfold superlayer_iteration
  simp only [parity_test_eq_false]
  rfl

theorem Outcome.andThen_ok_right_error (a : Outcome R) (g : State R → State R × List (Event R)) :
    (a.andThen (fun st => Outcome.ok (g st))).error = a.error := by
  cases h : a.error with
  | none => rw [Outcome.andThen_of_error_none _ _ h]; rfl
  | some e => rw [Outcome.andThen_of_error_some _ _ e h]; exact h

theorem Outcome.andThen_ok_right_rings (a : Outcome R) (g : State R → State R × List (Event R)) :
    (a.andThen (fun st => Outcome.ok (g st))).rings = a.rings := by
  cases h : a.error with
  | none => rw [Outcome.andThen_of_error_none _ _ h]; simp [Outcome.ok]
  | some e => rw [Outcome.andThen_of_error_some _ _ e h]

theorem Outcome.andThen_ok_right_st (a : Outcome R) (g : State R → State R × List (Event R))
    (h : a.error = none) : (a.andThen (fun st => Outcome.ok (g st))).st = (g a.st).1 := by
  rw [Outcome.andThen_of_error_none _ _ h]; rfl

theorem Outcome.andThen_ok_right_events (a : Outcome R)
    (g : State R → State R × List (Event R)) (h : a.error = none) :
    (a.andThen (fun st => Outcome.ok (g st))).events = a.events ++ (g a.st).2 := by
  rw [Outcome.andThen_of_error_none _ _ h]; rfl

theorem Outcome.andThen_ok_right_events_of_error (a : Outcome R)
    (g : State R → State R × List (Event R)) (e : BuildError) (h : a.error = some e) :
    (a.andThen (fun st => Outcome.ok (g st))).events = a.events := by
  rw [Outcome.andThen_of_error_some _ _ e h]

theorem superlayer_iteration_rings (M : MathOps R) (P : Params R) (SL : Nat) (st : State R) :
    (superlayer_iteration M P SL st).rings =
      (forLoop (ring_iteration M P SL) 0 P.nRing.toNat (ring_loop_entry M P SL st)).rings := by
  rw [superlayer_iteration_eq, Outcome.andThen_ok]
  exact Outcome.andThen_ok_right_rings _ _

theorem superlayer_iteration_error (M : MathOps R) (P : Params R) (SL : Nat) (st : State R) :
    (superlayer_iteration M P SL st).error =
      (forLoop (ring_iteration M P SL) 0 P.nRing.toNat (ring_loop_entry M P SL st)).error := by
  rw [superlayer_iteration_eq, Outcome.andThen_ok]
  exact Outcome.andThen_ok_right_error _ _

theorem superlayer_iteration_st (M : MathOps R) (P : Params R) (SL : Nat) (st : State R)
    (h : (superlayer_iteration M P SL st).error = none) :
    (superlayer_iteration M P SL st).st =
      (last_superlayer_block M P SL
        (forLoop (ring_iteration M P SL) 0 P.nRing.toNat (ring_loop_entry M P SL st)).st).1 := by
  rw [superlayer_iteration_error] at h
  rw [superlayer_iteration_eq, Outcome.andThen_ok]
  exact Outcome.andThen_ok_right_st _ _ h

theorem build_layer_rings (M : MathOps R) (P : Params R) :
    (build_layer M P).rings =
      (forLoop (superlayer_iteration M P) 0 P.nSuperLayer.toNat (State.initial P)).rings := by
  unfold build_layer
  rw [Outcome.andThen_ok]
  exact Outcome.andThen_ok_right_rings _ (fun st => (st, register_layers st ++ place_walls P))

theorem build_layer_error (M : MathOps R) (P : Params R) :
    (build_layer M P).error =
      (forLoop (superlayer_iteration M P) 0 P.nSuperLayer.toNat (State.initial P)).error := by
  unfold build_layer
  rw [Outcome.andThen_ok]
  exact Outcome.andThen_ok_right_error _ (fun st => (st, register_layers st ++ place_walls P))

/-- A loop invariant with the bounds of the loop: `Inv` is passed from one
iteration to the next as long as no iteration throws, and every ring
recorded by an iteration that starts from a state satisfying `Inv`
satisfies `Q`. -/
theorem forLoop_induction (body : Nat → State R → Outcome R) (Inv : Nat → State R → Prop)
    (Q : RingInfo R → Prop) :
    ∀ (n i0 : Nat) (st : State R),
      (∀ i st, i0 ≤ i → i < i0 + n → Inv i st →
        (∀ r ∈ (body i st).rings, Q r) ∧
          ((body i st).error = none → Inv (i + 1) (body i st).st)) →
      Inv i0 st →
      (∀ r ∈ (forLoop body i0 n st).rings, Q r) ∧
      ((forLoop body i0 n st).error = none → Inv (i0 + n) (forLoop body i0 n st).st) := by
  intro n
  induction n with
  | zero => intro i st _ h; simp [forLoop_zero, Outcome.ok, h]
  | succ n ih =>
    intro i st hstep h
    rw [forLoop_succ]
    obtain ⟨hq, hinv⟩ := hstep i st (Nat.le_refl i) (by omega) h
    cases hb : (body i st).error with
    | some e => rw [Outcome.andThen_of_error_some _ _ e hb]; simp [hb]; exact hq
    | none =>
      rw [Outcome.andThen_of_error_none _ _ hb]
      obtain ⟨hq', hinv'⟩ := ih (i + 1) (body i st).st
        (fun j st' h1 h2 h3 => hstep j st' (by omega) (by omega) h3) (hinv hb)
      refine ⟨?_, ?_⟩
      · intro r hr
        simp only [List.mem_append] at hr
        rcases hr with hr | hr
        · exact hq r hr
        · exact hq' r hr
      · intro he
        have := hinv' he
        simpa [Nat.add_assoc, Nat.add_comm 1 n] using this

/-- The rings of the loop over `iring` of one superlayer. -/
theorem ring_loop_rings (M : MathOps R) (P : Params R) (SL n : Nat) (st : State R) :
    (∀ r ∈ (forLoop (ring_iteration M P SL) 0 n st).rings,
      r = ring_info M P r.SL r.iring r.entry ∧ r.SL = SL ∧ r.iring < n ∧
      r.entry.num_wire = st.num_wire ∧ r.entry.nFWire1 = st.nFWire1 ∧
      r.entry.sign_epsilon = st.sign_epsilon * (-1) ^ r.iring) ∧
    ((forLoop (ring_iteration M P SL) 0 n st).error = none →
      (forLoop (ring_iteration M P SL) 0 n st).st.sign_epsilon = st.sign_epsilon * (-1) ^ n) := by
  have key := forLoop_induction (ring_iteration M P SL)
    (fun i s => s.num_wire = st.num_wire ∧ s.nFWire1 = st.nFWire1 ∧
      s.sign_epsilon = st.sign_epsilon * (-1) ^ i)
    (fun r => r = ring_info M P r.SL r.iring r.entry ∧ r.SL = SL ∧ r.iring < n ∧
      r.entry.num_wire = st.num_wire ∧ r.entry.nFWire1 = st.nFWire1 ∧
      r.entry.sign_epsilon = st.sign_epsilon * (-1) ^ r.iring)
    n 0 st ?_ ⟨rfl, rfl, by simp⟩
  · refine ⟨key.1, fun he => ?_⟩
    have := (key.2 he).2.2
    simpa using this
  · intro i s _ hi ⟨h1, h2, h3⟩
    refine ⟨?_, fun _ => ⟨?_, ?_, ?_⟩⟩
    · intro r hr
      rw [ring_iteration_rings, List.mem_singleton] at hr
      subst hr
      exact ⟨rfl, rfl, by simpa using hi, h1, h2, h3⟩
    · rw [ring_iteration_num_wire]; exact h1
    · rw [ring_iteration_nFWire1]; exact h2
    · rw [ring_iteration_sign_epsilon, h3, pow_succ]; ring

/-- Every ring that the build goes through: it is the ring computed by
`ring_info` from its entry state, its indices are within the loop bounds,
its wire counts are those of its superlayer, and the sign with which it is
entered is `-1` flipped once per ring entered before. -/
theorem build_layer_rings_spec (M : MathOps R) (P : Params R) :
    ∀ r ∈ (build_layer M P).rings,
      r = ring_info M P r.SL r.iring r.entry ∧
      r.SL < P.nSuperLayer.toNat ∧ r.iring < P.nRing.toNat ∧
      r.entry.num_wire = P.nSWire + (r.SL : Int) * P.nSDeltaWire ∧
      r.entry.nFWire1 =
        Int.tdiv (P.nHorizontalFWire * (P.nSWire + (r.SL : Int) * P.nSDeltaWire)) 2 ∧
      r.entry.sign_epsilon = -1 * (-1) ^ (r.SL * P.nRing.toNat + r.iring) := by
  rw [build_layer_rings]
  refine (forLoop_induction (superlayer_iteration M P)
    (fun SL s => s.sign_epsilon = -1 * (-1) ^ (SL * P.nRing.toNat))
    (fun r => r = ring_info M P r.SL r.iring r.entry ∧
      r.SL < P.nSuperLayer.toNat ∧ r.iring < P.nRing.toNat ∧
      r.entry.num_wire = P.nSWire + (r.SL : Int) * P.nSDeltaWire ∧
      r.entry.nFWire1 =
        Int.tdiv (P.nHorizontalFWire * (P.nSWire + (r.SL : Int) * P.nSDeltaWire)) 2 ∧
      r.entry.sign_epsilon = -1 * (-1) ^ (r.SL * P.nRing.toNat + r.iring))
    P.nSuperLayer.toNat 0 (State.initial P) ?_ (by simp [State.initial])).1
  intro SL s _ hSL hs
  obtain ⟨hq, hsign⟩ := ring_loop_rings M P SL P.nRing.toNat (ring_loop_entry M P SL s)
  refine ⟨?_, ?_⟩
  · intro r hr
    rw [superlayer_iteration_rings] at hr
    obtain ⟨h1, h2, h3, h4, h5, h6⟩ := hq r hr
    rw [ring_loop_entry_num_wire] at h4
    rw [ring_loop_entry_nFWire1] at h5
    rw [ring_loop_entry_sign_epsilon, hs] at h6
    refine ⟨h1, by simpa [h2] using hSL, h3, by rw [h4, h2], by rw [h5, h2], ?_⟩
    rw [h6, h2, pow_add]; ring
  · intro he
    rw [superlayer_iteration_st M P SL s he, last_superlayer_block_sign_epsilon]
    rw [superlayer_iteration_error] at he
    rw [hsign he, ring_loop_entry_sign_epsilon, hs, Nat.succ_mul, pow_add]
    ring


theorem back_concat (l : List VolId) (v : VolId) : back (l ++ [v]) = v := by
  simp [back]

theorem backLayer_concat (l : List (VolId × String)) (v : VolId × String) :
    backLayer (l ++ [v]) = v.1 := by
  simp [backLayer]

theorem placements_append (a b : List (Event R)) :
    placements (a ++ b) = placements a ++ placements b := by
  simp [placements]

theorem created_append (a b : List (Event R)) : created (a ++ b) = created a ++ created b := by
  simp [created]

theorem registered_append (a b : List (Event R)) :
    registered (a ++ b) = registered a ++ registered b := by
  simp [registered]

theorem placedIn_append (m : VolId) (a b : List (Event R)) :
    placedIn m (a ++ b) = placedIn m a ++ placedIn m b := by
  simp [placedIn, placements_append]

theorem physVolIDs_append (m c : VolId) (a b : List (Event R)) :
    physVolIDs m c (a ++ b) = physVolIDs m c a ++ physVolIDs m c b := by
  simp [physVolIDs]

theorem wirePlacementsInCells_append (SL iring : Nat) (a b : List (Event R)) :
    wirePlacementsInCells SL iring (a ++ b) =
      wirePlacementsInCells SL iring a ++ wirePlacementsInCells SL iring b := by
  simp [wirePlacementsInCells, placements_append]

/-- The placements of lines 403-603: four coated wires and the whole ring. -/
theorem placements_ring_geometry_events (M : MathOps R) (P : Params R) (SL iring : Nat)
    (st : State R) :
    placements (ring_geometry_events M P SL iring st) =
      [ (VolId.lvWireVol (WireSite.bottom SL iring), VolId.lvFwire SL iring),
        (VolId.lvWireVol (WireSite.bottom SL iring), VolId.lvWireWrapVol (WireSite.bottom SL iring)),
        (VolId.lvWireVol (WireSite.sense SL iring), VolId.lvSwire SL iring),
        (VolId.lvWireVol (WireSite.sense SL iring), VolId.lvWireWrapVol (WireSite.sense SL iring)),
        (VolId.lvWireVol (WireSite.center SL iring), VolId.lvFwire SL iring),
        (VolId.lvWireVol (WireSite.center SL iring), VolId.lvWireWrapVol (WireSite.center SL iring)),
        (VolId.parentVol, VolId.whole_ring_hyperboloid_volume SL iring),
        (VolId.lvWireVol (WireSite.top SL iring), VolId.lvFwire SL iring),
        (VolId.lvWireVol (WireSite.top SL iring), VolId.lvWireWrapVol (WireSite.top SL iring)) ] := by
  simp [ring_geometry_events, ring_bottom, ring_central, ring_upper, ring_top, whole_ring_volume,
    apply_wire_coating, placements, Event.placement, back_concat]

/-- The volumes created by lines 403-603. -/
theorem created_ring_geometry_events (M : MathOps R) (P : Params R) (SL iring : Nat)
    (st : State R) :
    created (ring_geometry_events M P SL iring st) =
      [ VolId.lvFwire SL iring,
        VolId.lvWireWrapVol (WireSite.bottom SL iring), VolId.lvWireVol (WireSite.bottom SL iring),
        VolId.lvSwire SL iring,
        VolId.lvWireWrapVol (WireSite.sense SL iring), VolId.lvWireVol (WireSite.sense SL iring),
        VolId.lvWireWrapVol (WireSite.center SL iring), VolId.lvWireVol (WireSite.center SL iring),
        VolId.whole_ring_hyperboloid_volume SL iring,
        VolId.lvWireWrapVol (WireSite.top SL iring), VolId.lvWireVol (WireSite.top SL iring) ] := by
  simp [ring_geometry_events, ring_bottom, ring_central, ring_upper, ring_top, whole_ring_volume,
    apply_wire_coating, created, Event.creation]

/-- The one registration of lines 403-603. -/
theorem registered_ring_geometry_events (M : MathOps R) (P : Params R) (SL iring : Nat)
    (st : State R) :
    registered (ring_geometry_events M P SL iring st) =
      [ (wholeHyperboloidVolumeName SL iring, VolId.whole_ring_hyperboloid_volume SL iring) ] := by
  simp [ring_geometry_events, ring_bottom, ring_central, ring_upper, ring_top, whole_ring_volume,
    apply_wire_coating, registered, Event.registration]

/-! ## The cells of a ring -/

theorem flatMap_range_ite {α : Type} (L : List α) (p : Nat) :
    ∀ N : Nat, (List.range N).flatMap (fun q => if q = p then L else []) =
      if p < N then L else [] := by
  intro N
  induction N with
  | zero => simp
  | succ N ih =>
    rw [List.range_succ, List.flatMap_append, ih]
    by_cases h1 : p < N
    · have h2 : N ≠ p := by omega
      have h3 : p < N + 1 := by omega
      simp [h1, h2, h3]
    · by_cases h2 : N = p
      · subst h2; simp
      · have h3 : ¬ p < N + 1 := by omega
        simp [h1, h2, h3]

theorem placements_field_wire_placements (SL iring phi_index : Nat) (w : wire R)
    (ratio : CFloat) :
    placements (field_wire_placements SL iring phi_index w ratio) =
      List.replicate (sub_phi_indices phi_index ratio).length
        (VolId.cellID_volume SL iring phi_index, w.volume) := by
  simp only [placements, field_wire_placements, List.filterMap_map]
  induction sub_phi_indices phi_index ratio with
  | nil => rfl
  | cons a l ih => simp [List.replicate_succ, ih, Event.placement]

theorem created_field_wire_placements (SL iring phi_index : Nat) (w : wire R) (ratio : CFloat) :
    created (field_wire_placements SL iring phi_index w ratio) = [] := by
  simp only [created, field_wire_placements, List.filterMap_map]
  induction sub_phi_indices phi_index ratio with
  | nil => rfl
  | cons a l ih => simp [ih, Event.creation]

theorem physVolIDs_field_wire_placements (m c : VolId) (SL iring phi_index : Nat) (w : wire R)
    (ratio : CFloat) :
    physVolIDs m c (field_wire_placements SL iring phi_index w ratio) = [] := by
  simp only [physVolIDs, field_wire_placements, List.filterMap_map]
  induction sub_phi_indices phi_index ratio with
  | nil => rfl
  | cons a l ih => simp [ih, Event.physVolID]

/-- The number of turns of a field wire loop when the count `a` of field
wires is a multiple of the count `N` of sense wires. -/
theorem length_sub_phi_indices_of_dvd (phi_index : Nat) (a N : Int) (hN : N ≠ 0) (h : N ∣ a) :
    (sub_phi_indices phi_index (CFloat.int_div_float a N)).length = (a / N).toNat := by
  rw [int_div_float_of_dvd a N hN h, sub_phi_indices_intCast, List.length_map, List.length_range]

/-- The placements of the body of the loop over `phi_index`. -/
theorem placements_cell (P : Params R) (SL iring : Nat) (hyp : Solid R) (st : State R)
    (phi_index : Nat) :
    placements (cell P SL iring hyp st phi_index) =
      (VolId.whole_ring_hyperboloid_volume SL iring, VolId.cellID_volume SL iring phi_index) ::
      (VolId.cellID_volume SL iring phi_index, st.sense_wires.volume) ::
      (List.replicate (sub_phi_indices phi_index (middle_to_bottom_num_wire_ratio st)).length
          (VolId.cellID_volume SL iring phi_index, st.field_wires_bottom.volume) ++
        List.replicate (sub_phi_indices phi_index (middle_to_middle_num_wire_ratio st)).length
          (VolId.cellID_volume SL iring phi_index, st.field_wires_center.volume) ++
        List.replicate (sub_phi_indices phi_index (middle_to_top_num_wire_ratio st)).length
          (VolId.cellID_volume SL iring phi_index, st.field_wires_top.volume)) := by
  simp only [cell, placements_append, placements_field_wire_placements]
  simp [placements, Event.placement]

theorem created_cell (P : Params R) (SL iring : Nat) (hyp : Solid R) (st : State R)
    (phi_index : Nat) :
    created (cell P SL iring hyp st phi_index) = [VolId.cellID_volume SL iring phi_index] := by
  simp only [cell, created_append, created_field_wire_placements]
  simp [created, Event.creation]

theorem physVolIDs_cell (P : Params R) (SL iring : Nat) (hyp : Solid R) (st : State R)
    (phi_index q : Nat) :
    physVolIDs (VolId.whole_ring_hyperboloid_volume SL iring) (VolId.cellID_volume SL iring q)
        (cell P SL iring hyp st phi_index) =
      if phi_index = q then
        [ ("phi", (q : Int)), ("hitorigin", 0),
          ("stereo", if st.sense_wires.stereo > 0 then 0 else 1), ("layerInCell", 0) ]
      else [] := by
  simp only [cell, physVolIDs_append, physVolIDs_field_wire_placements]
  by_cases h : phi_index = q
  · subst h; simp [physVolIDs, Event.physVolID]
  · simp [physVolIDs, Event.physVolID, h]

theorem created_cells (P : Params R) (SL iring : Nat) (hyp : Solid R) (st : State R) :
    created (cells P SL iring hyp st) =
      (List.range st.sense_wires.num.toNat).map (VolId.cellID_volume SL iring) := by
  unfold cells
  induction (List.range st.sense_wires.num.toNat) with
  | nil => rfl
  | cons a l ih => rw [List.flatMap_cons, created_append, ih, created_cell]; rfl

theorem placedIn_whole_ring_cell (P : Params R) (SL iring : Nat) (hyp : Solid R) (st : State R)
    (phi_index : Nat) :
    placedIn (VolId.whole_ring_hyperboloid_volume SL iring) (cell P SL iring hyp st phi_index) =
      [VolId.cellID_volume SL iring phi_index] := by
  simp [placedIn, placements_cell, List.filter_cons, List.filter_replicate]

theorem placedIn_cell_cell (P : Params R) (SL iring : Nat) (hyp : Solid R) (st : State R)
    (phi_index q : Nat) :
    placedIn (VolId.cellID_volume SL iring q) (cell P SL iring hyp st phi_index) =
      if phi_index = q then
        st.sense_wires.volume ::
          (List.replicate (sub_phi_indices q (middle_to_bottom_num_wire_ratio st)).length
              st.field_wires_bottom.volume ++
            List.replicate (sub_phi_indices q (middle_to_middle_num_wire_ratio st)).length
              st.field_wires_center.volume ++
            List.replicate (sub_phi_indices q (middle_to_top_num_wire_ratio st)).length
              st.field_wires_top.volume)
      else [] := by
  by_cases h : phi_index = q
  · subst h
    simp [placedIn, placements_cell, List.filter_cons, List.filter_replicate]
  · simp [placedIn, placements_cell, List.filter_cons, List.filter_replicate, h]

theorem wirePlacementsInCells_cell (P : Params R) (SL iring : Nat) (hyp : Solid R)
    (st : State R) (phi_index : Nat) :
    wirePlacementsInCells SL iring (cell P SL iring hyp st phi_index) =
      (VolId.cellID_volume SL iring phi_index, st.sense_wires.volume) ::
      (List.replicate (sub_phi_indices phi_index (middle_to_bottom_num_wire_ratio st)).length
          (VolId.cellID_volume SL iring phi_index, st.field_wires_bottom.volume) ++
        List.replicate (sub_phi_indices phi_index (middle_to_middle_num_wire_ratio st)).length
          (VolId.cellID_volume SL iring phi_index, st.field_wires_center.volume) ++
        List.replicate (sub_phi_indices phi_index (middle_to_top_num_wire_ratio st)).length
          (VolId.cellID_volume SL iring phi_index, st.field_wires_top.volume)) := by
  simp [wirePlacementsInCells, placements_cell, List.filter_cons, List.filter_replicate, isCellOf]

theorem placedIn_flatMap (m : VolId) (f : Nat → List (Event R)) (l : List Nat) :
    placedIn m (l.flatMap f) = l.flatMap (fun q => placedIn m (f q)) := by
  induction l with
  | nil => rfl
  | cons a l ih => rw [List.flatMap_cons, placedIn_append, ih, List.flatMap_cons]

theorem physVolIDs_flatMap (m c : VolId) (f : Nat → List (Event R)) (l : List Nat) :
    physVolIDs m c (l.flatMap f) = l.flatMap (fun q => physVolIDs m c (f q)) := by
  induction l with
  | nil => rfl
  | cons a l ih => rw [List.flatMap_cons, physVolIDs_append, ih, List.flatMap_cons]

theorem wirePlacementsInCells_flatMap (SL iring : Nat) (f : Nat → List (Event R))
    (l : List Nat) :
    wirePlacementsInCells SL iring (l.flatMap f) =
      l.flatMap (fun q => wirePlacementsInCells SL iring (f q)) := by
  induction l with
  | nil => rfl
  | cons a l ih => rw [List.flatMap_cons, wirePlacementsInCells_append, ih, List.flatMap_cons]

/-- The cells are placed in the whole ring, one for each `phi_index`. -/
theorem placedIn_whole_ring_cells (P : Params R) (SL iring : Nat) (hyp : Solid R)
    (st : State R) :
    placedIn (VolId.whole_ring_hyperboloid_volume SL iring) (cells P SL iring hyp st) =
      (List.range st.sense_wires.num.toNat).map (VolId.cellID_volume SL iring) := by
  unfold cells
  rw [placedIn_flatMap]
  simp only [placedIn_whole_ring_cell]
  induction (List.range st.sense_wires.num.toNat) with
  | nil => rfl
  | cons a l ih => rw [List.flatMap_cons, ih]; rfl

/-- The wires placed in the cell `q`. -/
theorem placedIn_cell_cells (P : Params R) (SL iring : Nat) (hyp : Solid R) (st : State R)
    (q : Nat) (hq : q < st.sense_wires.num.toNat) :
    placedIn (VolId.cellID_volume SL iring q) (cells P SL iring hyp st) =
      st.sense_wires.volume ::
        (List.replicate (sub_phi_indices q (middle_to_bottom_num_wire_ratio st)).length
            st.field_wires_bottom.volume ++
          List.replicate (sub_phi_indices q (middle_to_middle_num_wire_ratio st)).length
            st.field_wires_center.volume ++
          List.replicate (sub_phi_indices q (middle_to_top_num_wire_ratio st)).length
            st.field_wires_top.volume) := by
  unfold cells
  rw [placedIn_flatMap]
  simp only [placedIn_cell_cell]
  rw [flatMap_range_ite, if_pos hq]

/-- The tags of the placement of the cell `q` in the whole ring. -/
theorem physVolIDs_cells (P : Params R) (SL iring : Nat) (hyp : Solid R) (st : State R)
    (q : Nat) (hq : q < st.sense_wires.num.toNat) :
    physVolIDs (VolId.whole_ring_hyperboloid_volume SL iring) (VolId.cellID_volume SL iring q)
        (cells P SL iring hyp st) =
      [ ("phi", (q : Int)), ("hitorigin", 0),
        ("stereo", if st.sense_wires.stereo > 0 then 0 else 1), ("layerInCell", 0) ] := by
  unfold cells
  rw [physVolIDs_flatMap]
  simp only [physVolIDs_cell]
  rw [flatMap_range_ite, if_pos hq]

/-- The number of wire placements in the cells of a ring whose field wire
loops make `b`, `c` and `t` turns in every cell. -/
theorem length_wirePlacementsInCells_cells (P : Params R) (SL iring : Nat) (hyp : Solid R)
    (st : State R) (b c t : Nat)
    (hb : ∀ q, (sub_phi_indices q (middle_to_bottom_num_wire_ratio st)).length = b)
    (hc : ∀ q, (sub_phi_indices q (middle_to_middle_num_wire_ratio st)).length = c)
    (ht : ∀ q, (sub_phi_indices q (middle_to_top_num_wire_ratio st)).length = t) :
    (wirePlacementsInCells SL iring (cells P SL iring hyp st)).length =
      st.sense_wires.num.toNat * (1 + b + c + t) := by
  unfold cells
  rw [wirePlacementsInCells_flatMap]
  simp only [wirePlacementsInCells_cell, hb, hc, ht]
  generalize st.sense_wires.num.toNat = n
  induction n with
  | zero => simp
  | succ n ih =>
    rw [List.range_succ, List.flatMap_append, List.length_append, ih]
    simp
    ring

/-! ## Where the calls of a ring sit in the calls of the build -/

/-- Every ring recorded by a loop was recorded by one of its iterations; the
calls of that iteration are a segment of the calls of the loop, and they end
the loop when the iteration throws. -/
theorem forLoop_segment (body : Nat → State R → Outcome R) :
    ∀ (n i : Nat) (st : State R), ∀ r ∈ (forLoop body i n st).rings,
      ∃ j st', r ∈ (body j st').rings ∧ ∃ pre post,
        (forLoop body i n st).events = pre ++ (body j st').events ++ post ∧
        ∀ e, (body j st').error = some e →
          post = [] ∧ (forLoop body i n st).error = some e := by
  intro n
  induction n with
  | zero => intro i st r hr; simp [forLoop_zero, Outcome.ok] at hr
  | succ n ih =>
    intro i st r hr
    rw [forLoop_succ] at hr ⊢
    cases hb : (body i st).error with
    | some e =>
      rw [Outcome.andThen_of_error_some _ _ e hb] at hr ⊢
      refine ⟨i, st, hr, [], [], by simp, ?_⟩
      intro e' he'
      exact ⟨rfl, he'⟩
    | none =>
      rw [Outcome.andThen_of_error_none _ _ hb] at hr ⊢
      simp only [List.mem_append] at hr
      rcases hr with hr | hr
      · refine ⟨i, st, hr, [], (forLoop body (i + 1) n (body i st).st).events, by simp, ?_⟩
        intro e' he'
        rw [hb] at he'
        exact absurd he' (by simp)
      · obtain ⟨j, st', hj, pre, post, hev, herr⟩ := ih (i + 1) (body i st).st r hr
        refine ⟨j, st', hj, (body i st).events ++ pre, post, ?_, ?_⟩
        · simp only [hev, List.append_assoc]
        · intro e' he'
          exact herr e' he'

theorem superlayer_iteration_events (M : MathOps R) (P : Params R) (SL : Nat) (st : State R) :
    (superlayer_iteration M P SL st).events =
      (first_superlayer_block M P SL
          (superlayer_factors M P SL (superlayer_wire_counts M P SL st))).2 ++
        (forLoop (ring_iteration M P SL) 0 P.nRing.toNat (ring_loop_entry M P SL st)).events ++
        (if (forLoop (ring_iteration M P SL) 0 P.nRing.toNat
              (ring_loop_entry M P SL st)).error = none then
          (last_superlayer_block M P SL
            (forLoop (ring_iteration M P SL) 0 P.nRing.toNat (ring_loop_entry M P SL st)).st).2
         else []) := by
  rw [superlayer_iteration_eq, Outcome.andThen_ok]
  show _ ++ ((forLoop (ring_iteration M P SL) 0 P.nRing.toNat
      (ring_loop_entry M P SL st)).andThen _).events = _
  cases h : (forLoop (ring_iteration M P SL) 0 P.nRing.toNat (ring_loop_entry M P SL st)).error with
  | none => rw [Outcome.andThen_ok_right_events _ _ h]; simp
  | some e => rw [Outcome.andThen_ok_right_events_of_error _ _ e h]; simp

theorem build_layer_events (M : MathOps R) (P : Params R) :
    (build_layer M P).events =
      wall_volumes P ++
        (forLoop (superlayer_iteration M P) 0 P.nSuperLayer.toNat (State.initial P)).events ++
        (if (forLoop (superlayer_iteration M P) 0 P.nSuperLayer.toNat
              (State.initial P)).error = none then
          register_layers
              (forLoop (superlayer_iteration M P) 0 P.nSuperLayer.toNat (State.initial P)).st ++
            place_walls P
         else []) := by
  unfold build_layer
  rw [Outcome.andThen_ok]
  show _ ++ ((forLoop (superlayer_iteration M P) 0 P.nSuperLayer.toNat
      (State.initial P)).andThen
        (fun st => Outcome.ok (st, register_layers st ++ place_walls P))).events = _
  cases h : (forLoop (superlayer_iteration M P) 0 P.nSuperLayer.toNat (State.initial P)).error with
  | none =>
    rw [Outcome.andThen_ok_right_events _ (fun st => (st, register_layers st ++ place_walls P)) h]
    simp
  | some e =>
    rw [Outcome.andThen_ok_right_events_of_error _
      (fun st => (st, register_layers st ++ place_walls P)) e h]
    simp

/-- The calls made at a ring are a segment of the calls of the build, and
they are its last calls when the ring throws. -/
theorem build_layer_ring_segment (M : MathOps R) (P : Params R) :
    ∀ r ∈ (build_layer M P).rings, ∃ pre post,
      (build_layer M P).events =
        pre ++ (ring_iteration M P r.SL r.iring r.entry).events ++ post ∧
      ∀ e, (ring_iteration M P r.SL r.iring r.entry).error = some e →
        post = [] ∧ (build_layer M P).error = some e := by
  intro r hr
  rw [build_layer_rings] at hr
  obtain ⟨SL, st, hSL, pre, post, hev, herr⟩ :=
    forLoop_segment (superlayer_iteration M P) _ _ _ r hr
  rw [superlayer_iteration_rings] at hSL
  obtain ⟨j, st', hj, pre', post', hev', herr'⟩ :=
    forLoop_segment (ring_iteration M P SL) _ _ _ r hSL
  rw [ring_iteration_rings, List.mem_singleton] at hj
  subst hj
  simp only [ring_info_SL, ring_info_iring, ring_info_entry]
  rw [build_layer_events, build_layer_error, hev, superlayer_iteration_events, hev']
  refine ⟨wall_volumes P ++ (pre ++ ((first_superlayer_block M P SL
      (superlayer_factors M P SL (superlayer_wire_counts M P SL st))).2 ++ pre')),
    post' ++ ((if (forLoop (ring_iteration M P SL) 0 P.nRing.toNat
              (ring_loop_entry M P SL st)).error = none then
          (last_superlayer_block M P SL
            (forLoop (ring_iteration M P SL) 0 P.nRing.toNat (ring_loop_entry M P SL st)).st).2
         else []) ++ (post ++ (if (forLoop (superlayer_iteration M P) 0 P.nSuperLayer.toNat
              (State.initial P)).error = none then
          register_layers
              (forLoop (superlayer_iteration M P) 0 P.nSuperLayer.toNat (State.initial P)).st ++
            place_walls P
         else []))), by simp only [List.append_assoc], ?_⟩
  intro e he
  obtain ⟨hp', hl⟩ := herr' e he
  have hs : (superlayer_iteration M P SL st).error = some e := by
    rw [superlayer_iteration_error]; exact hl
  obtain ⟨hp, hb⟩ := herr e hs
  simp [hp', hl, hp, hb]

/-! ## Rings that are reached -/

theorem Outcome.mem_rings_andThen_left (a : Outcome R) (f : State R → Outcome R)
    (r : RingInfo R) (h : r ∈ a.rings) : r ∈ (a.andThen f).rings := by
  cases ha : a.error with
  | none => rw [Outcome.andThen_of_error_none _ _ ha]; exact List.mem_append_left _ h
  | some e => rw [Outcome.andThen_of_error_some _ _ e ha]; exact h

theorem Outcome.mem_rings_andThen_right (a : Outcome R) (f : State R → Outcome R)
    (r : RingInfo R) (ha : a.error = none) (h : r ∈ (f a.st).rings) :
    r ∈ (a.andThen f).rings := by
  rw [Outcome.andThen_of_error_none _ _ ha]; exact List.mem_append_right _ h

/-- With at least one superlayer and one ring, the first ring is reached. -/
theorem first_ring_mem (M : MathOps R) (P : Params R) (h1 : 0 < P.nSuperLayer)
    (h2 : 0 < P.nRing) : first_ring M P ∈ (build_layer M P).rings := by
  obtain ⟨k, hk⟩ : ∃ k, P.nSuperLayer.toNat = k + 1 := ⟨P.nSuperLayer.toNat - 1, by omega⟩
  obtain ⟨m, hm⟩ : ∃ m, P.nRing.toNat = m + 1 := ⟨P.nRing.toNat - 1, by omega⟩
  rw [build_layer_rings, hk, forLoop_succ]
  apply Outcome.mem_rings_andThen_left
  rw [superlayer_iteration_rings, hm, forLoop_succ]
  apply Outcome.mem_rings_andThen_left
  rw [ring_iteration_rings]
  exact List.mem_singleton.mpr rfl

/-- With at least two rings, the second ring is reached when the first one
passes the ratio test. -/
theorem second_ring_mem (M : MathOps R) (P : Params R) (h1 : 0 < P.nSuperLayer)
    (h2 : 1 < P.nRing) (hpass : ratio_test (first_ring M P).top = false) :
    second_ring M P ∈ (build_layer M P).rings := by
  obtain ⟨k, hk⟩ : ∃ k, P.nSuperLayer.toNat = k + 1 := ⟨P.nSuperLayer.toNat - 1, by omega⟩
  obtain ⟨m, hm⟩ : ∃ m, P.nRing.toNat = m + 1 + 1 := ⟨P.nRing.toNat - 2, by omega⟩
  rw [build_layer_rings, hk, forLoop_succ]
  apply Outcome.mem_rings_andThen_left
  rw [superlayer_iteration_rings, hm, forLoop_succ]
  apply Outcome.mem_rings_andThen_right _ _ _
    ((ring_iteration_error_none M P 0 0 _).mpr hpass)
  rw [forLoop_succ]
  apply Outcome.mem_rings_andThen_left
  rw [ring_iteration_rings]
  exact List.mem_singleton.mpr rfl

/-- The ratio test of a ring in terms of the counts with which it is entered. -/
theorem ratio_test_ring_info (M : MathOps R) (P : Params R) (SL iring : Nat) (st : State R)
    (hN : st.num_wire ≠ 0) :
    ratio_test (ring_info M P SL iring st).top = true ↔ ¬ st.num_wire ∣ st.nFWire1 := by
  rw [ratio_test_iff _ (by rw [ring_info_sense_num]; exact hN)]
  simp only [ring_info_sense_num, ring_info_center_num, ring_info_bottom_num, ring_info_top_num]
  simp

theorem ratio_test_ring_info_eq_false (M : MathOps R) (P : Params R) (SL iring : Nat)
    (st : State R) (hN : st.num_wire ≠ 0) (h : st.num_wire ∣ st.nFWire1) :
    ratio_test (ring_info M P SL iring st).top = false := by
  have := (ratio_test_ring_info M P SL iring st hN).not
  simpa [h] using this

theorem first_ring_num_wire (M : MathOps R) (P : Params R) :
    (first_ring M P).entry.num_wire = P.nSWire + ((0 : Nat) : Int) * P.nSDeltaWire :=
  ring_loop_entry_num_wire M P 0 _

theorem first_ring_nFWire1 (M : MathOps R) (P : Params R) :
    (first_ring M P).entry.nFWire1 =
      Int.tdiv (P.nHorizontalFWire * (P.nSWire + ((0 : Nat) : Int) * P.nSDeltaWire)) 2 :=
  ring_loop_entry_nFWire1 M P 0 _

/-- The first ring passes the ratio test when `nSWire` is not zero and divides
the number `nFWire1` of bottom (and of top) field wires. -/
theorem first_ring_passes (M : MathOps R) (P : Params R) (hN : P.nSWire ≠ 0)
    (h : P.nSWire ∣ Int.tdiv (P.nHorizontalFWire * P.nSWire) 2) :
    ratio_test (first_ring M P).top = false := by
  have h1 : (first_ring M P).entry.num_wire = P.nSWire := by
    rw [first_ring_num_wire]; simp
  have h2 : (first_ring M P).entry.nFWire1 = Int.tdiv (P.nHorizontalFWire * P.nSWire) 2 := by
    rw [first_ring_nFWire1]; simp
  refine ratio_test_ring_info_eq_false M P 0 0 _ (by rw [← h1] at hN; exact hN) ?_
  show (first_ring M P).entry.num_wire ∣ (first_ring M P).entry.nFWire1
  rw [h1, h2]; exact h

/-- The first ring fails the ratio test when `nSWire` is not zero and does not
divide `nFWire1`. -/
theorem first_ring_fails (M : MathOps R) (P : Params R) (hN : P.nSWire ≠ 0)
    (h : ¬ P.nSWire ∣ Int.tdiv (P.nHorizontalFWire * P.nSWire) 2) :
    ratio_test (first_ring M P).top = true := by
  have h1 : (first_ring M P).entry.num_wire = P.nSWire := by
    rw [first_ring_num_wire]; simp
  have h2 : (first_ring M P).entry.nFWire1 = Int.tdiv (P.nHorizontalFWire * P.nSWire) 2 := by
    rw [first_ring_nFWire1]; simp
  refine (ratio_test_ring_info M P 0 0 _ (by rw [← h1] at hN; exact hN)).mpr ?_
  show ¬ (first_ring M P).entry.num_wire ∣ (first_ring M P).entry.nFWire1
  rw [h1, h2]; exact h

/-! ## The calls of one ring -/

theorem placedIn_whole_ring_geometry (M : MathOps R) (P : Params R) (SL iring : Nat)
    (st : State R) (SL' iring' : Nat) :
    placedIn (VolId.whole_ring_hyperboloid_volume SL' iring')
      (ring_geometry_events M P SL iring st) = [] := by
  simp [placedIn, placements_ring_geometry_events]

theorem placedIn_cell_geometry (M : MathOps R) (P : Params R) (SL iring : Nat)
    (st : State R) (SL' iring' q : Nat) :
    placedIn (VolId.cellID_volume SL' iring' q) (ring_geometry_events M P SL iring st) = [] := by
  simp [placedIn, placements_ring_geometry_events]

theorem placedIn_parentVol_geometry (M : MathOps R) (P : Params R) (SL iring : Nat)
    (st : State R) :
    placedIn VolId.parentVol (ring_geometry_events M P SL iring st) =
      [VolId.whole_ring_hyperboloid_volume SL iring] := by
  simp [placedIn, placements_ring_geometry_events]

theorem wirePlacementsInCells_geometry (M : MathOps R) (P : Params R) (SL iring : Nat)
    (st : State R) (SL' iring' : Nat) :
    wirePlacementsInCells SL' iring' (ring_geometry_events M P SL iring st) = [] := by
  simp [wirePlacementsInCells, placements_ring_geometry_events, isCellOf]

theorem physVolIDs_cell_geometry (M : MathOps R) (P : Params R) (SL iring : Nat)
    (st : State R) (m : VolId) (SL' iring' q : Nat) :
    physVolIDs m (VolId.cellID_volume SL' iring' q) (ring_geometry_events M P SL iring st) =
      [] := by
  simp [ring_geometry_events, ring_bottom, ring_central, ring_upper, ring_top, whole_ring_volume,
    apply_wire_coating, physVolIDs, Event.physVolID]

theorem physVolIDs_whole_ring_geometry (M : MathOps R) (P : Params R) (SL iring : Nat)
    (st : State R) :
    physVolIDs VolId.parentVol (VolId.whole_ring_hyperboloid_volume SL iring)
        (ring_geometry_events M P SL iring st) =
      [("superLayer", (SL : Int)), ("ring", (iring : Int))] := by
  simp [ring_geometry_events, ring_bottom, ring_central, ring_upper, ring_top, whole_ring_volume,
    apply_wire_coating, physVolIDs, Event.physVolID]

theorem placedIn_parentVol_cells (P : Params R) (SL iring : Nat) (hyp : Solid R)
    (st : State R) : placedIn VolId.parentVol (cells P SL iring hyp st) = [] := by
  unfold cells
  rw [placedIn_flatMap]
  have : ∀ q, placedIn VolId.parentVol (cell P SL iring hyp st q) = [] := by
    intro q
    simp [placedIn, placements_cell, List.filter_cons, List.filter_replicate]
  simp [this]

theorem physVolIDs_parentVol_cells (P : Params R) (SL iring : Nat) (hyp : Solid R)
    (st : State R) (c : VolId) : physVolIDs VolId.parentVol c (cells P SL iring hyp st) = [] := by
  unfold cells
  rw [physVolIDs_flatMap]
  have : ∀ q, physVolIDs VolId.parentVol c (cell P SL iring hyp st q) = [] := by
    intro q
    simp only [cell, physVolIDs_append, physVolIDs_field_wire_placements]
    simp [physVolIDs, Event.physVolID]
  simp [this]

/-- When the ratio test fails the ring has created no cell. -/
theorem cell_not_created_of_ratio (M : MathOps R) (P : Params R) (SL iring : Nat)
    (st : State R) (SL' iring' q : Nat) :
    VolId.cellID_volume SL' iring' q ∉ created (ring_geometry_events M P SL iring st) := by
  simp [created_ring_geometry_events]

/-! ## The calls outside the rings -/

theorem placements_map_placeVolume (m c : VolId) (f : Nat → Transform R) (l : List Nat) :
    placements (l.map (fun n => Event.placeVolume m c (f n))) = List.replicate l.length (m, c) := by
  induction l with
  | nil => rfl
  | cons a l ih =>
    rw [List.map_cons, List.length_cons, List.replicate_succ]
    show (m, c) :: placements _ = _
    rw [ih]

theorem created_map_placeVolume (m c : VolId) (f : Nat → Transform R) (l : List Nat) :
    created (l.map (fun n => Event.placeVolume m c (f n))) = [] := by
  induction l with
  | nil => rfl
  | cons a l ih => rw [List.map_cons]; exact ih

theorem registered_map_placeVolume (m c : VolId) (f : Nat → Transform R) (l : List Nat) :
    registered (l.map (fun n => Event.placeVolume m c (f n))) = [] := by
  induction l with
  | nil => rfl
  | cons a l ih => rw [List.map_cons]; exact ih

theorem physVolIDs_map_placeVolume (m' c' m c : VolId) (f : Nat → Transform R) (l : List Nat) :
    physVolIDs m' c' (l.map (fun n => Event.placeVolume m c (f n))) = [] := by
  induction l with
  | nil => rfl
  | cons a l ih => rw [List.map_cons]; exact ih

/-- The placements of `PlaceWires`: the conductor and the coating in the
total wire, then the total wire `w.num` times in the mother volume. -/
theorem placements_PlaceWires (site : WireSite) (w : wire R) (outwrap halflength : R) :
    placements (PlaceWires site w outwrap halflength).2 =
      [ (VolId.lvWireVol site, w.volume), (VolId.lvWireVol site, VolId.lvWireWrapVol site) ] ++
        List.replicate w.num.toNat (w.mother_volume, VolId.lvWireVol site) := by
  unfold PlaceWires
  simp only [placements_append, placements_map_placeVolume, List.length_range]
  rfl

theorem created_PlaceWires (site : WireSite) (w : wire R) (outwrap halflength : R) :
    created (PlaceWires site w outwrap halflength).2 =
      [ VolId.lvWireWrapVol site, VolId.lvWireVol site ] := by
  unfold PlaceWires
  simp only [created_append, created_map_placeVolume]
  rfl

theorem registered_PlaceWires (site : WireSite) (w : wire R) (outwrap halflength : R) :
    registered (PlaceWires site w outwrap halflength).2 = [] := by
  unfold PlaceWires
  simp only [registered_append, registered_map_placeVolume]
  rfl

theorem physVolIDs_PlaceWires (m c : VolId) (site : WireSite) (w : wire R)
    (outwrap halflength : R) : physVolIDs m c (PlaceWires site w outwrap halflength).2 = [] := by
  unfold PlaceWires
  simp only [physVolIDs_append, physVolIDs_map_placeVolume]
  rfl

theorem PlaceWires_fst (site : WireSite) (w : wire R) (outwrap halflength : R) :
    (PlaceWires site w outwrap halflength).1 = { w with volume := VolId.lvWireVol site } := rfl

/-- The placements of lines 314-346. -/
theorem placements_inner_guard_ring (M : MathOps R) (P : Params R) (st : State R) :
    placements (inner_guard_ring M P st).2 =
      [ (VolId.lvWireVol WireSite.innerGuardFirst, VolId.Gwire_inner),
        (VolId.lvWireVol WireSite.innerGuardFirst, VolId.lvWireWrapVol WireSite.innerGuardFirst) ] ++
      List.replicate (Int.tdiv P.nInGWire 2).toNat
        (VolId.lvLayerInit, VolId.lvWireVol WireSite.innerGuardFirst) ++
      [ (VolId.lvWireVol WireSite.innerGuardSecond, VolId.lvWireVol WireSite.innerGuardFirst),
        (VolId.lvWireVol WireSite.innerGuardSecond,
          VolId.lvWireWrapVol WireSite.innerGuardSecond) ] ++
      List.replicate (Int.tdiv P.nInGWire 2).toNat
        (VolId.lvLayerInit, VolId.lvWireVol WireSite.innerGuardSecond) := by
  unfold inner_guard_ring
  simp only [placements_append, placements_PlaceWires, PlaceWires_fst, backLayer_concat,
    back_concat]
  simp [placements, Event.placement]

/-- The placements of lines 348-386. -/
theorem placements_initial_field_layer (M : MathOps R) (P : Params R) (SL : Nat)
    (st : State R) :
    placements (initial_field_layer M P SL st).2 =
      [ (VolId.lvWireVol WireSite.initField, VolId.lvFwire_init),
        (VolId.lvWireVol WireSite.initField, VolId.lvWireWrapVol WireSite.initField) ] ++
      List.replicate st.nFWire1.toNat (VolId.lvLayer_0, VolId.lvWireVol WireSite.initField) := by
  unfold initial_field_layer
  simp only [placements_append, placements_PlaceWires, PlaceWires_fst, backLayer_concat,
    back_concat]
  simp [placements, Event.placement]

/-- The placements of lines 690-723. -/
theorem placements_outer_field_layer (M : MathOps R) (P : Params R) (SL : Nat)
    (st : State R) :
    placements (outer_field_layer M P SL st).2 =
      [ (VolId.lvWireVol WireSite.outField, VolId.lvFwire_out),
        (VolId.lvWireVol WireSite.outField, VolId.lvWireWrapVol WireSite.outField) ] ++
      List.replicate st.nFWire1.toNat (VolId.lvLayerOut, VolId.lvWireVol WireSite.outField) := by
  unfold outer_field_layer
  simp only [placements_append, placements_PlaceWires, PlaceWires_fst, backLayer_concat,
    back_concat]
  simp [placements, Event.placement]

/-- The placements of lines 729-767. -/
theorem placements_outer_guard_ring (M : MathOps R) (P : Params R) (st : State R) :
    placements (outer_guard_ring M P st).2 =
      [ (VolId.lvWireVol WireSite.outerGuardFirst, VolId.Gwire_outer),
        (VolId.lvWireVol WireSite.outerGuardFirst, VolId.lvWireWrapVol WireSite.outerGuardFirst) ] ++
      List.replicate (Int.tdiv P.nOutGWire 2).toNat
        (VolId.lvLayerOutG, VolId.lvWireVol WireSite.outerGuardFirst) ++
      [ (VolId.lvWireVol WireSite.outerGuardSecond, VolId.lvWireVol WireSite.outerGuardFirst),
        (VolId.lvWireVol WireSite.outerGuardSecond,
          VolId.lvWireWrapVol WireSite.outerGuardSecond) ] ++
      List.replicate (Int.tdiv P.nOutGWire 2).toNat
        (VolId.lvLayerOutG, VolId.lvWireVol WireSite.outerGuardSecond) := by
  unfold outer_guard_ring
  simp only [placements_append, placements_PlaceWires, PlaceWires_fst, backLayer_concat,
    back_concat]
  simp [placements, Event.placement]

theorem created_inner_guard_ring (M : MathOps R) (P : Params R) (st : State R) :
    created (inner_guard_ring M P st).2 =
      [ VolId.lvLayerInit, VolId.Gwire_inner,
        VolId.lvWireWrapVol WireSite.innerGuardFirst, VolId.lvWireVol WireSite.innerGuardFirst,
        VolId.lvWireWrapVol WireSite.innerGuardSecond,
        VolId.lvWireVol WireSite.innerGuardSecond ] := by
  unfold inner_guard_ring
  simp only [created_append, created_PlaceWires]
  simp [created, Event.creation]

theorem created_initial_field_layer (M : MathOps R) (P : Params R) (SL : Nat) (st : State R) :
    created (initial_field_layer M P SL st).2 =
      [ VolId.lvLayer_0, VolId.lvFwire_init, VolId.lvWireWrapVol WireSite.initField,
        VolId.lvWireVol WireSite.initField ] := by
  unfold initial_field_layer
  simp only [created_append, created_PlaceWires]
  simp [created, Event.creation]

theorem created_outer_field_layer (M : MathOps R) (P : Params R) (SL : Nat) (st : State R) :
    created (outer_field_layer M P SL st).2 =
      [ VolId.lvLayerOut, VolId.lvFwire_out, VolId.lvWireWrapVol WireSite.outField,
        VolId.lvWireVol WireSite.outField ] := by
  unfold outer_field_layer
  simp only [created_append, created_PlaceWires]
  simp [created, Event.creation]

theorem created_outer_guard_ring (M : MathOps R) (P : Params R) (st : State R) :
    created (outer_guard_ring M P st).2 =
      [ VolId.lvLayerOutG, VolId.Gwire_outer,
        VolId.lvWireWrapVol WireSite.outerGuardFirst, VolId.lvWireVol WireSite.outerGuardFirst,
        VolId.lvWireWrapVol WireSite.outerGuardSecond,
        VolId.lvWireVol WireSite.outerGuardSecond ] := by
  unfold outer_guard_ring
  simp only [created_append, created_PlaceWires]
  simp [created, Event.creation]

theorem physVolIDs_inner_guard_ring (m c : VolId) (M : MathOps R) (P : Params R)
    (st : State R) : physVolIDs m c (inner_guard_ring M P st).2 = [] := by
  unfold inner_guard_ring
  simp only [physVolIDs_append, physVolIDs_PlaceWires]
  simp [physVolIDs, Event.physVolID]

theorem physVolIDs_initial_field_layer (m c : VolId) (M : MathOps R) (P : Params R) (SL : Nat)
    (st : State R) : physVolIDs m c (initial_field_layer M P SL st).2 = [] := by
  unfold initial_field_layer
  simp only [physVolIDs_append, physVolIDs_PlaceWires]
  simp [physVolIDs, Event.physVolID]

theorem physVolIDs_outer_field_layer (m c : VolId) (M : MathOps R) (P : Params R) (SL : Nat)
    (st : State R) : physVolIDs m c (outer_field_layer M P SL st).2 = [] := by
  unfold outer_field_layer
  simp only [physVolIDs_append, physVolIDs_PlaceWires]
  simp [physVolIDs, Event.physVolID]

theorem physVolIDs_outer_guard_ring (m c : VolId) (M : MathOps R) (P : Params R)
    (st : State R) : physVolIDs m c (outer_guard_ring M P st).2 = [] := by
  unfold outer_guard_ring
  simp only [physVolIDs_append, physVolIDs_PlaceWires]
  simp [physVolIDs, Event.physVolID]

theorem registered_inner_guard_ring (M : MathOps R) (P : Params R) (st : State R) :
    registered (inner_guard_ring M P st).2 = [] := by
  unfold inner_guard_ring
  simp only [registered_append, registered_PlaceWires]
  simp [registered, Event.registration]

theorem registered_initial_field_layer (M : MathOps R) (P : Params R) (SL : Nat)
    (st : State R) : registered (initial_field_layer M P SL st).2 = [] := by
  unfold initial_field_layer
  simp only [registered_append, registered_PlaceWires]
  simp [registered, Event.registration]

theorem registered_outer_field_layer (M : MathOps R) (P : Params R) (SL : Nat)
    (st : State R) : registered (outer_field_layer M P SL st).2 = [] := by
  unfold outer_field_layer
  simp only [registered_append, registered_PlaceWires]
  simp [registered, Event.registration]

theorem registered_outer_guard_ring (M : MathOps R) (P : Params R) (st : State R) :
    registered (outer_guard_ring M P st).2 = [] := by
  unfold outer_guard_ring
  simp only [registered_append, registered_PlaceWires]
  simp [registered, Event.registration]

theorem placements_wall_volumes (P : Params R) : placements (wall_volumes P) = [] := rfl

theorem physVolIDs_wall_volumes (m c : VolId) (P : Params R) :
    physVolIDs m c (wall_volumes P) = [] := rfl

theorem registered_wall_volumes (P : Params R) : registered (wall_volumes P) = [] := rfl

theorem created_wall_volumes (P : Params R) :
    created (wall_volumes P) =
      [ VolId.lvEndcapWallGas, VolId.lvEndcapWallCopper, VolId.lvEndcapWallKapton,
        VolId.lvEndcapWallCarbon, VolId.lvInnerWallCarbon, VolId.lvInnerWallCopper,
        VolId.lvInnerWallGas, VolId.lvOuterWallCarbon1, VolId.lvOuterWallCarbon2,
        VolId.lvOuterWallCopper, VolId.lvOuterWallFoam ] := rfl

theorem placements_register_layers (st : State R) :
    placements (register_layers st) = st.lvLayerVol.map (fun v => (VolId.parentVol, v.1)) := by
  unfold register_layers
  induction st.lvLayerVol with
  | nil => rfl
  | cons a l ih => rw [List.flatMap_cons, placements_append, ih]; rfl

theorem created_register_layers (st : State R) : created (register_layers st) = [] := by
  unfold register_layers
  induction st.lvLayerVol with
  | nil => rfl
  | cons a l ih => rw [List.flatMap_cons, created_append, ih]; rfl

theorem physVolIDs_register_layers (m c : VolId) (st : State R) :
    physVolIDs m c (register_layers st) = [] := by
  unfold register_layers
  induction st.lvLayerVol with
  | nil => rfl
  | cons a l ih => rw [List.flatMap_cons, physVolIDs_append, ih]; rfl

theorem registered_register_layers (st : State R) :
    registered (register_layers st) = st.lvLayerVol.map (fun v => (v.2, v.1)) := by
  unfold register_layers
  induction st.lvLayerVol with
  | nil => rfl
  | cons a l ih => rw [List.flatMap_cons, registered_append, ih]; rfl

theorem placements_place_walls (P : Params R) :
    placements (place_walls P) =
      [ (VolId.parentVol, VolId.lvInnerWallCarbon), (VolId.parentVol, VolId.lvInnerWallCopper),
        (VolId.parentVol, VolId.lvInnerWallGas), (VolId.parentVol, VolId.lvOuterWallCarbon1),
        (VolId.parentVol, VolId.lvOuterWallCarbon2), (VolId.parentVol, VolId.lvOuterWallCopper),
        (VolId.parentVol, VolId.lvOuterWallFoam), (VolId.parentVol, VolId.lvEndcapWallGas),
        (VolId.parentVol, VolId.lvEndcapWallCopper), (VolId.parentVol, VolId.lvEndcapWallKapton),
        (VolId.parentVol, VolId.lvEndcapWallCarbon), (VolId.parentVol, VolId.lvEndcapWallGas),
        (VolId.parentVol, VolId.lvEndcapWallCopper), (VolId.parentVol, VolId.lvEndcapWallKapton),
        (VolId.parentVol, VolId.lvEndcapWallCarbon) ] := rfl

theorem created_place_walls (P : Params R) : created (place_walls P) = [] := rfl

theorem physVolIDs_place_walls (m c : VolId) (P : Params R) :
    physVolIDs m c (place_walls P) = [] := rfl

theorem registered_place_walls (P : Params R) : registered (place_walls P) = [] := rfl

/-! ## Observing the calls of the build ring by ring -/

theorem forLoop_mem_rings (body : Nat → State R → Outcome R) :
    ∀ (n i : Nat) (st : State R), ∀ r ∈ (forLoop body i n st).rings,
      ∃ j st', i ≤ j ∧ j < i + n ∧ r ∈ (body j st').rings := by
  intro n
  induction n with
  | zero => intro i st r hr; simp [forLoop_zero, Outcome.ok] at hr
  | succ n ih =>
    intro i st r hr
    rw [forLoop_succ] at hr
    cases hb : (body i st).error with
    | some e =>
      rw [Outcome.andThen_of_error_some _ _ e hb] at hr
      exact ⟨i, st, Nat.le_refl i, by omega, hr⟩
    | none =>
      rw [Outcome.andThen_of_error_none _ _ hb] at hr
      simp only [List.mem_append] at hr
      rcases hr with hr | hr
      · exact ⟨i, st, Nat.le_refl i, by omega, hr⟩
      · obtain ⟨j, st', h1, h2, h3⟩ := ih (i + 1) _ r hr
        exact ⟨j, st', by omega, by omega, h3⟩

/-- The rings of a loop are in the order `Rel` when those of each iteration
are and a ring of an earlier iteration precedes a ring of a later one. -/
theorem forLoop_pairwise (body : Nat → State R → Outcome R) (Rel : RingInfo R → RingInfo R → Prop)
    (hbody : ∀ i st, (body i st).rings.Pairwise Rel)
    (hrel : ∀ i j st st' a b, i < j → a ∈ (body i st).rings → b ∈ (body j st').rings →
      Rel a b) :
    ∀ (n i : Nat) (st : State R), (forLoop body i n st).rings.Pairwise Rel := by
  intro n
  induction n with
  | zero => intro i st; simp [forLoop_zero, Outcome.ok]
  | succ n ih =>
    intro i st
    rw [forLoop_succ]
    cases hb : (body i st).error with
    | some e => rw [Outcome.andThen_of_error_some _ _ e hb]; exact hbody i st
    | none =>
      rw [Outcome.andThen_of_error_none _ _ hb]
      refine List.pairwise_append.mpr ⟨hbody i st, ih _ _, ?_⟩
      intro a ha b hb'
      obtain ⟨j, st', h1, _, h3⟩ := forLoop_mem_rings body n (i + 1) _ b hb'
      exact hrel i j st st' a b (by omega) ha h3

/-- An observation `g` of the calls that is compatible with concatenation is
made ring by ring on a loop when it is on each iteration. -/
theorem forLoop_observe {β : Type} (g : List (Event R) → List β) (hnil : g [] = [])
    (happ : ∀ a b, g (a ++ b) = g a ++ g b) (body : Nat → State R → Outcome R)
    (h : RingInfo R → List β)
    (hbody : ∀ i st, g (body i st).events = (body i st).rings.flatMap h) :
    ∀ (n i : Nat) (st : State R),
      g (forLoop body i n st).events = (forLoop body i n st).rings.flatMap h := by
  intro n
  induction n with
  | zero => intro i st; simp [forLoop_zero, Outcome.ok, hnil]
  | succ n ih =>
    intro i st
    rw [forLoop_succ]
    cases hb : (body i st).error with
    | some e => rw [Outcome.andThen_of_error_some _ _ e hb]; exact hbody i st
    | none =>
      rw [Outcome.andThen_of_error_none _ _ hb]
      simp only [happ, hbody, ih, List.flatMap_append]

theorem ring_loop_pairwise (M : MathOps R) (P : Params R) (SL : Nat) :
    ∀ (n i : Nat) (st : State R),
      (forLoop (ring_iteration M P SL) i n st).rings.Pairwise RingInfo.before := by
  apply forLoop_pairwise
  · intro i st; rw [ring_iteration_rings]; exact List.pairwise_singleton _ _
  · intro i j st st' a b hij ha hb
    rw [ring_iteration_rings, List.mem_singleton] at ha hb
    subst ha; subst hb
    exact Or.inr ⟨rfl, hij⟩

/-- The rings of the build are recorded in loop order; in particular no two of
them have the same indices. -/
theorem build_layer_rings_pairwise (M : MathOps R) (P : Params R) :
    (build_layer M P).rings.Pairwise RingInfo.before := by
  rw [build_layer_rings]
  apply forLoop_pairwise
  · intro i st; rw [superlayer_iteration_rings]; exact ring_loop_pairwise M P i _ _ _
  · intro i j st st' a b hij ha hb
    rw [superlayer_iteration_rings] at ha hb
    have h1 := ((ring_loop_rings M P i _ _).1 a ha).2.1
    have h2 := ((ring_loop_rings M P j _ _).1 b hb).2.1
    exact Or.inl (by omega)

theorem RingInfo.before_index_ne (a b : RingInfo R) (h : a.before b ∨ b.before a) :
    (a.SL, a.iring) ≠ (b.SL, b.iring) := by
  intro he
  simp only [Prod.mk.injEq] at he
  unfold RingInfo.before at h
  omega

theorem flatMap_eq_of_pairwise {β : Type} (F : RingInfo R → List β) :
    ∀ (l : List (RingInfo R)), l.Pairwise RingInfo.before → ∀ r ∈ l,
      (∀ r' ∈ l, (r'.SL, r'.iring) ≠ (r.SL, r.iring) → F r' = []) → l.flatMap F = F r := by
  intro l
  induction l with
  | nil => intro _ r hr; simp at hr
  | cons x xs ih =>
    intro hp r hr hF
    rw [List.pairwise_cons] at hp
    rw [List.flatMap_cons]
    rcases List.mem_cons.mp hr with h | h
    · subst h
      have : xs.flatMap F = [] := by
        rw [List.flatMap_eq_nil_iff]
        intro y hy
        exact hF y (List.mem_cons_of_mem _ hy)
          (RingInfo.before_index_ne y r (Or.inr (hp.1 y hy)))
      rw [this, List.append_nil]
    · have hx : F x = [] :=
        hF x (List.mem_cons_self _ _) (RingInfo.before_index_ne x r (Or.inl (hp.1 r h)))
      rw [hx, List.nil_append]
      exact ih hp.2 r h (fun r' hr' hne => hF r' (List.mem_cons_of_mem _ hr') hne)

/-- An observation `g` of the calls that is compatible with concatenation and
that sees nothing outside the ring iterations is made ring by ring on the
build. -/
theorem build_layer_observe {β : Type} (M : MathOps R) (P : Params R)
    (g : List (Event R) → List β) (hnil : g [] = [])
    (happ : ∀ a b, g (a ++ b) = g a ++ g b) (hwalls : g (wall_volumes P) = [])
    (hfirst : ∀ SL st, g (first_superlayer_block M P SL st).2 = [])
    (hlast : ∀ SL st, g (last_superlayer_block M P SL st).2 = [])
    (hend : (forLoop (superlayer_iteration M P) 0 P.nSuperLayer.toNat (State.initial P)).error =
        none →
      g (register_layers
        (forLoop (superlayer_iteration M P) 0 P.nSuperLayer.toNat (State.initial P)).st ++
          place_walls P) = []) :
    g (build_layer M P).events =
      (build_layer M P).rings.flatMap
        (fun r => g (ring_iteration M P r.SL r.iring r.entry).events) := by
  have hring : ∀ SL n i st,
      g (forLoop (ring_iteration M P SL) i n st).events =
        (forLoop (ring_iteration M P SL) i n st).rings.flatMap
          (fun r => g (ring_iteration M P r.SL r.iring r.entry).events) := by
    intro SL
    apply forLoop_observe g hnil happ
    intro i st
    rw [ring_iteration_rings]
    simp [ring_info_SL, ring_info_iring, ring_info_entry]
  have hsuper : ∀ n i st,
      g (forLoop (superlayer_iteration M P) i n st).events =
        (forLoop (superlayer_iteration M P) i n st).rings.flatMap
          (fun r => g (ring_iteration M P r.SL r.iring r.entry).events) := by
    apply forLoop_observe g hnil happ
    intro SL st
    rw [superlayer_iteration_events, superlayer_iteration_rings, happ, happ, hfirst, hring]
    split
    · rw [hlast]; simp
    · rw [hnil]; simp
  rw [build_layer_events, build_layer_rings, happ, happ, hwalls, hsuper]
  split
  · next he => rw [hend he]; simp
  · rw [hnil]; simp

/-- An observation that, moreover, sees nothing in the iterations of the
other rings sees in the build what it sees in the iteration of the ring. -/
theorem build_layer_observe_ring {β : Type} (M : MathOps R) (P : Params R)
    (g : List (Event R) → List β) (hnil : g [] = [])
    (happ : ∀ a b, g (a ++ b) = g a ++ g b) (hwalls : g (wall_volumes P) = [])
    (hfirst : ∀ SL st, g (first_superlayer_block M P SL st).2 = [])
    (hlast : ∀ SL st, g (last_superlayer_block M P SL st).2 = [])
    (hend : (forLoop (superlayer_iteration M P) 0 P.nSuperLayer.toNat (State.initial P)).error =
        none →
      g (register_layers
        (forLoop (superlayer_iteration M P) 0 P.nSuperLayer.toNat (State.initial P)).st ++
          place_walls P) = [])
    (r : RingInfo R) (hr : r ∈ (build_layer M P).rings)
    (hother : ∀ SL iring st, (SL, iring) ≠ (r.SL, r.iring) →
      g (ring_iteration M P SL iring st).events = []) :
    g (build_layer M P).events = g (ring_iteration M P r.SL r.iring r.entry).events := by
  rw [build_layer_observe M P g hnil happ hwalls hfirst hlast hend]
  exact flatMap_eq_of_pairwise _ _ (build_layer_rings_pairwise M P) r hr
    (fun r' _ hne => hother r'.SL r'.iring r'.entry hne)

/-! ## The layer volumes registered at the end -/

/-- The four volumes that can be in `lvLayerVol`. -/
theorem isLayer_of_mem (l : List (VolId × String)) (v : VolId × String)
    (h : ∀ w ∈ l, isWholeRing w.1 = false) (x : VolId × String) (hx : x ∈ l ++ [v])
    (hv : isWholeRing v.1 = false) : isWholeRing x.1 = false := by
  rcases List.mem_append.mp hx with h1 | h1
  · exact h x h1
  · rw [List.mem_singleton] at h1; subst h1; exact hv

theorem ring_iteration_lvLayerVol (M : MathOps R) (P : Params R) (SL iring : Nat)
    (st : State R) : (ring_iteration M P SL iring st).st.lvLayerVol = st.lvLayerVol := by
  unfold ring_iteration; dsimp only; split <;> rfl

theorem ring_loop_entry_lvLayerVol (M : MathOps R) (P : Params R) (SL : Nat) (st : State R)
    (h : ∀ w ∈ st.lvLayerVol, isWholeRing w.1 = false) :
    ∀ w ∈ (ring_loop_entry M P SL st).lvLayerVol, isWholeRing w.1 = false := by
  unfold ring_loop_entry first_superlayer_block
  split
  · intro w hw
    have hw' : w ∈ (st.lvLayerVol ++ [(VolId.lvLayerInit, "lvLayerInit")]) ++
        [(VolId.lvLayer_0, "lvLayer_0")] := hw
    exact isLayer_of_mem _ (VolId.lvLayer_0, "lvLayer_0")
      (fun x hx => isLayer_of_mem _ (VolId.lvLayerInit, "lvLayerInit") h x hx rfl) w hw' rfl
  · exact h

theorem last_superlayer_block_lvLayerVol (M : MathOps R) (P : Params R) (SL : Nat)
    (st : State R) (h : ∀ w ∈ st.lvLayerVol, isWholeRing w.1 = false) :
    ∀ w ∈ (last_superlayer_block M P SL st).1.lvLayerVol, isWholeRing w.1 = false := by
  unfold last_superlayer_block
  split
  · intro w hw
    have hw' : w ∈ (st.lvLayerVol ++ [(VolId.lvLayerOut, "lvLayerOut")]) ++
        [(VolId.lvLayerOutG, "lvLayerOutG")] := hw
    exact isLayer_of_mem _ (VolId.lvLayerOutG, "lvLayerOutG")
      (fun x hx => isLayer_of_mem _ (VolId.lvLayerOut, "lvLayerOut") h x hx rfl) w hw' rfl
  · exact h

/-- No whole-ring volume is ever stored in `lvLayerVol`. -/
theorem final_lvLayerVol (M : MathOps R) (P : Params R)
    (h : (forLoop (superlayer_iteration M P) 0 P.nSuperLayer.toNat (State.initial P)).error =
      none) :
    ∀ w ∈ (forLoop (superlayer_iteration M P) 0 P.nSuperLayer.toNat
        (State.initial P)).st.lvLayerVol, isWholeRing w.1 = false := by
  refine (forLoop_induction (superlayer_iteration M P)
    (fun _ s => ∀ w ∈ s.lvLayerVol, isWholeRing w.1 = false) (fun _ => True)
    P.nSuperLayer.toNat 0 (State.initial P) ?_ (by simp [State.initial])).2 h
  intro SL s _ _ hs
  refine ⟨fun _ _ => trivial, fun he => ?_⟩
  rw [superlayer_iteration_st M P SL s he]
  apply last_superlayer_block_lvLayerVol
  rw [superlayer_iteration_error] at he
  refine (forLoop_induction (ring_iteration M P SL)
    (fun _ s => ∀ w ∈ s.lvLayerVol, isWholeRing w.1 = false) (fun _ => True)
    P.nRing.toNat 0 (ring_loop_entry M P SL s) ?_ (ring_loop_entry_lvLayerVol M P SL s hs)).2 he
  intro i s' _ _ hs'
  refine ⟨fun _ _ => trivial, fun _ => ?_⟩
  show ∀ w ∈ (ring_iteration M P SL i s').st.lvLayerVol, isWholeRing w.1 = false
  rw [ring_iteration_lvLayerVol]; exact hs'

/-! ## Observations that see the rings only -/

theorem ring_iteration_events (M : MathOps R) (P : Params R) (SL iring : Nat) (st : State R) :
    (ring_iteration M P SL iring st).events =
      ring_geometry_events M P SL iring st ++
        (if ratio_test (ring_info M P SL iring st).top = true then []
         else cells P SL iring (whole_ring_hyperboloid (ring_info M P SL iring st).upper)
          (ring_info M P SL iring st).top) := by
  by_cases h : ratio_test (ring_info M P SL iring st).top = true
  · rw [ring_iteration_events_of_ratio M P SL iring st h, if_pos h, List.append_nil]
  · rw [ring_iteration_events_of_pass M P SL iring st (by simpa using h), if_neg h]

theorem filter_eq_nil_of_ringOwned (p : VolId × VolId → Bool)
    (hp : ∀ x, p x = true → ringOwned x = true) (l : List (VolId × VolId))
    (hl : ∀ x ∈ l, ringOwned x = false) : l.filter p = [] := by
  rw [List.filter_eq_nil_iff]
  intro x hx hpx
  have := hp x hpx
  rw [hl x hx] at this
  exact absurd this (by simp)

theorem ringOwned_first_superlayer_block (M : MathOps R) (P : Params R) (SL : Nat)
    (st : State R) : ∀ x ∈ placements (first_superlayer_block M P SL st).2,
      ringOwned x = false := by
  unfold first_superlayer_block
  split
  · intro x hx
    simp only [placements_append, placements_inner_guard_ring,
      placements_initial_field_layer, List.mem_append, List.mem_cons, List.mem_singleton,
      List.mem_replicate, List.not_mem_nil, or_false] at hx
    rcases hx with ((((h | h) | h) | (h | h)) | h) | ((h | h) | h)
    all_goals first | (rw [h]; rfl) | (rw [h.2]; rfl)
  · intro x hx; simp [placements] at hx

theorem ringOwned_last_superlayer_block (M : MathOps R) (P : Params R) (SL : Nat)
    (st : State R) : ∀ x ∈ placements (last_superlayer_block M P SL st).2,
      ringOwned x = false := by
  unfold last_superlayer_block
  split
  · intro x hx
    simp only [placements_append, placements_outer_guard_ring,
      placements_outer_field_layer, List.mem_append, List.mem_cons, List.mem_singleton,
      List.mem_replicate, List.not_mem_nil, or_false] at hx
    rcases hx with ((h | h) | h) | ((((h | h) | h) | (h | h)) | h)
    all_goals first | (rw [h]; rfl) | (rw [h.2]; rfl)
  · intro x hx; simp [placements] at hx

theorem ringOwned_place_walls (P : Params R) :
    ∀ x ∈ placements (place_walls P), ringOwned x = false := by
  intro x hx
  rw [placements_place_walls] at hx
  simp only [List.mem_cons, List.mem_singleton, List.not_mem_nil, or_false] at hx
  rcases hx with h | h | h | h | h | h | h | h | h | h | h | h | h | h | h
  all_goals (rw [h]; rfl)

theorem ringOwned_register_layers (st : State R)
    (h : ∀ w ∈ st.lvLayerVol, isWholeRing w.1 = false) :
    ∀ x ∈ placements (register_layers st), ringOwned x = false := by
  intro x hx
  rw [placements_register_layers, List.mem_map] at hx
  obtain ⟨v, hv, rfl⟩ := hx
  have := h v hv
  revert this
  cases v.1 <;> simp [ringOwned, isWholeRing]

/-- Placements selected by `p`, which selects placements of the ring
iterations only, are seen ring by ring. -/
theorem filter_placements_build_layer (M : MathOps R) (P : Params R)
    (p : VolId × VolId → Bool) (hp : ∀ x, p x = true → ringOwned x = true)
    (r : RingInfo R) (hr : r ∈ (build_layer M P).rings)
    (hother : ∀ SL iring st, (SL, iring) ≠ (r.SL, r.iring) →
      (placements (ring_iteration M P SL iring st).events).filter p = []) :
    (placements (build_layer M P).events).filter p =
      (placements (ring_iteration M P r.SL r.iring r.entry).events).filter p := by
  refine build_layer_observe_ring M P (fun evs => (placements evs).filter p) rfl ?_ ?_ ?_ ?_ ?_
    r hr hother
  · intro a b; simp [placements_append]
  · rfl
  · intro SL st
    exact filter_eq_nil_of_ringOwned p hp _ (ringOwned_first_superlayer_block M P SL st)
  · intro SL st
    exact filter_eq_nil_of_ringOwned p hp _ (ringOwned_last_superlayer_block M P SL st)
  · intro he
    apply filter_eq_nil_of_ringOwned p hp
    intro x hx
    rw [placements_append, List.mem_append] at hx
    rcases hx with hx | hx
    · exact ringOwned_register_layers _ (final_lvLayerVol M P he) x hx
    · exact ringOwned_place_walls P x hx

theorem created_first_superlayer_block (M : MathOps R) (P : Params R) (SL : Nat)
    (st : State R) : ∀ v ∈ created (first_superlayer_block M P SL st).2,
      isWholeRing v = false ∧ isCell v = false := by
  unfold first_superlayer_block
  split
  · intro v hv
    simp only [created_append, created_inner_guard_ring, created_initial_field_layer,
      List.mem_append, List.mem_cons, List.mem_singleton, List.not_mem_nil, or_false] at hv
    rcases hv with (h | h | h | h | h | h) | (h | h | h | h)
    all_goals (rw [h]; exact ⟨rfl, rfl⟩)
  · intro v hv; simp [created] at hv

theorem created_last_superlayer_block (M : MathOps R) (P : Params R) (SL : Nat)
    (st : State R) : ∀ v ∈ created (last_superlayer_block M P SL st).2,
      isWholeRing v = false ∧ isCell v = false := by
  unfold last_superlayer_block
  split
  · intro v hv
    simp only [created_append, created_outer_guard_ring, created_outer_field_layer,
      List.mem_append, List.mem_cons, List.mem_singleton, List.not_mem_nil, or_false] at hv
    rcases hv with (h | h | h | h) | (h | h | h | h | h | h)
    all_goals (rw [h]; exact ⟨rfl, rfl⟩)
  · intro v hv; simp [created] at hv

theorem filter_created_eq_nil (p : VolId → Bool)
    (hp : ∀ v, p v = true → isWholeRing v = true ∨ isCell v = true) (l : List VolId)
    (hl : ∀ v ∈ l, isWholeRing v = false ∧ isCell v = false) : l.filter p = [] := by
  rw [List.filter_eq_nil_iff]
  intro v hv hpv
  have h1 := hl v hv
  rcases hp v hpv with h | h
  · rw [h1.1] at h; exact absurd h (by simp)
  · rw [h1.2] at h; exact absurd h (by simp)

/-- Creations selected by `p`, which selects whole rings and cells only, are
seen ring by ring. -/
theorem filter_created_build_layer (M : MathOps R) (P : Params R) (p : VolId → Bool)
    (hp : ∀ v, p v = true → isWholeRing v = true ∨ isCell v = true) :
    (created (build_layer M P).events).filter p =
      (build_layer M P).rings.flatMap
        (fun r => (created (ring_iteration M P r.SL r.iring r.entry).events).filter p) := by
  refine build_layer_observe M P (fun evs => (created evs).filter p) rfl ?_ ?_ ?_ ?_ ?_
  · intro a b; simp [created_append]
  · apply filter_created_eq_nil p hp
    intro v hv
    rw [created_wall_volumes] at hv
    simp only [List.mem_cons, List.mem_singleton, List.not_mem_nil, or_false] at hv
    rcases hv with h | h | h | h | h | h | h | h | h | h | h
    all_goals (rw [h]; exact ⟨rfl, rfl⟩)
  · intro SL st
    exact filter_created_eq_nil p hp _ (created_first_superlayer_block M P SL st)
  · intro SL st
    exact filter_created_eq_nil p hp _ (created_last_superlayer_block M P SL st)
  · intro _
    show (created _).filter p = []
    rw [created_append, created_register_layers, created_place_walls]
    rfl

theorem physVolIDs_first_superlayer_block (m c : VolId) (M : MathOps R) (P : Params R)
    (SL : Nat) (st : State R) : physVolIDs m c (first_superlayer_block M P SL st).2 = [] := by
  unfold first_superlayer_block
  split
  · show physVolIDs m c (_ ++ _) = []
    rw [physVolIDs_append, physVolIDs_inner_guard_ring, physVolIDs_initial_field_layer]
    rfl
  · rfl

theorem physVolIDs_last_superlayer_block (m c : VolId) (M : MathOps R) (P : Params R)
    (SL : Nat) (st : State R) : physVolIDs m c (last_superlayer_block M P SL st).2 = [] := by
  unfold last_superlayer_block
  split
  · show physVolIDs m c (_ ++ _) = []
    rw [physVolIDs_append, physVolIDs_outer_field_layer, physVolIDs_outer_guard_ring]
    rfl
  · rfl

/-- The tags of a placement are seen ring by ring. -/
theorem physVolIDs_build_layer (M : MathOps R) (P : Params R) (m c : VolId) :
    physVolIDs m c (build_layer M P).events =
      (build_layer M P).rings.flatMap
        (fun r => physVolIDs m c (ring_iteration M P r.SL r.iring r.entry).events) := by
  refine build_layer_observe M P (physVolIDs m c) rfl (physVolIDs_append m c) ?_ ?_ ?_ ?_
  · exact physVolIDs_wall_volumes m c P
  · exact physVolIDs_first_superlayer_block m c M P
  · exact physVolIDs_last_superlayer_block m c M P
  · intro _
    rw [physVolIDs_append, physVolIDs_register_layers, physVolIDs_place_walls]
    rfl

/-! ## A ring leaves the volumes of the other rings alone -/

theorem placedIn_whole_ring_cells_other (P : Params R) (SL iring : Nat) (hyp : Solid R)
    (st : State R) (SL' iring' : Nat) (h : (SL, iring) ≠ (SL', iring')) :
    placedIn (VolId.whole_ring_hyperboloid_volume SL' iring') (cells P SL iring hyp st) = [] := by
  have h' : ¬ (SL = SL' ∧ iring = iring') := by simpa using h
  unfold cells
  rw [placedIn_flatMap, List.flatMap_eq_nil_iff]
  intro q _
  simp [placedIn, placements_cell, List.filter_cons, List.filter_replicate, h']

theorem placedIn_cell_cells_other (P : Params R) (SL iring : Nat) (hyp : Solid R)
    (st : State R) (SL' iring' q' : Nat) (h : (SL, iring) ≠ (SL', iring')) :
    placedIn (VolId.cellID_volume SL' iring' q') (cells P SL iring hyp st) = [] := by
  have h' : ¬ (SL = SL' ∧ iring = iring') := by simpa using h
  unfold cells
  rw [placedIn_flatMap, List.flatMap_eq_nil_iff]
  intro q _
  have h2 : ¬ (SL = SL' ∧ iring = iring' ∧ q = q') := fun hh => h' ⟨hh.1, hh.2.1⟩
  simp [placedIn, placements_cell, List.filter_cons, List.filter_replicate, h2]

theorem wirePlacementsInCells_cells_other (P : Params R) (SL iring : Nat) (hyp : Solid R)
    (st : State R) (SL' iring' : Nat) (h : (SL, iring) ≠ (SL', iring')) :
    wirePlacementsInCells SL' iring' (cells P SL iring hyp st) = [] := by
  have h' : ¬ (SL = SL' ∧ iring = iring') := by simpa using h
  unfold cells
  rw [wirePlacementsInCells_flatMap, List.flatMap_eq_nil_iff]
  intro q _
  simp [wirePlacementsInCells, placements_cell, List.filter_cons, List.filter_replicate,
    isCellOf, h']

theorem physVolIDs_cells_other (P : Params R) (SL iring : Nat) (hyp : Solid R)
    (st : State R) (SL' iring' q' : Nat) (h : (SL, iring) ≠ (SL', iring')) :
    physVolIDs (VolId.whole_ring_hyperboloid_volume SL' iring')
      (VolId.cellID_volume SL' iring' q') (cells P SL iring hyp st) = [] := by
  have h' : ¬ (SL = SL' ∧ iring = iring') := by simpa using h
  unfold cells
  rw [physVolIDs_flatMap, List.flatMap_eq_nil_iff]
  intro q _
  simp only [cell, physVolIDs_append, physVolIDs_field_wire_placements]
  simp [physVolIDs, Event.physVolID, h']

theorem filter_isCellOf_created_cells (P : Params R) (SL iring : Nat) (hyp : Solid R)
    (st : State R) (SL' iring' : Nat) :
    (created (cells P SL iring hyp st)).filter (isCellOf SL' iring') =
      if (SL, iring) = (SL', iring') then
        (List.range st.sense_wires.num.toNat).map (VolId.cellID_volume SL iring)
      else [] := by
  rw [created_cells]
  by_cases h : (SL, iring) = (SL', iring')
  · rw [if_pos h]
    have h' : SL = SL' ∧ iring = iring' := by simpa using h
    rw [List.filter_eq_self]
    intro v hv
    obtain ⟨q, _, rfl⟩ := List.mem_map.mp hv
    simp [isCellOf, h'.1, h'.2]
  · rw [if_neg h]
    have h' : ¬ (SL = SL' ∧ iring = iring') := by simpa using h
    rw [List.filter_eq_nil_iff]
    intro v hv
    obtain ⟨q, _, rfl⟩ := List.mem_map.mp hv
    simp [isCellOf, h']

theorem physVolIDs_whole_ring_geometry_other (M : MathOps R) (P : Params R) (SL iring : Nat)
    (st : State R) (SL' iring' : Nat) (h : (SL, iring) ≠ (SL', iring')) :
    physVolIDs VolId.parentVol (VolId.whole_ring_hyperboloid_volume SL' iring')
      (ring_geometry_events M P SL iring st) = [] := by
  have h' : ¬ (SL = SL' ∧ iring = iring') := by simpa using h
  simp [ring_geometry_events, ring_bottom, ring_central, ring_upper, ring_top, whole_ring_volume,
    apply_wire_coating, physVolIDs, Event.physVolID, h']

/-! ## What the build does for one of its rings -/

/-- The calls of the iteration of a ring of the build, in terms of the
recorded states of the ring. -/
theorem ring_events_of_mem (M : MathOps R) (P : Params R) (r : RingInfo R)
    (hr : r ∈ (build_layer M P).rings) :
    (ring_iteration M P r.SL r.iring r.entry).events =
      ring_geometry_events M P r.SL r.iring r.entry ++
        (if ratio_test r.top = true then []
         else cells P r.SL r.iring (whole_ring_hyperboloid r.upper) r.top) := by
  have e := (build_layer_rings_spec M P r hr).1
  rw [ring_iteration_events, ← e]

theorem ring_error_of_mem (M : MathOps R) (P : Params R) (r : RingInfo R)
    (hr : r ∈ (build_layer M P).rings) :
    ((ring_iteration M P r.SL r.iring r.entry).error = none ↔ ratio_test r.top = false) ∧
    ((ring_iteration M P r.SL r.iring r.entry).error = some BuildError.ratio ↔
      ratio_test r.top = true) := by
  have e := (build_layer_rings_spec M P r hr).1
  refine ⟨?_, ?_⟩
  · rw [ring_iteration_error_none, ← e]
  · rw [ring_iteration_error_ratio, ← e]

theorem ring_nums_of_mem (M : MathOps R) (P : Params R) (r : RingInfo R)
    (hr : r ∈ (build_layer M P).rings) :
    r.top.sense_wires.num = P.nSWire + (r.SL : Int) * P.nSDeltaWire ∧
    r.top.field_wires_center.num = P.nSWire + (r.SL : Int) * P.nSDeltaWire ∧
    r.top.field_wires_bottom.num =
      Int.tdiv (P.nHorizontalFWire * (P.nSWire + (r.SL : Int) * P.nSDeltaWire)) 2 ∧
    r.top.field_wires_top.num =
      Int.tdiv (P.nHorizontalFWire * (P.nSWire + (r.SL : Int) * P.nSDeltaWire)) 2 := by
  obtain ⟨e, _, _, h4, h5, _⟩ := build_layer_rings_spec M P r hr
  refine ⟨?_, ?_, ?_, ?_⟩
  · rw [e, ring_info_sense_num]; exact h4
  · rw [e, ring_info_center_num]; exact h4
  · rw [e, ring_info_bottom_num]; exact h5
  · rw [e, ring_info_top_num]; exact h5

theorem ring_volumes_of_mem (M : MathOps R) (P : Params R) (r : RingInfo R)
    (hr : r ∈ (build_layer M P).rings) :
    r.top.sense_wires.volume = VolId.lvWireVol (WireSite.sense r.SL r.iring) ∧
    r.top.field_wires_bottom.volume = VolId.lvWireVol (WireSite.bottom r.SL r.iring) ∧
    r.top.field_wires_center.volume = VolId.lvWireVol (WireSite.center r.SL r.iring) ∧
    r.top.field_wires_top.volume = VolId.lvWireVol (WireSite.top r.SL r.iring) := by
  have e := (build_layer_rings_spec M P r hr).1
  refine ⟨?_, ?_, ?_, ?_⟩
  · conv_lhs => rw [e]
    rfl
  · conv_lhs => rw [e]
    rfl
  · conv_lhs => rw [e]
    rfl
  · conv_lhs => rw [e]
    rfl

theorem placedIn_eq_map_filter (m : VolId) (evs : List (Event R)) :
    placedIn m evs = ((placements evs).filter (fun p => decide (p.1 = m))).map Prod.snd := rfl

/-- The volumes placed by the whole build in the whole-ring volume of one of
its rings are those placed by the iteration of that ring. -/
theorem placedIn_whole_ring_build_layer (M : MathOps R) (P : Params R) (r : RingInfo R)
    (hr : r ∈ (build_layer M P).rings) :
    placedIn (VolId.whole_ring_hyperboloid_volume r.SL r.iring) (build_layer M P).events =
      if ratio_test r.top = true then []
      else (List.range r.top.sense_wires.num.toNat).map (VolId.cellID_volume r.SL r.iring) := by
  have key := filter_placements_build_layer M P
    (fun p => decide (p.1 = VolId.whole_ring_hyperboloid_volume r.SL r.iring)) ?_ r hr ?_
  · rw [placedIn_eq_map_filter, key, ← placedIn_eq_map_filter, ring_events_of_mem M P r hr,
      placedIn_append, placedIn_whole_ring_geometry]
    split
    · rfl
    · rw [placedIn_whole_ring_cells]; rfl
  · rintro ⟨m, c⟩ h
    simp only [decide_eq_true_eq] at h
    subst h; rfl
  · intro SL iring st hne
    have : placedIn (VolId.whole_ring_hyperboloid_volume r.SL r.iring)
        (ring_iteration M P SL iring st).events = [] := by
      rw [ring_iteration_events, placedIn_append, placedIn_whole_ring_geometry]
      split
      · rfl
      · rw [placedIn_whole_ring_cells_other _ _ _ _ _ _ _ hne]; rfl
    rw [placedIn_eq_map_filter, List.map_eq_nil_iff] at this
    exact this

/-- The wires placed by the whole build in a cell of one of its rings. -/
theorem placedIn_cell_build_layer (M : MathOps R) (P : Params R) (r : RingInfo R)
    (hr : r ∈ (build_layer M P).rings) (q : Nat) (hq : q < r.top.sense_wires.num.toNat) :
    placedIn (VolId.cellID_volume r.SL r.iring q) (build_layer M P).events =
      if ratio_test r.top = true then []
      else
        r.top.sense_wires.volume ::
          (List.replicate (sub_phi_indices q (middle_to_bottom_num_wire_ratio r.top)).length
              r.top.field_wires_bottom.volume ++
            List.replicate (sub_phi_indices q (middle_to_middle_num_wire_ratio r.top)).length
              r.top.field_wires_center.volume ++
            List.replicate (sub_phi_indices q (middle_to_top_num_wire_ratio r.top)).length
              r.top.field_wires_top.volume) := by
  have key := filter_placements_build_layer M P
    (fun p => decide (p.1 = VolId.cellID_volume r.SL r.iring q)) ?_ r hr ?_
  · rw [placedIn_eq_map_filter, key, ← placedIn_eq_map_filter, ring_events_of_mem M P r hr,
      placedIn_append, placedIn_cell_geometry]
    split
    · rfl
    · rw [placedIn_cell_cells _ _ _ _ _ _ hq]; rfl
  · rintro ⟨m, c⟩ h
    simp only [decide_eq_true_eq] at h
    subst h; rfl
  · intro SL iring st hne
    have : placedIn (VolId.cellID_volume r.SL r.iring q)
        (ring_iteration M P SL iring st).events = [] := by
      rw [ring_iteration_events, placedIn_append, placedIn_cell_geometry]
      split
      · rfl
      · rw [placedIn_cell_cells_other _ _ _ _ _ _ _ _ hne]; rfl
    rw [placedIn_eq_map_filter, List.map_eq_nil_iff] at this
    exact this

/-- The placements made by the whole build in the cells of one of its rings. -/
theorem wirePlacementsInCells_build_layer (M : MathOps R) (P : Params R) (r : RingInfo R)
    (hr : r ∈ (build_layer M P).rings) :
    wirePlacementsInCells r.SL r.iring (build_layer M P).events =
      if ratio_test r.top = true then []
      else wirePlacementsInCells r.SL r.iring
        (cells P r.SL r.iring (whole_ring_hyperboloid r.upper) r.top) := by
  have key := filter_placements_build_layer M P (fun p => isCellOf r.SL r.iring p.1) ?_ r hr ?_
  · show (placements _).filter _ = _
    rw [key, ring_events_of_mem M P r hr]
    show wirePlacementsInCells r.SL r.iring (_ ++ _) = _
    rw [wirePlacementsInCells_append, wirePlacementsInCells_geometry]
    split <;> rfl
  · rintro ⟨m, c⟩ h
    cases m <;> simp [isCellOf] at h
    rfl
  · intro SL iring st hne
    show wirePlacementsInCells r.SL r.iring _ = []
    rw [ring_iteration_events, wirePlacementsInCells_append, wirePlacementsInCells_geometry]
    split
    · rfl
    · rw [wirePlacementsInCells_cells_other _ _ _ _ _ _ _ hne]; rfl

/-- The tags put by the whole build on the placement of a cell of one of its
rings. -/
theorem physVolIDs_cell_build_layer (M : MathOps R) (P : Params R) (r : RingInfo R)
    (hr : r ∈ (build_layer M P).rings) (q : Nat) (hq : q < r.top.sense_wires.num.toNat) :
    physVolIDs (VolId.whole_ring_hyperboloid_volume r.SL r.iring)
        (VolId.cellID_volume r.SL r.iring q) (build_layer M P).events =
      if ratio_test r.top = true then []
      else
        [ ("phi", (q : Int)), ("hitorigin", 0),
          ("stereo", if r.top.sense_wires.stereo > 0 then 0 else 1), ("layerInCell", 0) ] := by
  rw [physVolIDs_build_layer,
    flatMap_eq_of_pairwise _ _ (build_layer_rings_pairwise M P) r hr]
  · rw [ring_events_of_mem M P r hr, physVolIDs_append, physVolIDs_cell_geometry]
    split
    · rfl
    · rw [physVolIDs_cells _ _ _ _ _ _ hq]; rfl
  · intro r' _ hne
    rw [ring_iteration_events, physVolIDs_append, physVolIDs_cell_geometry]
    split
    · rfl
    · rw [physVolIDs_cells_other _ _ _ _ _ _ _ _ hne]; rfl

/-- The tags put by the whole build on the placement of the whole-ring volume
of one of its rings. -/
theorem physVolIDs_whole_ring_build_layer (M : MathOps R) (P : Params R) (r : RingInfo R)
    (hr : r ∈ (build_layer M P).rings) :
    physVolIDs VolId.parentVol (VolId.whole_ring_hyperboloid_volume r.SL r.iring)
        (build_layer M P).events =
      [("superLayer", (r.SL : Int)), ("ring", (r.iring : Int))] := by
  rw [physVolIDs_build_layer,
    flatMap_eq_of_pairwise _ _ (build_layer_rings_pairwise M P) r hr]
  · rw [ring_iteration_events, physVolIDs_append, physVolIDs_whole_ring_geometry]
    split
    · rfl
    · rw [physVolIDs_parentVol_cells]; rfl
  · intro r' _ hne
    rw [ring_iteration_events, physVolIDs_append,
      physVolIDs_whole_ring_geometry_other _ _ _ _ _ _ _ hne]
    split
    · rfl
    · rw [physVolIDs_parentVol_cells]; rfl

/-- The cells of one of its rings created by the whole build. -/
theorem created_cells_build_layer (M : MathOps R) (P : Params R) (r : RingInfo R)
    (hr : r ∈ (build_layer M P).rings) :
    (created (build_layer M P).events).filter (isCellOf r.SL r.iring) =
      if ratio_test r.top = true then []
      else (List.range r.top.sense_wires.num.toNat).map (VolId.cellID_volume r.SL r.iring) := by
  have hgeo : ∀ SL iring st, (created (ring_geometry_events M P SL iring st)).filter
      (isCellOf r.SL r.iring) = [] := by
    intro SL iring st
    rw [created_ring_geometry_events]; rfl
  rw [filter_created_build_layer M P (isCellOf r.SL r.iring) ?_,
    flatMap_eq_of_pairwise _ _ (build_layer_rings_pairwise M P) r hr]
  · rw [ring_events_of_mem M P r hr, created_append, List.filter_append, hgeo]
    split
    · rfl
    · rw [filter_isCellOf_created_cells, if_pos rfl]; rfl
  · intro r' _ hne
    rw [ring_iteration_events, created_append, List.filter_append, hgeo]
    split
    · rfl
    · rw [filter_isCellOf_created_cells, if_neg hne]; rfl
  · intro v h
    cases v <;> simp [isCellOf] at h
    exact Or.inr rfl

/-- The whole-ring volumes created by the whole build: one for each ring
that it goes through. -/
theorem created_whole_rings_build_layer (M : MathOps R) (P : Params R) :
    (created (build_layer M P).events).filter isWholeRing =
      (build_layer M P).rings.map (fun r => VolId.whole_ring_hyperboloid_volume r.SL r.iring) := by
  rw [filter_created_build_layer M P isWholeRing (fun v h => Or.inl h)]
  have : ∀ r : RingInfo R, (created (ring_iteration M P r.SL r.iring r.entry).events).filter
      isWholeRing = [VolId.whole_ring_hyperboloid_volume r.SL r.iring] := by
    intro r
    rw [ring_iteration_events, created_append, List.filter_append,
      created_ring_geometry_events]
    split
    · rfl
    · rw [created_cells]
      have : ((List.range (ring_info M P r.SL r.iring r.entry).top.sense_wires.num.toNat).map
          (VolId.cellID_volume r.SL r.iring)).filter isWholeRing = [] := by
        rw [List.filter_eq_nil_iff]
        intro v hv
        obtain ⟨q, _, rfl⟩ := List.mem_map.mp hv
        simp [isWholeRing]
      rw [this]; rfl
  simp only [this]
  induction (build_layer M P).rings with
  | nil => rfl
  | cons a l ih => rw [List.flatMap_cons, ih]; rfl

/-! ## Consequences for the rings of the build -/

theorem mem_created_of_segment (v : VolId) (evs pre mid post : List (Event R))
    (h : evs = pre ++ mid ++ post) (hv : v ∈ created mid) : v ∈ created evs := by
  rw [h, created_append, created_append]
  exact List.mem_append_left _ (List.mem_append_right _ hv)

theorem mem_placedIn_of_segment (m v : VolId) (evs pre mid post : List (Event R))
    (h : evs = pre ++ mid ++ post) (hv : v ∈ placedIn m mid) : v ∈ placedIn m evs := by
  rw [h, placedIn_append, placedIn_append]
  exact List.mem_append_left _ (List.mem_append_right _ hv)

theorem mem_registered_of_segment (x : String × VolId) (evs pre mid post : List (Event R))
    (h : evs = pre ++ mid ++ post) (hv : x ∈ registered mid) : x ∈ registered evs := by
  rw [h, registered_append, registered_append]
  exact List.mem_append_left _ (List.mem_append_right _ hv)

/-- The whole-ring volume of every ring that the build goes through is
created, registered under its name and placed in the parent volume, whether
or not the ring passes the ratio test. -/
theorem whole_ring_emitted_of_mem (M : MathOps R) (P : Params R) (r : RingInfo R)
    (hr : r ∈ (build_layer M P).rings) :
    VolId.whole_ring_hyperboloid_volume r.SL r.iring ∈ created (build_layer M P).events ∧
    (wholeHyperboloidVolumeName r.SL r.iring, VolId.whole_ring_hyperboloid_volume r.SL r.iring) ∈
      registered (build_layer M P).events ∧
    VolId.whole_ring_hyperboloid_volume r.SL r.iring ∈
      placedIn VolId.parentVol (build_layer M P).events := by
  obtain ⟨pre, post, hev, _⟩ := build_layer_ring_segment M P r hr
  rw [ring_iteration_events] at hev
  refine ⟨?_, ?_, ?_⟩
  · refine mem_created_of_segment _ _ _ _ _ hev ?_
    rw [created_append, created_ring_geometry_events]
    simp
  · refine mem_registered_of_segment _ _ _ _ _ hev ?_
    rw [registered_append, registered_ring_geometry_events]
    simp
  · refine mem_placedIn_of_segment _ _ _ _ _ _ hev ?_
    rw [placedIn_append, placedIn_parentVol_geometry]
    simp

/-- The error of the build when a ring throws. -/
theorem build_layer_error_of_ring (M : MathOps R) (P : Params R) (r : RingInfo R)
    (hr : r ∈ (build_layer M P).rings) (e : BuildError)
    (he : (ring_iteration M P r.SL r.iring r.entry).error = some e) :
    (build_layer M P).error = some e := by
  obtain ⟨_, _, _, h⟩ := build_layer_ring_segment M P r hr
  exact (h e he).2

/-- The build never throws the parity error. -/
theorem build_layer_error_ne_parity (M : MathOps R) (P : Params R) :
    (build_layer M P).error ≠ some BuildError.parity := by
  intro h
  rw [build_layer_error] at h
  obtain ⟨SL, st, h1⟩ := forLoop_error _ _ _ _ _ h
  rw [superlayer_iteration_error] at h1
  obtain ⟨i, st', h2⟩ := forLoop_error _ _ _ _ _ h1
  exact ring_iteration_error_ne_parity M P SL i st' h2

/-- The error of a build with one superlayer and one ring is that of its ring. -/
theorem build_layer_error_single (M : MathOps R) (P : Params R) (h1 : P.nSuperLayer = 1)
    (h2 : P.nRing = 1) :
    (build_layer M P).error = (ring_iteration M P 0 0 (first_ring M P).entry).error := by
  have e1 : P.nSuperLayer.toNat = 0 + 1 := by rw [h1]; rfl
  have e2 : P.nRing.toNat = 0 + 1 := by rw [h2]; rfl
  rw [build_layer_error, e1, forLoop_succ]
  show ((superlayer_iteration M P 0 (State.initial P)).andThen
    (fun st => Outcome.ok (st, []))).error = _
  rw [Outcome.andThen_ok_right_error, superlayer_iteration_error, e2, forLoop_succ]
  show ((ring_iteration M P 0 0 (ring_loop_entry M P 0 (State.initial P))).andThen
    (fun st => Outcome.ok (st, []))).error = _
  rw [Outcome.andThen_ok_right_error]
  rfl

/-- The rings of a build with one superlayer and one ring. -/
theorem build_layer_rings_single (M : MathOps R) (P : Params R) (h1 : P.nSuperLayer = 1)
    (h2 : P.nRing = 1) : (build_layer M P).rings = [first_ring M P] := by
  have e1 : P.nSuperLayer.toNat = 0 + 1 := by rw [h1]; rfl
  have e2 : P.nRing.toNat = 0 + 1 := by rw [h2]; rfl
  rw [build_layer_rings, e1, forLoop_succ]
  show ((superlayer_iteration M P 0 (State.initial P)).andThen
    (fun st => Outcome.ok (st, []))).rings = _
  rw [Outcome.andThen_ok_right_rings, superlayer_iteration_rings, e2, forLoop_succ]
  show ((ring_iteration M P 0 0 (ring_loop_entry M P 0 (State.initial P))).andThen
    (fun st => Outcome.ok (st, []))).rings = _
  rw [Outcome.andThen_ok_right_rings, ring_iteration_rings]
  rfl

/-- The wire counts of the first ring. -/
theorem first_ring_nums (M : MathOps R) (P : Params R) :
    (first_ring M P).top.sense_wires.num = P.nSWire ∧
    (first_ring M P).top.field_wires_center.num = P.nSWire ∧
    (first_ring M P).top.field_wires_bottom.num =
      Int.tdiv ((P.nStoFWireRatio - P.nVerticalFWire) * P.nSWire) 2 ∧
    (first_ring M P).top.field_wires_top.num =
      Int.tdiv ((P.nStoFWireRatio - P.nVerticalFWire) * P.nSWire) 2 := by
  have h1 : (first_ring M P).entry.num_wire = P.nSWire := by
    rw [first_ring_num_wire]; simp
  have h2 : (first_ring M P).entry.nFWire1 =
      Int.tdiv ((P.nStoFWireRatio - P.nVerticalFWire) * P.nSWire) 2 := by
    rw [first_ring_nFWire1]; simp [Params.nHorizontalFWire]
  exact ⟨h1, h1, h2, h2⟩

/-- The number of turns of the three field wire loops in a ring that passes
the ratio test with a nonzero number of sense wires. -/
theorem field_wire_turns_of_pass (st : State R) (hN : st.sense_wires.num ≠ 0)
    (hpass : ratio_test st = false) (q : Nat) :
    (sub_phi_indices q (middle_to_bottom_num_wire_ratio st)).length =
      (st.field_wires_bottom.num / st.sense_wires.num).toNat ∧
    (sub_phi_indices q (middle_to_middle_num_wire_ratio st)).length =
      (st.field_wires_center.num / st.sense_wires.num).toNat ∧
    (sub_phi_indices q (middle_to_top_num_wire_ratio st)).length =
      (st.field_wires_top.num / st.sense_wires.num).toNat := by
  have h := (ratio_test_iff st hN).not
  rw [hpass] at h
  simp only [Bool.false_eq_true, not_false_eq_true, not_or, not_not, true_iff] at h
  obtain ⟨⟨hc, hb⟩, ht⟩ := h
  exact ⟨length_sub_phi_indices_of_dvd q _ _ hN hb, length_sub_phi_indices_of_dvd q _ _ hN hc,
    length_sub_phi_indices_of_dvd q _ _ hN ht⟩

/-- The three field wire counts of a ring that passes the ratio test are
multiples of its number of sense wires. -/
theorem dvd_of_pass (st : State R) (hN : st.sense_wires.num ≠ 0)
    (hpass : ratio_test st = false) :
    st.sense_wires.num ∣ st.field_wires_bottom.num ∧
    st.sense_wires.num ∣ st.field_wires_center.num ∧
    st.sense_wires.num ∣ st.field_wires_top.num := by
  have h := (ratio_test_iff st hN).not
  rw [hpass] at h
  simp only [Bool.false_eq_true, not_false_eq_true, not_or, not_not, true_iff] at h
  exact ⟨h.1.2, h.1.1, h.2⟩

/-! ## Facts about the concrete instances -/

theorem oddProduct_first_ring_mem :
    first_ring exampleMath oddProductParams ∈ (build_layer exampleMath oddProductParams).rings :=
  first_ring_mem exampleMath oddProductParams (by decide) (by decide)

theorem oddProduct_first_ring_fails :
    (ring_iteration exampleMath oddProductParams 0 0
      (first_ring exampleMath oddProductParams).entry).error = some BuildError.ratio :=
  (ring_iteration_error_ratio exampleMath oddProductParams 0 0 _).mpr
    (first_ring_fails exampleMath oddProductParams (by decide) (by decide))

theorem halfRatio_first_ring_mem :
    first_ring exampleMath halfRatioParams ∈ (build_layer exampleMath halfRatioParams).rings :=
  first_ring_mem exampleMath halfRatioParams (by decide) (by decide)

theorem halfRatio_first_ring_fails :
    (ring_iteration exampleMath halfRatioParams 0 0
      (first_ring exampleMath halfRatioParams).entry).error = some BuildError.ratio :=
  (ring_iteration_error_ratio exampleMath halfRatioParams 0 0 _).mpr
    (first_ring_fails exampleMath halfRatioParams (by decide) (by decide))

theorem acceptScenario_first_ring_mem :
    first_ring exampleMath acceptScenarioParams ∈
      (build_layer exampleMath acceptScenarioParams).rings :=
  first_ring_mem exampleMath acceptScenarioParams (by decide) (by decide)

theorem acceptScenario_first_ring_passes :
    (ring_iteration exampleMath acceptScenarioParams 0 0
      (first_ring exampleMath acceptScenarioParams).entry).error = none :=
  (ring_iteration_error_none exampleMath acceptScenarioParams 0 0 _).mpr
    (first_ring_passes exampleMath acceptScenarioParams (by decide) (by decide))

theorem twoRing_first_ring_mem :
    first_ring exampleMath twoRingParams ∈ (build_layer exampleMath twoRingParams).rings :=
  first_ring_mem exampleMath twoRingParams (by decide) (by decide)

theorem twoRing_second_ring_mem :
    second_ring exampleMath twoRingParams ∈ (build_layer exampleMath twoRingParams).rings :=
  second_ring_mem exampleMath twoRingParams (by decide) (by decide)
    (first_ring_passes exampleMath twoRingParams (by decide) (by decide))

/-! ## The claims -/

/-- C1, evaluated on a configuration with an odd product.  With one
superlayer, one ring, `nSWire = 201`, `nSDeltaWire = 0`, `nStoFWireRatio = 3`
and `nVerticalFWire = 2` the product
`(nStoFWireRatio - nVerticalFWire) * (nSWire + 0 * nSDeltaWire) = 201` is odd,
but `build_layer` does not throw the parity error: it creates, registers and
places the whole-ring volume of ring 0 of superlayer 0 and then throws the
ratio error. -/
theorem odd_product_not_rejected_by_parity_test :
    (oddProductParams.nStoFWireRatio - oddProductParams.nVerticalFWire) *
        (oddProductParams.nSWire + 0 * oddProductParams.nSDeltaWire) % 2 = 1 ∧
    (build_layer exampleMath oddProductParams).error = some BuildError.ratio ∧
    (build_layer exampleMath oddProductParams).error ≠ some BuildError.parity ∧
    VolId.whole_ring_hyperboloid_volume 0 0 ∈
      created (build_layer exampleMath oddProductParams).events ∧
    (wholeHyperboloidVolumeName 0 0, VolId.whole_ring_hyperboloid_volume 0 0) ∈
      registered (build_layer exampleMath oddProductParams).events ∧
    VolId.whole_ring_hyperboloid_volume 0 0 ∈
      placedIn VolId.parentVol (build_layer exampleMath oddProductParams).events := by
  have h := whole_ring_emitted_of_mem exampleMath oddProductParams _ oddProduct_first_ring_mem
  have he := build_layer_error_of_ring exampleMath oddProductParams _ oddProduct_first_ring_mem
    BuildError.ratio oddProduct_first_ring_fails
  exact ⟨by decide, he, build_layer_error_ne_parity _ _, h.1, h.2.1, h.2.2⟩

theorem rejectScenario_first_ring_mem :
    first_ring exampleMath rejectScenarioParams ∈
      (build_layer exampleMath rejectScenarioParams).rings :=
  first_ring_mem exampleMath rejectScenarioParams (by decide) (by decide)

/-- C2, counterexample.  With one superlayer, one ring, `nSWire = 201`,
`nSDeltaWire = 0`, `nStoFWireRatio = 4` and `nVerticalFWire = 2`, `build_layer`
throws no error at all and places volumes: among them the whole-ring volume
of ring 0 in the parent volume. -/
theorem reject_scenario_is_built :
    (build_layer exampleMath rejectScenarioParams).error = none ∧
    (build_layer exampleMath rejectScenarioParams).error ≠ some BuildError.parity ∧
    VolId.whole_ring_hyperboloid_volume 0 0 ∈
      placedIn VolId.parentVol (build_layer exampleMath rejectScenarioParams).events ∧
    placements (build_layer exampleMath rejectScenarioParams).events ≠ [] := by
  have he : (build_layer exampleMath rejectScenarioParams).error = none := by
    rw [build_layer_error_single exampleMath rejectScenarioParams rfl rfl]
    exact (ring_iteration_error_none exampleMath rejectScenarioParams 0 0 _).mpr
      (first_ring_passes exampleMath rejectScenarioParams (by decide) (by decide))
  have h := (whole_ring_emitted_of_mem exampleMath rejectScenarioParams _
    rejectScenario_first_ring_mem).2.2
  refine ⟨he, by rw [he]; simp, h, ?_⟩
  intro h0
  rw [placedIn_eq_map_filter, h0] at h
  simp at h

/-- C2, amended.  With `nSuperLayer = 1`, `nRing = 1`, `nSWire = 201`,
`nSDeltaWire = 0`, `nStoFWireRatio = 4`, `nVerticalFWire = 2` and any other
parameters, the product `(4 - 2) * 201` is even and `build_layer` throws no
error: it goes through the one ring, places its whole-ring volume in the
parent volume and places 201 cells in it. -/
theorem scenario_201_sense_wires (M : MathOps R) (P : Params R) (h1 : P.nSuperLayer = 1)
    (h2 : P.nRing = 1) (h3 : P.nSWire = 201) (h4 : P.nSDeltaWire = 0)
    (h5 : P.nStoFWireRatio = 4) (h6 : P.nVerticalFWire = 2) :
    (P.nStoFWireRatio - P.nVerticalFWire) * (P.nSWire + 0 * P.nSDeltaWire) % 2 = 0 ∧
    (build_layer M P).error = none ∧
    (build_layer M P).rings = [first_ring M P] ∧
    VolId.whole_ring_hyperboloid_volume 0 0 ∈ placedIn VolId.parentVol (build_layer M P).events ∧
    placedIn (VolId.whole_ring_hyperboloid_volume 0 0) (build_layer M P).events =
      (List.range 201).map (VolId.cellID_volume 0 0) := by
  have hr : first_ring M P ∈ (build_layer M P).rings :=
    first_ring_mem M P (by rw [h1]; decide) (by rw [h2]; decide)
  have hpass : ratio_test (first_ring M P).top = false :=
    first_ring_passes M P (by rw [h3]; decide)
      (by rw [Params.nHorizontalFWire, h3, h5, h6]; decide)
  have hN : (first_ring M P).top.sense_wires.num = 201 := by
    rw [(first_ring_nums M P).1, h3]
  refine ⟨by rw [h3, h4, h5, h6]; decide, ?_, build_layer_rings_single M P h1 h2,
    (whole_ring_emitted_of_mem M P _ hr).2.2, ?_⟩
  · rw [build_layer_error_single M P h1 h2]
    exact (ring_iteration_error_none M P 0 0 _).mpr hpass
  · have h := placedIn_whole_ring_build_layer M P _ hr
    rw [hpass, hN] at h
    exact h

/-- The hypotheses of `scenario_201_sense_wires` hold for `rejectScenarioParams`. -/
theorem scenario_201_sense_wires_witness :
    rejectScenarioParams.nSuperLayer = 1 ∧ rejectScenarioParams.nRing = 1 ∧
    rejectScenarioParams.nSWire = 201 ∧ rejectScenarioParams.nSDeltaWire = 0 ∧
    rejectScenarioParams.nStoFWireRatio = 4 ∧ rejectScenarioParams.nVerticalFWire = 2 ∧
    (build_layer exampleMath rejectScenarioParams).error = none ∧
    placedIn (VolId.whole_ring_hyperboloid_volume 0 0)
        (build_layer exampleMath rejectScenarioParams).events =
      (List.range 201).map (VolId.cellID_volume 0 0) :=
  ⟨rfl, rfl, rfl, rfl, rfl, rfl,
    (scenario_201_sense_wires exampleMath rejectScenarioParams rfl rfl rfl rfl rfl rfl).2.1,
    (scenario_201_sense_wires exampleMath rejectScenarioParams rfl rfl rfl rfl rfl rfl).2.2.2.2⟩

/-- C3.  At every ring that `build_layer` goes through with a positive number
`N = nSWire + SL * nSDeltaWire` of sense wires, `sense_wires.num` is `N` and
the ring throws the ratio error if and only if one of
`field_wires_bottom.num`, `field_wires_center.num`, `field_wires_top.num` is
not a multiple of `sense_wires.num`. -/
theorem ratio_error_iff_not_multiple (M : MathOps R) (P : Params R) (r : RingInfo R)
    (hr : r ∈ (build_layer M P).rings)
    (hN : 0 < P.nSWire + (r.SL : Int) * P.nSDeltaWire) :
    r.top.sense_wires.num = P.nSWire + (r.SL : Int) * P.nSDeltaWire ∧
    ((ring_iteration M P r.SL r.iring r.entry).error = some BuildError.ratio ↔
      (¬ r.top.sense_wires.num ∣ r.top.field_wires_bottom.num ∨
       ¬ r.top.sense_wires.num ∣ r.top.field_wires_center.num ∨
       ¬ r.top.sense_wires.num ∣ r.top.field_wires_top.num)) := by
  have h1 := (ring_nums_of_mem M P r hr).1
  refine ⟨h1, ?_⟩
  rw [(ring_error_of_mem M P r hr).2, ratio_test_iff r.top (by rw [h1]; omega)]
  tauto

/-- The first ring of `halfRatioParams` is reached with 200 sense wires. -/
theorem ratio_error_iff_not_multiple_witness :
    first_ring exampleMath halfRatioParams ∈ (build_layer exampleMath halfRatioParams).rings ∧
    (0 : Int) < halfRatioParams.nSWire +
      ((first_ring exampleMath halfRatioParams).SL : Int) * halfRatioParams.nSDeltaWire ∧
    ((ring_iteration exampleMath halfRatioParams (first_ring exampleMath halfRatioParams).SL
        (first_ring exampleMath halfRatioParams).iring
        (first_ring exampleMath halfRatioParams).entry).error = some BuildError.ratio ↔
      (¬ (first_ring exampleMath halfRatioParams).top.sense_wires.num ∣
          (first_ring exampleMath halfRatioParams).top.field_wires_bottom.num ∨
       ¬ (first_ring exampleMath halfRatioParams).top.sense_wires.num ∣
          (first_ring exampleMath halfRatioParams).top.field_wires_center.num ∨
       ¬ (first_ring exampleMath halfRatioParams).top.sense_wires.num ∣
          (first_ring exampleMath halfRatioParams).top.field_wires_top.num)) :=
  ⟨halfRatio_first_ring_mem, by decide,
    (ratio_error_iff_not_multiple exampleMath halfRatioParams _ halfRatio_first_ring_mem
      (by decide)).2⟩

/-- C4, counterexample.  With one superlayer, one ring, `nSWire = 200`,
`nStoFWireRatio = 3` and `nVerticalFWire = 2` the ratio error is thrown at
ring 0 of superlayer 0, and at that moment the volume
`hyperboloid_SL_0_ring_0` has been registered and placed in the parent
volume. -/
theorem ratio_error_with_whole_ring_placed :
    (ring_iteration exampleMath halfRatioParams 0 0
      (first_ring exampleMath halfRatioParams).entry).error = some BuildError.ratio ∧
    (build_layer exampleMath halfRatioParams).error = some BuildError.ratio ∧
    (wholeHyperboloidVolumeName 0 0, VolId.whole_ring_hyperboloid_volume 0 0) ∈
      registered (build_layer exampleMath halfRatioParams).events ∧
    VolId.whole_ring_hyperboloid_volume 0 0 ∈
      placedIn VolId.parentVol (build_layer exampleMath halfRatioParams).events := by
  have h := whole_ring_emitted_of_mem exampleMath halfRatioParams _ halfRatio_first_ring_mem
  exact ⟨halfRatio_first_ring_fails,
    build_layer_error_of_ring exampleMath halfRatioParams _ halfRatio_first_ring_mem
      BuildError.ratio halfRatio_first_ring_fails, h.2.1, h.2.2⟩

/-- C4, amended.  Whenever a ring that `build_layer` goes through throws the
ratio error, the build ends with that error and its last calls are those of
lines 403-603 of that ring: the whole-ring volume of the ring has been
created, registered under its name, placed in the parent volume and tagged
with its superlayer and ring, but no cell of the ring has been created,
nothing has been placed in the whole-ring volume and no wire has been placed
in a cell of the ring. -/
theorem ratio_error_before_cells (M : MathOps R) (P : Params R) (r : RingInfo R)
    (hr : r ∈ (build_layer M P).rings)
    (hthrow : (ring_iteration M P r.SL r.iring r.entry).error = some BuildError.ratio) :
    (build_layer M P).error = some BuildError.ratio ∧
    (∃ pre, (build_layer M P).events = pre ++ ring_geometry_events M P r.SL r.iring r.entry) ∧
    VolId.whole_ring_hyperboloid_volume r.SL r.iring ∈ created (build_layer M P).events ∧
    (wholeHyperboloidVolumeName r.SL r.iring, VolId.whole_ring_hyperboloid_volume r.SL r.iring) ∈
      registered (build_layer M P).events ∧
    VolId.whole_ring_hyperboloid_volume r.SL r.iring ∈
      placedIn VolId.parentVol (build_layer M P).events ∧
    physVolIDs VolId.parentVol (VolId.whole_ring_hyperboloid_volume r.SL r.iring)
        (build_layer M P).events =
      [("superLayer", (r.SL : Int)), ("ring", (r.iring : Int))] ∧
    (created (build_layer M P).events).filter (isCellOf r.SL r.iring) = [] ∧
    placedIn (VolId.whole_ring_hyperboloid_volume r.SL r.iring) (build_layer M P).events = [] ∧
    wirePlacementsInCells r.SL r.iring (build_layer M P).events = [] := by
  have ht : ratio_test r.top = true := (ring_error_of_mem M P r hr).2.mp hthrow
  have hw := whole_ring_emitted_of_mem M P r hr
  refine ⟨build_layer_error_of_ring M P r hr _ hthrow, ?_, hw.1, hw.2.1, hw.2.2,
    physVolIDs_whole_ring_build_layer M P r hr, ?_, ?_, ?_⟩
  · obtain ⟨pre, post, hev, h⟩ := build_layer_ring_segment M P r hr
    refine ⟨pre, ?_⟩
    rw [hev, (h _ hthrow).1, ring_events_of_mem M P r hr, if_pos ht]
    simp
  · rw [created_cells_build_layer M P r hr, if_pos ht]
  · rw [placedIn_whole_ring_build_layer M P r hr, if_pos ht]
  · rw [wirePlacementsInCells_build_layer M P r hr, if_pos ht]

/-- The first ring of `halfRatioParams` throws the ratio error. -/
theorem ratio_error_before_cells_witness :
    first_ring exampleMath halfRatioParams ∈ (build_layer exampleMath halfRatioParams).rings ∧
    (ring_iteration exampleMath halfRatioParams (first_ring exampleMath halfRatioParams).SL
      (first_ring exampleMath halfRatioParams).iring
      (first_ring exampleMath halfRatioParams).entry).error = some BuildError.ratio ∧
    (build_layer exampleMath halfRatioParams).error = some BuildError.ratio ∧
    placedIn (VolId.whole_ring_hyperboloid_volume 0 0)
      (build_layer exampleMath halfRatioParams).events = [] :=
  ⟨halfRatio_first_ring_mem, halfRatio_first_ring_fails,
    (ratio_error_before_cells exampleMath halfRatioParams _ halfRatio_first_ring_mem
      halfRatio_first_ring_fails).1,
    (ratio_error_before_cells exampleMath halfRatioParams _ halfRatio_first_ring_mem
      halfRatio_first_ring_fails).2.2.2.2.2.2.2.1⟩

/-- The wires placed by the whole build in a cell of a ring that passes the
ratio test with a positive number of sense wires. -/
theorem placedIn_cell_of_pass (M : MathOps R) (P : Params R) (r : RingInfo R)
    (hr : r ∈ (build_layer M P).rings) (hN : 0 < r.top.sense_wires.num)
    (hpass : ratio_test r.top = false) (q : Nat) (hq : q < r.top.sense_wires.num.toNat) :
    placedIn (VolId.cellID_volume r.SL r.iring q) (build_layer M P).events =
      r.top.sense_wires.volume ::
        (List.replicate (r.top.field_wires_bottom.num / r.top.sense_wires.num).toNat
            r.top.field_wires_bottom.volume ++
          List.replicate (r.top.field_wires_center.num / r.top.sense_wires.num).toNat
            r.top.field_wires_center.volume ++
          List.replicate (r.top.field_wires_top.num / r.top.sense_wires.num).toNat
            r.top.field_wires_top.volume) := by
  obtain ⟨hb, hc, ht⟩ := field_wire_turns_of_pass r.top (by omega) hpass q
  rw [placedIn_cell_build_layer M P r hr q hq, hpass, hb, hc, ht]
  rfl

/-- C5, counterexample.  With one superlayer, one ring, `nSWire = 200`,
`nSDeltaWire = 0`, `nStoFWireRatio = 4` and `nVerticalFWire = 2` the cell 0 of
ring 0 receives the sense wire and one bottom, one central and one top field
wire, not two of each. -/
theorem accept_scenario_one_field_wire_per_layer :
    (build_layer exampleMath acceptScenarioParams).error = none ∧
    placedIn (VolId.cellID_volume 0 0 0) (build_layer exampleMath acceptScenarioParams).events =
      [ VolId.lvWireVol (WireSite.sense 0 0), VolId.lvWireVol (WireSite.bottom 0 0),
        VolId.lvWireVol (WireSite.center 0 0), VolId.lvWireVol (WireSite.top 0 0) ] := by
  obtain ⟨n1, n2, n3, n4⟩ := first_ring_nums exampleMath acceptScenarioParams
  have hs : (first_ring exampleMath acceptScenarioParams).top.sense_wires.num = 200 := n1
  have hc : (first_ring exampleMath acceptScenarioParams).top.field_wires_center.num = 200 := n2
  have hb : (first_ring exampleMath acceptScenarioParams).top.field_wires_bottom.num = 200 := by
    rw [n3]; decide
  have ht : (first_ring exampleMath acceptScenarioParams).top.field_wires_top.num = 200 := by
    rw [n4]; decide
  have hpass := first_ring_passes exampleMath acceptScenarioParams (by decide) (by decide)
  refine ⟨?_, ?_⟩
  · rw [build_layer_error_single exampleMath acceptScenarioParams rfl rfl]
    exact acceptScenario_first_ring_passes
  · have h := placedIn_cell_of_pass exampleMath acceptScenarioParams _
      acceptScenario_first_ring_mem (by rw [hs]; decide) hpass 0 (by rw [hs]; decide)
    rw [hs, hc, hb, ht] at h
    exact h

/-- C5, amended.  With `nSuperLayer = 1`, `nRing = 1`, `nSWire = 200`,
`nSDeltaWire = 0`, `nStoFWireRatio = 4`, `nVerticalFWire = 2` and any other
parameters, `build_layer` succeeds, goes through one ring and creates exactly
one whole-ring volume, tagged `superLayer = 0` and `ring = 0` and placed in
the parent volume; exactly 200 cells are created and placed in it, and every
cell receives the sense wire and one bottom, one central and one top field
wire (`nFWire1 = (2 * 200) / 2 = 200` bottom and top field wires and 200
central ones: one of each per sense wire). -/
theorem scenario_200_sense_wires (M : MathOps R) (P : Params R) (h1 : P.nSuperLayer = 1)
    (h2 : P.nRing = 1) (h3 : P.nSWire = 200) (_h4 : P.nSDeltaWire = 0)
    (h5 : P.nStoFWireRatio = 4) (h6 : P.nVerticalFWire = 2) :
    (build_layer M P).error = none ∧
    (build_layer M P).rings = [first_ring M P] ∧
    (created (build_layer M P).events).filter isWholeRing =
      [VolId.whole_ring_hyperboloid_volume 0 0] ∧
    physVolIDs VolId.parentVol (VolId.whole_ring_hyperboloid_volume 0 0)
      (build_layer M P).events = [("superLayer", 0), ("ring", 0)] ∧
    VolId.whole_ring_hyperboloid_volume 0 0 ∈ placedIn VolId.parentVol (build_layer M P).events ∧
    (created (build_layer M P).events).filter (isCellOf 0 0) =
      (List.range 200).map (VolId.cellID_volume 0 0) ∧
    placedIn (VolId.whole_ring_hyperboloid_volume 0 0) (build_layer M P).events =
      (List.range 200).map (VolId.cellID_volume 0 0) ∧
    ∀ q, q < 200 →
      placedIn (VolId.cellID_volume 0 0 q) (build_layer M P).events =
        [ VolId.lvWireVol (WireSite.sense 0 0), VolId.lvWireVol (WireSite.bottom 0 0),
          VolId.lvWireVol (WireSite.center 0 0), VolId.lvWireVol (WireSite.top 0 0) ] := by
  have hr : first_ring M P ∈ (build_layer M P).rings :=
    first_ring_mem M P (by rw [h1]; decide) (by rw [h2]; decide)
  have hpass : ratio_test (first_ring M P).top = false :=
    first_ring_passes M P (by rw [h3]; decide)
      (by rw [Params.nHorizontalFWire, h3, h5, h6]; decide)
  obtain ⟨n1, n2, n3, n4⟩ := first_ring_nums M P
  rw [h3] at n1 n2
  rw [h3, h5, h6] at n3 n4
  have hb : (first_ring M P).top.field_wires_bottom.num = 200 := by rw [n3]; decide
  have ht : (first_ring M P).top.field_wires_top.num = 200 := by rw [n4]; decide
  refine ⟨?_, build_layer_rings_single M P h1 h2, ?_, ?_,
    (whole_ring_emitted_of_mem M P _ hr).2.2, ?_, ?_, ?_⟩
  · rw [build_layer_error_single M P h1 h2]
    exact (ring_iteration_error_none M P 0 0 _).mpr hpass
  · rw [created_whole_rings_build_layer, build_layer_rings_single M P h1 h2]; rfl
  · exact physVolIDs_whole_ring_build_layer M P _ hr
  · have h := created_cells_build_layer M P _ hr
    rw [hpass, n1] at h
    exact h
  · have h := placedIn_whole_ring_build_layer M P _ hr
    rw [hpass, n1] at h
    exact h
  · intro q hq
    have h := placedIn_cell_of_pass M P _ hr (by rw [n1]; decide) hpass q
      (by rw [n1]; exact hq)
    rw [n1, n2, hb, ht] at h
    exact h

/-- The hypotheses of `scenario_200_sense_wires` hold for `acceptScenarioParams`. -/
theorem scenario_200_sense_wires_witness :
    acceptScenarioParams.nSuperLayer = 1 ∧ acceptScenarioParams.nRing = 1 ∧
    acceptScenarioParams.nSWire = 200 ∧ acceptScenarioParams.nSDeltaWire = 0 ∧
    acceptScenarioParams.nStoFWireRatio = 4 ∧ acceptScenarioParams.nVerticalFWire = 2 ∧
    (build_layer exampleMath acceptScenarioParams).error = none ∧
    placedIn (VolId.whole_ring_hyperboloid_volume 0 0)
        (build_layer exampleMath acceptScenarioParams).events =
      (List.range 200).map (VolId.cellID_volume 0 0) :=
  ⟨rfl, rfl, rfl, rfl, rfl, rfl,
    (scenario_200_sense_wires exampleMath acceptScenarioParams rfl rfl rfl rfl rfl rfl).1,
    (scenario_200_sense_wires exampleMath acceptScenarioParams rfl rfl rfl rfl rfl
      rfl).2.2.2.2.2.2.1⟩

/-- With exact ratios: at every ring that `build_layer` goes through and that
passes the ratio test with `N = sense_wires.num > 0` sense wires and non-negative ratios
`field_wires_bottom.num / N`, `field_wires_center.num / N` and
`field_wires_top.num / N`: the three ratios are exact, the whole build makes
exactly `N * (1 + r_bottom + r_center + r_top)` placements in the cells of
the ring, and every cell receives the sense wire once, then the bottom field
wire `r_bottom` times, the central one `r_center` times and the top one
`r_top` times (four different wire volumes). -/
theorem wire_placements_in_ring (M : MathOps R) (P : Params R) (r : RingInfo R)
    (hr : r ∈ (build_layer M P).rings) (hN : 0 < r.top.sense_wires.num)
    (hpass : (ring_iteration M P r.SL r.iring r.entry).error = none)
    (hb : 0 ≤ r.top.field_wires_bottom.num / r.top.sense_wires.num)
    (hc : 0 ≤ r.top.field_wires_center.num / r.top.sense_wires.num)
    (ht : 0 ≤ r.top.field_wires_top.num / r.top.sense_wires.num) :
    (r.top.sense_wires.num ∣ r.top.field_wires_bottom.num ∧
      r.top.sense_wires.num ∣ r.top.field_wires_center.num ∧
      r.top.sense_wires.num ∣ r.top.field_wires_top.num) ∧
    ((wirePlacementsInCells r.SL r.iring (build_layer M P).events).length : Int) =
      r.top.sense_wires.num *
        (1 + r.top.field_wires_bottom.num / r.top.sense_wires.num +
          r.top.field_wires_center.num / r.top.sense_wires.num +
          r.top.field_wires_top.num / r.top.sense_wires.num) ∧
    (∀ q, q < r.top.sense_wires.num.toNat →
      placedIn (VolId.cellID_volume r.SL r.iring q) (build_layer M P).events =
        r.top.sense_wires.volume ::
          (List.replicate (r.top.field_wires_bottom.num / r.top.sense_wires.num).toNat
              r.top.field_wires_bottom.volume ++
            List.replicate (r.top.field_wires_center.num / r.top.sense_wires.num).toNat
              r.top.field_wires_center.volume ++
            List.replicate (r.top.field_wires_top.num / r.top.sense_wires.num).toNat
              r.top.field_wires_top.volume)) ∧
    (r.top.sense_wires.volume = VolId.lvWireVol (WireSite.sense r.SL r.iring) ∧
      r.top.field_wires_bottom.volume = VolId.lvWireVol (WireSite.bottom r.SL r.iring) ∧
      r.top.field_wires_center.volume = VolId.lvWireVol (WireSite.center r.SL r.iring) ∧
      r.top.field_wires_top.volume = VolId.lvWireVol (WireSite.top r.SL r.iring)) := by
  have hp : ratio_test r.top = false := (ring_error_of_mem M P r hr).1.mp hpass
  have hN' : r.top.sense_wires.num ≠ 0 := by omega
  refine ⟨dvd_of_pass r.top hN' hp, ?_,
    fun q hq => placedIn_cell_of_pass M P r hr hN hp q hq, ring_volumes_of_mem M P r hr⟩
  rw [wirePlacementsInCells_build_layer M P r hr, hp]
  simp only [Bool.false_eq_true, if_false]
  rw [length_wirePlacementsInCells_cells P r.SL r.iring _ r.top _ _ _
    (fun q => (field_wire_turns_of_pass r.top hN' hp q).1)
    (fun q => (field_wire_turns_of_pass r.top hN' hp q).2.1)
    (fun q => (field_wire_turns_of_pass r.top hN' hp q).2.2)]
  push_cast
  rw [Int.toNat_of_nonneg (le_of_lt hN), Int.toNat_of_nonneg hb, Int.toNat_of_nonneg hc,
    Int.toNat_of_nonneg ht]

theorem acceptScenario_first_ring_nums :
    (first_ring exampleMath acceptScenarioParams).top.sense_wires.num = 200 ∧
    (first_ring exampleMath acceptScenarioParams).top.field_wires_bottom.num = 200 ∧
    (first_ring exampleMath acceptScenarioParams).top.field_wires_center.num = 200 ∧
    (first_ring exampleMath acceptScenarioParams).top.field_wires_top.num = 200 := by
  obtain ⟨n1, n2, n3, n4⟩ := first_ring_nums exampleMath acceptScenarioParams
  exact ⟨n1, by rw [n3]; decide, n2, by rw [n4]; decide⟩

/-- The first ring of `acceptScenarioParams` passes the ratio test with ratios 1, 1 and 1. -/
theorem wire_placements_in_ring_witness :
    first_ring exampleMath acceptScenarioParams ∈
      (build_layer exampleMath acceptScenarioParams).rings ∧
    0 < (first_ring exampleMath acceptScenarioParams).top.sense_wires.num ∧
    ((wirePlacementsInCells 0 0 (build_layer exampleMath acceptScenarioParams).events).length :
        Int) =
      (first_ring exampleMath acceptScenarioParams).top.sense_wires.num *
        (1 + (first_ring exampleMath acceptScenarioParams).top.field_wires_bottom.num /
              (first_ring exampleMath acceptScenarioParams).top.sense_wires.num +
          (first_ring exampleMath acceptScenarioParams).top.field_wires_center.num /
              (first_ring exampleMath acceptScenarioParams).top.sense_wires.num +
          (first_ring exampleMath acceptScenarioParams).top.field_wires_top.num /
              (first_ring exampleMath acceptScenarioParams).top.sense_wires.num) :=
  have hs := acceptScenario_first_ring_nums.1
  have hb := acceptScenario_first_ring_nums.2.1
  have hc := acceptScenario_first_ring_nums.2.2.1
  have ht := acceptScenario_first_ring_nums.2.2.2
  ⟨acceptScenario_first_ring_mem, by rw [hs]; decide,
    (wire_placements_in_ring exampleMath acceptScenarioParams _ acceptScenario_first_ring_mem
      (by rw [hs]; decide) acceptScenario_first_ring_passes (by rw [hs, hb]; decide)
      (by rw [hs, hc]; decide) (by rw [hs, ht]; decide)).2.1⟩

/-- C7.  At every ring that `build_layer` goes through with a positive number
`N = nSWire + SL * nSDeltaWire` of sense wires and that passes the ratio test,
the whole build creates exactly the `N` cells `0, ..., N - 1` of the ring,
places each of them once, in that order, in the whole-ring volume of the ring
(and nothing else), and the placement of the cell `q` carries the tag
`phi = q`. -/
theorem cells_of_ring (M : MathOps R) (P : Params R) (r : RingInfo R)
    (hr : r ∈ (build_layer M P).rings)
    (hN : 0 < P.nSWire + (r.SL : Int) * P.nSDeltaWire)
    (hpass : (ring_iteration M P r.SL r.iring r.entry).error = none) :
    (created (build_layer M P).events).filter (isCellOf r.SL r.iring) =
      (List.range (P.nSWire + (r.SL : Int) * P.nSDeltaWire).toNat).map
        (VolId.cellID_volume r.SL r.iring) ∧
    placedIn (VolId.whole_ring_hyperboloid_volume r.SL r.iring) (build_layer M P).events =
      (List.range (P.nSWire + (r.SL : Int) * P.nSDeltaWire).toNat).map
        (VolId.cellID_volume r.SL r.iring) ∧
    ((placedIn (VolId.whole_ring_hyperboloid_volume r.SL r.iring)
        (build_layer M P).events).length : Int) = P.nSWire + (r.SL : Int) * P.nSDeltaWire ∧
    (∀ q, q < (P.nSWire + (r.SL : Int) * P.nSDeltaWire).toNat →
      List.lookup "phi"
        (physVolIDs (VolId.whole_ring_hyperboloid_volume r.SL r.iring)
          (VolId.cellID_volume r.SL r.iring q) (build_layer M P).events) = some (q : Int)) := by
  have hp : ratio_test r.top = false := (ring_error_of_mem M P r hr).1.mp hpass
  have h1 := (ring_nums_of_mem M P r hr).1
  have hpl := placedIn_whole_ring_build_layer M P r hr
  rw [hp, h1] at hpl
  have hcr := created_cells_build_layer M P r hr
  rw [hp, h1] at hcr
  refine ⟨hcr, hpl, ?_, ?_⟩
  · rw [hpl]
    simp only [Bool.false_eq_true, if_false, List.length_map, List.length_range]
    exact Int.toNat_of_nonneg (le_of_lt hN)
  · intro q hq
    rw [physVolIDs_cell_build_layer M P r hr q (by rw [h1]; exact hq), hp]
    rfl

/-- The first ring of `acceptScenarioParams` passes the ratio test with 200 sense wires. -/
theorem cells_of_ring_witness :
    first_ring exampleMath acceptScenarioParams ∈
      (build_layer exampleMath acceptScenarioParams).rings ∧
    (0 : Int) < acceptScenarioParams.nSWire +
      ((first_ring exampleMath acceptScenarioParams).SL : Int) *
        acceptScenarioParams.nSDeltaWire ∧
    placedIn (VolId.whole_ring_hyperboloid_volume 0 0)
        (build_layer exampleMath acceptScenarioParams).events =
      (List.range 200).map (VolId.cellID_volume 0 0) :=
  ⟨acceptScenario_first_ring_mem, by decide,
    (cells_of_ring exampleMath acceptScenarioParams _ acceptScenario_first_ring_mem (by decide)
      acceptScenario_first_ring_passes).2.1⟩

/-- The stereo angles of the four wires of a ring: the sign of the ring times
the angle `epsilon` with which the ring is entered (bottom field wires and
sense wires) or the angle `epsilon` recomputed at line 524 (central and top
field wires). -/
theorem ring_stereo_of_mem (M : MathOps R) (P : Params R) (r : RingInfo R)
    (hr : r ∈ (build_layer M P).rings) :
    r.top.sign_epsilon = r.entry.sign_epsilon * -1 ∧
    r.top.field_wires_bottom.stereo = ((r.top.sign_epsilon : Int) : R) * r.entry.epsilon ∧
    r.top.sense_wires.stereo = ((r.top.sign_epsilon : Int) : R) * r.entry.epsilon ∧
    r.top.field_wires_center.stereo = ((r.top.sign_epsilon : Int) : R) * r.central.epsilon ∧
    r.top.field_wires_top.stereo = ((r.top.sign_epsilon : Int) : R) * r.central.epsilon := by
  have e := (build_layer_rings_spec M P r hr).1
  refine ⟨?_, ?_, ?_, ?_, ?_⟩
  · conv_lhs => rw [e]
    rfl
  · conv_lhs => rw [e]
    conv_rhs => rw [e]
    rfl
  · conv_lhs => rw [e]
    conv_rhs => rw [e]
    rfl
  · conv_lhs => rw [e]
    conv_rhs => rw [e]
    rfl
  · conv_lhs => rw [e]
    conv_rhs => rw [e]
    rfl

/-- C8.  For every cell `q` of every ring that `build_layer` goes through and
that passes the ratio test, the placement of the cell in the whole-ring
volume carries, in the whole build, exactly the tags `phi = q`,
`hitorigin = 0`, `stereo` and `layerInCell = 0`, where `stereo` is 0 when
the stereo angle `sign_epsilon * epsilon` of the sense wires of the ring is
positive and 1 when it is negative. -/
theorem cell_placement_tags (M : MathOps R) (P : Params R) (r : RingInfo R)
    (hr : r ∈ (build_layer M P).rings)
    (hpass : (ring_iteration M P r.SL r.iring r.entry).error = none)
    (q : Nat) (hq : q < r.top.sense_wires.num.toNat) :
    r.top.sense_wires.stereo = ((r.top.sign_epsilon : Int) : R) * r.entry.epsilon ∧
    physVolIDs (VolId.whole_ring_hyperboloid_volume r.SL r.iring)
        (VolId.cellID_volume r.SL r.iring q) (build_layer M P).events =
      [ ("phi", (q : Int)), ("hitorigin", 0),
        ("stereo", if r.top.sense_wires.stereo > 0 then 0 else 1), ("layerInCell", 0) ] ∧
    (0 < r.top.sense_wires.stereo →
      physVolIDs (VolId.whole_ring_hyperboloid_volume r.SL r.iring)
          (VolId.cellID_volume r.SL r.iring q) (build_layer M P).events =
        [ ("phi", (q : Int)), ("hitorigin", 0), ("stereo", 0), ("layerInCell", 0) ]) ∧
    (r.top.sense_wires.stereo < 0 →
      physVolIDs (VolId.whole_ring_hyperboloid_volume r.SL r.iring)
          (VolId.cellID_volume r.SL r.iring q) (build_layer M P).events =
        [ ("phi", (q : Int)), ("hitorigin", 0), ("stereo", 1), ("layerInCell", 0) ]) := by
  have hp : ratio_test r.top = false := (ring_error_of_mem M P r hr).1.mp hpass
  have h := physVolIDs_cell_build_layer M P r hr q hq
  rw [hp] at h
  simp only [Bool.false_eq_true, if_false] at h
  refine ⟨(ring_stereo_of_mem M P r hr).2.2.1, h, ?_, ?_⟩
  · intro hpos
    rw [h, if_pos hpos]
  · intro hneg
    rw [h, if_neg (not_lt.mpr (le_of_lt hneg))]

/-- The cell 7 of the first ring of `acceptScenarioParams`. -/
theorem cell_placement_tags_witness :
    first_ring exampleMath acceptScenarioParams ∈
      (build_layer exampleMath acceptScenarioParams).rings ∧
    7 < (first_ring exampleMath acceptScenarioParams).top.sense_wires.num.toNat ∧
    physVolIDs (VolId.whole_ring_hyperboloid_volume 0 0) (VolId.cellID_volume 0 0 7)
        (build_layer exampleMath acceptScenarioParams).events =
      [ ("phi", 7), ("hitorigin", 0),
        ("stereo",
          if (first_ring exampleMath acceptScenarioParams).top.sense_wires.stereo > 0 then 0
          else 1),
        ("layerInCell", 0) ] :=
  ⟨acceptScenario_first_ring_mem, by rw [acceptScenario_first_ring_nums.1]; decide,
    (cell_placement_tags exampleMath acceptScenarioParams _ acceptScenario_first_ring_mem
      acceptScenario_first_ring_passes 7
      (by rw [acceptScenario_first_ring_nums.1]; decide)).2.1⟩

/-- C9.  For any two rings `i - 1` and `i` of the same superlayer that
`build_layer` goes through, the value of `sign_epsilon` used for ring `i` is
the opposite of the one used for ring `i - 1`; in each ring this value is the
factor of the stereo angles of the bottom, sense, central and top wires. -/
theorem stereo_sign_alternates (M : MathOps R) (P : Params R) (r1 r2 : RingInfo R)
    (h1 : r1 ∈ (build_layer M P).rings) (h2 : r2 ∈ (build_layer M P).rings)
    (hSL : r2.SL = r1.SL) (hi : r2.iring = r1.iring + 1) :
    r2.top.sign_epsilon = -r1.top.sign_epsilon ∧
    (r1.top.field_wires_bottom.stereo = ((r1.top.sign_epsilon : Int) : R) * r1.entry.epsilon ∧
      r1.top.sense_wires.stereo = ((r1.top.sign_epsilon : Int) : R) * r1.entry.epsilon ∧
      r1.top.field_wires_center.stereo =
        ((r1.top.sign_epsilon : Int) : R) * r1.central.epsilon ∧
      r1.top.field_wires_top.stereo = ((r1.top.sign_epsilon : Int) : R) * r1.central.epsilon) ∧
    (r2.top.field_wires_bottom.stereo = ((r2.top.sign_epsilon : Int) : R) * r2.entry.epsilon ∧
      r2.top.sense_wires.stereo = ((r2.top.sign_epsilon : Int) : R) * r2.entry.epsilon ∧
      r2.top.field_wires_center.stereo =
        ((r2.top.sign_epsilon : Int) : R) * r2.central.epsilon ∧
      r2.top.field_wires_top.stereo = ((r2.top.sign_epsilon : Int) : R) * r2.central.epsilon) := by
  have s1 := ring_stereo_of_mem M P r1 h1
  have s2 := ring_stereo_of_mem M P r2 h2
  have e1 := (build_layer_rings_spec M P r1 h1).2.2.2.2.2
  have e2 := (build_layer_rings_spec M P r2 h2).2.2.2.2.2
  refine ⟨?_, s1.2, s2.2⟩
  rw [s1.1, s2.1, e1, e2, hSL, hi, ← Nat.add_assoc, pow_succ]
  ring

/-- The two rings of `twoRingParams` are reached. -/
theorem stereo_sign_alternates_witness :
    first_ring exampleMath twoRingParams ∈ (build_layer exampleMath twoRingParams).rings ∧
    second_ring exampleMath twoRingParams ∈ (build_layer exampleMath twoRingParams).rings ∧
    (second_ring exampleMath twoRingParams).SL = (first_ring exampleMath twoRingParams).SL ∧
    (second_ring exampleMath twoRingParams).iring =
      (first_ring exampleMath twoRingParams).iring + 1 ∧
    (second_ring exampleMath twoRingParams).top.sign_epsilon =
      -(first_ring exampleMath twoRingParams).top.sign_epsilon :=
  ⟨twoRing_first_ring_mem, twoRing_second_ring_mem, rfl, rfl,
    (stereo_sign_alternates exampleMath twoRingParams _ _ twoRing_first_ring_mem
      twoRing_second_ring_mem rfl rfl).1⟩

/-- C10, counterexample.  With one superlayer and one ring, ring 0 of
superlayer 0 is built with `sign_epsilon = +1`, not `-1`: the variable is
initialised to `-1` and flipped at line 406 before its first use. -/
theorem first_ring_sign_is_plus_one :
    first_ring exampleMath acceptScenarioParams ∈
      (build_layer exampleMath acceptScenarioParams).rings ∧
    (first_ring exampleMath acceptScenarioParams).SL = 0 ∧
    (first_ring exampleMath acceptScenarioParams).iring = 0 ∧
    (first_ring exampleMath acceptScenarioParams).top.sign_epsilon = 1 ∧
    (first_ring exampleMath acceptScenarioParams).top.sign_epsilon ≠ -1 ∧
    (first_ring exampleMath acceptScenarioParams).top.sense_wires.stereo =
      ((1 : Int) : ℚ) * (first_ring exampleMath acceptScenarioParams).entry.epsilon := by
  have hs : (first_ring exampleMath acceptScenarioParams).top.sign_epsilon = 1 := by
    have h := ring_stereo_of_mem exampleMath acceptScenarioParams _ acceptScenario_first_ring_mem
    have e := (build_layer_rings_spec exampleMath acceptScenarioParams _
      acceptScenario_first_ring_mem).2.2.2.2.2
    rw [h.1, e]; rfl
  have h := ring_stereo_of_mem exampleMath acceptScenarioParams _ acceptScenario_first_ring_mem
  refine ⟨acceptScenario_first_ring_mem, rfl, rfl, hs, by rw [hs]; decide, ?_⟩
  rw [h.2.2.1, hs]

/-- C10, amended.  For every ring 0 that `build_layer` goes through, in
superlayer `SL`, the value of `sign_epsilon` used for the ring is
`(-1) ^ (SL * nRing)`: it is `+1` in superlayer 0, and it depends on the
parity of the number of rings of the earlier superlayers, because the variable
is set to `-1` once before the loop over the superlayers and is flipped at the
start of every ring. -/
theorem ring_zero_sign (M : MathOps R) (P : Params R) (r : RingInfo R)
    (hr : r ∈ (build_layer M P).rings) (h0 : r.iring = 0) :
    r.top.sign_epsilon = (-1) ^ (r.SL * P.nRing.toNat) ∧
    (r.SL = 0 → r.top.sign_epsilon = 1) ∧
    r.top.sense_wires.stereo = ((r.top.sign_epsilon : Int) : R) * r.entry.epsilon := by
  have s := ring_stereo_of_mem M P r hr
  have e := (build_layer_rings_spec M P r hr).2.2.2.2.2
  have hs : r.top.sign_epsilon = (-1) ^ (r.SL * P.nRing.toNat) := by
    rw [s.1, e, h0]; simp
  refine ⟨hs, ?_, s.2.2.1⟩
  intro hSL
  rw [hs, hSL]; simp

/-- The first ring of `acceptScenarioParams` is a ring 0. -/
theorem ring_zero_sign_witness :
    first_ring exampleMath acceptScenarioParams ∈
      (build_layer exampleMath acceptScenarioParams).rings ∧
    (first_ring exampleMath acceptScenarioParams).iring = 0 ∧
    (first_ring exampleMath acceptScenarioParams).top.sign_epsilon =
      (-1) ^ ((first_ring exampleMath acceptScenarioParams).SL *
        acceptScenarioParams.nRing.toNat) :=
  ⟨acceptScenario_first_ring_mem, rfl,
    (ring_zero_sign exampleMath acceptScenarioParams _ acceptScenario_first_ring_mem rfl).1⟩

/-! ## Splitting a loop -/

theorem Outcome.ok_andThen (st : State R) (f : State R → Outcome R) :
    (Outcome.ok (st, [])).andThen f = f st := by
  simp [Outcome.andThen, Outcome.ok]

theorem Outcome.andThen_assoc (a : Outcome R) (f g : State R → Outcome R) :
    (a.andThen f).andThen g = a.andThen (fun s => (f s).andThen g) := by
  cases ha : a.error with
  | some e =>
    rw [Outcome.andThen_of_error_some a f e ha, Outcome.andThen_of_error_some a g e ha,
      Outcome.andThen_of_error_some a _ e ha]
  | none =>
    rw [Outcome.andThen_of_error_none a f ha, Outcome.andThen_of_error_none a _ ha]
    have hf : ∀ o : Option BuildError, (f a.st).error = o →
        (Outcome.mk (f a.st).st (a.events ++ (f a.st).events) (a.rings ++ (f a.st).rings)
          (f a.st).error).andThen g =
        Outcome.mk ((f a.st).andThen g).st (a.events ++ ((f a.st).andThen g).events)
          (a.rings ++ ((f a.st).andThen g).rings) ((f a.st).andThen g).error := by
      intro o ho
      subst ho
      cases hfe : (f a.st).error <;> simp [Outcome.andThen, hfe]
    exact hf _ rfl

/-- A loop of `a + b` iterations is a loop of `a` iterations followed by a loop
of `b` iterations. -/
theorem forLoop_add (body : Nat → State R → Outcome R) :
    ∀ (a i b : Nat) (st : State R),
      forLoop body i (a + b) st = (forLoop body i a st).andThen (forLoop body (i + a) b) := by
  intro a
  induction a with
  | zero => intro i b st; rw [forLoop_zero, Outcome.ok_andThen]; simp
  | succ a ih =>
    intro i b st
    rw [Nat.add_right_comm a 1 b, forLoop_succ, forLoop_succ, Outcome.andThen_assoc]
    congr 1
    funext s
    rw [ih (i + 1) b s, Nat.add_assoc i 1 a, Nat.add_comm 1 a]

theorem forLoop_one (body : Nat → State R → Outcome R) (i : Nat) (st : State R) :
    forLoop body i 1 st = body i st := by
  rw [forLoop_succ]
  cases h : (body i st).error with
  | some e => rw [Outcome.andThen_of_error_some _ _ e h]
  | none =>
    rw [Outcome.andThen_of_error_none _ _ h]
    simp [forLoop_zero, Outcome.ok, ← h]

/-- The last iteration of a loop taken apart. -/
theorem forLoop_succ_last (body : Nat → State R → Outcome R) (i n : Nat) (st : State R) :
    forLoop body i (n + 1) st = (forLoop body i n st).andThen (body (i + n)) := by
  rw [forLoop_add body n i 1 st]
  congr 1
  funext s
  exact forLoop_one body (i + n) s

/-- A ring recorded by a loop was recorded by its iteration `i + k`, for some
`k`, started from the locals left by the `k` iterations before, none of which
threw. -/
theorem forLoop_mem_rings_reached (body : Nat → State R → Outcome R) :
    ∀ (n i : Nat) (st : State R), ∀ r ∈ (forLoop body i n st).rings,
      ∃ k, k < n ∧ (forLoop body i k st).error = none ∧
        r ∈ (body (i + k) (forLoop body i k st).st).rings := by
  intro n
  induction n with
  | zero => intro i st r hr; simp [forLoop_zero, Outcome.ok] at hr
  | succ n ih =>
    intro i st r hr
    rw [forLoop_succ] at hr
    have h0 : ∀ r ∈ (body i st).rings, ∃ k, k < n + 1 ∧ (forLoop body i k st).error = none ∧
        r ∈ (body (i + k) (forLoop body i k st).st).rings :=
      fun r hr => ⟨0, Nat.succ_pos n, rfl, hr⟩
    cases hb : (body i st).error with
    | some e =>
      rw [Outcome.andThen_of_error_some _ _ e hb] at hr
      exact h0 r hr
    | none =>
      rw [Outcome.andThen_of_error_none _ _ hb] at hr
      simp only [List.mem_append] at hr
      rcases hr with hr | hr
      · exact h0 r hr
      · obtain ⟨k, hk, he, hm⟩ := ih (i + 1) _ r hr
        refine ⟨k + 1, by omega, ?_, ?_⟩
        · rw [forLoop_succ, Outcome.andThen_of_error_none _ _ hb]; exact he
        · rw [forLoop_succ, Outcome.andThen_of_error_none _ _ hb]
          rw [Nat.add_assoc, Nat.add_comm 1 k] at hm
          exact hm

/-! ## Loops that do not throw -/

theorem Outcome.andThen_error_none (a : Outcome R) (f : State R → Outcome R)
    (h : (a.andThen f).error = none) : a.error = none ∧ (f a.st).error = none := by
  cases ha : a.error with
  | some e => rw [Outcome.andThen_of_error_some a f e ha, ha] at h; exact absurd h (by simp)
  | none => rw [Outcome.andThen_of_error_none a f ha] at h; exact ⟨rfl, h⟩

/-- A loop that did not throw did not throw in its first `k` iterations. -/
theorem forLoop_error_of_le (body : Nat → State R → Outcome R) (i n : Nat) (st : State R)
    (h : (forLoop body i n st).error = none) (k : Nat) (hk : k ≤ n) :
    (forLoop body i k st).error = none := by
  obtain ⟨m, rfl⟩ : ∃ m, n = k + m := ⟨n - k, by omega⟩
  rw [forLoop_add] at h
  exact (Outcome.andThen_error_none _ _ h).1

theorem forLoop_succ_last_st (body : Nat → State R → Outcome R) (i n : Nat) (st : State R)
    (h : (forLoop body i n st).error = none) :
    (forLoop body i (n + 1) st).st = (body (i + n) (forLoop body i n st).st).st := by
  rw [forLoop_succ_last, Outcome.andThen_of_error_none _ _ h]

theorem forLoop_succ_last_error (body : Nat → State R → Outcome R) (i n : Nat) (st : State R)
    (h : (forLoop body i n st).error = none) :
    (forLoop body i (n + 1) st).error = (body (i + n) (forLoop body i n st).st).error := by
  rw [forLoop_succ_last, Outcome.andThen_of_error_none _ _ h]

theorem forLoop_succ_last_events (body : Nat → State R → Outcome R) (i n : Nat) (st : State R)
    (h : (forLoop body i n st).error = none) :
    (forLoop body i (n + 1) st).events =
      (forLoop body i n st).events ++ (body (i + n) (forLoop body i n st).st).events := by
  rw [forLoop_succ_last, Outcome.andThen_of_error_none _ _ h]

theorem forLoop_succ_last_rings (body : Nat → State R → Outcome R) (i n : Nat) (st : State R)
    (h : (forLoop body i n st).error = none) :
    (forLoop body i (n + 1) st).rings =
      (forLoop body i n st).rings ++ (body (i + n) (forLoop body i n st).st).rings := by
  rw [forLoop_succ_last, Outcome.andThen_of_error_none _ _ h]

/-- Every iteration of a loop that did not throw ran without throwing, from
the locals left by the iterations before it. -/
theorem forLoop_error_step (body : Nat → State R → Outcome R) (i n : Nat) (st : State R)
    (h : (forLoop body i n st).error = none) (k : Nat) (hk : k < n) :
    (body (i + k) (forLoop body i k st).st).error = none := by
  have h1 := forLoop_error_of_le body i n st h (k + 1) hk
  rwa [forLoop_succ_last_error body i k st (forLoop_error_of_le body i n st h k (by omega))] at h1

/-- A loop none of whose iterations throws does not throw. -/
theorem forLoop_error_none_of_steps (body : Nat → State R → Outcome R) (i : Nat) (st : State R) :
    ∀ n : Nat, (∀ k, k < n → (forLoop body i k st).error = none →
        (body (i + k) (forLoop body i k st).st).error = none) →
      (forLoop body i n st).error = none := by
  intro n
  induction n with
  | zero => intro _; rfl
  | succ n ih =>
    intro h
    have h1 := ih (fun k hk => h k (by omega))
    rw [forLoop_succ_last_error body i n st h1]
    exact h n (by omega) h1

/-- The calls of a loop that did not throw are those of its iterations, in order. -/
theorem forLoop_events_of_ok (body : Nat → State R → Outcome R) (i : Nat) (st : State R) :
    ∀ n : Nat, (forLoop body i n st).error = none →
      (forLoop body i n st).events =
        (List.range n).flatMap (fun k => (body (i + k) (forLoop body i k st).st).events) := by
  intro n
  induction n with
  | zero => intro _; rfl
  | succ n ih =>
    intro h
    have h1 := forLoop_error_of_le body i (n + 1) st h n (by omega)
    rw [forLoop_succ_last_events body i n st h1, ih h1, List.range_succ, List.flatMap_append]
    simp

/-- The rings of a loop that did not throw are those of its iterations, in order. -/
theorem forLoop_rings_of_ok (body : Nat → State R → Outcome R) (i : Nat) (st : State R) :
    ∀ n : Nat, (forLoop body i n st).error = none →
      (forLoop body i n st).rings =
        (List.range n).flatMap (fun k => (body (i + k) (forLoop body i k st).st).rings) := by
  intro n
  induction n with
  | zero => intro _; rfl
  | succ n ih =>
    intro h
    have h1 := forLoop_error_of_le body i (n + 1) st h n (by omega)
    rw [forLoop_succ_last_rings body i n st h1, ih h1, List.range_succ, List.flatMap_append]
    simp

/-! ## The locals at the entry of a ring -/

theorem superlayer_entry_zero (M : MathOps R) (P : Params R) :
    superlayer_entry M P 0 = State.initial P := rfl

theorem ring_entry_zero (M : MathOps R) (P : Params R) (SL : Nat) :
    ring_entry M P SL 0 = ring_loop_entry M P SL (superlayer_entry M P SL) := rfl

/-- The loop over the rings of superlayer `SL` when the build reaches it. -/
theorem superlayer_iteration_error_entry (M : MathOps R) (P : Params R) (SL : Nat) :
    (superlayer_iteration M P SL (superlayer_entry M P SL)).error =
      (forLoop (ring_iteration M P SL) 0 P.nRing.toNat (ring_entry M P SL 0)).error :=
  superlayer_iteration_error M P SL _

theorem ring_entry_succ (M : MathOps R) (P : Params R) (SL iring : Nat)
    (h : (forLoop (ring_iteration M P SL) 0 iring (ring_entry M P SL 0)).error = none) :
    ring_entry M P SL (iring + 1) = (ring_iteration M P SL iring (ring_entry M P SL iring)).st := by
  unfold ring_entry
  have h1 := forLoop_succ_last_st (ring_iteration M P SL) 0 iring _ h
  rw [Nat.zero_add] at h1
  exact h1

theorem superlayer_entry_succ (M : MathOps R) (P : Params R) (SL : Nat)
    (h : (forLoop (superlayer_iteration M P) 0 (SL + 1) (State.initial P)).error = none) :
    superlayer_entry M P (SL + 1) =
      (last_superlayer_block M P SL (ring_entry M P SL P.nRing.toNat)).1 := by
  have h0 := forLoop_error_of_le _ 0 _ _ h SL (by omega)
  have h1 := forLoop_succ_last_st (superlayer_iteration M P) 0 SL _ h0
  have h2 := forLoop_succ_last_error (superlayer_iteration M P) 0 SL _ h0
  rw [Nat.zero_add] at h1 h2
  rw [h] at h2
  unfold superlayer_entry
  rw [h1]
  exact superlayer_iteration_st M P SL _ h2.symm

/-- Where a ring of the build sits in the loops: the superlayers before its own,
and the rings before it in its own superlayer, ran without throwing, and the
ring was entered with the locals they left. -/
theorem ring_position (M : MathOps R) (P : Params R) (r : RingInfo R)
    (hr : r ∈ (build_layer M P).rings) :
    r.SL < P.nSuperLayer.toNat ∧ r.iring < P.nRing.toNat ∧
    (forLoop (superlayer_iteration M P) 0 r.SL (State.initial P)).error = none ∧
    (forLoop (ring_iteration M P r.SL) 0 r.iring (ring_entry M P r.SL 0)).error = none ∧
    r = ring_info M P r.SL r.iring (ring_entry M P r.SL r.iring) := by
  rw [build_layer_rings] at hr
  obtain ⟨k, hk, hek, hm⟩ := forLoop_mem_rings_reached _ _ _ _ r hr
  rw [Nat.zero_add, superlayer_iteration_rings] at hm
  obtain ⟨j, hj, hej, hm2⟩ := forLoop_mem_rings_reached _ _ _ _ r hm
  rw [Nat.zero_add, ring_iteration_rings, List.mem_singleton] at hm2
  have e1 : r.SL = k := by rw [hm2]; rfl
  have e2 : r.iring = j := by rw [hm2]; rfl
  rw [e1, e2]
  exact ⟨hk, hj, hek, hej, hm2⟩

theorem ring_entry_of_mem (M : MathOps R) (P : Params R) (r : RingInfo R)
    (hr : r ∈ (build_layer M P).rings) : r.entry = ring_entry M P r.SL r.iring := by
  have h := (ring_position M P r hr).2.2.2.2
  conv_lhs => rw [h]
  rfl

/-! ## Builds that do not throw -/

theorem build_layer_ok_superlayer (M : MathOps R) (P : Params R)
    (h : (build_layer M P).error = none) (SL : Nat) (hSL : SL < P.nSuperLayer.toNat) :
    (forLoop (ring_iteration M P SL) 0 P.nRing.toNat (ring_entry M P SL 0)).error = none := by
  rw [build_layer_error] at h
  have h1 := forLoop_error_step _ 0 _ _ h SL hSL
  rw [Nat.zero_add] at h1
  rw [← superlayer_iteration_error_entry]
  exact h1

theorem build_layer_ok_ring (M : MathOps R) (P : Params R)
    (h : (build_layer M P).error = none) (SL iring : Nat) (hSL : SL < P.nSuperLayer.toNat)
    (hi : iring < P.nRing.toNat) :
    (ring_iteration M P SL iring (ring_entry M P SL iring)).error = none := by
  have h1 := forLoop_error_step _ 0 _ _ (build_layer_ok_superlayer M P h SL hSL) iring hi
  rw [Nat.zero_add] at h1
  exact h1

/-- The rings of a build that does not throw: one for every pair `(SL, iring)`
of the two loops, in the order of the loops. -/
theorem build_layer_rings_of_ok (M : MathOps R) (P : Params R)
    (h : (build_layer M P).error = none) :
    (build_layer M P).rings =
      (List.range P.nSuperLayer.toNat).flatMap (fun SL =>
        (List.range P.nRing.toNat).map (fun iring =>
          ring_info M P SL iring (ring_entry M P SL iring))) := by
  have h0 := h
  rw [build_layer_error] at h0
  rw [build_layer_rings, forLoop_rings_of_ok _ _ _ _ h0]
  apply List.flatMap_congr
  intro SL hSL
  rw [List.mem_range] at hSL
  rw [Nat.zero_add, superlayer_iteration_rings]
  have h1 := build_layer_ok_superlayer M P h SL hSL
  rw [ring_entry_zero] at h1
  change (forLoop (ring_iteration M P SL) 0 P.nRing.toNat
    (ring_loop_entry M P SL (superlayer_entry M P SL))).rings = _
  rw [forLoop_rings_of_ok _ _ _ _ h1, List.map_eq_flatMap]
  apply List.flatMap_congr
  intro iring _
  rw [Nat.zero_add, ring_iteration_rings]
  rfl

/-! ## The radii of one ring -/

theorem ring_info_bottom_radii (M : MathOps R) (P : Params R) (SL iring : Nat) (st : State R) :
    (ring_info M P SL iring st).bottom.radius_ringIn_0 = st.radius_ringOut_0 ∧
    (ring_info M P SL iring st).bottom.radius_ringOut_0 =
      st.radius_ringOut_0 + P.FWireDiameter + 2 * P.secure ∧
    (ring_info M P SL iring st).bottom.radius_ringOut =
      st.radius_ringOut_0 + P.FWireDiameter + 2 * P.secure + st.drop ∧
    (ring_info M P SL iring st).bottom.drop = st.drop ∧
    (ring_info M P SL iring st).bottom.radius_ringIn_whole_cell = st.radius_ringOut_0 :=
  ⟨rfl, rfl, rfl, rfl, rfl⟩

theorem ring_info_central_radii (M : MathOps R) (P : Params R) (SL iring : Nat) (st : State R) :
    (ring_info M P SL iring st).central.radius_ring_0 = st.radius_ring_0 + st.delta_radius_ring ∧
    (ring_info M P SL iring st).central.drop =
      (st.radius_ring_0 + st.delta_radius_ring) * st.dropFactor ∧
    (ring_info M P SL iring st).central.radius_ringIn_0 =
      st.radius_ringOut_0 + P.FWireDiameter + 2 * P.secure ∧
    (ring_info M P SL iring st).central.radius_ringOut_0 =
      st.radius_ring_0 + st.delta_radius_ring - P.FWireDiameter - 2 * P.secure ∧
    (ring_info M P SL iring st).central.radius_ringOut =
      st.radius_ring_0 + st.delta_radius_ring - P.FWireDiameter - 2 * P.secure +
        (st.radius_ring_0 + st.delta_radius_ring) * st.dropFactor :=
  ⟨rfl, rfl, rfl, rfl, rfl⟩

theorem ring_info_upper_radii (M : MathOps R) (P : Params R) (SL iring : Nat) (st : State R) :
    (ring_info M P SL iring st).upper.radius_ringIn_0 =
      st.radius_ring_0 + st.delta_radius_ring - P.FWireDiameter - 2 * P.secure ∧
    (ring_info M P SL iring st).upper.radius_ringOut_0 =
      st.radius_ring_0 + st.delta_radius_ring - P.FWireDiameter - 2 * P.secure +
        P.FWireDiameter + 2 * P.secure ∧
    (ring_info M P SL iring st).upper.radius_ringOut =
      st.radius_ring_0 + st.delta_radius_ring - P.FWireDiameter - 2 * P.secure +
        P.FWireDiameter + 2 * P.secure + (st.radius_ring_0 + st.delta_radius_ring) * st.dropFactor ∧
    (ring_info M P SL iring st).upper.drop =
      (st.radius_ring_0 + st.delta_radius_ring) * st.dropFactor ∧
    (ring_info M P SL iring st).upper.radius_ringIn_whole_cell = st.radius_ringOut_0 :=
  ⟨rfl, rfl, rfl, rfl, rfl⟩

theorem ring_info_top_radii (M : MathOps R) (P : Params R) (SL iring : Nat) (st : State R) :
    (ring_info M P SL iring st).top.radius_ring_0 = st.radius_ring_0 + st.delta_radius_ring ∧
    (ring_info M P SL iring st).top.radius_ringOut_0 =
      st.radius_ring_0 + st.delta_radius_ring - P.FWireDiameter - 2 * P.secure +
        P.FWireDiameter + 2 * P.secure ∧
    (ring_info M P SL iring st).top.delta_radius_ring = st.delta_radius_ring ∧
    (ring_info M P SL iring st).top.scaleFactor = st.scaleFactor :=
  ⟨rfl, rfl, rfl, rfl⟩

/-- What one ring leaves in the locals that carry the radii from ring to ring. -/
theorem ring_iteration_radii (M : MathOps R) (P : Params R) (SL iring : Nat) (st : State R) :
    (ring_iteration M P SL iring st).st.radius_ring_0 = st.radius_ring_0 + st.delta_radius_ring ∧
    (ring_iteration M P SL iring st).st.radius_ringOut_0 =
      st.radius_ring_0 + st.delta_radius_ring - P.FWireDiameter - 2 * P.secure +
        P.FWireDiameter + 2 * P.secure ∧
    (ring_iteration M P SL iring st).st.scaleFactor = st.scaleFactor := by
  unfold ring_iteration; dsimp only; split <;> exact ⟨rfl, rfl, rfl⟩

/-- Line 685: a ring that passes the ratio test multiplies the pitch by `scaleFactor`. -/
theorem ring_iteration_delta_radius_ring (M : MathOps R) (P : Params R) (SL iring : Nat)
    (st : State R) (h : (ring_iteration M P SL iring st).error = none) :
    (ring_iteration M P SL iring st).st.delta_radius_ring =
      st.delta_radius_ring * st.scaleFactor := by
  rw [ring_iteration_st_of_pass M P SL iring st ((ring_iteration_error_none M P SL iring st).mp h)]
  rfl

/-! ## The locals at the start of the loop over the rings -/

theorem ring_loop_entry_scaleFactor (M : MathOps R) (P : Params R) (SL : Nat) (st : State R) :
    (ring_loop_entry M P SL st).scaleFactor =
      (1 + M.pi / ((P.nSWire + (SL : Int) * P.nSDeltaWire : Int) : R)) /
        (1 - M.pi / ((P.nSWire + (SL : Int) * P.nSDeltaWire : Int) : R)) := by
  unfold ring_loop_entry first_superlayer_block; split <;> rfl

/-- In superlayer 0 the loop over the rings starts with the pitch `cellDimension`
if the superlayer is entered with it, and with equal `radius_ring_0` and
`radius_ringOut_0`: the outer radius of `lvLayer_0`. -/
theorem ring_loop_entry_zero_radii (M : MathOps R) (P : Params R) (st : State R) :
    (ring_loop_entry M P 0 st).delta_radius_ring = st.delta_radius_ring ∧
    (ring_loop_entry M P 0 st).radius_ring_0 = st.radius_ring_0 + P.FWradii ∧
    (ring_loop_entry M P 0 st).radius_ringOut_0 = st.radius_ring_0 + P.FWradii :=
  ⟨rfl, rfl, rfl⟩

/-- In a superlayer other than the first, line 390 derives the pitch from
`radius_ringOut_0`, and the radii are those with which the superlayer is
entered. -/
theorem ring_loop_entry_succ_radii (M : MathOps R) (P : Params R) (SL : Nat) (st : State R) :
    (ring_loop_entry M P (SL + 1) st).delta_radius_ring =
      2 * M.pi * st.radius_ringOut_0 /
        (((P.nSWire + ((SL + 1 : Nat) : Int) * P.nSDeltaWire : Int) : R) - M.pi) ∧
    (ring_loop_entry M P (SL + 1) st).radius_ring_0 = st.radius_ring_0 ∧
    (ring_loop_entry M P (SL + 1) st).radius_ringOut_0 = st.radius_ringOut_0 :=
  ⟨rfl, rfl, rfl⟩

/-- The last-superlayer block does nothing in a superlayer that is not the last. -/
theorem last_superlayer_block_of_ne (M : MathOps R) (P : Params R) (SL : Nat) (st : State R)
    (h : (SL : Int) ≠ P.nSuperLayer - 1) : last_superlayer_block M P SL st = (st, []) := by
  unfold last_superlayer_block; rw [if_neg h]

theorem last_superlayer_block_of_eq (M : MathOps R) (P : Params R) (SL : Nat) (st : State R)
    (h : (SL : Int) = P.nSuperLayer - 1) :
    last_superlayer_block M P SL st =
      ((outer_guard_ring M P (outer_field_layer M P SL st).1).1,
        (outer_field_layer M P SL st).2 ++
          (outer_guard_ring M P (outer_field_layer M P SL st).1).2) := by
  unfold last_superlayer_block; rw [if_pos h]

theorem first_superlayer_block_zero (M : MathOps R) (P : Params R) (st : State R) :
    first_superlayer_block M P 0 st =
      ((initial_field_layer M P 0 (inner_guard_ring M P st).1).1,
        (inner_guard_ring M P st).2 ++ (initial_field_layer M P 0 (inner_guard_ring M P st).1).2) :=
  rfl

theorem first_superlayer_block_succ_events (M : MathOps R) (P : Params R) (SL : Nat)
    (st : State R) : (first_superlayer_block M P (SL + 1) st).2 = [] := rfl

/-! ## Invariants of the locals -/

theorem Outcome.andThen_st_cases (a : Outcome R) (f : State R → Outcome R) :
    (a.andThen f).st = a.st ∨ (a.andThen f).st = (f a.st).st := by
  cases ha : a.error with
  | some e => rw [Outcome.andThen_of_error_some a f e ha]; exact Or.inl rfl
  | none => rw [Outcome.andThen_of_error_none a f ha]; exact Or.inr rfl

/-- A property of the locals that every iteration keeps holds when the loop is
left, by its end or by an exception. -/
theorem forLoop_st_invariant (body : Nat → State R → Outcome R) (Inv : State R → Prop)
    (hbody : ∀ i st, Inv st → Inv (body i st).st) :
    ∀ (n i : Nat) (st : State R), Inv st → Inv (forLoop body i n st).st := by
  intro n
  induction n with
  | zero => intro i st h; exact h
  | succ n ih =>
    intro i st h
    rw [forLoop_succ]
    rcases Outcome.andThen_st_cases (body i st) (forLoop body (i + 1) n) with e | e
    · rw [e]; exact hbody i st h
    · rw [e]; exact ih (i + 1) _ (hbody i st h)

theorem Outcome.mem_andThen_rings (a : Outcome R) (f : State R → Outcome R) (r : RingInfo R)
    (h : r ∈ a.rings) : r ∈ (a.andThen f).rings := by
  cases ha : a.error with
  | some e => rw [Outcome.andThen_of_error_some a f e ha]; exact h
  | none => rw [Outcome.andThen_of_error_none a f ha]; exact List.mem_append_left _ h

/-- The rings of an iteration that is reached are rings of the loop. -/
theorem forLoop_rings_mem_of_reached (body : Nat → State R → Outcome R) (i n : Nat)
    (st : State R) (k : Nat) (hk : k < n) (h : (forLoop body i k st).error = none)
    (r : RingInfo R) (hr : r ∈ (body (i + k) (forLoop body i k st).st).rings) :
    r ∈ (forLoop body i n st).rings := by
  obtain ⟨m, rfl⟩ : ∃ m, n = (k + 1) + m := ⟨n - (k + 1), by omega⟩
  rw [forLoop_add]
  apply Outcome.mem_andThen_rings
  rw [forLoop_succ_last_rings body i k st h]
  exact List.mem_append_right _ hr

/-- The ring `(SL, iring)` is a ring of the build when the loops reach it. -/
theorem ring_mem_of_reached (M : MathOps R) (P : Params R) (SL iring : Nat)
    (hSL : SL < P.nSuperLayer.toNat) (hi : iring < P.nRing.toNat)
    (h1 : (forLoop (superlayer_iteration M P) 0 SL (State.initial P)).error = none)
    (h2 : (forLoop (ring_iteration M P SL) 0 iring (ring_entry M P SL 0)).error = none) :
    ring_info M P SL iring (ring_entry M P SL iring) ∈ (build_layer M P).rings := by
  rw [build_layer_rings]
  apply forLoop_rings_mem_of_reached _ 0 _ _ SL hSL h1
  rw [Nat.zero_add, superlayer_iteration_rings]
  apply forLoop_rings_mem_of_reached _ 0 _ _ iring hi h2
  rw [Nat.zero_add, ring_iteration_rings]
  exact List.mem_singleton.mpr rfl

theorem ring_entry_num_wire (M : MathOps R) (P : Params R) (SL iring : Nat) :
    (ring_entry M P SL iring).num_wire = P.nSWire + (SL : Int) * P.nSDeltaWire ∧
    (ring_entry M P SL iring).nFWire1 =
      Int.tdiv (P.nHorizontalFWire * (P.nSWire + (SL : Int) * P.nSDeltaWire)) 2 := by
  unfold ring_entry
  refine forLoop_st_invariant (ring_iteration M P SL)
    (fun s => s.num_wire = P.nSWire + (SL : Int) * P.nSDeltaWire ∧
      s.nFWire1 = Int.tdiv (P.nHorizontalFWire * (P.nSWire + (SL : Int) * P.nSDeltaWire)) 2)
    ?_ iring 0 _ ⟨ring_loop_entry_num_wire M P SL _, ring_loop_entry_nFWire1 M P SL _⟩
  intro i st h
  rw [ring_iteration_num_wire, ring_iteration_nFWire1]
  exact h

theorem ring_entry_scaleFactor (M : MathOps R) (P : Params R) (SL iring : Nat) :
    (ring_entry M P SL iring).scaleFactor =
      (1 + M.pi / ((P.nSWire + (SL : Int) * P.nSDeltaWire : Int) : R)) /
        (1 - M.pi / ((P.nSWire + (SL : Int) * P.nSDeltaWire : Int) : R)) := by
  unfold ring_entry
  refine forLoop_st_invariant (ring_iteration M P SL)
    (fun s => s.scaleFactor =
      (1 + M.pi / ((P.nSWire + (SL : Int) * P.nSDeltaWire : Int) : R)) /
        (1 - M.pi / ((P.nSWire + (SL : Int) * P.nSDeltaWire : Int) : R)))
    ?_ iring 0 _ (ring_loop_entry_scaleFactor M P SL _)
  intro i st h
  rw [(ring_iteration_radii M P SL i st).2.2]
  exact h

/-- The rings keep `radius_ring_0` and `radius_ringOut_0` equal. -/
theorem ring_entry_radii_eq (M : MathOps R) (P : Params R) (SL iring : Nat)
    (h : (ring_entry M P SL 0).radius_ring_0 = (ring_entry M P SL 0).radius_ringOut_0) :
    (ring_entry M P SL iring).radius_ring_0 = (ring_entry M P SL iring).radius_ringOut_0 := by
  unfold ring_entry
  refine forLoop_st_invariant (ring_iteration M P SL)
    (fun s => s.radius_ring_0 = s.radius_ringOut_0) ?_ iring 0 _ h
  intro i st _
  rw [(ring_iteration_radii M P SL i st).1, (ring_iteration_radii M P SL i st).2.1]
  ring

/-- A superlayer that is not the last one hands its radii on to the next one. -/
theorem superlayer_entry_succ_of_lt (M : MathOps R) (P : Params R) (SL : Nat)
    (hSL : SL + 1 < P.nSuperLayer.toNat)
    (h : (forLoop (superlayer_iteration M P) 0 (SL + 1) (State.initial P)).error = none) :
    superlayer_entry M P (SL + 1) = ring_entry M P SL P.nRing.toNat := by
  rw [superlayer_entry_succ M P SL h, last_superlayer_block_of_ne M P SL _ (by omega)]

/-- Every loop over the rings starts with equal `radius_ring_0` and
`radius_ringOut_0`. -/
theorem ring_entry_zero_radii_eq (M : MathOps R) (P : Params R) :
    ∀ SL : Nat, SL < P.nSuperLayer.toNat →
      (forLoop (superlayer_iteration M P) 0 SL (State.initial P)).error = none →
      (ring_entry M P SL 0).radius_ring_0 = (ring_entry M P SL 0).radius_ringOut_0 := by
  intro SL
  induction SL with
  | zero =>
    intro _ _
    rw [ring_entry_zero, (ring_loop_entry_zero_radii M P _).2.1,
      (ring_loop_entry_zero_radii M P _).2.2]
  | succ k ih =>
    intro hk h
    have h0 := forLoop_error_of_le _ 0 _ _ h k (by omega)
    rw [ring_entry_zero, (ring_loop_entry_succ_radii M P k _).2.1,
      (ring_loop_entry_succ_radii M P k _).2.2, superlayer_entry_succ_of_lt M P k hk h]
    exact ring_entry_radii_eq M P k _ (ih (by omega) h0)

/-- The invariant at the entry of a ring of the build. -/
theorem ring_radii_eq_of_mem (M : MathOps R) (P : Params R) (r : RingInfo R)
    (hr : r ∈ (build_layer M P).rings) : r.entry.radius_ring_0 = r.entry.radius_ringOut_0 := by
  obtain ⟨h1, _, h3, _, _⟩ := ring_position M P r hr
  rw [ring_entry_of_mem M P r hr]
  exact ring_entry_radii_eq M P r.SL r.iring (ring_entry_zero_radii_eq M P r.SL h1 h3)

/-! ## A sufficient condition for a build that does not throw -/

theorem ring_loop_error_none (M : MathOps R) (P : Params R) (SL : Nat)
    (hN : P.nSWire + (SL : Int) * P.nSDeltaWire ≠ 0)
    (hd : P.nSWire + (SL : Int) * P.nSDeltaWire ∣
      Int.tdiv (P.nHorizontalFWire * (P.nSWire + (SL : Int) * P.nSDeltaWire)) 2) (n : Nat) :
    (forLoop (ring_iteration M P SL) 0 n (ring_entry M P SL 0)).error = none := by
  apply forLoop_error_none_of_steps
  intro k _ _
  rw [Nat.zero_add, ring_iteration_error_none]
  have e := ring_entry_num_wire M P SL k
  apply ratio_test_ring_info_eq_false
  · change (ring_entry M P SL k).num_wire ≠ 0
    rw [e.1]; exact hN
  · change (ring_entry M P SL k).num_wire ∣ (ring_entry M P SL k).nFWire1
    rw [e.1, e.2]; exact hd

/-- The build does not throw when, in every superlayer, the number of sense
wires is not zero and divides `nFWire1`. -/
theorem build_layer_succeeds (M : MathOps R) (P : Params R)
    (h : ∀ SL : Nat, SL < P.nSuperLayer.toNat →
      P.nSWire + (SL : Int) * P.nSDeltaWire ≠ 0 ∧
      P.nSWire + (SL : Int) * P.nSDeltaWire ∣
        Int.tdiv (P.nHorizontalFWire * (P.nSWire + (SL : Int) * P.nSDeltaWire)) 2) :
    (build_layer M P).error = none := by
  rw [build_layer_error]
  apply forLoop_error_none_of_steps
  intro k hk _
  rw [Nat.zero_add]
  exact (superlayer_iteration_error_entry M P k).trans
    (ring_loop_error_none M P k (h k hk).1 (h k hk).2 _)

/-! ## The pitch from ring to ring -/

theorem ring_mem_of_ok (M : MathOps R) (P : Params R) (h : (build_layer M P).error = none)
    (SL iring : Nat) (hSL : SL < P.nSuperLayer.toNat) (hi : iring < P.nRing.toNat) :
    ring_info M P SL iring (ring_entry M P SL iring) ∈ (build_layer M P).rings := by
  have h0 := h
  rw [build_layer_error] at h0
  exact ring_mem_of_reached M P SL iring hSL hi (forLoop_error_of_le _ 0 _ _ h0 SL (by omega))
    (forLoop_error_of_le _ 0 _ _ (build_layer_ok_superlayer M P h SL hSL) iring (by omega))

/-- The pitch with which ring `iring + 1` is entered, when the loop reaches it. -/
theorem ring_entry_succ_delta_radius_ring (M : MathOps R) (P : Params R) (SL iring : Nat)
    (h : (forLoop (ring_iteration M P SL) 0 (iring + 1) (ring_entry M P SL 0)).error = none) :
    (ring_entry M P SL (iring + 1)).delta_radius_ring =
      (ring_entry M P SL iring).delta_radius_ring * (ring_entry M P SL iring).scaleFactor := by
  have h0 := forLoop_error_of_le _ 0 _ _ h iring (by omega)
  have h1 := forLoop_error_step _ 0 _ _ h iring (by omega)
  rw [Nat.zero_add] at h1
  rw [ring_entry_succ M P SL iring h0]
  exact ring_iteration_delta_radius_ring M P SL iring _ h1

/-- The radius that ring `iring` hands on to ring `iring + 1`. -/
theorem ring_entry_succ_radius_ringOut_0 (M : MathOps R) (P : Params R) (SL iring : Nat)
    (h : (forLoop (ring_iteration M P SL) 0 iring (ring_entry M P SL 0)).error = none) :
    (ring_entry M P SL (iring + 1)).radius_ringOut_0 =
      (ring_info M P SL iring (ring_entry M P SL iring)).top.radius_ringOut_0 := by
  rw [ring_entry_succ M P SL iring h, (ring_iteration_radii M P SL iring _).2.1,
    (ring_info_top_radii M P SL iring _).2.1]

/-- C11: of two consecutive rings of one superlayer, the second is entered
with the pitch `delta_radius_ring` of the first multiplied by `scaleFactor`; a
ring does not change its pitch before line 685, and in every ring of the
superlayer `scaleFactor` is `(1 + pi/N)/(1 - pi/N)` for the number
`N = nSWire + SL * nSDeltaWire` of sense wires of the superlayer. -/
theorem ring_pitch_growth (M : MathOps R) (P : Params R) (r1 r2 : RingInfo R)
    (h1 : r1 ∈ (build_layer M P).rings) (h2 : r2 ∈ (build_layer M P).rings)
    (hSL : r2.SL = r1.SL) (hi : r2.iring = r1.iring + 1) :
    r2.entry.delta_radius_ring = r1.entry.delta_radius_ring * r1.entry.scaleFactor ∧
    r1.top.delta_radius_ring = r1.entry.delta_radius_ring ∧
    r1.entry.scaleFactor =
      (1 + M.pi / ((P.nSWire + (r1.SL : Int) * P.nSDeltaWire : Int) : R)) /
        (1 - M.pi / ((P.nSWire + (r1.SL : Int) * P.nSDeltaWire : Int) : R)) ∧
    r2.entry.scaleFactor = r1.entry.scaleFactor := by
  obtain ⟨_, _, _, p4, _⟩ := ring_position M P r2 h2
  have e1 := ring_entry_of_mem M P r1 h1
  have e2 := ring_entry_of_mem M P r2 h2
  rw [hSL, hi] at e2 p4
  have e3 := (build_layer_rings_spec M P r1 h1).1
  refine ⟨?_, ?_, ?_, ?_⟩
  · rw [e1, e2]; exact ring_entry_succ_delta_radius_ring M P r1.SL r1.iring p4
  · conv_lhs => rw [e3]
    exact (ring_info_top_radii M P _ _ _).2.2.1
  · rw [e1]; exact ring_entry_scaleFactor M P r1.SL r1.iring
  · rw [e1, e2, ring_entry_scaleFactor, ring_entry_scaleFactor]

theorem ring_pitch_growth_witness :
    first_ring exampleMath twoRingParams ∈ (build_layer exampleMath twoRingParams).rings ∧
    second_ring exampleMath twoRingParams ∈ (build_layer exampleMath twoRingParams).rings ∧
    (second_ring exampleMath twoRingParams).entry.delta_radius_ring =
      (first_ring exampleMath twoRingParams).entry.delta_radius_ring *
        (first_ring exampleMath twoRingParams).entry.scaleFactor :=
  ⟨twoRing_first_ring_mem, twoRing_second_ring_mem,
    (ring_pitch_growth exampleMath twoRingParams _ _ twoRing_first_ring_mem
      twoRing_second_ring_mem rfl rfl).1⟩

/-! ## The three layers of a ring -/

/-- The radii of the three layers of the ring entered with the locals `st`. -/
theorem ring_info_layer_radii (M : MathOps R) (P : Params R) (SL iring : Nat) (st : State R) :
    ((ring_info M P SL iring st).bottom.radius_ringOut_0 =
        (ring_info M P SL iring st).bottom.radius_ringIn_0 + P.FWireDiameter + 2 * P.secure ∧
      (ring_info M P SL iring st).bottom.radius_ringOut =
        (ring_info M P SL iring st).bottom.radius_ringOut_0 +
          (ring_info M P SL iring st).bottom.drop) ∧
    ((ring_info M P SL iring st).central.radius_ringIn_0 =
        (ring_info M P SL iring st).bottom.radius_ringOut_0 ∧
      (ring_info M P SL iring st).central.radius_ring_0 =
        st.radius_ring_0 + st.delta_radius_ring ∧
      (ring_info M P SL iring st).central.radius_ringOut_0 =
        (ring_info M P SL iring st).central.radius_ring_0 - P.FWireDiameter - 2 * P.secure ∧
      (ring_info M P SL iring st).central.radius_ringOut =
        (ring_info M P SL iring st).central.radius_ringOut_0 +
          (ring_info M P SL iring st).central.drop) ∧
    ((ring_info M P SL iring st).upper.radius_ringIn_0 =
        (ring_info M P SL iring st).central.radius_ringOut_0 ∧
      (ring_info M P SL iring st).upper.radius_ringOut_0 =
        (ring_info M P SL iring st).upper.radius_ringIn_0 + P.FWireDiameter + 2 * P.secure ∧
      (ring_info M P SL iring st).upper.radius_ringOut =
        (ring_info M P SL iring st).upper.radius_ringOut_0 +
          (ring_info M P SL iring st).upper.drop) :=
  ⟨⟨rfl, rfl⟩, ⟨rfl, rfl, rfl, rfl⟩, ⟨rfl, rfl, rfl⟩⟩

/-- The central layer of a ring entered with equal `radius_ring_0` and
`radius_ringOut_0` is two wire layers thinner than the pitch. -/
theorem ring_info_central_thickness (M : MathOps R) (P : Params R) (SL iring : Nat)
    (st : State R) (h : st.radius_ring_0 = st.radius_ringOut_0) :
    (ring_info M P SL iring st).central.radius_ringOut_0 =
      (ring_info M P SL iring st).central.radius_ringIn_0 +
        (st.delta_radius_ring - 2 * (P.FWireDiameter + 2 * P.secure)) := by
  rw [(ring_info_central_radii M P SL iring st).2.2.2.1,
    (ring_info_central_radii M P SL iring st).2.2.1, h]
  ring

theorem first_ring_delta_radius_ring (M : MathOps R) (P : Params R) :
    (first_ring M P).entry.delta_radius_ring = P.cellDimension := rfl

theorem first_ring_radii_eq (M : MathOps R) (P : Params R) :
    (first_ring M P).entry.radius_ring_0 = (first_ring M P).entry.radius_ringOut_0 := rfl

/-- C16, amended: the bottom and the top layer of a ring are
`FWireDiameter + 2 * secure` thick; the central layer starts where the bottom
layer ends and ends at `radius_ring_0 - FWireDiameter - 2 * secure` for the
`radius_ring_0` advanced by the pitch, so that it is
`delta_radius_ring - 2 * (FWireDiameter + 2 * secure)` thick; in all three
layers the drop-corrected outer radius is the flat one plus the current drop. -/
theorem ring_layer_radii (M : MathOps R) (P : Params R) (r : RingInfo R)
    (hr : r ∈ (build_layer M P).rings) :
    (r.bottom.radius_ringOut_0 = r.bottom.radius_ringIn_0 + P.FWireDiameter + 2 * P.secure ∧
      r.bottom.radius_ringOut = r.bottom.radius_ringOut_0 + r.bottom.drop) ∧
    (r.central.radius_ringIn_0 = r.bottom.radius_ringOut_0 ∧
      r.central.radius_ring_0 = r.entry.radius_ring_0 + r.entry.delta_radius_ring ∧
      r.central.radius_ringOut_0 = r.central.radius_ring_0 - P.FWireDiameter - 2 * P.secure ∧
      r.central.radius_ringOut_0 =
        r.central.radius_ringIn_0 +
          (r.entry.delta_radius_ring - 2 * (P.FWireDiameter + 2 * P.secure)) ∧
      r.central.radius_ringOut = r.central.radius_ringOut_0 + r.central.drop) ∧
    (r.upper.radius_ringIn_0 = r.central.radius_ringOut_0 ∧
      r.upper.radius_ringOut_0 = r.upper.radius_ringIn_0 + P.FWireDiameter + 2 * P.secure ∧
      r.upper.radius_ringOut = r.upper.radius_ringOut_0 + r.upper.drop) := by
  have e := (build_layer_rings_spec M P r hr).1
  have h := ring_info_layer_radii M P r.SL r.iring r.entry
  have t := ring_info_central_thickness M P r.SL r.iring r.entry (ring_radii_eq_of_mem M P r hr)
  rw [← e] at h t
  exact ⟨h.1, ⟨h.2.1.1, h.2.1.2.1, h.2.1.2.2.1, t, h.2.1.2.2.2⟩, h.2.2⟩

theorem ring_layer_radii_witness :
    first_ring exampleMath acceptScenarioParams ∈
      (build_layer exampleMath acceptScenarioParams).rings ∧
    (first_ring exampleMath acceptScenarioParams).central.radius_ringOut_0 =
      (first_ring exampleMath acceptScenarioParams).central.radius_ringIn_0 +
        ((first_ring exampleMath acceptScenarioParams).entry.delta_radius_ring -
          2 * (acceptScenarioParams.FWireDiameter + 2 * acceptScenarioParams.secure)) :=
  ⟨acceptScenario_first_ring_mem,
    (ring_layer_radii exampleMath acceptScenarioParams _ acceptScenario_first_ring_mem).2.1.2.2.2.1⟩

/-- C16, counterexample: in the first ring of the chamber with one superlayer
of one ring, the pitch is 12 and the wire layers are 0.0425 thick, so that the
central layer is 11.915 thick: its flat outer radius is not its flat inner
radius plus `FWireDiameter + 2 * secure`. -/
theorem central_layer_is_not_one_wire_layer_thick :
    first_ring exampleMath acceptScenarioParams ∈
      (build_layer exampleMath acceptScenarioParams).rings ∧
    (first_ring exampleMath acceptScenarioParams).central.radius_ringOut_0 ≠
      (first_ring exampleMath acceptScenarioParams).central.radius_ringIn_0 +
        acceptScenarioParams.FWireDiameter + 2 * acceptScenarioParams.secure := by
  refine ⟨acceptScenario_first_ring_mem, ?_⟩
  have t := ring_info_central_thickness exampleMath acceptScenarioParams 0 0
    (first_ring exampleMath acceptScenarioParams).entry (first_ring_radii_eq _ _)
  have d := first_ring_delta_radius_ring exampleMath acceptScenarioParams
  have t' : (first_ring exampleMath acceptScenarioParams).central.radius_ringOut_0 =
      (first_ring exampleMath acceptScenarioParams).central.radius_ringIn_0 +
        ((first_ring exampleMath acceptScenarioParams).entry.delta_radius_ring -
          2 * (acceptScenarioParams.FWireDiameter + 2 * acceptScenarioParams.secure)) := t
  rw [d] at t'
  rw [t']
  have hc : acceptScenarioParams.cellDimension = 12 := rfl
  have hw : acceptScenarioParams.FWireDiameter = 1 / 25 + 1 / 2000 := rfl
  have hs : acceptScenarioParams.secure = 1 / 1000 := rfl
  rw [hc, hw, hs]
  intro h
  have : (12 : ℚ) - 2 * (1 / 25 + 1 / 2000 + 2 * (1 / 1000)) = 1 / 25 + 1 / 2000 + 2 * (1 / 1000) := by
    linarith
  norm_num at this

/-! ## Radial continuity -/

theorem solidOf_append (id : VolId) (a b : List (Event R)) :
    solidOf id (a ++ b) = (solidOf id a).or (solidOf id b) := by
  unfold solidOf
  exact List.findSome?_append

theorem solidOf_eq_none (id : VolId) (evs : List (Event R)) (h : id ∉ created evs) :
    solidOf id evs = none := by
  unfold solidOf
  rw [List.findSome?_eq_none_iff]
  intro e he
  cases e with
  | newVolume i n s m =>
    by_cases hi : i = id
    · exact absurd (show id ∈ created evs from
        List.mem_filterMap.mpr ⟨_, he, by rw [hi]; rfl⟩) h
    · simp [hi]
  | _ => rfl

theorem solidOf_cons_newVolume (id : VolId) (name : String) (s : Solid R) (material : String)
    (evs : List (Event R)) :
    solidOf id (Event.newVolume id name s material :: evs) = some s := by
  simp [solidOf, List.findSome?_cons]

/-- The first call of the layer `lvLayer_0` creates it, with the outer radius
that `radius_ringOut_0` has after the layer. -/
theorem initial_field_layer_events (M : MathOps R) (P : Params R) (SL : Nat) (st : State R) :
    ∃ rin stin stout dz tail,
      (initial_field_layer M P SL st).2 =
        Event.newVolume VolId.lvLayer_0 "lvLayer_0"
          (Solid.Hyperboloid rin stin (initial_field_layer M P SL st).1.radius_ringOut_0 stout dz)
          "GasHe_90Isob_10" :: tail :=
  ⟨_, _, _, _, _, rfl⟩

/-- The calls of a loop start with those of its first iteration. -/
theorem forLoop_succ_events_start (body : Nat → State R → Outcome R) (i n : Nat)
    (st : State R) : ∃ post, (forLoop body i (n + 1) st).events = (body i st).events ++ post := by
  rw [forLoop_succ]
  cases h : (body i st).error with
  | some e => rw [Outcome.andThen_of_error_some _ _ e h]; exact ⟨[], (List.append_nil _).symm⟩
  | none => rw [Outcome.andThen_of_error_none _ _ h]; exact ⟨_, rfl⟩

/-- With at least one superlayer, the build starts with the walls, the inner
guard ring and the layer `lvLayer_0`. -/
theorem build_layer_events_start (M : MathOps R) (P : Params R)
    (h : 0 < P.nSuperLayer.toNat) :
    ∃ post, (build_layer M P).events =
      wall_volumes P ++
        ((inner_guard_ring M P
            (superlayer_factors M P 0 (superlayer_wire_counts M P 0 (State.initial P)))).2 ++
          ((initial_field_layer M P 0 (inner_guard_ring M P
            (superlayer_factors M P 0 (superlayer_wire_counts M P 0 (State.initial P)))).1).2 ++
            post)) := by
  obtain ⟨k, hk⟩ : ∃ k, P.nSuperLayer.toNat = k + 1 := ⟨P.nSuperLayer.toNat - 1, by omega⟩
  obtain ⟨post, hp⟩ := forLoop_succ_events_start (superlayer_iteration M P) 0 k (State.initial P)
  rw [build_layer_events, hk, hp, superlayer_iteration_events, first_superlayer_block_zero]
  simp only [List.append_assoc]
  exact ⟨_, rfl⟩

/-- The outer radius of the solid of `lvLayer_0` is the `radius_ringOut_0`
with which the first ring of the first superlayer is entered. -/
theorem solidOf_lvLayer_0 (M : MathOps R) (P : Params R) (h : 0 < P.nSuperLayer.toNat) :
    ∃ rin, (solidOf VolId.lvLayer_0 (build_layer M P).events).bind Solid.radialRange =
      some (rin, (ring_entry M P 0 0).radius_ringOut_0) := by
  obtain ⟨post, hp⟩ := build_layer_events_start M P h
  obtain ⟨rin, stin, stout, dz, tail, ht⟩ := initial_field_layer_events M P 0
    (inner_guard_ring M P
      (superlayer_factors M P 0 (superlayer_wire_counts M P 0 (State.initial P)))).1
  refine ⟨rin, ?_⟩
  rw [hp, solidOf_append, solidOf_eq_none _ (wall_volumes P) (by rw [created_wall_volumes]; decide),
    solidOf_append, solidOf_eq_none _ (inner_guard_ring M P _).2
      (by rw [created_inner_guard_ring]; decide), ht]
  simp only [Option.or, List.cons_append, solidOf_cons_newVolume]
  rfl

/-- The first ring of a superlayer other than the first is entered with the
`radius_ringOut_0` with which the loop over the rings of the superlayer before
was left, and line 390 derives its pitch from that radius. -/
theorem ring_entry_succ_zero (M : MathOps R) (P : Params R) (SL : Nat)
    (hSL : SL + 1 < P.nSuperLayer.toNat)
    (h : (forLoop (superlayer_iteration M P) 0 (SL + 1) (State.initial P)).error = none) :
    (ring_entry M P (SL + 1) 0).radius_ringOut_0 =
      (ring_entry M P SL P.nRing.toNat).radius_ringOut_0 ∧
    (ring_entry M P (SL + 1) 0).delta_radius_ring =
      2 * M.pi * (ring_entry M P (SL + 1) 0).radius_ringOut_0 /
        (((P.nSWire + ((SL + 1 : Nat) : Int) * P.nSDeltaWire : Int) : R) - M.pi) := by
  rw [ring_entry_zero, (ring_loop_entry_succ_radii M P SL _).1,
    (ring_loop_entry_succ_radii M P SL _).2.2, superlayer_entry_succ_of_lt M P SL hSL h]
  exact ⟨rfl, rfl⟩

/-- The ring before a ring that is not the first of its superlayer. -/
theorem ring_predecessor (M : MathOps R) (P : Params R) (r : RingInfo R)
    (hr : r ∈ (build_layer M P).rings) (hi : r.iring ≠ 0) :
    ∃ r' ∈ (build_layer M P).rings, r'.SL = r.SL ∧ r'.iring + 1 = r.iring ∧
      r.entry.radius_ringOut_0 = r'.top.radius_ringOut_0 := by
  obtain ⟨p1, p2, p3, p4, _⟩ := ring_position M P r hr
  obtain ⟨j, hj⟩ : ∃ j, r.iring = j + 1 := ⟨r.iring - 1, by omega⟩
  have e := ring_entry_of_mem M P r hr
  rw [hj] at p4 e p2
  have h0 := forLoop_error_of_le _ 0 _ _ p4 j (by omega)
  refine ⟨ring_info M P r.SL j (ring_entry M P r.SL j),
    ring_mem_of_reached M P r.SL j p1 (by omega) p3 h0, rfl, hj.symm, ?_⟩
  rw [e]
  exact ring_entry_succ_radius_ringOut_0 M P r.SL j h0

/-- The loop over the rings of a superlayer before the one of a ring of the
build ran to its end. -/
theorem ring_loop_ok_of_later (M : MathOps R) (P : Params R) (r : RingInfo R)
    (hr : r ∈ (build_layer M P).rings) (k : Nat) (hk : k < r.SL) :
    (forLoop (ring_iteration M P k) 0 P.nRing.toNat (ring_entry M P k 0)).error = none := by
  obtain ⟨_, _, p3, _, _⟩ := ring_position M P r hr
  have h1 := forLoop_error_step _ 0 _ _ p3 k hk
  rw [Nat.zero_add] at h1
  rw [← superlayer_iteration_error_entry]
  exact h1

/-- The last ring of the superlayer before a ring that is the first of its
superlayer. -/
theorem superlayer_predecessor (M : MathOps R) (P : Params R) (r : RingInfo R)
    (hr : r ∈ (build_layer M P).rings) (hi : r.iring = 0) (hSL : r.SL ≠ 0) :
    ∃ r' ∈ (build_layer M P).rings, r'.SL + 1 = r.SL ∧ r'.iring + 1 = P.nRing.toNat ∧
      r.entry.radius_ringOut_0 = r'.top.radius_ringOut_0 := by
  obtain ⟨p1, p2, p3, _, _⟩ := ring_position M P r hr
  obtain ⟨k, hk⟩ : ∃ k, r.SL = k + 1 := ⟨r.SL - 1, by omega⟩
  obtain ⟨m, hm⟩ : ∃ m, P.nRing.toNat = m + 1 := ⟨P.nRing.toNat - 1, by omega⟩
  have e := ring_entry_of_mem M P r hr
  have hloop := ring_loop_ok_of_later M P r hr k (by omega)
  rw [hk] at p1 p3
  rw [hk, hi] at e
  have h0 := forLoop_error_of_le _ 0 _ _ p3 k (by omega)
  have h1 := forLoop_error_of_le _ 0 _ _ hloop m (by omega)
  refine ⟨ring_info M P k m (ring_entry M P k m),
    ring_mem_of_reached M P k m (by omega) (by omega) h0 h1, hk.symm, hm.symm, ?_⟩
  rw [e, (ring_entry_succ_zero M P k p1 p3).1, hm]
  exact ring_entry_succ_radius_ringOut_0 M P k m h1

/-- Rings of the build with the same indices are entered with the same locals. -/
theorem ring_entry_eq_of_index (M : MathOps R) (P : Params R) (r r' : RingInfo R)
    (hr : r ∈ (build_layer M P).rings) (hr' : r' ∈ (build_layer M P).rings)
    (h1 : r'.SL = r.SL) (h2 : r'.iring = r.iring) : r'.entry = r.entry := by
  rw [ring_entry_of_mem M P r hr, ring_entry_of_mem M P r' hr', h1, h2]

/-- C13: the flat inner radius of the bottom layer of a ring, which is the
inner radius of the hyperboloid of the whole ring, is the `radius_ringOut_0`
with which the ring is entered: the one that the ring before it in the
superlayer left, for the first ring of a superlayer the one that the last ring
of the superlayer before left, and for the first ring of the first superlayer
the outer radius of the layer `lvLayer_0`. -/
theorem radial_continuity (M : MathOps R) (P : Params R) (r : RingInfo R)
    (hr : r ∈ (build_layer M P).rings) :
    r.bottom.radius_ringIn_0 = r.entry.radius_ringOut_0 ∧
    (whole_ring_hyperboloid r.upper).radialRange =
      some (r.bottom.radius_ringIn_0, r.top.radius_ringOut_0) ∧
    (r.iring ≠ 0 → ∃ r' ∈ (build_layer M P).rings, r'.SL = r.SL ∧ r'.iring + 1 = r.iring ∧
      r.bottom.radius_ringIn_0 = r'.top.radius_ringOut_0) ∧
    (r.iring = 0 → r.SL ≠ 0 → ∃ r' ∈ (build_layer M P).rings,
      r'.SL + 1 = r.SL ∧ r'.iring + 1 = P.nRing.toNat ∧
      r.bottom.radius_ringIn_0 = r'.top.radius_ringOut_0) ∧
    (r.iring = 0 → r.SL = 0 → ∃ rin,
      (solidOf VolId.lvLayer_0 (build_layer M P).events).bind Solid.radialRange =
        some (rin, r.bottom.radius_ringIn_0)) := by
  have e := (build_layer_rings_spec M P r hr).1
  have hb : r.bottom.radius_ringIn_0 = r.entry.radius_ringOut_0 := by
    conv_lhs => rw [e]
    rfl
  have hw : (whole_ring_hyperboloid r.upper).radialRange =
      some (r.bottom.radius_ringIn_0, r.top.radius_ringOut_0) := by
    conv_lhs => rw [e]
    conv_rhs => rw [e]
    rfl
  refine ⟨hb, hw, ?_, ?_, ?_⟩
  · intro hi
    rw [hb]
    exact ring_predecessor M P r hr hi
  · intro hi hSL
    rw [hb]
    exact superlayer_predecessor M P r hr hi hSL
  · intro hi hSL
    obtain ⟨p1, _, _, _, _⟩ := ring_position M P r hr
    rw [hb, ring_entry_of_mem M P r hr, hi, hSL]
    exact solidOf_lvLayer_0 M P (by omega)

theorem radial_continuity_witness :
    second_ring exampleMath twoRingParams ∈ (build_layer exampleMath twoRingParams).rings ∧
    (second_ring exampleMath twoRingParams).bottom.radius_ringIn_0 =
      (second_ring exampleMath twoRingParams).entry.radius_ringOut_0 ∧
    ∃ r' ∈ (build_layer exampleMath twoRingParams).rings,
      r'.SL = (second_ring exampleMath twoRingParams).SL ∧
      r'.iring + 1 = (second_ring exampleMath twoRingParams).iring ∧
      (second_ring exampleMath twoRingParams).bottom.radius_ringIn_0 = r'.top.radius_ringOut_0 :=
  ⟨twoRing_second_ring_mem,
    (radial_continuity exampleMath twoRingParams _ twoRing_second_ring_mem).1,
    (radial_continuity exampleMath twoRingParams _ twoRing_second_ring_mem).2.2.1
      (by decide)⟩

/-! ## The pitch of the first ring of a superlayer -/

theorem superlayer_first_ring_mem (M : MathOps R) (P : Params R)
    (h : (build_layer M P).error = none) (SL : Nat) (hSL : SL < P.nSuperLayer.toNat)
    (hR : 0 < P.nRing.toNat) : superlayer_first_ring M P SL ∈ (build_layer M P).rings :=
  ring_mem_of_ok M P h SL 0 hSL hR

/-- The pitch that line 390 derives from the outer radius `R + d` of a ring
entered at radius `R` with pitch `d` is `d * scaleFactor` when the ring is as
high as its cells are wide, `d * (N - pi) = 2 * pi * R`, and the next
superlayer has the same number `N` of sense wires. -/
theorem derived_pitch_eq (pi N R0 d w s : R) (hN : N ≠ 0) (hNpi : N - pi ≠ 0)
    (hd : d * (N - pi) = 2 * pi * R0) :
    2 * pi * (R0 + d - w - 2 * s + w + 2 * s) / (N - pi) =
      d * ((1 + pi / N) / (1 - pi / N)) := by
  have h1 : 1 - pi / N ≠ 0 := by
    intro h
    apply hNpi
    field_simp at h
    linarith
  have key : (1 + pi / N) / (1 - pi / N) = (N + pi) / (N - pi) := by
    rw [div_eq_div_iff h1 hNpi]
    field_simp
  rw [key, ← mul_div_assoc, div_left_inj' hNpi]
  linear_combination (-1 : R) * hd

/-- The first ring of a superlayer and the last ring of the superlayer before. -/
theorem first_ring_pitch_of_last (M : MathOps R) (P : Params R) (r r' : RingInfo R)
    (hr : r ∈ (build_layer M P).rings) (hr' : r' ∈ (build_layer M P).rings)
    (hi : r.iring = 0) (hSL : r'.SL + 1 = r.SL) (hlast : r'.iring + 1 = P.nRing.toNat) :
    r.entry.radius_ringOut_0 = r'.top.radius_ringOut_0 ∧
    r.entry.delta_radius_ring =
      2 * M.pi * r.entry.radius_ringOut_0 /
        (((P.nSWire + (r.SL : Int) * P.nSDeltaWire : Int) : R) - M.pi) ∧
    r'.top.radius_ringOut_0 =
      r'.entry.radius_ringOut_0 + r'.entry.delta_radius_ring - P.FWireDiameter - 2 * P.secure +
        P.FWireDiameter + 2 * P.secure := by
  obtain ⟨p1, _, p3, _, _⟩ := ring_position M P r hr
  obtain ⟨_, _, _, q4, _⟩ := ring_position M P r' hr'
  have e := ring_entry_of_mem M P r hr
  have e' := (build_layer_rings_spec M P r' hr').1
  have e'' := ring_entry_of_mem M P r' hr'
  rw [← hSL] at p1 p3
  rw [hi, ← hSL] at e
  have z := ring_entry_succ_zero M P r'.SL p1 p3
  have t : r'.top.radius_ringOut_0 =
      r'.entry.radius_ring_0 + r'.entry.delta_radius_ring - P.FWireDiameter - 2 * P.secure +
        P.FWireDiameter + 2 * P.secure := by
    conv_lhs => rw [e']
    exact (ring_info_top_radii M P _ _ _).2.1
  refine ⟨?_, ?_, ?_⟩
  · rw [e, z.1, ← hlast, ring_entry_succ_radius_ringOut_0 M P r'.SL r'.iring q4, ← e'', ← e']
  · rw [← hSL, e]; exact z.2
  · rw [t, ring_radii_eq_of_mem M P r' hr']

/-- C12, amended: the first ring of the first superlayer is entered
with the pitch `cellDimension`; the first ring of every other superlayer is
entered with the pitch `2 * pi * radius_ringOut_0 / (N - pi)`, for the number
`N` of sense wires of its superlayer and the `radius_ringOut_0` left by the
last ring of the superlayer before.  That pitch is the pitch of this last ring
multiplied by its `scaleFactor` when the two superlayers have the same number
of sense wires (`nSDeltaWire = 0`), `N` is neither `0` nor `pi`, and the last
ring itself has a pitch `d` with `d * (N - pi) = 2 * pi * radius_ringOut_0` for
the radius with which it was entered. -/
theorem first_ring_pitch (M : MathOps R) (P : Params R) :
    (∀ r ∈ (build_layer M P).rings, r.SL = 0 → r.iring = 0 →
      r.entry.delta_radius_ring = P.cellDimension) ∧
    (∀ r ∈ (build_layer M P).rings, r.SL ≠ 0 → r.iring = 0 →
      r.entry.delta_radius_ring =
        2 * M.pi * r.entry.radius_ringOut_0 /
          (((P.nSWire + (r.SL : Int) * P.nSDeltaWire : Int) : R) - M.pi)) ∧
    (∀ r ∈ (build_layer M P).rings, ∀ r' ∈ (build_layer M P).rings,
      r.iring = 0 → r'.SL + 1 = r.SL → r'.iring + 1 = P.nRing.toNat →
      r.entry.radius_ringOut_0 = r'.top.radius_ringOut_0 ∧
      (P.nSDeltaWire = 0 → ((P.nSWire : Int) : R) ≠ 0 → ((P.nSWire : Int) : R) - M.pi ≠ 0 →
        r'.entry.delta_radius_ring * (((P.nSWire : Int) : R) - M.pi) =
          2 * M.pi * r'.entry.radius_ringOut_0 →
        r.entry.delta_radius_ring = r'.entry.delta_radius_ring * r'.entry.scaleFactor)) := by
  refine ⟨?_, ?_, ?_⟩
  · intro r hr hSL hi
    rw [ring_entry_of_mem M P r hr, hSL, hi]
    rfl
  · intro r hr hSL hi
    obtain ⟨r', hr', h1, h2, _⟩ := superlayer_predecessor M P r hr hi hSL
    exact (first_ring_pitch_of_last M P r r' hr hr' hi h1 h2).2.1
  · intro r hr r' hr' hi hSL hlast
    obtain ⟨h1, h2, h3⟩ := first_ring_pitch_of_last M P r r' hr hr' hi hSL hlast
    refine ⟨h1, ?_⟩
    intro hD hN hNpi hd
    have s := ring_entry_scaleFactor M P r'.SL r'.iring
    rw [← ring_entry_of_mem M P r' hr'] at s
    rw [h2, h1, h3, s, hD]
    simp only [mul_zero, add_zero]
    exact derived_pitch_eq M.pi _ _ _ _ _ hN hNpi hd

theorem threeLayer_ok : (build_layer exampleMath threeLayerParams).error = none := by
  apply build_layer_succeeds
  intro SL _
  show (200 : Int) + (SL : Int) * 0 ≠ 0 ∧
    (200 : Int) + (SL : Int) * 0 ∣ Int.tdiv ((4 - 2) * ((200 : Int) + (SL : Int) * 0)) 2
  rw [mul_zero, add_zero]
  decide

theorem twoLayer_ok : (build_layer exampleMath twoLayerParams).error = none := by
  apply build_layer_succeeds
  intro SL _
  show (200 : Int) + (SL : Int) * 0 ≠ 0 ∧
    (200 : Int) + (SL : Int) * 0 ∣ Int.tdiv ((4 - 2) * ((200 : Int) + (SL : Int) * 0)) 2
  rw [mul_zero, add_zero]
  decide

/-- In the chamber with three superlayers the first ring of superlayer 1 has
the pitch that line 390 derives from the radius with which it is entered. -/
theorem threeLayer_square :
    (superlayer_first_ring exampleMath threeLayerParams 1).entry.delta_radius_ring *
        (((threeLayerParams.nSWire : Int) : ℚ) - exampleMath.pi) =
      2 * exampleMath.pi *
        (superlayer_first_ring exampleMath threeLayerParams 1).entry.radius_ringOut_0 := by
  have h0 := threeLayer_ok
  rw [build_layer_error] at h0
  have z := (ring_entry_succ_zero exampleMath threeLayerParams 0 (by decide)
    (forLoop_error_of_le _ 0 _ _ h0 1 (by decide))).2
  have hN : ((threeLayerParams.nSWire + ((0 + 1 : Nat) : Int) * threeLayerParams.nSDeltaWire : Int) : ℚ)
      = ((threeLayerParams.nSWire : Int) : ℚ) := by
    have : threeLayerParams.nSDeltaWire = 0 := rfl
    rw [this, mul_zero, add_zero]
  rw [hN] at z
  show (ring_entry exampleMath threeLayerParams 1 0).delta_radius_ring * _ =
    2 * exampleMath.pi * (ring_entry exampleMath threeLayerParams 1 0).radius_ringOut_0
  rw [z]
  have hne : ((threeLayerParams.nSWire : Int) : ℚ) - exampleMath.pi ≠ 0 := by
    have e1 : threeLayerParams.nSWire = 200 := rfl
    have e2 : exampleMath.pi = 355 / 113 := rfl
    rw [e1, e2]; norm_num
  exact div_mul_cancel₀ _ hne

theorem first_ring_pitch_witness :
    superlayer_first_ring exampleMath threeLayerParams 2 ∈
      (build_layer exampleMath threeLayerParams).rings ∧
    superlayer_first_ring exampleMath threeLayerParams 1 ∈
      (build_layer exampleMath threeLayerParams).rings ∧
    (superlayer_first_ring exampleMath threeLayerParams 2).entry.delta_radius_ring =
      (superlayer_first_ring exampleMath threeLayerParams 1).entry.delta_radius_ring *
        (superlayer_first_ring exampleMath threeLayerParams 1).entry.scaleFactor :=
  ⟨superlayer_first_ring_mem _ _ threeLayer_ok 2 (by decide) (by decide),
    superlayer_first_ring_mem _ _ threeLayer_ok 1 (by decide) (by decide),
    ((first_ring_pitch exampleMath threeLayerParams).2.2 _
      (superlayer_first_ring_mem _ _ threeLayer_ok 2 (by decide) (by decide)) _
      (superlayer_first_ring_mem _ _ threeLayer_ok 1 (by decide) (by decide))
      rfl rfl (by decide)).2 rfl
      (by
        have e1 : threeLayerParams.nSWire = 200 := rfl
        rw [e1]; norm_num)
      (by
        have e1 : threeLayerParams.nSWire = 200 := rfl
        have e2 : exampleMath.pi = 355 / 113 := rfl
        rw [e1, e2]; norm_num)
      threeLayer_square⟩

theorem State.initial_radius_ring_0 (P : Params R) :
    (State.initial P).radius_ring_0 =
      P.inner_radius + P.envelop_Inner_thickness + P.FWradii + P.secure + P.capGasLayer := rfl

/-- C12, counterexample: in the chamber with two superlayers of one ring and
200 sense wires each, the only ring of superlayer 0 has the pitch
`cellDimension = 12`, and the ring of superlayer 1 is not entered with that
pitch multiplied by `scaleFactor`. -/
theorem derived_pitch_differs_from_grown_pitch :
    first_ring exampleMath twoLayerParams ∈ (build_layer exampleMath twoLayerParams).rings ∧
    superlayer_first_ring exampleMath twoLayerParams 1 ∈
      (build_layer exampleMath twoLayerParams).rings ∧
    (first_ring exampleMath twoLayerParams).SL + 1 =
      (superlayer_first_ring exampleMath twoLayerParams 1).SL ∧
    (first_ring exampleMath twoLayerParams).iring + 1 = twoLayerParams.nRing.toNat ∧
    (superlayer_first_ring exampleMath twoLayerParams 1).entry.delta_radius_ring ≠
      (first_ring exampleMath twoLayerParams).entry.delta_radius_ring *
        (first_ring exampleMath twoLayerParams).entry.scaleFactor := by
  have m0 : first_ring exampleMath twoLayerParams ∈ (build_layer exampleMath twoLayerParams).rings :=
    first_ring_mem _ _ (by decide) (by decide)
  have m1 := superlayer_first_ring_mem _ _ twoLayer_ok 1 (by decide) (by decide)
  refine ⟨m0, m1, rfl, by decide, ?_⟩
  obtain ⟨h1, h2, h3⟩ := first_ring_pitch_of_last exampleMath twoLayerParams _ _ m1 m0 rfl rfl
    (by decide)
  have s : (first_ring exampleMath twoLayerParams).entry.scaleFactor = _ :=
    ring_entry_scaleFactor exampleMath twoLayerParams 0 0
  have d : (first_ring exampleMath twoLayerParams).entry.delta_radius_ring = 12 := rfl
  have o : (first_ring exampleMath twoLayerParams).entry.radius_ringOut_0 =
      (State.initial twoLayerParams).radius_ring_0 + twoLayerParams.FWradii :=
    (ring_loop_entry_zero_radii exampleMath twoLayerParams _).2.2
  rw [h2, h1, h3, s, d, o, State.initial_radius_ring_0]
  have e1 : twoLayerParams.nSWire = 200 := rfl
  have e2 : twoLayerParams.nSDeltaWire = 0 := rfl
  have e3 : exampleMath.pi = 355 / 113 := rfl
  have e4 : twoLayerParams.FWireDiameter = 1 / 25 + 1 / 2000 := rfl
  have e5 : twoLayerParams.FWradii = 1 / 2 * (1 / 25 + 1 / 2000) := rfl
  have e6 : twoLayerParams.secure = 1 / 1000 := rfl
  have e7 : twoLayerParams.capGasLayer = 1 / 500 := rfl
  have e8 : twoLayerParams.inner_radius = 345 := rfl
  have e9 : twoLayerParams.envelop_Inner_thickness = 1 / 5 + 1 / 1000 + 10 := rfl
  rw [e1, e2, e3, e4, e5, e6, e7, e8, e9]
  norm_num

/-! ## The calls of a build that does not throw -/

theorem observe_flatMap {α β γ : Type} (g : List α → List β) (hnil : g [] = [])
    (happ : ∀ a b, g (a ++ b) = g a ++ g b) (f : γ → List α) :
    ∀ l : List γ, g (l.flatMap f) = l.flatMap (fun x => g (f x)) := by
  intro l
  induction l with
  | nil => exact hnil
  | cons a l ih => rw [List.flatMap_cons, List.flatMap_cons, happ, ih]

theorem flatMap_range_head {β : Type} (A T : Nat → List β) (hA : ∀ k, 0 < k → A k = []) :
    ∀ j : Nat, (List.range (j + 1)).flatMap (fun k => A k ++ T k) =
      A 0 ++ (List.range (j + 1)).flatMap T := by
  intro j
  induction j with
  | zero => rw [show List.range (0 + 1) = [0] from rfl]; simp
  | succ j ih =>
    rw [List.range_succ, List.flatMap_append, ih, List.flatMap_append]
    simp [hA (j + 1) (by omega)]

/-- A loop whose iterations do something first only in iteration `0` and
something last only in iteration `m`. -/
theorem flatMap_range_boundary {β : Type} (A T B : Nat → List β) (m : Nat)
    (hA : ∀ k, 0 < k → A k = []) (hB : ∀ k, k < m → B k = []) :
    (List.range (m + 1)).flatMap (fun k => A k ++ T k ++ B k) =
      A 0 ++ (List.range (m + 1)).flatMap T ++ B m := by
  have h1 : (List.range m).flatMap (fun k => A k ++ T k ++ B k) =
      (List.range m).flatMap (fun k => A k ++ T k) := by
    apply List.flatMap_congr
    intro k hk
    rw [hB k (List.mem_range.mp hk), List.append_nil]
  rw [List.range_succ, List.flatMap_append, h1, List.flatMap_append]
  cases m with
  | zero => simp
  | succ j =>
    rw [flatMap_range_head A T hA j]
    simp [hA (j + 1) (by omega)]

/-- The calls of a superlayer whose rings do not throw. -/
theorem superlayer_iteration_events_entry (M : MathOps R) (P : Params R) (SL : Nat)
    (h : (forLoop (ring_iteration M P SL) 0 P.nRing.toNat (ring_entry M P SL 0)).error = none) :
    (superlayer_iteration M P SL (superlayer_entry M P SL)).events =
      (first_superlayer_block M P SL (superlayer_factors M P SL
          (superlayer_wire_counts M P SL (superlayer_entry M P SL)))).2 ++
        (List.range P.nRing.toNat).flatMap (fun iring =>
          (ring_iteration M P SL iring (ring_entry M P SL iring)).events) ++
        (last_superlayer_block M P SL (ring_entry M P SL P.nRing.toNat)).2 := by
  have h' : (forLoop (ring_iteration M P SL) 0 P.nRing.toNat
      (ring_loop_entry M P SL (superlayer_entry M P SL))).error = none := h
  have e : (List.range P.nRing.toNat).flatMap (fun k =>
      (ring_iteration M P SL (0 + k) (forLoop (ring_iteration M P SL) 0 k
        (ring_loop_entry M P SL (superlayer_entry M P SL))).st).events) =
      (List.range P.nRing.toNat).flatMap (fun iring =>
        (ring_iteration M P SL iring (ring_entry M P SL iring)).events) := by
    apply List.flatMap_congr
    intro i _
    rw [Nat.zero_add, ring_entry]
  rw [superlayer_iteration_events, if_pos h', forLoop_events_of_ok _ _ _ _ h', e, ring_entry]

/-- The calls of a build that does not throw, with at least one superlayer:
the walls are created, the first-superlayer block runs, then the rings, then
the last-superlayer block, and the layers and the walls are placed. -/
theorem build_layer_events_of_ok (M : MathOps R) (P : Params R)
    (h : (build_layer M P).error = none) (m : Nat) (hm : P.nSuperLayer.toNat = m + 1) :
    (build_layer M P).events =
      wall_volumes P ++
        ((first_superlayer_block M P 0 (superlayer_factors M P 0
            (superlayer_wire_counts M P 0 (State.initial P)))).2 ++
          all_ring_events M P ++
          (last_superlayer_block M P m (ring_entry M P m P.nRing.toNat)).2) ++
        (register_layers (superlayer_entry M P (m + 1)) ++ place_walls P) := by
  have h0 := h
  rw [build_layer_error] at h0
  rw [build_layer_events, if_pos h0, forLoop_events_of_ok _ _ _ _ h0]
  have e : (List.range P.nSuperLayer.toNat).flatMap (fun k =>
      (superlayer_iteration M P (0 + k)
        (forLoop (superlayer_iteration M P) 0 k (State.initial P)).st).events) =
      (List.range P.nSuperLayer.toNat).flatMap (fun SL =>
        (first_superlayer_block M P SL (superlayer_factors M P SL
            (superlayer_wire_counts M P SL (superlayer_entry M P SL)))).2 ++
          (List.range P.nRing.toNat).flatMap (fun iring =>
            (ring_iteration M P SL iring (ring_entry M P SL iring)).events) ++
          (last_superlayer_block M P SL (ring_entry M P SL P.nRing.toNat)).2) := by
    apply List.flatMap_congr
    intro SL hSL
    rw [Nat.zero_add]
    exact superlayer_iteration_events_entry M P SL
      (build_layer_ok_superlayer M P h SL (List.mem_range.mp hSL))
  rw [e]
  unfold all_ring_events
  rw [hm, flatMap_range_boundary _ _ _ m]
  · rfl
  · intro k hk
    obtain ⟨j, rfl⟩ : ∃ j, k = j + 1 := ⟨k - 1, by omega⟩
    rfl
  · intro k hk
    rw [last_superlayer_block_of_ne M P k _ (by omega)]

/-- The calls of a build without superlayers. -/
theorem build_layer_events_of_zero (M : MathOps R) (P : Params R)
    (h : P.nSuperLayer.toNat = 0) :
    (build_layer M P).events = wall_volumes P ++ place_walls P := by
  rw [build_layer_events, h]
  rfl

/-- What an observation that is additive sees in the ring iterations. -/
theorem observe_all_ring_events {β : Type} (M : MathOps R) (P : Params R)
    (g : List (Event R) → List β) (hnil : g [] = [])
    (happ : ∀ a b, g (a ++ b) = g a ++ g b) :
    g (all_ring_events M P) =
      (List.range P.nSuperLayer.toNat).flatMap (fun SL =>
        (List.range P.nRing.toNat).flatMap (fun iring =>
          g (ring_iteration M P SL iring (ring_entry M P SL iring)).events)) := by
  unfold all_ring_events
  rw [observe_flatMap g hnil happ]
  apply List.flatMap_congr
  intro SL _
  rw [observe_flatMap g hnil happ]

theorem observe_all_ring_events_nil {β : Type} (M : MathOps R) (P : Params R)
    (g : List (Event R) → List β) (hnil : g [] = [])
    (happ : ∀ a b, g (a ++ b) = g a ++ g b)
    (hring : ∀ SL iring st, g (ring_iteration M P SL iring st).events = []) :
    g (all_ring_events M P) = [] := by
  rw [observe_all_ring_events M P g hnil happ]
  simp [hring]

/-- What an observation that sees nothing in the ring iterations sees in a
build that does not throw. -/
theorem build_layer_observe_boundary {β : Type} (M : MathOps R) (P : Params R)
    (g : List (Event R) → List β) (hnil : g [] = [])
    (happ : ∀ a b, g (a ++ b) = g a ++ g b)
    (hring : ∀ SL iring st, g (ring_iteration M P SL iring st).events = [])
    (h : (build_layer M P).error = none) (m : Nat) (hm : P.nSuperLayer.toNat = m + 1) :
    g (build_layer M P).events =
      g (wall_volumes P) ++
        (g (inner_guard_ring M P (superlayer_factors M P 0
            (superlayer_wire_counts M P 0 (State.initial P)))).2 ++
          g (initial_field_layer M P 0 (inner_guard_ring M P (superlayer_factors M P 0
            (superlayer_wire_counts M P 0 (State.initial P)))).1).2) ++
        (g (outer_field_layer M P m (ring_entry M P m P.nRing.toNat)).2 ++
          g (outer_guard_ring M P
            (outer_field_layer M P m (ring_entry M P m P.nRing.toNat)).1).2) ++
        g (register_layers (superlayer_entry M P (m + 1))) ++ g (place_walls P) := by
  rw [build_layer_events_of_ok M P h m hm, first_superlayer_block_zero,
    last_superlayer_block_of_eq M P m _ (by omega)]
  simp only [happ, observe_all_ring_events_nil M P g hnil happ hring, List.append_nil,
    List.nil_append, List.append_assoc]

/-! ## The layer volumes of a build that does not throw -/

theorem ring_loop_entry_zero_lvLayerVol (M : MathOps R) (P : Params R) (st : State R) :
    (ring_loop_entry M P 0 st).lvLayerVol =
      st.lvLayerVol ++ [(VolId.lvLayerInit, "lvLayerInit")] ++ [(VolId.lvLayer_0, "lvLayer_0")] :=
  rfl

theorem ring_loop_entry_succ_lvLayerVol (M : MathOps R) (P : Params R) (SL : Nat)
    (st : State R) : (ring_loop_entry M P (SL + 1) st).lvLayerVol = st.lvLayerVol := rfl

theorem outer_layers_lvLayerVol (M : MathOps R) (P : Params R) (SL : Nat) (st : State R) :
    (outer_guard_ring M P (outer_field_layer M P SL st).1).1.lvLayerVol =
      st.lvLayerVol ++ [(VolId.lvLayerOut, "lvLayerOut")] ++ [(VolId.lvLayerOutG, "lvLayerOutG")] :=
  rfl

theorem ring_entry_lvLayerVol_eq (M : MathOps R) (P : Params R) (SL iring : Nat) :
    (ring_entry M P SL iring).lvLayerVol = (ring_entry M P SL 0).lvLayerVol := by
  unfold ring_entry
  refine forLoop_st_invariant (ring_iteration M P SL)
    (fun s => s.lvLayerVol = (forLoop (ring_iteration M P SL) 0 0
      (ring_loop_entry M P SL (superlayer_entry M P SL))).st.lvLayerVol) ?_ iring 0 _ rfl
  intro i st h
  rw [ring_iteration_lvLayerVol]
  exact h

/-- In the rings, `lvLayerVol` holds the two layers of the first-superlayer block. -/
theorem ring_entry_lvLayerVol (M : MathOps R) (P : Params R) :
    ∀ SL : Nat, SL < P.nSuperLayer.toNat →
      (forLoop (superlayer_iteration M P) 0 SL (State.initial P)).error = none →
      ∀ iring, (ring_entry M P SL iring).lvLayerVol =
        [(VolId.lvLayerInit, "lvLayerInit"), (VolId.lvLayer_0, "lvLayer_0")] := by
  intro SL
  induction SL with
  | zero =>
    intro _ _ iring
    rw [ring_entry_lvLayerVol_eq, ring_entry_zero, ring_loop_entry_zero_lvLayerVol]
    rfl
  | succ k ih =>
    intro hk h iring
    have h0 := forLoop_error_of_le _ 0 _ _ h k (by omega)
    rw [ring_entry_lvLayerVol_eq, ring_entry_zero, ring_loop_entry_succ_lvLayerVol,
      superlayer_entry_succ_of_lt M P k hk h]
    exact ih (by omega) h0 _

/-- A build that does not throw, with at least one superlayer, ends with the
four layers in `lvLayerVol`. -/
theorem final_lvLayerVol_eq (M : MathOps R) (P : Params R)
    (h : (build_layer M P).error = none) (m : Nat) (hm : P.nSuperLayer.toNat = m + 1) :
    (superlayer_entry M P (m + 1)).lvLayerVol =
      [(VolId.lvLayerInit, "lvLayerInit"), (VolId.lvLayer_0, "lvLayer_0"),
        (VolId.lvLayerOut, "lvLayerOut"), (VolId.lvLayerOutG, "lvLayerOutG")] := by
  have h0 := h
  rw [build_layer_error, hm] at h0
  rw [superlayer_entry_succ M P m h0, last_superlayer_block_of_eq M P m _ (by omega)]
  show (outer_guard_ring M P (outer_field_layer M P m _).1).1.lvLayerVol = _
  rw [outer_layers_lvLayerVol, ring_entry_lvLayerVol M P m (by omega)
    (forLoop_error_of_le _ 0 _ _ h0 m (by omega))]
  rfl

/-! ## Placements with their transforms -/

theorem transformsIn_append (m c : VolId) (a b : List (Event R)) :
    transformsIn m c (a ++ b) = transformsIn m c a ++ transformsIn m c b := by
  simp [transformsIn]

theorem transformsIn_eq_nil (m c : VolId) (evs : List (Event R))
    (h : (m, c) ∉ placements evs) : transformsIn m c evs = [] := by
  unfold transformsIn
  rw [List.filterMap_eq_nil_iff]
  intro e he
  cases e with
  | placeVolume m' c' tr =>
    by_cases hmc : m' = m ∧ c' = c
    · exact absurd (show (m, c) ∈ placements evs from
        List.mem_filterMap.mpr ⟨_, he, by rw [hmc.1, hmc.2]; rfl⟩) h
    · simp [hmc]
  | _ => rfl

theorem placements_cells_ringOwned (P : Params R) (SL iring : Nat) (hyp : Solid R)
    (st : State R) : ∀ x ∈ placements (cells P SL iring hyp st), ringOwned x = true := by
  unfold cells
  rw [observe_flatMap placements rfl placements_append]
  intro x hx
  rw [List.mem_flatMap] at hx
  obtain ⟨q, _, hq⟩ := hx
  rw [placements_cell] at hq
  simp only [List.mem_cons, List.mem_append, List.mem_replicate] at hq
  rcases hq with h | h | (h | h) | h
  · rw [h]; rfl
  · rw [h]; rfl
  · rw [h.2]; rfl
  · rw [h.2]; rfl
  · rw [h.2]; rfl

/-- The placements of a ring iteration are made in a total wire, or are those
of its gas volumes. -/
theorem placements_ring_iteration (M : MathOps R) (P : Params R) (SL iring : Nat)
    (st : State R) : ∀ x ∈ placements (ring_iteration M P SL iring st).events,
      (∃ site, x.1 = VolId.lvWireVol site) ∨ ringOwned x = true := by
  intro x hx
  rw [ring_iteration_events, placements_append, List.mem_append] at hx
  rcases hx with hx | hx
  · rw [placements_ring_geometry_events] at hx
    simp only [List.mem_cons, List.mem_singleton, List.not_mem_nil, or_false] at hx
    rcases hx with h | h | h | h | h | h | h | h | h
    all_goals first | (rw [h]; exact Or.inl ⟨_, rfl⟩) | (rw [h]; exact Or.inr rfl)
  · split at hx
    · simp [placements] at hx
    · exact Or.inr (placements_cells_ringOwned P SL iring _ _ x hx)

/-- The placements of the first-superlayer and last-superlayer blocks are made
in a total wire or in one of the four layers. -/
theorem placements_boundary_mother (M : MathOps R) (P : Params R) (SL : Nat) (st : State R) :
    (∀ x ∈ placements (inner_guard_ring M P st).2,
      (∃ site, x.1 = VolId.lvWireVol site) ∨ x.1 = VolId.lvLayerInit) ∧
    (∀ x ∈ placements (initial_field_layer M P SL st).2,
      (∃ site, x.1 = VolId.lvWireVol site) ∨ x.1 = VolId.lvLayer_0) ∧
    (∀ x ∈ placements (outer_field_layer M P SL st).2,
      (∃ site, x.1 = VolId.lvWireVol site) ∨ x.1 = VolId.lvLayerOut) ∧
    (∀ x ∈ placements (outer_guard_ring M P st).2,
      (∃ site, x.1 = VolId.lvWireVol site) ∨ x.1 = VolId.lvLayerOutG) := by
  refine ⟨?_, ?_, ?_, ?_⟩
  · intro x hx
    simp only [placements_inner_guard_ring, List.mem_append, List.mem_cons, List.mem_singleton,
      List.mem_replicate, List.not_mem_nil, or_false] at hx
    rcases hx with (((h | h) | h) | (h | h)) | h
    all_goals first | (rw [h]; exact Or.inl ⟨_, rfl⟩) | (rw [h.2]; exact Or.inr rfl)
  · intro x hx
    simp only [placements_initial_field_layer, List.mem_append, List.mem_cons,
      List.mem_singleton, List.mem_replicate, List.not_mem_nil, or_false] at hx
    rcases hx with (h | h) | h
    all_goals first | (rw [h]; exact Or.inl ⟨_, rfl⟩) | (rw [h.2]; exact Or.inr rfl)
  · intro x hx
    simp only [placements_outer_field_layer, List.mem_append, List.mem_cons,
      List.mem_singleton, List.mem_replicate, List.not_mem_nil, or_false] at hx
    rcases hx with (h | h) | h
    all_goals first | (rw [h]; exact Or.inl ⟨_, rfl⟩) | (rw [h.2]; exact Or.inr rfl)
  · intro x hx
    simp only [placements_outer_guard_ring, List.mem_append, List.mem_cons, List.mem_singleton,
      List.mem_replicate, List.not_mem_nil, or_false] at hx
    rcases hx with (((h | h) | h) | (h | h)) | h
    all_goals first | (rw [h]; exact Or.inl ⟨_, rfl⟩) | (rw [h.2]; exact Or.inr rfl)

/-- The transforms with which a wall is placed in the parent volume by a build
that does not throw are those of the last lines of the build. -/
theorem transformsIn_parentVol_wall (M : MathOps R) (P : Params R)
    (h : (build_layer M P).error = none) (c : VolId) (hc : isWholeRing c = false)
    (h1 : c ≠ VolId.lvLayerInit) (h2 : c ≠ VolId.lvLayer_0) (h3 : c ≠ VolId.lvLayerOut)
    (h4 : c ≠ VolId.lvLayerOutG) :
    transformsIn VolId.parentVol c (build_layer M P).events =
      transformsIn VolId.parentVol c (place_walls P) := by
  rcases Nat.eq_zero_or_pos P.nSuperLayer.toNat with h0 | hpos
  · rw [build_layer_events_of_zero M P h0, transformsIn_append]
    rfl
  · obtain ⟨m, hm⟩ : ∃ m, P.nSuperLayer.toNat = m + 1 := ⟨P.nSuperLayer.toNat - 1, by omega⟩
    have hb := fun SL st => placements_boundary_mother M P SL st
    rw [build_layer_observe_boundary M P (transformsIn VolId.parentVol c) rfl
      (transformsIn_append _ _) ?_ h m hm]
    · rw [transformsIn_eq_nil _ _ (inner_guard_ring M P _).2,
        transformsIn_eq_nil _ _ (initial_field_layer M P 0 _).2,
        transformsIn_eq_nil _ _ (outer_field_layer M P m _).2,
        transformsIn_eq_nil _ _ (outer_guard_ring M P _).2,
        transformsIn_eq_nil _ _ (register_layers _)]
      · rfl
      · rw [placements_register_layers, final_lvLayerVol_eq M P h m hm]
        simp only [List.map_cons, List.map_nil, List.mem_cons, List.mem_singleton,
          List.not_mem_nil, or_false, Prod.mk.injEq, true_and]
        rintro (e | e | e | e)
        · exact h1 e
        · exact h2 e
        · exact h3 e
        · exact h4 e
      · intro hx
        rcases (hb 0 _).2.2.2 _ hx with ⟨s, e⟩ | e <;> exact absurd e (by simp)
      · intro hx
        rcases (hb m _).2.2.1 _ hx with ⟨s, e⟩ | e <;> exact absurd e (by simp)
      · intro hx
        rcases (hb 0 _).2.1 _ hx with ⟨s, e⟩ | e <;> exact absurd e (by simp)
      · intro hx
        rcases (hb 0 _).1 _ hx with ⟨s, e⟩ | e <;> exact absurd e (by simp)
    · intro SL iring st
      apply transformsIn_eq_nil
      intro hx
      rcases placements_ring_iteration M P SL iring st _ hx with ⟨s, e⟩ | e
      · exact absurd e (by simp)
      · revert e hc
        cases c <;> simp [ringOwned, isWholeRing]

/-- The solid of a wall volume in the calls of the build is the one with
which the wall is created before the loops. -/
theorem solidOf_wall (M : MathOps R) (P : Params R) (id : VolId) (s : Solid R)
    (h : solidOf id (wall_volumes P) = some s) : solidOf id (build_layer M P).events = some s := by
  rw [build_layer_events, List.append_assoc, solidOf_append, h]
  rfl

theorem acceptScenario_ok : (build_layer exampleMath acceptScenarioParams).error = none := by
  apply build_layer_succeeds
  intro SL _
  show (200 : Int) + (SL : Int) * 0 ≠ 0 ∧
    (200 : Int) + (SL : Int) * 0 ∣ Int.tdiv ((4 - 2) * ((200 : Int) + (SL : Int) * 0)) 2
  rw [mul_zero, add_zero]
  decide

/-! ## The walls -/

/-- C19: the three shells of the inner wall (carbon, copper, gas) and the
four shells of the outer wall (copper, carbon 1, foam, carbon 2) are tubes
between consecutive radii: each is as thick as its own thickness parameter,
the outer radius of a shell is the inner radius of the next one, the inner
wall goes from `r0` to `r0 + envelop_Inner_thickness` and the outer wall from
`rOut - envelop_Outer_thickness` to `rOut`. -/
theorem wall_shells (M : MathOps R) (P : Params R) :
    ∃ a0 a1 a2 a3 b0 b1 b2 b3 b4 : R,
      ((solidOf VolId.lvInnerWallCarbon (build_layer M P).events).bind Solid.radialRange =
          some (a0, a1) ∧
        (solidOf VolId.lvInnerWallCopper (build_layer M P).events).bind Solid.radialRange =
          some (a1, a2) ∧
        (solidOf VolId.lvInnerWallGas (build_layer M P).events).bind Solid.radialRange =
          some (a2, a3)) ∧
      (a1 - a0 = P.CarbonInnerWallThick ∧ a2 - a1 = P.CopperInnerWallThick ∧
        a3 - a2 = P.GasInnerWallThick ∧ a0 = P.r0 ∧ a3 = P.r0 + P.envelop_Inner_thickness) ∧
      ((solidOf VolId.lvOuterWallCopper (build_layer M P).events).bind Solid.radialRange =
          some (b0, b1) ∧
        (solidOf VolId.lvOuterWallCarbon1 (build_layer M P).events).bind Solid.radialRange =
          some (b1, b2) ∧
        (solidOf VolId.lvOuterWallFoam (build_layer M P).events).bind Solid.radialRange =
          some (b2, b3) ∧
        (solidOf VolId.lvOuterWallCarbon2 (build_layer M P).events).bind Solid.radialRange =
          some (b3, b4)) ∧
      (b1 - b0 = P.CopperOuterWallThick ∧ b2 - b1 = P.Carbon1OuterWallThick ∧
        b3 - b2 = P.FoamOuterWallThick ∧ b4 - b3 = P.Carbon2OuterWallThick ∧
        b0 = P.rOut - P.envelop_Outer_thickness ∧ b4 = P.rOut) := by
  refine ⟨P.inner_radius, P.inner_radius + P.CarbonInnerWallThick,
    P.inner_radius + P.CarbonInnerWallThick + P.CopperInnerWallThick,
    P.inner_radius + P.envelop_Inner_thickness,
    P.outer_radius - P.envelop_Outer_thickness,
    P.outer_radius - P.Carbon1OuterWallThick - P.Carbon2OuterWallThick - P.FoamOuterWallThick,
    P.outer_radius - P.Carbon2OuterWallThick - P.FoamOuterWallThick,
    P.outer_radius - P.Carbon2OuterWallThick, P.outer_radius, ⟨?_, ?_, ?_⟩, ?_,
    ⟨?_, ?_, ?_, ?_⟩, ?_⟩
  · rw [solidOf_wall M P VolId.lvInnerWallCarbon (InnerWall_Carbon P) rfl]; rfl
  · rw [solidOf_wall M P VolId.lvInnerWallCopper (InnerWall_Copper P) rfl]; rfl
  · rw [solidOf_wall M P VolId.lvInnerWallGas (InnerWall_Gas P) rfl]; rfl
  · refine ⟨by ring, by ring, ?_, rfl, rfl⟩
    unfold Params.envelop_Inner_thickness
    ring
  · rw [solidOf_wall M P VolId.lvOuterWallCopper (OuterWall_Copper P) rfl]; rfl
  · rw [solidOf_wall M P VolId.lvOuterWallCarbon1 (OuterWall_Carbon1 P) rfl]; rfl
  · rw [solidOf_wall M P VolId.lvOuterWallFoam (OuterWall_Foam P) rfl]; rfl
  · rw [solidOf_wall M P VolId.lvOuterWallCarbon2 (OuterWall_Carbon2 P) rfl]; rfl
  · refine ⟨?_, by ring, by ring, by ring, rfl, rfl⟩
    unfold Params.envelop_Outer_thickness
    ring

/-- C20: a build that does not throw places each of the four end-cap disks
twice in the parent volume, at `z` and at `-z`, and the disk at `z` goes from
`z - dz` to `z + dz` for the half length `dz` of its tube: the gas disk from
`halflength` to `halflength + GasEndcapWallThick`, and the copper, the kapton
and the carbon disk each from the end of the disk before over its own
thickness. -/
theorem endcap_stack (M : MathOps R) (P : Params R) (h : (build_layer M P).error = none) :
    ∃ zG zCu zK zC hG hCu hK hC : R,
      (transformsIn VolId.parentVol VolId.lvEndcapWallGas (build_layer M P).events =
          [[Motion.Translation3D 0 0 zG], [Motion.Translation3D 0 0 (-zG)]] ∧
        transformsIn VolId.parentVol VolId.lvEndcapWallCopper (build_layer M P).events =
          [[Motion.Translation3D 0 0 zCu], [Motion.Translation3D 0 0 (-zCu)]] ∧
        transformsIn VolId.parentVol VolId.lvEndcapWallKapton (build_layer M P).events =
          [[Motion.Translation3D 0 0 zK], [Motion.Translation3D 0 0 (-zK)]] ∧
        transformsIn VolId.parentVol VolId.lvEndcapWallCarbon (build_layer M P).events =
          [[Motion.Translation3D 0 0 zC], [Motion.Translation3D 0 0 (-zC)]]) ∧
      ((solidOf VolId.lvEndcapWallGas (build_layer M P).events).bind Solid.halfLength = some hG ∧
        (solidOf VolId.lvEndcapWallCopper (build_layer M P).events).bind Solid.halfLength =
          some hCu ∧
        (solidOf VolId.lvEndcapWallKapton (build_layer M P).events).bind Solid.halfLength =
          some hK ∧
        (solidOf VolId.lvEndcapWallCarbon (build_layer M P).events).bind Solid.halfLength =
          some hC) ∧
      (zG - hG = P.halflength ∧ zG + hG = P.halflength + P.GasEndcapWallThick) ∧
      (zCu - hCu = zG + hG ∧
        zCu + hCu = P.halflength + P.GasEndcapWallThick + P.CopperEndcapWallThick) ∧
      (zK - hK = zCu + hCu ∧
        zK + hK =
          P.halflength + P.GasEndcapWallThick + P.CopperEndcapWallThick +
            P.KaptonEndcapWallThick) ∧
      (zC - hC = zK + hK ∧
        zC + hC =
          P.halflength + P.GasEndcapWallThick + P.CopperEndcapWallThick +
            P.KaptonEndcapWallThick + P.CarbonEndcapWallThick) := by
  refine ⟨PosEndcapGas P, PosEndcapCopper P, PosEndcapKapton P, PosEndcapCarbon P,
    (1 / 2) * P.GasEndcapWallThick, (1 / 2) * P.CopperEndcapWallThick,
    (1 / 2) * P.KaptonEndcapWallThick, (1 / 2) * P.CarbonEndcapWallThick,
    ⟨?_, ?_, ?_, ?_⟩, ⟨?_, ?_, ?_, ?_⟩, ?_, ?_, ?_, ?_⟩
  · rw [transformsIn_parentVol_wall M P h VolId.lvEndcapWallGas rfl (by simp) (by simp) (by simp)
      (by simp)]
    rfl
  · rw [transformsIn_parentVol_wall M P h VolId.lvEndcapWallCopper rfl (by simp) (by simp) (by simp)
      (by simp)]
    rfl
  · rw [transformsIn_parentVol_wall M P h VolId.lvEndcapWallKapton rfl (by simp) (by simp) (by simp)
      (by simp)]
    rfl
  · rw [transformsIn_parentVol_wall M P h VolId.lvEndcapWallCarbon rfl (by simp) (by simp) (by simp)
      (by simp)]
    rfl
  · rw [solidOf_wall M P VolId.lvEndcapWallGas (Endcap_Gas P) rfl]; rfl
  · rw [solidOf_wall M P VolId.lvEndcapWallCopper (Endcap_Copper P) rfl]; rfl
  · rw [solidOf_wall M P VolId.lvEndcapWallKapton (Endcap_Kapton P) rfl]; rfl
  · rw [solidOf_wall M P VolId.lvEndcapWallCarbon (Endcap_Carbon P) rfl]; rfl
  · unfold PosEndcapGas; constructor <;> ring
  · unfold PosEndcapGas PosEndcapCopper; constructor <;> ring
  · unfold PosEndcapCopper PosEndcapKapton; constructor <;> ring
  · unfold PosEndcapKapton PosEndcapCarbon; constructor <;> ring

theorem endcap_stack_witness :
    (build_layer exampleMath acceptScenarioParams).error = none ∧
    ∃ zG zCu zK zC hG hCu hK hC : ℚ,
      (transformsIn VolId.parentVol VolId.lvEndcapWallGas
            (build_layer exampleMath acceptScenarioParams).events =
          [[Motion.Translation3D 0 0 zG], [Motion.Translation3D 0 0 (-zG)]] ∧
        transformsIn VolId.parentVol VolId.lvEndcapWallCopper
            (build_layer exampleMath acceptScenarioParams).events =
          [[Motion.Translation3D 0 0 zCu], [Motion.Translation3D 0 0 (-zCu)]] ∧
        transformsIn VolId.parentVol VolId.lvEndcapWallKapton
            (build_layer exampleMath acceptScenarioParams).events =
          [[Motion.Translation3D 0 0 zK], [Motion.Translation3D 0 0 (-zK)]] ∧
        transformsIn VolId.parentVol VolId.lvEndcapWallCarbon
            (build_layer exampleMath acceptScenarioParams).events =
          [[Motion.Translation3D 0 0 zC], [Motion.Translation3D 0 0 (-zC)]]) ∧
      ((solidOf VolId.lvEndcapWallGas
            (build_layer exampleMath acceptScenarioParams).events).bind Solid.halfLength =
          some hG ∧
        (solidOf VolId.lvEndcapWallCopper
            (build_layer exampleMath acceptScenarioParams).events).bind Solid.halfLength =
          some hCu ∧
        (solidOf VolId.lvEndcapWallKapton
            (build_layer exampleMath acceptScenarioParams).events).bind Solid.halfLength =
          some hK ∧
        (solidOf VolId.lvEndcapWallCarbon
            (build_layer exampleMath acceptScenarioParams).events).bind Solid.halfLength =
          some hC) ∧
      (zG - hG = 2000 ∧ zG + hG = 2250) ∧ (zCu - hCu = 2250 ∧ zCu + hCu = 2250 + 1 / 2) ∧
      (zK - hK = 2250 + 1 / 2 ∧ zK + hK = 2251) ∧ (zC - hC = 2251 ∧ zC + hC = 2256) := by
  refine ⟨acceptScenario_ok, ?_⟩
  obtain ⟨zG, zCu, zK, zC, hG, hCu, hK, hC, t, s, e1, e2, e3, e4⟩ :=
    endcap_stack exampleMath acceptScenarioParams acceptScenario_ok
  refine ⟨zG, zCu, zK, zC, hG, hCu, hK, hC, t, s, ?_, ?_, ?_, ?_⟩
  · have a1 : acceptScenarioParams.halflength = 2000 := rfl
    have a2 : acceptScenarioParams.GasEndcapWallThick = 250 := rfl
    rw [a1, a2] at e1
    exact ⟨e1.1, by rw [e1.2]; norm_num⟩
  · have a1 : acceptScenarioParams.halflength = 2000 := rfl
    have a2 : acceptScenarioParams.GasEndcapWallThick = 250 := rfl
    have a3 : acceptScenarioParams.CopperEndcapWallThick = 1 / 2 := rfl
    rw [a1, a2] at e1
    rw [a1, a2, a3] at e2
    exact ⟨by rw [e2.1, e1.2]; norm_num, by rw [e2.2]; norm_num⟩
  · have a1 : acceptScenarioParams.halflength = 2000 := rfl
    have a2 : acceptScenarioParams.GasEndcapWallThick = 250 := rfl
    have a3 : acceptScenarioParams.CopperEndcapWallThick = 1 / 2 := rfl
    have a4 : acceptScenarioParams.KaptonEndcapWallThick = 1 / 2 := rfl
    rw [a1, a2, a3] at e2
    rw [a1, a2, a3, a4] at e3
    exact ⟨by rw [e3.1, e2.2]; norm_num, by rw [e3.2]; norm_num⟩
  · have a1 : acceptScenarioParams.halflength = 2000 := rfl
    have a2 : acceptScenarioParams.GasEndcapWallThick = 250 := rfl
    have a3 : acceptScenarioParams.CopperEndcapWallThick = 1 / 2 := rfl
    have a4 : acceptScenarioParams.KaptonEndcapWallThick = 1 / 2 := rfl
    have a5 : acceptScenarioParams.CarbonEndcapWallThick = 5 := rfl
    rw [a1, a2, a3, a4] at e3
    rw [a1, a2, a3, a4, a5] at e4
    exact ⟨by rw [e4.1, e3.2]; norm_num, by rw [e4.2]; norm_num⟩

/-! ## The names of the whole-ring volumes -/

theorem digitChar_spec : ∀ k, k < 10 →
    (Nat.digitChar k).toNat - 48 = k ∧ Nat.digitChar k ≠ '_' := by
  decide

theorem decodeDigits_append_singleton (l : List Char) (c : Char) :
    decodeDigits (l ++ [c]) = decodeDigits l * 10 + (c.toNat - 48) := by
  simp [decodeDigits, List.foldl_append]

/-- The digits that `Nat.toDigitsCore` puts in front of `ds` write `n` and
contain no underscore. -/
theorem toDigitsCore_spec : ∀ (fuel n : Nat) (ds : List Char), n < fuel →
    ∃ pre, Nat.toDigitsCore 10 fuel n ds = pre ++ ds ∧ decodeDigits pre = n ∧
      ∀ c ∈ pre, c ≠ '_' := by
  intro fuel
  induction fuel with
  | zero => intro n ds h; omega
  | succ fuel ih =>
    intro n ds h
    have hd := digitChar_spec (n % 10) (Nat.mod_lt n (by decide))
    unfold Nat.toDigitsCore
    by_cases h0 : n / 10 = 0
    · refine ⟨[Nat.digitChar (n % 10)], by simp [h0], ?_, ?_⟩
      · have : decodeDigits [Nat.digitChar (n % 10)] = (Nat.digitChar (n % 10)).toNat - 48 := by
          simp [decodeDigits]
        rw [this, hd.1]
        omega
      · intro c hc
        rw [List.mem_singleton] at hc
        rw [hc]; exact hd.2
    · obtain ⟨pre, h1, h2, h3⟩ := ih (n / 10) (Nat.digitChar (n % 10) :: ds) (by omega)
      refine ⟨pre ++ [Nat.digitChar (n % 10)], by simp [h0, h1], ?_, ?_⟩
      · rw [decodeDigits_append_singleton, h2, hd.1]
        omega
      · intro c hc
        rw [List.mem_append, List.mem_singleton] at hc
        rcases hc with hc | hc
        · exact h3 c hc
        · rw [hc]; exact hd.2

theorem toString_nat_spec (n : Nat) :
    decodeDigits (toString n).data = n ∧ ∀ c ∈ (toString n).data, c ≠ '_' := by
  obtain ⟨pre, h1, h2, h3⟩ := toDigitsCore_spec (n + 1) n [] (by omega)
  have e : (toString n).data = pre := by
    show (Nat.toDigits 10 n) = pre
    rw [Nat.toDigits, h1, List.append_nil]
  rw [e]
  exact ⟨h2, h3⟩

/-- Two lists that continue with the same character after beginnings without
that character have the same beginning and the same rest. -/
theorem append_cons_inj {α : Type} (a : α) :
    ∀ (l1 l2 r1 r2 : List α), a ∉ l1 → a ∉ l2 → l1 ++ a :: r1 = l2 ++ a :: r2 →
      l1 = l2 ∧ r1 = r2 := by
  intro l1
  induction l1 with
  | nil =>
    intro l2 r1 r2 _ h2 h
    cases l2 with
    | nil => simpa using h
    | cons b l2 =>
      simp only [List.nil_append, List.cons_append, List.cons.injEq] at h
      exact absurd (List.mem_cons.mpr (Or.inl h.1)) h2
  | cons b l1 ih =>
    intro l2 r1 r2 h1 h2 h
    cases l2 with
    | nil =>
      simp only [List.nil_append, List.cons_append, List.cons.injEq] at h
      exact absurd (List.mem_cons.mpr (Or.inl h.1.symm)) h1
    | cons c l2 =>
      simp only [List.cons_append, List.cons.injEq] at h
      obtain ⟨e1, e2⟩ := ih l2 r1 r2 (fun hm => h1 (List.mem_cons_of_mem _ hm))
        (fun hm => h2 (List.mem_cons_of_mem _ hm)) h.2
      exact ⟨by rw [h.1, e1], e2⟩

/-- Different rings have different names. -/
theorem wholeHyperboloidVolumeName_injective (SL iring SL' iring' : Nat)
    (h : wholeHyperboloidVolumeName SL iring = wholeHyperboloidVolumeName SL' iring') :
    SL = SL' ∧ iring = iring' := by
  have hd := congrArg String.data h
  unfold wholeHyperboloidVolumeName at hd
  simp only [String.data_append, List.append_assoc] at hd
  have hd1 := List.append_cancel_left hd
  simp only [List.cons_append, List.nil_append] at hd1
  obtain ⟨e1, e2⟩ := append_cons_inj '_' _ _ _ _
    (fun hm => (toString_nat_spec SL).2 _ hm rfl)
    (fun hm => (toString_nat_spec SL').2 _ hm rfl) hd1
  simp only [List.cons.injEq, true_and] at e2
  refine ⟨?_, ?_⟩
  · rw [← (toString_nat_spec SL).1, ← (toString_nat_spec SL').1, e1]
  · rw [← (toString_nat_spec iring).1, ← (toString_nat_spec iring').1, e2]

/-! ## The whole-ring volumes of a build that does not throw -/

theorem ring_pairs_eq_product (P : Params R) :
    ring_pairs P = List.product (List.range P.nSuperLayer.toNat) (List.range P.nRing.toNat) :=
  rfl

theorem mem_ring_pairs (P : Params R) (p : Nat × Nat) :
    p ∈ ring_pairs P ↔ p.1 < P.nSuperLayer.toNat ∧ p.2 < P.nRing.toNat := by
  rw [ring_pairs_eq_product]
  obtain ⟨a, b⟩ := p
  have key := @List.mem_product _ _ (List.range P.nSuperLayer.toNat) (List.range P.nRing.toNat)
    a b
  rw [List.mem_range, List.mem_range] at key
  exact key

theorem nodup_ring_pairs (P : Params R) : (ring_pairs P).Nodup := by
  rw [ring_pairs_eq_product]
  exact List.Nodup.product (List.nodup_range _) (List.nodup_range _)

theorem length_ring_pairs (P : Params R) :
    (ring_pairs P).length = P.nSuperLayer.toNat * P.nRing.toNat := by
  rw [ring_pairs_eq_product]
  have key := List.length_product (List.range P.nSuperLayer.toNat) (List.range P.nRing.toNat)
  rw [List.length_range, List.length_range] at key
  exact key

theorem flatMap_ring_pairs {β : Type} (P : Params R) (f : Nat → Nat → List β) :
    (ring_pairs P).flatMap (fun p => f p.1 p.2) =
      (List.range P.nSuperLayer.toNat).flatMap (fun SL =>
        (List.range P.nRing.toNat).flatMap (fun iring => f SL iring)) := by
  unfold ring_pairs
  rw [List.flatMap_assoc]
  apply List.flatMap_congr
  intro SL _
  rw [List.flatMap_map]

/-- The rings of a build that does not throw have the indices of the loops. -/
theorem rings_index_of_ok (M : MathOps R) (P : Params R) (h : (build_layer M P).error = none) :
    (build_layer M P).rings.map (fun r => (r.SL, r.iring)) = ring_pairs P := by
  rw [build_layer_rings_of_ok M P h, List.map_flatMap]
  unfold ring_pairs
  apply List.flatMap_congr
  intro SL _
  rw [List.map_map]
  rfl

/-- What an additive observation sees in a build that does not throw. -/
theorem build_layer_observe_of_ok {β : Type} (M : MathOps R) (P : Params R)
    (g : List (Event R) → List β) (happ : ∀ a b, g (a ++ b) = g a ++ g b)
    (h : (build_layer M P).error = none) (m : Nat) (hm : P.nSuperLayer.toNat = m + 1) :
    g (build_layer M P).events =
      g (wall_volumes P) ++
        (g (inner_guard_ring M P (superlayer_factors M P 0
            (superlayer_wire_counts M P 0 (State.initial P)))).2 ++
          g (initial_field_layer M P 0 (inner_guard_ring M P (superlayer_factors M P 0
            (superlayer_wire_counts M P 0 (State.initial P)))).1).2) ++
        g (all_ring_events M P) ++
        (g (outer_field_layer M P m (ring_entry M P m P.nRing.toNat)).2 ++
          g (outer_guard_ring M P
            (outer_field_layer M P m (ring_entry M P m P.nRing.toNat)).1).2) ++
        g (register_layers (superlayer_entry M P (m + 1))) ++ g (place_walls P) := by
  rw [build_layer_events_of_ok M P h m hm, first_superlayer_block_zero,
    last_superlayer_block_of_eq M P m _ (by omega)]
  simp only [happ, List.append_assoc]

/-- An observation that sees only what the ring iterations do sees, in a build
that does not throw, what it sees in the iteration of each pair of indices. -/
theorem build_layer_observe_rings_of_ok {β : Type} (M : MathOps R) (P : Params R)
    (g : List (Event R) → List β) (hnil : g [] = [])
    (happ : ∀ a b, g (a ++ b) = g a ++ g b) (hwalls : g (wall_volumes P) = [])
    (hinner : ∀ st, g (inner_guard_ring M P st).2 = [])
    (hinit : ∀ SL st, g (initial_field_layer M P SL st).2 = [])
    (hout : ∀ SL st, g (outer_field_layer M P SL st).2 = [])
    (hguard : ∀ st, g (outer_guard_ring M P st).2 = [])
    (hreg : ∀ st : State R, st.lvLayerVol =
        [(VolId.lvLayerInit, "lvLayerInit"), (VolId.lvLayer_0, "lvLayer_0"),
          (VolId.lvLayerOut, "lvLayerOut"), (VolId.lvLayerOutG, "lvLayerOutG")] →
      g (register_layers st) = [])
    (hplace : g (place_walls P) = [])
    (f : Nat → Nat → List β)
    (hring : ∀ SL iring st, g (ring_iteration M P SL iring st).events = f SL iring)
    (h : (build_layer M P).error = none) :
    g (build_layer M P).events = (ring_pairs P).flatMap (fun p => f p.1 p.2) := by
  rcases Nat.eq_zero_or_pos P.nSuperLayer.toNat with h0 | hpos
  · rw [build_layer_events_of_zero M P h0, happ, hwalls, hplace]
    unfold ring_pairs
    rw [h0]
    rfl
  · obtain ⟨m, hm⟩ : ∃ m, P.nSuperLayer.toNat = m + 1 := ⟨P.nSuperLayer.toNat - 1, by omega⟩
    rw [build_layer_observe_of_ok M P g happ h m hm, hwalls, hinner, hinit, hout, hguard,
      hreg _ (final_lvLayerVol_eq M P h m hm), hplace, observe_all_ring_events M P g hnil happ,
      flatMap_ring_pairs]
    simp [hring]

theorem registered_field_wire_placements (SL iring phi_index : Nat) (w : wire R)
    (ratio : CFloat) : registered (field_wire_placements SL iring phi_index w ratio) = [] := by
  simp only [registered, field_wire_placements, List.filterMap_map]
  induction sub_phi_indices phi_index ratio with
  | nil => rfl
  | cons a l ih => simp [Event.registration, ih]

theorem registered_cells (P : Params R) (SL iring : Nat) (hyp : Solid R) (st : State R) :
    registered (cells P SL iring hyp st) = [] := by
  unfold cells
  rw [observe_flatMap registered rfl registered_append]
  have : ∀ q, registered (cell P SL iring hyp st q) = [] := by
    intro q
    simp only [cell, registered_append, registered_field_wire_placements]
    simp [registered, Event.registration]
  simp [this]

theorem registered_ring_iteration (M : MathOps R) (P : Params R) (SL iring : Nat)
    (st : State R) :
    registered (ring_iteration M P SL iring st).events =
      [(wholeHyperboloidVolumeName SL iring, VolId.whole_ring_hyperboloid_volume SL iring)] := by
  rw [ring_iteration_events, registered_append, registered_ring_geometry_events]
  split
  · rfl
  · rw [registered_cells]; rfl

theorem placedIn_parentVol_ring_iteration (M : MathOps R) (P : Params R) (SL iring : Nat)
    (st : State R) :
    placedIn VolId.parentVol (ring_iteration M P SL iring st).events =
      [VolId.whole_ring_hyperboloid_volume SL iring] := by
  rw [ring_iteration_events, placedIn_append, placedIn_parentVol_geometry]
  split
  · rfl
  · rw [placedIn_parentVol_cells]; rfl

theorem placedIn_eq_nil (m : VolId) (evs : List (Event R))
    (h : ∀ x ∈ placements evs, x.1 ≠ m) : placedIn m evs = [] := by
  rw [placedIn_eq_map_filter, List.map_eq_nil_iff, List.filter_eq_nil_iff]
  intro x hx
  simpa using h x hx

theorem placedIn_parentVol_boundary (M : MathOps R) (P : Params R) (SL : Nat) (st : State R) :
    placedIn VolId.parentVol (inner_guard_ring M P st).2 = [] ∧
    placedIn VolId.parentVol (initial_field_layer M P SL st).2 = [] ∧
    placedIn VolId.parentVol (outer_field_layer M P SL st).2 = [] ∧
    placedIn VolId.parentVol (outer_guard_ring M P st).2 = [] := by
  have hb := placements_boundary_mother M P SL st
  refine ⟨?_, ?_, ?_, ?_⟩ <;> apply placedIn_eq_nil <;> intro x hx
  · rcases hb.1 x hx with ⟨s, e⟩ | e <;> rw [e] <;> simp
  · rcases hb.2.1 x hx with ⟨s, e⟩ | e <;> rw [e] <;> simp
  · rcases hb.2.2.1 x hx with ⟨s, e⟩ | e <;> rw [e] <;> simp
  · rcases hb.2.2.2 x hx with ⟨s, e⟩ | e <;> rw [e] <;> simp

theorem registered_whole_rings_of_ok (M : MathOps R) (P : Params R)
    (h : (build_layer M P).error = none) :
    (registered (build_layer M P).events).filter (fun x => isWholeRing x.2) =
      (ring_pairs P).map (fun p =>
        (wholeHyperboloidVolumeName p.1 p.2, VolId.whole_ring_hyperboloid_volume p.1 p.2)) := by
  rw [List.map_eq_flatMap]
  refine build_layer_observe_rings_of_ok M P
    (fun evs => (registered evs).filter (fun x => isWholeRing x.2)) rfl ?_ rfl ?_ ?_ ?_ ?_ ?_ rfl
    (fun SL iring =>
      [(wholeHyperboloidVolumeName SL iring, VolId.whole_ring_hyperboloid_volume SL iring)])
    ?_ h
  · intro a b; simp [registered_append]
  · intro st; simp only [registered_inner_guard_ring]; rfl
  · intro SL st; simp only [registered_initial_field_layer]; rfl
  · intro SL st; simp only [registered_outer_field_layer]; rfl
  · intro st; simp only [registered_outer_guard_ring]; rfl
  · intro st hst; simp only [registered_register_layers, hst]; rfl
  · intro SL iring st; simp only [registered_ring_iteration]; rfl

theorem placedIn_parentVol_whole_rings_of_ok (M : MathOps R) (P : Params R)
    (h : (build_layer M P).error = none) :
    (placedIn VolId.parentVol (build_layer M P).events).filter isWholeRing =
      (ring_pairs P).map (fun p => VolId.whole_ring_hyperboloid_volume p.1 p.2) := by
  rw [List.map_eq_flatMap]
  refine build_layer_observe_rings_of_ok M P
    (fun evs => (placedIn VolId.parentVol evs).filter isWholeRing) rfl ?_ rfl ?_ ?_ ?_ ?_ ?_ rfl
    (fun SL iring => [VolId.whole_ring_hyperboloid_volume SL iring]) ?_ h
  · intro a b; simp [placedIn_append]
  · intro st; simp only [(placedIn_parentVol_boundary M P 0 st).1]; rfl
  · intro SL st; simp only [(placedIn_parentVol_boundary M P SL st).2.1]; rfl
  · intro SL st; simp only [(placedIn_parentVol_boundary M P SL st).2.2.1]; rfl
  · intro st; simp only [(placedIn_parentVol_boundary M P 0 st).2.2.2]; rfl
  · intro st hst
    simp only [placedIn_eq_map_filter, placements_register_layers, hst]
    rfl
  · intro SL iring st; simp only [placedIn_parentVol_ring_iteration]; rfl

theorem twoRing_ok : (build_layer exampleMath twoRingParams).error = none := by
  apply build_layer_succeeds
  intro SL _
  show (200 : Int) + (SL : Int) * 0 ≠ 0 ∧
    (200 : Int) + (SL : Int) * 0 ∣ Int.tdiv ((4 - 2) * ((200 : Int) + (SL : Int) * 0)) 2
  rw [mul_zero, add_zero]
  decide

/-- C14: a build that does not throw registers, and places in the parent
volume, one whole-ring volume for every pair `(SL, iring)` with
`SL < nSuperLayer` and `iring < nRing`, in the order of the loops and nothing
else of that kind: `nSuperLayer * nRing` volumes, each registered under its
name `hyperboloid_SL_<SL>_ring_<iring>`, each placement tagged `superLayer = SL`
and `ring = iring`, and different pairs have different names. -/
theorem whole_ring_volumes (M : MathOps R) (P : Params R)
    (h : (build_layer M P).error = none) :
    (registered (build_layer M P).events).filter (fun x => isWholeRing x.2) =
      (ring_pairs P).map (fun p =>
        (wholeHyperboloidVolumeName p.1 p.2, VolId.whole_ring_hyperboloid_volume p.1 p.2)) ∧
    (placedIn VolId.parentVol (build_layer M P).events).filter isWholeRing =
      (ring_pairs P).map (fun p => VolId.whole_ring_hyperboloid_volume p.1 p.2) ∧
    (ring_pairs P).Nodup ∧
    (∀ p, p ∈ ring_pairs P ↔ p.1 < P.nSuperLayer.toNat ∧ p.2 < P.nRing.toNat) ∧
    (ring_pairs P).length = P.nSuperLayer.toNat * P.nRing.toNat ∧
    (0 ≤ P.nSuperLayer → 0 ≤ P.nRing →
      ((ring_pairs P).length : Int) = P.nSuperLayer * P.nRing) ∧
    (∀ p ∈ ring_pairs P,
      physVolIDs VolId.parentVol (VolId.whole_ring_hyperboloid_volume p.1 p.2)
          (build_layer M P).events =
        [("superLayer", (p.1 : Int)), ("ring", (p.2 : Int))]) ∧
    (∀ p q : Nat × Nat,
      wholeHyperboloidVolumeName p.1 p.2 = wholeHyperboloidVolumeName q.1 q.2 → p = q) := by
  refine ⟨registered_whole_rings_of_ok M P h, placedIn_parentVol_whole_rings_of_ok M P h,
    nodup_ring_pairs P, mem_ring_pairs P, length_ring_pairs P, ?_, ?_, ?_⟩
  · intro h1 h2
    rw [length_ring_pairs, Nat.cast_mul, Int.toNat_of_nonneg h1, Int.toNat_of_nonneg h2]
  · intro p hp
    rw [mem_ring_pairs] at hp
    exact physVolIDs_whole_ring_build_layer M P _ (ring_mem_of_ok M P h p.1 p.2 hp.1 hp.2)
  · intro p q hpq
    obtain ⟨e1, e2⟩ := wholeHyperboloidVolumeName_injective _ _ _ _ hpq
    exact Prod.ext e1 e2

theorem whole_ring_volumes_witness :
    (build_layer exampleMath twoRingParams).error = none ∧
    (registered (build_layer exampleMath twoRingParams).events).filter
        (fun x => isWholeRing x.2) =
      [(wholeHyperboloidVolumeName 0 0, VolId.whole_ring_hyperboloid_volume 0 0),
        (wholeHyperboloidVolumeName 0 1, VolId.whole_ring_hyperboloid_volume 0 1)] ∧
    (placedIn VolId.parentVol (build_layer exampleMath twoRingParams).events).filter
        isWholeRing =
      [VolId.whole_ring_hyperboloid_volume 0 0, VolId.whole_ring_hyperboloid_volume 0 1] :=
  ⟨twoRing_ok, (whole_ring_volumes exampleMath twoRingParams twoRing_ok).1,
    (whole_ring_volumes exampleMath twoRingParams twoRing_ok).2.1⟩

/-! ## The boundary structures -/

theorem created_ring_iteration_filter (M : MathOps R) (P : Params R) (SL iring : Nat)
    (st : State R) (p : VolId → Bool)
    (hcell : ∀ a b c, p (VolId.cellID_volume a b c) = false) :
    (created (ring_iteration M P SL iring st).events).filter p =
      (created (ring_geometry_events M P SL iring st)).filter p := by
  rw [ring_iteration_events, created_append, List.filter_append]
  split
  · exact List.append_nil _
  · rw [created_cells]
    have : ((List.range (ring_info M P SL iring st).top.sense_wires.num.toNat).map
        (VolId.cellID_volume SL iring)).filter p = [] := by
      rw [List.filter_eq_nil_iff]
      intro v hv
      rw [List.mem_map] at hv
      obtain ⟨q, _, rfl⟩ := hv
      simp [hcell]
    rw [this, List.append_nil]

theorem created_boundary_of_ok (M : MathOps R) (P : Params R)
    (h : (build_layer M P).error = none) (hn : 0 < P.nSuperLayer) :
    (created (build_layer M P).events).filter
        (fun v => isLayerVolume v || isWholeRing v || isPlaceWiresVolume v) =
      [ VolId.lvLayerInit, VolId.lvWireVol WireSite.innerGuardFirst,
        VolId.lvWireVol WireSite.innerGuardSecond, VolId.lvLayer_0,
        VolId.lvWireVol WireSite.initField ] ++
      (ring_pairs P).map (fun p => VolId.whole_ring_hyperboloid_volume p.1 p.2) ++
      [ VolId.lvLayerOut, VolId.lvWireVol WireSite.outField, VolId.lvLayerOutG,
        VolId.lvWireVol WireSite.outerGuardFirst, VolId.lvWireVol WireSite.outerGuardSecond ] := by
  obtain ⟨m, hm⟩ : ∃ m, P.nSuperLayer.toNat = m + 1 := ⟨P.nSuperLayer.toNat - 1, by omega⟩
  have happ : ∀ a b : List (Event R),
      (created (a ++ b)).filter
          (fun v => isLayerVolume v || isWholeRing v || isPlaceWiresVolume v) =
        (created a).filter (fun v => isLayerVolume v || isWholeRing v || isPlaceWiresVolume v) ++
        (created b).filter (fun v => isLayerVolume v || isWholeRing v || isPlaceWiresVolume v) := by
    intro a b; simp [created_append]
  have key := build_layer_observe_of_ok M P
    (fun evs => (created evs).filter
      (fun v => isLayerVolume v || isWholeRing v || isPlaceWiresVolume v)) happ h m hm
  have k2 := observe_all_ring_events M P
    (fun evs => (created evs).filter
      (fun v => isLayerVolume v || isWholeRing v || isPlaceWiresVolume v)) rfl happ
  beta_reduce at key k2
  rw [key, k2]
  simp only [created_wall_volumes, created_inner_guard_ring, created_initial_field_layer,
    created_outer_field_layer, created_outer_guard_ring, created_register_layers,
    created_place_walls]
  have hring : ∀ SL iring st, (created (ring_iteration M P SL iring st).events).filter
      (fun v => isLayerVolume v || isWholeRing v || isPlaceWiresVolume v) =
      [VolId.whole_ring_hyperboloid_volume SL iring] := by
    intro SL iring st
    rw [created_ring_iteration_filter M P SL iring st _ (fun _ _ _ => rfl),
      created_ring_geometry_events]
    rfl
  simp only [hring]
  rw [← flatMap_ring_pairs P (fun SL iring => [VolId.whole_ring_hyperboloid_volume SL iring]),
    ← List.map_eq_flatMap]
  simp [List.filter, isLayerVolume, isWholeRing, isPlaceWiresVolume]

theorem registered_layers_of_ok (M : MathOps R) (P : Params R)
    (h : (build_layer M P).error = none) (hn : 0 < P.nSuperLayer) :
    (registered (build_layer M P).events).filter (fun x => isLayerVolume x.2) =
      [ ("lvLayerInit", VolId.lvLayerInit), ("lvLayer_0", VolId.lvLayer_0),
        ("lvLayerOut", VolId.lvLayerOut), ("lvLayerOutG", VolId.lvLayerOutG) ] := by
  obtain ⟨m, hm⟩ : ∃ m, P.nSuperLayer.toNat = m + 1 := ⟨P.nSuperLayer.toNat - 1, by omega⟩
  have happ : ∀ a b : List (Event R),
      (registered (a ++ b)).filter (fun x => isLayerVolume x.2) =
        (registered a).filter (fun x => isLayerVolume x.2) ++
        (registered b).filter (fun x => isLayerVolume x.2) := by
    intro a b; simp [registered_append]
  have key := build_layer_observe_of_ok M P
    (fun evs => (registered evs).filter (fun x => isLayerVolume x.2)) happ h m hm
  have k2 := observe_all_ring_events M P
    (fun evs => (registered evs).filter (fun x => isLayerVolume x.2)) rfl happ
  beta_reduce at key k2
  rw [key, k2]
  simp only [registered_wall_volumes, registered_inner_guard_ring,
    registered_initial_field_layer, registered_outer_field_layer, registered_outer_guard_ring,
    registered_register_layers, registered_place_walls, registered_ring_iteration,
    final_lvLayerVol_eq M P h m hm]
  have : ∀ SL iring : Nat,
      ([(wholeHyperboloidVolumeName SL iring, VolId.whole_ring_hyperboloid_volume SL iring)] :
        List (String × VolId)).filter (fun x => isLayerVolume x.2) = [] := fun _ _ => rfl
  simp [this, List.filter, isLayerVolume]

theorem placedIn_parentVol_layers_of_ok (M : MathOps R) (P : Params R)
    (h : (build_layer M P).error = none) (hn : 0 < P.nSuperLayer) :
    (placedIn VolId.parentVol (build_layer M P).events).filter isLayerVolume =
      [VolId.lvLayerInit, VolId.lvLayer_0, VolId.lvLayerOut, VolId.lvLayerOutG] := by
  obtain ⟨m, hm⟩ : ∃ m, P.nSuperLayer.toNat = m + 1 := ⟨P.nSuperLayer.toNat - 1, by omega⟩
  have happ : ∀ a b : List (Event R),
      (placedIn VolId.parentVol (a ++ b)).filter isLayerVolume =
        (placedIn VolId.parentVol a).filter isLayerVolume ++
        (placedIn VolId.parentVol b).filter isLayerVolume := by
    intro a b; simp [placedIn_append]
  have key := build_layer_observe_of_ok M P
    (fun evs => (placedIn VolId.parentVol evs).filter isLayerVolume) happ h m hm
  have k2 := observe_all_ring_events M P
    (fun evs => (placedIn VolId.parentVol evs).filter isLayerVolume) rfl happ
  beta_reduce at key k2
  rw [key, k2]
  have hreg : placedIn VolId.parentVol (register_layers (superlayer_entry M P (m + 1))) =
      [VolId.lvLayerInit, VolId.lvLayer_0, VolId.lvLayerOut, VolId.lvLayerOutG] := by
    rw [placedIn_eq_map_filter, placements_register_layers, final_lvLayerVol_eq M P h m hm]
    rfl
  have hwalls : placedIn VolId.parentVol (wall_volumes P) = [] := rfl
  have hplace : (placedIn VolId.parentVol (place_walls P)).filter isLayerVolume = [] := rfl
  have hring : ∀ SL iring : Nat,
      ([VolId.whole_ring_hyperboloid_volume SL iring] : List VolId).filter isLayerVolume = [] :=
    fun _ _ => rfl
  simp only [(placedIn_parentVol_boundary M P 0 _).1, (placedIn_parentVol_boundary M P 0 _).2.1,
    (placedIn_parentVol_boundary M P m _).2.2.1, (placedIn_parentVol_boundary M P 0 _).2.2.2,
    placedIn_parentVol_ring_iteration, hreg, hwalls, hplace, hring]
  simp [List.filter, isLayerVolume]

/-- C18: a build that does not throw, with at least one superlayer, creates
the layer `lvLayerInit` with the two populations of inner guard wires and the
layer `lvLayer_0` with its field wires before the volume of any ring, and the
layer `lvLayerOut` with its field wires and the layer `lvLayerOutG` with the
two populations of outer guard wires after the volumes of all rings; each once.
The four layers, and no other layer of that kind, are registered under their
names and placed in the parent volume in that order, and the total wires of
`PlaceWires` are six. -/
theorem boundary_structures (M : MathOps R) (P : Params R)
    (h : (build_layer M P).error = none) (hn : 0 < P.nSuperLayer) :
    (created (build_layer M P).events).filter
        (fun v => isLayerVolume v || isWholeRing v || isPlaceWiresVolume v) =
      [ VolId.lvLayerInit, VolId.lvWireVol WireSite.innerGuardFirst,
        VolId.lvWireVol WireSite.innerGuardSecond, VolId.lvLayer_0,
        VolId.lvWireVol WireSite.initField ] ++
      (ring_pairs P).map (fun p => VolId.whole_ring_hyperboloid_volume p.1 p.2) ++
      [ VolId.lvLayerOut, VolId.lvWireVol WireSite.outField, VolId.lvLayerOutG,
        VolId.lvWireVol WireSite.outerGuardFirst, VolId.lvWireVol WireSite.outerGuardSecond ] ∧
    (created (build_layer M P).events).filter isLayerVolume =
      [VolId.lvLayerInit, VolId.lvLayer_0, VolId.lvLayerOut, VolId.lvLayerOutG] ∧
    (registered (build_layer M P).events).filter (fun x => isLayerVolume x.2) =
      [ ("lvLayerInit", VolId.lvLayerInit), ("lvLayer_0", VolId.lvLayer_0),
        ("lvLayerOut", VolId.lvLayerOut), ("lvLayerOutG", VolId.lvLayerOutG) ] ∧
    (placedIn VolId.parentVol (build_layer M P).events).filter isLayerVolume =
      [VolId.lvLayerInit, VolId.lvLayer_0, VolId.lvLayerOut, VolId.lvLayerOutG] ∧
    (created (build_layer M P).events).filter isPlaceWiresVolume =
      [ VolId.lvWireVol WireSite.innerGuardFirst, VolId.lvWireVol WireSite.innerGuardSecond,
        VolId.lvWireVol WireSite.initField, VolId.lvWireVol WireSite.outField,
        VolId.lvWireVol WireSite.outerGuardFirst, VolId.lvWireVol WireSite.outerGuardSecond ] ∧
    ((created (build_layer M P).events).filter isPlaceWiresVolume).length = 6 := by
  have c := created_boundary_of_ok M P h hn
  have hl : (created (build_layer M P).events).filter isLayerVolume =
      [VolId.lvLayerInit, VolId.lvLayer_0, VolId.lvLayerOut, VolId.lvLayerOutG] := by
    have e : (created (build_layer M P).events).filter isLayerVolume =
        ((created (build_layer M P).events).filter
          (fun v => isLayerVolume v || isWholeRing v || isPlaceWiresVolume v)).filter
            isLayerVolume := by
      rw [List.filter_filter]
      congr 1
      funext v
      cases v <;> simp [isLayerVolume]
    rw [e, c, List.filter_append, List.filter_append]
    have : ((ring_pairs P).map (fun p => VolId.whole_ring_hyperboloid_volume p.1 p.2)).filter
        isLayerVolume = [] := by
      rw [List.filter_eq_nil_iff]
      intro v hv
      rw [List.mem_map] at hv
      obtain ⟨q, _, rfl⟩ := hv
      simp [isLayerVolume]
    rw [this]
    rfl
  have hw : (created (build_layer M P).events).filter isPlaceWiresVolume =
      [ VolId.lvWireVol WireSite.innerGuardFirst, VolId.lvWireVol WireSite.innerGuardSecond,
        VolId.lvWireVol WireSite.initField, VolId.lvWireVol WireSite.outField,
        VolId.lvWireVol WireSite.outerGuardFirst, VolId.lvWireVol WireSite.outerGuardSecond ] := by
    have e : (created (build_layer M P).events).filter isPlaceWiresVolume =
        ((created (build_layer M P).events).filter
          (fun v => isLayerVolume v || isWholeRing v || isPlaceWiresVolume v)).filter
            isPlaceWiresVolume := by
      rw [List.filter_filter]
      congr 1
      funext v
      cases isPlaceWiresVolume v <;> simp
    rw [e, c, List.filter_append, List.filter_append]
    have : ((ring_pairs P).map (fun p => VolId.whole_ring_hyperboloid_volume p.1 p.2)).filter
        isPlaceWiresVolume = [] := by
      rw [List.filter_eq_nil_iff]
      intro v hv
      rw [List.mem_map] at hv
      obtain ⟨q, _, rfl⟩ := hv
      simp [isPlaceWiresVolume]
    rw [this]
    rfl
  exact ⟨c, hl, registered_layers_of_ok M P h hn, placedIn_parentVol_layers_of_ok M P h hn, hw,
    by rw [hw]; rfl⟩

theorem boundary_structures_witness :
    (build_layer exampleMath acceptScenarioParams).error = none ∧
    (created (build_layer exampleMath acceptScenarioParams).events).filter
        (fun v => isLayerVolume v || isWholeRing v || isPlaceWiresVolume v) =
      [ VolId.lvLayerInit, VolId.lvWireVol WireSite.innerGuardFirst,
        VolId.lvWireVol WireSite.innerGuardSecond, VolId.lvLayer_0,
        VolId.lvWireVol WireSite.initField, VolId.whole_ring_hyperboloid_volume 0 0,
        VolId.lvLayerOut, VolId.lvWireVol WireSite.outField, VolId.lvLayerOutG,
        VolId.lvWireVol WireSite.outerGuardFirst, VolId.lvWireVol WireSite.outerGuardSecond ] ∧
    (registered (build_layer exampleMath acceptScenarioParams).events).filter
        (fun x => isLayerVolume x.2) =
      [ ("lvLayerInit", VolId.lvLayerInit), ("lvLayer_0", VolId.lvLayer_0),
        ("lvLayerOut", VolId.lvLayerOut), ("lvLayerOutG", VolId.lvLayerOutG) ] :=
  ⟨acceptScenario_ok,
    (boundary_structures exampleMath acceptScenarioParams acceptScenario_ok (by decide)).1,
    (boundary_structures exampleMath acceptScenarioParams acceptScenario_ok (by decide)).2.2.1⟩

/-! ## The guard wires -/

theorem transformsIn_map_placeVolume (m' c' m c : VolId) (f : Nat → Transform R)
    (l : List Nat) :
    transformsIn m' c' (l.map (fun n => Event.placeVolume m c (f n))) =
      if m = m' ∧ c = c' then l.map f else [] := by
  unfold transformsIn
  rw [List.filterMap_map]
  by_cases h : m = m' ∧ c = c'
  · rw [if_pos h]
    obtain ⟨rfl, rfl⟩ := h
    induction l with
    | nil => rfl
    | cons a l ih => simp [ih]
  · rw [if_neg h]
    induction l with
    | nil => rfl
    | cons a l ih => simp [h, ih]

/-- The transforms with which `PlaceWires` places the wire in its mother
volume: the rotation by `phioffset + phi * n` about the axis after the
translation to `radius` and the stereo rotation, for `n < num`. -/
theorem transformsIn_PlaceWires (m c : VolId) (site : WireSite) (w : wire R)
    (outwrap halflength : R) (hm : VolId.lvWireVol site ≠ m) :
    transformsIn m c (PlaceWires site w outwrap halflength).2 =
      if w.mother_volume = m ∧ VolId.lvWireVol site = c then
        (List.range w.num.toNat).map (fun (n : Nat) =>
          [Motion.RotationZ (w.phioffset + w.phi * ((n : Nat) : R)),
            Motion.Translation3D w.radius 0 0, Motion.RotationX w.stereo])
      else [] := by
  unfold PlaceWires
  simp only [transformsIn_append]
  have h1 : transformsIn m c (apply_wire_coating site w outwrap halflength "G4_Au").2 = [] := by
    simp [apply_wire_coating, transformsIn, hm]
  rw [h1, List.nil_append]
  exact transformsIn_map_placeVolume m c _ _ _ _

theorem transformsIn_inner_guard_ring (M : MathOps R) (P : Params R) (st : State R) :
    transformsIn VolId.lvLayerInit (VolId.lvWireVol WireSite.innerGuardFirst)
        (inner_guard_ring M P st).2 =
      (List.range (Int.tdiv P.nInGWire 2).toNat).map (fun (n : Nat) =>
        [Motion.RotationZ (st.ringangle + st.phi_ring1 * ((n : Nat) : R)),
          Motion.Translation3D (P.inGuardRad - P.inGWradii) 0 0,
          Motion.RotationX (M.atan (P.inGuardRad * (1 + st.dropFactor) * st.epsilonFactor))]) ∧
    transformsIn VolId.lvLayerInit (VolId.lvWireVol WireSite.innerGuardSecond)
        (inner_guard_ring M P st).2 =
      (List.range (Int.tdiv P.nInGWire 2).toNat).map (fun (n : Nat) =>
        [Motion.RotationZ (st.ringangle + st.phi_ring + st.phi_ring1 * ((n : Nat) : R)),
          Motion.Translation3D (P.inGuardRad + P.inGWradii + P.extShiftFW) 0 0,
          Motion.RotationX
            (-1 * M.atan (P.inGuardRad * (1 + st.dropFactor) * st.epsilonFactor))]) := by
  constructor
  · unfold inner_guard_ring
    simp only [transformsIn_append, PlaceWires_fst, backLayer_concat, back_concat]
    rw [transformsIn_PlaceWires _ _ _ _ _ _ (by simp),
      transformsIn_PlaceWires _ _ _ _ _ _ (by simp)]
    simp [transformsIn]
  · unfold inner_guard_ring
    simp only [transformsIn_append, PlaceWires_fst, backLayer_concat, back_concat]
    rw [transformsIn_PlaceWires _ _ _ _ _ _ (by simp),
      transformsIn_PlaceWires _ _ _ _ _ _ (by simp)]
    simp [transformsIn]

theorem transformsIn_outer_guard_ring (M : MathOps R) (P : Params R) (st : State R) :
    transformsIn VolId.lvLayerOutG (VolId.lvWireVol WireSite.outerGuardFirst)
        (outer_guard_ring M P st).2 =
      (List.range (Int.tdiv P.nOutGWire 2).toNat).map (fun (n : Nat) =>
        [Motion.RotationZ (st.ringangle + st.phi_ring1 * ((n : Nat) : R)),
          Motion.Translation3D (P.outGuardRad - P.inGWradii) 0 0,
          Motion.RotationX (M.atan (P.outGuardRad * (1 + st.dropFactor) * st.epsilonFactor))]) ∧
    transformsIn VolId.lvLayerOutG (VolId.lvWireVol WireSite.outerGuardSecond)
        (outer_guard_ring M P st).2 =
      (List.range (Int.tdiv P.nOutGWire 2).toNat).map (fun (n : Nat) =>
        [Motion.RotationZ (st.ringangle + st.phi_ring + st.phi_ring1 * ((n : Nat) : R)),
          Motion.Translation3D (P.outGuardRad + P.inGWradii + P.extShiftFW) 0 0,
          Motion.RotationX
            (-1 * M.atan (P.outGuardRad * (1 + st.dropFactor) * st.epsilonFactor))]) := by
  constructor
  · unfold outer_guard_ring
    simp only [transformsIn_append, PlaceWires_fst, backLayer_concat, back_concat]
    rw [transformsIn_PlaceWires _ _ _ _ _ _ (by simp),
      transformsIn_PlaceWires _ _ _ _ _ _ (by simp)]
    simp [transformsIn]
  · unfold outer_guard_ring
    simp only [transformsIn_append, PlaceWires_fst, backLayer_concat, back_concat]
    rw [transformsIn_PlaceWires _ _ _ _ _ _ (by simp),
      transformsIn_PlaceWires _ _ _ _ _ _ (by simp)]
    simp [transformsIn]

theorem ring_iteration_phi_ring (M : MathOps R) (P : Params R) (SL iring : Nat) (st : State R) :
    (ring_iteration M P SL iring st).st.phi_ring1 = st.phi_ring1 ∧
    (ring_iteration M P SL iring st).st.phi_ring = st.phi_ring := by
  unfold ring_iteration; dsimp only; split <;> exact ⟨rfl, rfl⟩

theorem ring_loop_entry_phi_ring1 (M : MathOps R) (P : Params R) (SL : Nat) (st : State R) :
    (ring_loop_entry M P SL st).phi_ring1 = 2 * (ring_loop_entry M P SL st).phi_ring := by
  unfold ring_loop_entry first_superlayer_block; split <;> rfl

/-- In every ring the period `phi_ring1` is twice `phi_ring` (line 291). -/
theorem ring_entry_phi_ring1 (M : MathOps R) (P : Params R) (SL iring : Nat) :
    (ring_entry M P SL iring).phi_ring1 = 2 * (ring_entry M P SL iring).phi_ring := by
  unfold ring_entry
  refine forLoop_st_invariant (ring_iteration M P SL) (fun s => s.phi_ring1 = 2 * s.phi_ring)
    ?_ iring 0 _ (ring_loop_entry_phi_ring1 M P SL _)
  intro i st h
  rw [(ring_iteration_phi_ring M P SL i st).1, (ring_iteration_phi_ring M P SL i st).2]
  exact h

theorem outer_field_layer_phi_ring (M : MathOps R) (P : Params R) (SL : Nat) (st : State R) :
    (outer_field_layer M P SL st).1.phi_ring1 = st.phi_ring1 ∧
    (outer_field_layer M P SL st).1.phi_ring = st.phi_ring := ⟨rfl, rfl⟩

theorem placements_place_walls_mother (P : Params R) :
    ∀ x ∈ placements (place_walls P), x.1 = VolId.parentVol := by
  intro x hx
  rw [placements_place_walls] at hx
  simp only [List.mem_cons, List.mem_singleton, List.not_mem_nil, or_false] at hx
  rcases hx with h | h | h | h | h | h | h | h | h | h | h | h | h | h | h
  all_goals (rw [h])

theorem placements_register_layers_mother (st : State R) :
    ∀ x ∈ placements (register_layers st), x.1 = VolId.parentVol := by
  intro x hx
  rw [placements_register_layers, List.mem_map] at hx
  obtain ⟨v, _, rfl⟩ := hx
  rfl

/-- An observation of the placements in one of the four layers sees, in a
build that does not throw, what it sees in the first-superlayer and in the
last-superlayer block. -/
theorem build_layer_observe_mother {β : Type} (M : MathOps R) (P : Params R)
    (g : List (Event R) → List β) (hnil : g [] = [])
    (happ : ∀ a b, g (a ++ b) = g a ++ g b) (mother : VolId)
    (hm : isLayerVolume mother = true)
    (hg : ∀ evs, (∀ x ∈ placements evs, x.1 ≠ mother) → g evs = [])
    (h : (build_layer M P).error = none) (m : Nat) (hm' : P.nSuperLayer.toNat = m + 1) :
    g (build_layer M P).events =
      (g (inner_guard_ring M P (superlayer_factors M P 0
          (superlayer_wire_counts M P 0 (State.initial P)))).2 ++
        g (initial_field_layer M P 0 (inner_guard_ring M P (superlayer_factors M P 0
          (superlayer_wire_counts M P 0 (State.initial P)))).1).2) ++
      (g (outer_field_layer M P m (ring_entry M P m P.nRing.toNat)).2 ++
        g (outer_guard_ring M P
          (outer_field_layer M P m (ring_entry M P m P.nRing.toNat)).1).2) := by
  rw [build_layer_observe_boundary M P g hnil happ ?_ h m hm']
  · have h1 : g (wall_volumes P) = [] := by
      apply hg
      intro x hx
      rw [placements_wall_volumes] at hx
      simp at hx
    have h2 : g (register_layers (superlayer_entry M P (m + 1))) = [] := by
      apply hg
      intro x hx
      rw [placements_register_layers_mother _ x hx]
      intro e; rw [← e] at hm; simp [isLayerVolume] at hm
    have h3 : g (place_walls P) = [] := by
      apply hg
      intro x hx
      rw [placements_place_walls_mother P x hx]
      intro e; rw [← e] at hm; simp [isLayerVolume] at hm
    rw [h1, h2, h3]
    simp
  · intro SL iring st
    apply hg
    intro x hx e
    rcases placements_ring_iteration M P SL iring st x hx with ⟨s, hs⟩ | hs
    · rw [e] at hs; rw [hs] at hm; simp [isLayerVolume] at hm
    · obtain ⟨a, b⟩ := x
      simp only at e
      subst e
      revert hs hm
      cases a <;> simp [ringOwned, isLayerVolume]

theorem transformsIn_lvLayerInit_of_ok (M : MathOps R) (P : Params R)
    (h : (build_layer M P).error = none) (hn : 0 < P.nSuperLayer) (c : VolId) :
    transformsIn VolId.lvLayerInit c (build_layer M P).events =
      transformsIn VolId.lvLayerInit c (inner_guard_ring M P (superlayer_factors M P 0
        (superlayer_wire_counts M P 0 (State.initial P)))).2 := by
  obtain ⟨m, hm⟩ : ∃ m, P.nSuperLayer.toNat = m + 1 := ⟨P.nSuperLayer.toNat - 1, by omega⟩
  have hb := fun SL st => placements_boundary_mother M P SL st
  rw [build_layer_observe_mother M P (transformsIn VolId.lvLayerInit c) rfl
    (transformsIn_append _ _) VolId.lvLayerInit rfl ?_ h m hm]
  · rw [transformsIn_eq_nil _ _ (initial_field_layer M P 0 _).2,
      transformsIn_eq_nil _ _ (outer_field_layer M P m _).2,
      transformsIn_eq_nil _ _ (outer_guard_ring M P _).2]
    · simp
    · intro hx
      rcases (hb 0 _).2.2.2 _ hx with ⟨s, e⟩ | e <;> exact absurd e (by simp)
    · intro hx
      rcases (hb m _).2.2.1 _ hx with ⟨s, e⟩ | e <;> exact absurd e (by simp)
    · intro hx
      rcases (hb 0 _).2.1 _ hx with ⟨s, e⟩ | e <;> exact absurd e (by simp)
  · intro evs he
    exact transformsIn_eq_nil _ _ _ (fun hx => he _ hx rfl)

theorem transformsIn_lvLayerOutG_of_ok (M : MathOps R) (P : Params R)
    (h : (build_layer M P).error = none) (m : Nat) (hm : P.nSuperLayer.toNat = m + 1)
    (c : VolId) :
    transformsIn VolId.lvLayerOutG c (build_layer M P).events =
      transformsIn VolId.lvLayerOutG c (outer_guard_ring M P
        (outer_field_layer M P m (ring_entry M P m P.nRing.toNat)).1).2 := by
  have hb := fun SL st => placements_boundary_mother M P SL st
  rw [build_layer_observe_mother M P (transformsIn VolId.lvLayerOutG c) rfl
    (transformsIn_append _ _) VolId.lvLayerOutG rfl ?_ h m hm]
  · rw [transformsIn_eq_nil _ _ (initial_field_layer M P 0 _).2,
      transformsIn_eq_nil _ _ (outer_field_layer M P m _).2,
      transformsIn_eq_nil _ _ (inner_guard_ring M P _).2]
    · simp
    · intro hx
      rcases (hb 0 _).1 _ hx with ⟨s, e⟩ | e <;> exact absurd e (by simp)
    · intro hx
      rcases (hb m _).2.2.1 _ hx with ⟨s, e⟩ | e <;> exact absurd e (by simp)
    · intro hx
      rcases (hb 0 _).2.1 _ hx with ⟨s, e⟩ | e <;> exact absurd e (by simp)
  · intro evs he
    exact transformsIn_eq_nil _ _ _ (fun hx => he _ hx rfl)

theorem placedIn_guard_layers_of_ok (M : MathOps R) (P : Params R)
    (h : (build_layer M P).error = none) (hn : 0 < P.nSuperLayer) :
    placedIn VolId.lvLayerInit (build_layer M P).events =
      List.replicate (Int.tdiv P.nInGWire 2).toNat (VolId.lvWireVol WireSite.innerGuardFirst) ++
        List.replicate (Int.tdiv P.nInGWire 2).toNat
          (VolId.lvWireVol WireSite.innerGuardSecond) ∧
    placedIn VolId.lvLayerOutG (build_layer M P).events =
      List.replicate (Int.tdiv P.nOutGWire 2).toNat (VolId.lvWireVol WireSite.outerGuardFirst) ++
        List.replicate (Int.tdiv P.nOutGWire 2).toNat
          (VolId.lvWireVol WireSite.outerGuardSecond) := by
  obtain ⟨m, hm⟩ : ∃ m, P.nSuperLayer.toNat = m + 1 := ⟨P.nSuperLayer.toNat - 1, by omega⟩
  have hb := fun SL st => placements_boundary_mother M P SL st
  constructor
  · rw [build_layer_observe_mother M P (placedIn VolId.lvLayerInit) rfl
      (placedIn_append _) VolId.lvLayerInit rfl (fun evs he => placedIn_eq_nil _ _ he) h m hm]
    rw [placedIn_eq_nil _ (initial_field_layer M P 0 _).2,
      placedIn_eq_nil _ (outer_field_layer M P m _).2,
      placedIn_eq_nil _ (outer_guard_ring M P _).2]
    · simp [placedIn, placements_inner_guard_ring, List.filter_cons, List.filter_replicate]
    · intro x hx
      rcases (hb 0 _).2.2.2 _ hx with ⟨s, e⟩ | e <;> rw [e] <;> simp
    · intro x hx
      rcases (hb m _).2.2.1 _ hx with ⟨s, e⟩ | e <;> rw [e] <;> simp
    · intro x hx
      rcases (hb 0 _).2.1 _ hx with ⟨s, e⟩ | e <;> rw [e] <;> simp
  · rw [build_layer_observe_mother M P (placedIn VolId.lvLayerOutG) rfl
      (placedIn_append _) VolId.lvLayerOutG rfl (fun evs he => placedIn_eq_nil _ _ he) h m hm]
    rw [placedIn_eq_nil _ (initial_field_layer M P 0 _).2,
      placedIn_eq_nil _ (outer_field_layer M P m _).2,
      placedIn_eq_nil _ (inner_guard_ring M P _).2]
    · simp [placedIn, placements_outer_guard_ring, List.filter_cons, List.filter_replicate]
    · intro x hx
      rcases (hb 0 _).1 _ hx with ⟨s, e⟩ | e <;> rw [e] <;> simp
    · intro x hx
      rcases (hb m _).2.2.1 _ hx with ⟨s, e⟩ | e <;> rw [e] <;> simp
    · intro x hx
      rcases (hb 0 _).2.1 _ hx with ⟨s, e⟩ | e <;> rw [e] <;> simp

/-- C17: a build that does not throw, with at least one superlayer, places
in the layer `lvLayerInit` the two populations of inner guard wires and nothing
else, and in the layer `lvLayerOutG` the two populations of outer guard wires
and nothing else.  The two populations of a layer have `nInGWire / 2` (for the
outer layer `nOutGWire / 2`, integer division) wires each; wire `n` of the
first is turned about the axis by `phi0 + phi * n` and has the stereo angle
`eps`, wire `n` of the second is turned by `phi0 + phi / 2 + phi * n` and has
the stereo angle `-eps`. -/
theorem guard_wire_populations (M : MathOps R) (P : Params R)
    (h : (build_layer M P).error = none) (hn : 0 < P.nSuperLayer) :
    (∃ phi0 phi eps rho1 rho2 : R,
      transformsIn VolId.lvLayerInit (VolId.lvWireVol WireSite.innerGuardFirst)
          (build_layer M P).events =
        (List.range (Int.tdiv P.nInGWire 2).toNat).map (fun (n : Nat) =>
          [Motion.RotationZ (phi0 + phi * ((n : Nat) : R)), Motion.Translation3D rho1 0 0,
            Motion.RotationX eps]) ∧
      transformsIn VolId.lvLayerInit (VolId.lvWireVol WireSite.innerGuardSecond)
          (build_layer M P).events =
        (List.range (Int.tdiv P.nInGWire 2).toNat).map (fun (n : Nat) =>
          [Motion.RotationZ (phi0 + phi / 2 + phi * ((n : Nat) : R)),
            Motion.Translation3D rho2 0 0, Motion.RotationX (-eps)]) ∧
      placedIn VolId.lvLayerInit (build_layer M P).events =
        List.replicate (Int.tdiv P.nInGWire 2).toNat
            (VolId.lvWireVol WireSite.innerGuardFirst) ++
          List.replicate (Int.tdiv P.nInGWire 2).toNat
            (VolId.lvWireVol WireSite.innerGuardSecond)) ∧
    (∃ phi0 phi eps rho1 rho2 : R,
      transformsIn VolId.lvLayerOutG (VolId.lvWireVol WireSite.outerGuardFirst)
          (build_layer M P).events =
        (List.range (Int.tdiv P.nOutGWire 2).toNat).map (fun (n : Nat) =>
          [Motion.RotationZ (phi0 + phi * ((n : Nat) : R)), Motion.Translation3D rho1 0 0,
            Motion.RotationX eps]) ∧
      transformsIn VolId.lvLayerOutG (VolId.lvWireVol WireSite.outerGuardSecond)
          (build_layer M P).events =
        (List.range (Int.tdiv P.nOutGWire 2).toNat).map (fun (n : Nat) =>
          [Motion.RotationZ (phi0 + phi / 2 + phi * ((n : Nat) : R)),
            Motion.Translation3D rho2 0 0, Motion.RotationX (-eps)]) ∧
      placedIn VolId.lvLayerOutG (build_layer M P).events =
        List.replicate (Int.tdiv P.nOutGWire 2).toNat
            (VolId.lvWireVol WireSite.outerGuardFirst) ++
          List.replicate (Int.tdiv P.nOutGWire 2).toNat
            (VolId.lvWireVol WireSite.outerGuardSecond)) := by
  obtain ⟨m, hm⟩ : ∃ m, P.nSuperLayer.toNat = m + 1 := ⟨P.nSuperLayer.toNat - 1, by omega⟩
  have hp := placedIn_guard_layers_of_ok M P h hn
  have half : ∀ x : R, x = 2 * x / 2 := fun x => by ring
  constructor
  · have e : (superlayer_factors M P 0 (superlayer_wire_counts M P 0 (State.initial P))).phi_ring1
        = 2 * (superlayer_factors M P 0
          (superlayer_wire_counts M P 0 (State.initial P))).phi_ring := rfl
    refine ⟨(superlayer_factors M P 0 (superlayer_wire_counts M P 0 (State.initial P))).ringangle,
      (superlayer_factors M P 0 (superlayer_wire_counts M P 0 (State.initial P))).phi_ring1,
      M.atan (P.inGuardRad * (1 + (superlayer_factors M P 0 (superlayer_wire_counts M P 0 (State.initial P))).dropFactor) *
        (superlayer_factors M P 0 (superlayer_wire_counts M P 0 (State.initial P))).epsilonFactor),
      P.inGuardRad - P.inGWradii, P.inGuardRad + P.inGWradii + P.extShiftFW, ?_, ?_, hp.1⟩
    · rw [transformsIn_lvLayerInit_of_ok M P h hn]
      exact (transformsIn_inner_guard_ring M P _).1
    · rw [transformsIn_lvLayerInit_of_ok M P h hn, (transformsIn_inner_guard_ring M P _).2, e,
        neg_one_mul, ← half]
  · have e : (outer_field_layer M P m (ring_entry M P m P.nRing.toNat)).1.phi_ring1 =
        2 * (outer_field_layer M P m (ring_entry M P m P.nRing.toNat)).1.phi_ring := by
      rw [(outer_field_layer_phi_ring M P m _).1, (outer_field_layer_phi_ring M P m _).2]
      exact ring_entry_phi_ring1 M P m _
    refine ⟨(outer_field_layer M P m (ring_entry M P m P.nRing.toNat)).1.ringangle,
      (outer_field_layer M P m (ring_entry M P m P.nRing.toNat)).1.phi_ring1,
      M.atan (P.outGuardRad * (1 + (outer_field_layer M P m (ring_entry M P m P.nRing.toNat)).1.dropFactor) *
        (outer_field_layer M P m (ring_entry M P m P.nRing.toNat)).1.epsilonFactor),
      P.outGuardRad - P.inGWradii, P.outGuardRad + P.inGWradii + P.extShiftFW, ?_, ?_, hp.2⟩
    · rw [transformsIn_lvLayerOutG_of_ok M P h m hm]
      exact (transformsIn_outer_guard_ring M P _).1
    · rw [transformsIn_lvLayerOutG_of_ok M P h m hm, (transformsIn_outer_guard_ring M P _).2, e,
        neg_one_mul, ← half]

theorem guard_wire_populations_witness :
    (build_layer exampleMath acceptScenarioParams).error = none ∧
    placedIn VolId.lvLayerInit (build_layer exampleMath acceptScenarioParams).events =
      [ VolId.lvWireVol WireSite.innerGuardFirst, VolId.lvWireVol WireSite.innerGuardFirst,
        VolId.lvWireVol WireSite.innerGuardFirst, VolId.lvWireVol WireSite.innerGuardFirst,
        VolId.lvWireVol WireSite.innerGuardSecond, VolId.lvWireVol WireSite.innerGuardSecond,
        VolId.lvWireVol WireSite.innerGuardSecond, VolId.lvWireVol WireSite.innerGuardSecond ] ∧
    ∃ phi0 phi eps rho1 rho2 : ℚ,
      transformsIn VolId.lvLayerOutG (VolId.lvWireVol WireSite.outerGuardFirst)
          (build_layer exampleMath acceptScenarioParams).events =
        (List.range 4).map (fun (n : Nat) =>
          [Motion.RotationZ (phi0 + phi * ((n : Nat) : ℚ)), Motion.Translation3D rho1 0 0,
            Motion.RotationX eps]) ∧
      transformsIn VolId.lvLayerOutG (VolId.lvWireVol WireSite.outerGuardSecond)
          (build_layer exampleMath acceptScenarioParams).events =
        (List.range 4).map (fun (n : Nat) =>
          [Motion.RotationZ (phi0 + phi / 2 + phi * ((n : Nat) : ℚ)),
            Motion.Translation3D rho2 0 0, Motion.RotationX (-eps)]) := by
  obtain ⟨⟨_, _, _, _, _, _, _, h3⟩, ⟨phi0, phi, eps, rho1, rho2, k1, k2, _⟩⟩ :=
    guard_wire_populations exampleMath acceptScenarioParams acceptScenario_ok (by decide)
  exact ⟨acceptScenario_ok, h3, phi0, phi, eps, rho1, rho2, k1, k2⟩

/-! ## The field wires of the cells and the loop of `PlaceWires` -/

theorem range_flatMap_block (b : Nat) :
    ∀ a : Nat, (List.range a).flatMap (fun p => (List.range b).map (fun k => p * b + k)) =
      List.range (a * b) := by
  intro a
  induction a with
  | zero => simp
  | succ a ih =>
    rw [List.range_succ, List.flatMap_append, ih, Nat.succ_mul, List.range_add]
    simp

/-- With an integer ratio `rho` and `N > 0` cells, the values of
`sub_phi_index` over all cells are `0, ..., N * rho - 1`, each once and in
increasing order. -/
theorem sub_phi_indices_all (N rho : Int) (hN : 0 < N) :
    (List.range N.toNat).flatMap (fun p => sub_phi_indices p (CFloat.finite ((rho : Int) : ℚ))) =
      (List.range (N * rho).toNat).map (fun (n : Nat) => (n : Int)) := by
  simp only [sub_phi_indices_intCast]
  rcases le_or_lt 0 rho with h | h
  · obtain ⟨b, rfl⟩ := Int.eq_ofNat_of_zero_le h
    obtain ⟨a, rfl⟩ := Int.eq_ofNat_of_zero_le (le_of_lt hN)
    have e : ((a : Int) * (b : Int)).toNat = a * b := by
      rw [← Nat.cast_mul]; exact Int.toNat_natCast _
    rw [e, Int.toNat_natCast, Int.toNat_natCast, ← range_flatMap_block b a, List.map_flatMap]
    apply List.flatMap_congr
    intro p _
    rw [List.map_map]
    apply List.map_congr_left
    intro k _
    simp
  · have e1 : rho.toNat = 0 := Int.toNat_eq_zero.mpr (le_of_lt h)
    have e2 : (N * rho).toNat = 0 :=
      Int.toNat_eq_zero.mpr (le_of_lt (mul_neg_of_pos_of_neg hN h))
    rw [e1, e2]
    simp

theorem sub_phi_indices_all_of_dvd (a N : Int) (hN : 0 < N) (h : N ∣ a) :
    (List.range N.toNat).flatMap (fun p => sub_phi_indices p (CFloat.int_div_float a N)) =
      (List.range a.toNat).map (fun (n : Nat) => (n : Int)) := by
  rw [int_div_float_of_dvd a N (ne_of_gt hN) h, sub_phi_indices_all N (a / N) hN,
    Int.mul_ediv_cancel' h]

theorem cellTransforms_append (SL iring : Nat) (c : VolId) (a b : List (Event R)) :
    cellTransforms SL iring c (a ++ b) =
      cellTransforms SL iring c a ++ cellTransforms SL iring c b := by
  simp [cellTransforms]

theorem cellTransforms_eq_nil (SL iring : Nat) (c : VolId) (evs : List (Event R))
    (h : wirePlacementsInCells SL iring evs = []) : cellTransforms SL iring c evs = [] := by
  unfold cellTransforms
  rw [List.filterMap_eq_nil_iff]
  intro e he
  cases e with
  | placeVolume m' c' tr =>
    have hm : isCellOf SL iring m' = false := by
      by_contra hne
      have hmem : (m', c') ∈ wirePlacementsInCells SL iring evs := by
        unfold wirePlacementsInCells
        rw [List.mem_filter]
        exact ⟨List.mem_filterMap.mpr ⟨_, he, rfl⟩, by simpa using hne⟩
      rw [h] at hmem
      exact absurd hmem (List.not_mem_nil _)
    simp [hm]
  | _ => rfl

theorem cellTransforms_field_wire_placements (SL iring phi_index : Nat) (c : VolId) (w : wire R)
    (ratio : CFloat) :
    cellTransforms SL iring c (field_wire_placements SL iring phi_index w ratio) =
      if w.volume = c then
        (sub_phi_indices phi_index ratio).map (fun sub_phi_index =>
          [ Motion.RotationZ (w.phioffset + w.phi * ((sub_phi_index : Int) : R)),
            Motion.Translation3D w.radius 0 0, Motion.RotationX w.stereo ])
      else [] := by
  unfold cellTransforms field_wire_placements
  rw [List.filterMap_map]
  have hcell : isCellOf SL iring (VolId.cellID_volume SL iring phi_index) = true := by
    simp [isCellOf]
  by_cases h : w.volume = c
  · rw [if_pos h]
    induction sub_phi_indices phi_index ratio with
    | nil => rfl
    | cons a l ih =>
      rw [List.filterMap_cons, List.map_cons, ih]
      simp only [Function.comp_apply, hcell, h, and_self, if_true]
  · rw [if_neg h]
    induction sub_phi_indices phi_index ratio with
    | nil => rfl
    | cons a l ih =>
      rw [List.filterMap_cons, ih]
      simp only [Function.comp_apply, h, and_false, if_false]

/-- The transforms with which one cell places a volume that is not the sense
wire. -/
theorem cellTransforms_cell (P : Params R) (SL iring : Nat) (hyp : Solid R) (st : State R)
    (phi_index : Nat) (c : VolId) (hc : st.sense_wires.volume ≠ c) :
    cellTransforms SL iring c (cell P SL iring hyp st phi_index) =
      cellTransforms SL iring c (field_wire_placements SL iring phi_index st.field_wires_bottom
        (middle_to_bottom_num_wire_ratio st)) ++
      cellTransforms SL iring c (field_wire_placements SL iring phi_index st.field_wires_center
        (middle_to_middle_num_wire_ratio st)) ++
      cellTransforms SL iring c (field_wire_placements SL iring phi_index st.field_wires_top
        (middle_to_top_num_wire_ratio st)) := by
  unfold cell
  simp only [cellTransforms_append]
  congr 2
  simp [cellTransforms, isCellOf, hc]

theorem map_sub_phi_transforms (w : wire R) (n : Nat) :
    (List.map (fun (sub_phi_index : Int) =>
        [ Motion.RotationZ (w.phioffset + w.phi * ((sub_phi_index : Int) : R)),
          Motion.Translation3D w.radius 0 0, Motion.RotationX w.stereo ])
      ((List.range n).map (fun (k : Nat) => (k : Int)))) =
    (List.range n).map (fun (k : Nat) =>
      [ Motion.RotationZ (w.phioffset + w.phi * ((k : Nat) : R)),
        Motion.Translation3D w.radius 0 0, Motion.RotationX w.stereo ]) := by
  rw [List.map_map]
  apply List.map_congr_left
  intro k _
  simp

theorem cellTransforms_cells_family (P : Params R) (SL iring : Nat) (hyp : Solid R)
    (st : State R) (c : VolId) (hc : st.sense_wires.volume ≠ c) :
    cellTransforms SL iring c (cells P SL iring hyp st) =
      (List.range st.sense_wires.num.toNat).flatMap (fun p =>
        cellTransforms SL iring c (field_wire_placements SL iring p st.field_wires_bottom
          (middle_to_bottom_num_wire_ratio st)) ++
        cellTransforms SL iring c (field_wire_placements SL iring p st.field_wires_center
          (middle_to_middle_num_wire_ratio st)) ++
        cellTransforms SL iring c (field_wire_placements SL iring p st.field_wires_top
          (middle_to_top_num_wire_ratio st))) := by
  unfold cells
  rw [observe_flatMap _ rfl (cellTransforms_append SL iring c)]
  apply List.flatMap_congr
  intro p _
  exact cellTransforms_cell P SL iring hyp st p c hc

/-- The transforms with which the cells of a ring that passes the ratio test
place one family of field wires are those of the loop of `PlaceWires` for
that family. -/
theorem cellTransforms_cells (P : Params R) (SL iring : Nat) (hyp : Solid R) (st : State R)
    (hN : 0 < st.sense_wires.num) (hpass : ratio_test st = false)
    (hs : st.sense_wires.volume = VolId.lvWireVol (WireSite.sense SL iring))
    (hb : st.field_wires_bottom.volume = VolId.lvWireVol (WireSite.bottom SL iring))
    (hc : st.field_wires_center.volume = VolId.lvWireVol (WireSite.center SL iring))
    (ht : st.field_wires_top.volume = VolId.lvWireVol (WireSite.top SL iring)) :
    cellTransforms SL iring (VolId.lvWireVol (WireSite.bottom SL iring))
        (cells P SL iring hyp st) = placeWiresTransforms st.field_wires_bottom ∧
    cellTransforms SL iring (VolId.lvWireVol (WireSite.center SL iring))
        (cells P SL iring hyp st) = placeWiresTransforms st.field_wires_center ∧
    cellTransforms SL iring (VolId.lvWireVol (WireSite.top SL iring))
        (cells P SL iring hyp st) = placeWiresTransforms st.field_wires_top := by
  obtain ⟨db, dc, dt⟩ := dvd_of_pass st (ne_of_gt hN) hpass
  have ib := sub_phi_indices_all_of_dvd _ _ hN db
  have ic := sub_phi_indices_all_of_dvd _ _ hN dc
  have it := sub_phi_indices_all_of_dvd _ _ hN dt
  refine ⟨?_, ?_, ?_⟩
  · rw [cellTransforms_cells_family P SL iring hyp st _ (by rw [hs]; simp)]
    simp only [cellTransforms_field_wire_placements, hb, hc, ht]
    simp only [VolId.lvWireVol.injEq, reduceCtorEq, if_true, if_false,
      List.append_nil, List.nil_append]
    unfold placeWiresTransforms
    rw [← List.map_flatMap, ← map_sub_phi_transforms, ← ib]
    rfl
  · rw [cellTransforms_cells_family P SL iring hyp st _ (by rw [hs]; simp)]
    simp only [cellTransforms_field_wire_placements, hb, hc, ht]
    simp only [VolId.lvWireVol.injEq, reduceCtorEq, if_true, if_false,
      List.append_nil, List.nil_append]
    unfold placeWiresTransforms
    rw [← List.map_flatMap, ← map_sub_phi_transforms, ← ic]
    rfl
  · rw [cellTransforms_cells_family P SL iring hyp st _ (by rw [hs]; simp)]
    simp only [cellTransforms_field_wire_placements, hb, hc, ht]
    simp only [VolId.lvWireVol.injEq, reduceCtorEq, if_true, if_false,
      List.append_nil, List.nil_append]
    unfold placeWiresTransforms
    rw [← List.map_flatMap, ← map_sub_phi_transforms, ← it]
    rfl

theorem isCellOf_ringOwned (SL iring : Nat) (x : VolId × VolId)
    (h : isCellOf SL iring x.1 = true) : ringOwned x = true := by
  obtain ⟨m, c⟩ := x
  cases m <;> simp [isCellOf] at h
  rfl

/-- The transforms with which the whole build places a volume in the cells
of one of its rings are those of the cells of that ring. -/
theorem cellTransforms_build_layer (M : MathOps R) (P : Params R) (r : RingInfo R)
    (hr : r ∈ (build_layer M P).rings) (c : VolId) :
    cellTransforms r.SL r.iring c (build_layer M P).events =
      if ratio_test r.top = true then []
      else cellTransforms r.SL r.iring c
        (cells P r.SL r.iring (whole_ring_hyperboloid r.upper) r.top) := by
  have hp : ∀ x : VolId × VolId, (fun p : VolId × VolId => isCellOf r.SL r.iring p.1) x = true →
      ringOwned x = true := fun x hx => isCellOf_ringOwned r.SL r.iring x hx
  rw [build_layer_observe_ring M P (cellTransforms r.SL r.iring c) rfl
    (cellTransforms_append _ _ _) rfl ?_ ?_ ?_ r hr ?_]
  · rw [ring_events_of_mem M P r hr, cellTransforms_append,
      cellTransforms_eq_nil _ _ _ _ (wirePlacementsInCells_geometry M P _ _ _ _ _)]
    split <;> rfl
  · intro SL st
    exact cellTransforms_eq_nil _ _ _ _
      (filter_eq_nil_of_ringOwned _ hp _ (ringOwned_first_superlayer_block M P SL st))
  · intro SL st
    exact cellTransforms_eq_nil _ _ _ _
      (filter_eq_nil_of_ringOwned _ hp _ (ringOwned_last_superlayer_block M P SL st))
  · intro he
    apply cellTransforms_eq_nil
    apply filter_eq_nil_of_ringOwned _ hp
    intro x hx
    rw [placements_append, List.mem_append] at hx
    rcases hx with hx | hx
    · exact ringOwned_register_layers _ (final_lvLayerVol M P he) x hx
    · exact ringOwned_place_walls P x hx
  · intro SL iring st hne
    apply cellTransforms_eq_nil
    rw [ring_iteration_events, wirePlacementsInCells_append, wirePlacementsInCells_geometry]
    split
    · rfl
    · rw [wirePlacementsInCells_cells_other _ _ _ _ _ _ _ hne]; rfl

/-- With exact ratios: in a ring that passes the ratio test, with `N > 0` sense
wires, the values of `sub_phi_index` that the cells `0, ..., N - 1` go through for a
family of field wires (bottom, center, top) are `0, ..., num - 1` for the
number `num` of wires of the family, each once and in increasing order; and
the transforms with which the cells place the wires of the family are, in
program order, those with which the loop of `PlaceWires` would place them: the
rotation by `phioffset + phi * n` after the translation to `radius` and the
stereo rotation, for `n = 0, ..., num - 1`. -/
theorem field_wires_as_PlaceWires (M : MathOps R) (P : Params R) (r : RingInfo R)
    (hr : r ∈ (build_layer M P).rings) (hN : 0 < r.top.sense_wires.num)
    (hpass : (ring_iteration M P r.SL r.iring r.entry).error = none) :
    ((List.range r.top.sense_wires.num.toNat).flatMap
          (fun p => sub_phi_indices p (middle_to_bottom_num_wire_ratio r.top)) =
        (List.range r.top.field_wires_bottom.num.toNat).map (fun (n : Nat) => (n : Int)) ∧
      (List.range r.top.sense_wires.num.toNat).flatMap
          (fun p => sub_phi_indices p (middle_to_middle_num_wire_ratio r.top)) =
        (List.range r.top.field_wires_center.num.toNat).map (fun (n : Nat) => (n : Int)) ∧
      (List.range r.top.sense_wires.num.toNat).flatMap
          (fun p => sub_phi_indices p (middle_to_top_num_wire_ratio r.top)) =
        (List.range r.top.field_wires_top.num.toNat).map (fun (n : Nat) => (n : Int))) ∧
    (cellTransforms r.SL r.iring r.top.field_wires_bottom.volume (build_layer M P).events =
        placeWiresTransforms r.top.field_wires_bottom ∧
      cellTransforms r.SL r.iring r.top.field_wires_center.volume (build_layer M P).events =
        placeWiresTransforms r.top.field_wires_center ∧
      cellTransforms r.SL r.iring r.top.field_wires_top.volume (build_layer M P).events =
        placeWiresTransforms r.top.field_wires_top) ∧
    (∀ (site : WireSite) (w : wire R) (outwrap halflength : R),
      VolId.lvWireVol site ≠ w.mother_volume →
      transformsIn w.mother_volume (VolId.lvWireVol site)
        (PlaceWires site w outwrap halflength).2 = placeWiresTransforms w) := by
  have hp : ratio_test r.top = false := (ring_error_of_mem M P r hr).1.mp hpass
  obtain ⟨db, dc, dt⟩ := dvd_of_pass r.top (ne_of_gt hN) hp
  obtain ⟨vs, vb, vc, vt⟩ := ring_volumes_of_mem M P r hr
  obtain ⟨cb, cc, ct⟩ := cellTransforms_cells P r.SL r.iring (whole_ring_hyperboloid r.upper)
    r.top hN hp vs vb vc vt
  refine ⟨⟨sub_phi_indices_all_of_dvd _ _ hN db, sub_phi_indices_all_of_dvd _ _ hN dc,
    sub_phi_indices_all_of_dvd _ _ hN dt⟩, ⟨?_, ?_, ?_⟩, ?_⟩
  · rw [vb, cellTransforms_build_layer M P r hr, hp]; exact cb
  · rw [vc, cellTransforms_build_layer M P r hr, hp]; exact cc
  · rw [vt, cellTransforms_build_layer M P r hr, hp]; exact ct
  · intro site w outwrap halflength hm
    rw [transformsIn_PlaceWires _ _ _ _ _ _ hm, if_pos ⟨rfl, rfl⟩]
    rfl

theorem field_wires_as_PlaceWires_witness :
    first_ring exampleMath acceptScenarioParams ∈
      (build_layer exampleMath acceptScenarioParams).rings ∧
    0 < (first_ring exampleMath acceptScenarioParams).top.sense_wires.num ∧
    cellTransforms 0 0 (first_ring exampleMath acceptScenarioParams).top.field_wires_bottom.volume
        (build_layer exampleMath acceptScenarioParams).events =
      placeWiresTransforms (first_ring exampleMath acceptScenarioParams).top.field_wires_bottom ∧
    (placeWiresTransforms
      (first_ring exampleMath acceptScenarioParams).top.field_wires_bottom).length = 200 := by
  have hN : 0 < (first_ring exampleMath acceptScenarioParams).top.sense_wires.num := by
    rw [acceptScenario_first_ring_nums.1]; decide
  refine ⟨acceptScenario_first_ring_mem, hN,
    (field_wires_as_PlaceWires exampleMath acceptScenarioParams _ acceptScenario_first_ring_mem
      hN acceptScenario_first_ring_passes).2.1.1, ?_⟩
  unfold placeWiresTransforms
  rw [List.length_map, List.length_range, acceptScenario_first_ring_nums.2.1]
  rfl

/-! ## The flat radii of a ring -/

theorem ring_info_sense_radius (M : MathOps R) (P : Params R) (SL iring : Nat) (st : State R) :
    (ring_info M P SL iring st).top.sense_wires.radius =
      st.radius_ring_0 + (1 / 2) * st.delta_radius_ring ∧
    (ring_info M P SL iring st).top.sense_wires.phi = st.phi :=
  ⟨rfl, rfl⟩

theorem ring_info_whole_ring_range (M : MathOps R) (P : Params R) (SL iring : Nat)
    (st : State R) :
    (whole_ring_hyperboloid (ring_info M P SL iring st).upper).radialRange =
      some (st.radius_ringOut_0,
        st.radius_ring_0 + st.delta_radius_ring - P.FWireDiameter - 2 * P.secure +
          P.FWireDiameter + 2 * P.secure) :=
  rfl

/-- The call that creates the volume of the whole ring is a call of the build. -/
theorem whole_ring_creation_of_mem (M : MathOps R) (P : Params R) (r : RingInfo R)
    (hr : r ∈ (build_layer M P).rings) :
    Event.newVolume (VolId.whole_ring_hyperboloid_volume r.SL r.iring)
        (wholeHyperboloidVolumeName r.SL r.iring) (whole_ring_hyperboloid r.upper)
        "GasHe_90Isob_10" ∈ (build_layer M P).events := by
  obtain ⟨pre, post, hev, _⟩ := build_layer_ring_segment M P r hr
  have e := (build_layer_rings_spec M P r hr).1
  have hu : r.upper = (ring_info M P r.SL r.iring r.entry).upper := by
    conv_lhs => rw [e]
  rw [hev, ring_iteration_events, hu]
  apply List.mem_append_left
  apply List.mem_append_right
  apply List.mem_append_left
  unfold ring_geometry_events
  apply List.mem_append_left
  apply List.mem_append_right
  exact List.mem_cons_self _ _

/-- C21: a ring of the build is entered with the flat radius `radius_ringOut_0`
equal to `radius_ring_0`, and it leaves the two equal; the hyperboloid of the
whole ring, which the build creates, has its flat inner radius and flat outer
radius `delta_radius_ring` apart, and the radius of the sense wires is half
their sum. -/
theorem whole_ring_flat_thickness (M : MathOps R) (P : Params R) (r : RingInfo R)
    (hr : r ∈ (build_layer M P).rings) :
    r.entry.radius_ringOut_0 = r.entry.radius_ring_0 ∧
    (ring_iteration M P r.SL r.iring r.entry).st.radius_ringOut_0 =
      (ring_iteration M P r.SL r.iring r.entry).st.radius_ring_0 ∧
    Event.newVolume (VolId.whole_ring_hyperboloid_volume r.SL r.iring)
        (wholeHyperboloidVolumeName r.SL r.iring) (whole_ring_hyperboloid r.upper)
        "GasHe_90Isob_10" ∈ (build_layer M P).events ∧
    ∃ rin rout : R, (whole_ring_hyperboloid r.upper).radialRange = some (rin, rout) ∧
      rout - rin = r.entry.delta_radius_ring ∧
      r.top.sense_wires.radius = (rin + rout) / 2 := by
  have e := (build_layer_rings_spec M P r hr).1
  have h0 := ring_radii_eq_of_mem M P r hr
  refine ⟨h0.symm, ?_, whole_ring_creation_of_mem M P r hr, ?_⟩
  · rw [(ring_iteration_radii M P r.SL r.iring r.entry).1,
      (ring_iteration_radii M P r.SL r.iring r.entry).2.1]
    ring
  · refine ⟨r.entry.radius_ringOut_0,
      r.entry.radius_ring_0 + r.entry.delta_radius_ring - P.FWireDiameter - 2 * P.secure +
        P.FWireDiameter + 2 * P.secure, ?_, ?_, ?_⟩
    · conv_lhs => rw [e]
      exact ring_info_whole_ring_range M P r.SL r.iring r.entry
    · rw [← h0]; ring
    · have hs : r.top.sense_wires.radius =
          r.entry.radius_ring_0 + (1 / 2) * r.entry.delta_radius_ring := by
        conv_lhs => rw [e]
        exact (ring_info_sense_radius M P r.SL r.iring r.entry).1
      rw [hs, ← h0]; ring

theorem whole_ring_flat_thickness_witness :
    second_ring exampleMath twoRingParams ∈ (build_layer exampleMath twoRingParams).rings ∧
    (second_ring exampleMath twoRingParams).entry.radius_ringOut_0 =
      (second_ring exampleMath twoRingParams).entry.radius_ring_0 ∧
    ∃ rin rout : ℚ,
      (whole_ring_hyperboloid (second_ring exampleMath twoRingParams).upper).radialRange =
        some (rin, rout) ∧
      rout - rin = (second_ring exampleMath twoRingParams).entry.delta_radius_ring ∧
      (second_ring exampleMath twoRingParams).top.sense_wires.radius = (rin + rout) / 2 :=
  ⟨twoRing_second_ring_mem,
    (whole_ring_flat_thickness exampleMath twoRingParams _ twoRing_second_ring_mem).1,
    (whole_ring_flat_thickness exampleMath twoRingParams _ twoRing_second_ring_mem).2.2.2⟩

/-! ## An odd number of field wires in the bottom and top layers -/

/-- Half of an odd positive multiple of `N ≥ 2`, rounded down, is not a multiple
of `N`. -/
theorem not_dvd_half_of_odd (H N : Int) (hN : 2 ≤ N) (hpos : 0 < H * N)
    (hodd : (H * N) % 2 = 1) : ¬ N ∣ Int.tdiv (H * N) 2 := by
  intro h
  rw [Int.tdiv_eq_ediv (le_of_lt hpos) (by decide)] at h
  have h1 : H * N = 2 * (H * N / 2) + 1 := by
    have := Int.ediv_add_emod (H * N) 2
    omega
  have h2 : N ∣ 2 * (H * N / 2) := Dvd.dvd.mul_left h 2
  have h3 : N ∣ H * N := Dvd.intro_left H rfl
  have h4 : N ∣ 1 := by
    have := Int.dvd_sub h3 h2
    have e : H * N - 2 * (H * N / 2) = 1 := by omega
    rwa [e] at this
  have := Int.eq_one_of_dvd_one (by omega) h4
  omega

/-- Ring 0 of a superlayer whose numbers of wires fail the ratio test throws. -/
theorem first_ring_of_superlayer_fails (M : MathOps R) (P : Params R) (SL : Nat)
    (hN : P.nSWire + (SL : Int) * P.nSDeltaWire ≠ 0)
    (hd : ¬ P.nSWire + (SL : Int) * P.nSDeltaWire ∣
      Int.tdiv (P.nHorizontalFWire * (P.nSWire + (SL : Int) * P.nSDeltaWire)) 2) :
    (ring_iteration M P SL 0 (ring_entry M P SL 0)).error = some BuildError.ratio := by
  rw [ring_iteration_error_ratio]
  refine (ratio_test_ring_info M P SL 0 _
    (by rw [(ring_entry_num_wire M P SL 0).1]; exact hN)).mpr ?_
  rw [(ring_entry_num_wire M P SL 0).1, (ring_entry_num_wire M P SL 0).2]
  exact hd

/-- No ring of the build comes after a ring 0 that throws. -/
theorem rings_before_failing_ring (M : MathOps R) (P : Params R) (SL : Nat) (e : BuildError)
    (hR : 0 < P.nRing.toNat)
    (hf : (ring_iteration M P SL 0 (ring_entry M P SL 0)).error = some e)
    (r : RingInfo R) (hr : r ∈ (build_layer M P).rings) :
    r.SL < SL ∨ (r.SL = SL ∧ r.iring = 0) := by
  obtain ⟨_, _, h3, h4, _⟩ := ring_position M P r hr
  by_contra hc
  have hne : (ring_iteration M P SL 0 (ring_entry M P SL 0)).error = none := by
    rcases Nat.lt_or_ge SL r.SL with hlt | hge
    · have h5 := forLoop_error_step _ 0 _ _ h3 SL hlt
      rw [Nat.zero_add] at h5
      have h6 := (superlayer_iteration_error_entry M P SL).symm.trans h5
      have h7 := forLoop_error_step _ 0 _ _ h6 0 hR
      rw [Nat.zero_add] at h7
      exact h7
    · have hSL : r.SL = SL := by omega
      have hi : 0 < r.iring := by omega
      rw [hSL] at h4
      have h7 := forLoop_error_step _ 0 _ _ h4 0 hi
      rw [Nat.zero_add] at h7
      exact h7
  rw [hne] at hf
  exact Option.noConfusion hf

/-- With exact ratios: when the build reaches a superlayer `SL` (no superlayer
before it throws) that has `N = nSWire + SL * nSDeltaWire ≥ 2` sense wires, with
`(nStoFWireRatio - nVerticalFWire) * N` positive and odd, and `nRing ≥ 1`, then
half that product, rounded down, is not a multiple of `N`, ring 0 of the
superlayer throws the ratio error and so does the build, no later ring is
entered, and the calls of the build end with the calls of lines 403-603 of that
ring, among which its whole-ring volume is created, registered and placed in
the parent volume. -/
theorem odd_product_aborts_at_first_ring (M : MathOps R) (P : Params R) (SL : Nat)
    (hSL : SL < P.nSuperLayer.toNat) (hR : 1 ≤ P.nRing)
    (hN : 2 ≤ P.nSWire + (SL : Int) * P.nSDeltaWire)
    (hpos : 0 < (P.nStoFWireRatio - P.nVerticalFWire) * (P.nSWire + (SL : Int) * P.nSDeltaWire))
    (hodd : ((P.nStoFWireRatio - P.nVerticalFWire) *
      (P.nSWire + (SL : Int) * P.nSDeltaWire)) % 2 = 1)
    (hprev : (forLoop (superlayer_iteration M P) 0 SL (State.initial P)).error = none) :
    ¬ (P.nSWire + (SL : Int) * P.nSDeltaWire ∣
      Int.tdiv ((P.nStoFWireRatio - P.nVerticalFWire) *
        (P.nSWire + (SL : Int) * P.nSDeltaWire)) 2) ∧
    ring_info M P SL 0 (ring_entry M P SL 0) ∈ (build_layer M P).rings ∧
    (ring_iteration M P SL 0 (ring_entry M P SL 0)).error = some BuildError.ratio ∧
    (build_layer M P).error = some BuildError.ratio ∧
    (∀ r ∈ (build_layer M P).rings, r.SL < SL ∨ (r.SL = SL ∧ r.iring = 0)) ∧
    (∃ pre, (build_layer M P).events =
      pre ++ ring_geometry_events M P SL 0 (ring_entry M P SL 0)) ∧
    VolId.whole_ring_hyperboloid_volume SL 0 ∈ created (build_layer M P).events ∧
    (wholeHyperboloidVolumeName SL 0, VolId.whole_ring_hyperboloid_volume SL 0) ∈
      registered (build_layer M P).events ∧
    VolId.whole_ring_hyperboloid_volume SL 0 ∈
      placedIn VolId.parentVol (build_layer M P).events := by
  have hR0 : 0 < P.nRing.toNat := by omega
  have hd := not_dvd_half_of_odd _ _ hN hpos hodd
  have hmem := ring_mem_of_reached M P SL 0 hSL hR0 hprev rfl
  have hf := first_ring_of_superlayer_fails M P SL (by omega) hd
  have hw := whole_ring_emitted_of_mem M P _ hmem
  obtain ⟨pre, post, hev, hpost⟩ := build_layer_ring_segment M P _ hmem
  have hp := hpost _ hf
  refine ⟨hd, hmem, hf, build_layer_error_of_ring M P _ hmem _ hf,
    rings_before_failing_ring M P SL _ hR0 hf, ⟨pre, ?_⟩, hw.1, hw.2.1, hw.2.2⟩
  rw [hev, hp.1, List.append_nil]
  congr 1
  exact ring_iteration_events_of_ratio M P SL 0 _ ((ring_iteration_error_ratio M P SL 0 _).mp hf)

theorem oddSecondLayer_first_superlayer_ok :
    (forLoop (superlayer_iteration exampleMath oddSecondLayerParams) 0 1
      (State.initial oddSecondLayerParams)).error = none := by
  apply forLoop_error_none_of_steps
  intro k hk _
  obtain rfl : k = 0 := by omega
  exact (superlayer_iteration_error_entry exampleMath oddSecondLayerParams 0).trans
    (ring_loop_error_none exampleMath oddSecondLayerParams 0 (by decide) (by decide) _)

theorem odd_product_aborts_at_first_ring_witness :
    (build_layer exampleMath oddSecondLayerParams).error = some BuildError.ratio ∧
    (∀ r ∈ (build_layer exampleMath oddSecondLayerParams).rings,
      r.SL < 1 ∨ (r.SL = 1 ∧ r.iring = 0)) ∧
    VolId.whole_ring_hyperboloid_volume 1 0 ∈
      placedIn VolId.parentVol (build_layer exampleMath oddSecondLayerParams).events :=
  ⟨(odd_product_aborts_at_first_ring exampleMath oddSecondLayerParams 1 (by decide) (by decide)
      (by decide) (by decide) (by decide) oddSecondLayer_first_superlayer_ok).2.2.2.1,
    (odd_product_aborts_at_first_ring exampleMath oddSecondLayerParams 1 (by decide) (by decide)
      (by decide) (by decide) (by decide) oddSecondLayer_first_superlayer_ok).2.2.2.2.1,
    (odd_product_aborts_at_first_ring exampleMath oddSecondLayerParams 1 (by decide) (by decide)
      (by decide) (by decide) (by decide) oddSecondLayer_first_superlayer_ok).2.2.2.2.2.2.2.2⟩

/-! ## Cells as high as they are wide -/

theorem ring_iteration_phi (M : MathOps R) (P : Params R) (SL iring : Nat) (st : State R) :
    (ring_iteration M P SL iring st).st.phi = st.phi := by
  unfold ring_iteration; dsimp only; split <;> rfl

theorem ring_loop_entry_phi (M : MathOps R) (P : Params R) (SL : Nat) (st : State R) :
    (ring_loop_entry M P SL st).phi =
      2 * M.pi / ((P.nSWire + (SL : Int) * P.nSDeltaWire : Int) : R) := by
  unfold ring_loop_entry first_superlayer_block; split <;> rfl

/-- In every ring of superlayer `SL` the period `phi` is `2 * pi / N` (line 286). -/
theorem ring_entry_phi (M : MathOps R) (P : Params R) (SL iring : Nat) :
    (ring_entry M P SL iring).phi =
      2 * M.pi / ((P.nSWire + (SL : Int) * P.nSDeltaWire : Int) : R) := by
  unfold ring_entry
  refine forLoop_st_invariant (ring_iteration M P SL)
    (fun s => s.phi = 2 * M.pi / ((P.nSWire + (SL : Int) * P.nSDeltaWire : Int) : R))
    ?_ iring 0 _ (ring_loop_entry_phi M P SL _)
  intro i st h
  rw [ring_iteration_phi]
  exact h

/-- The arc of one sense wire at the radius of the sense wires is the pitch
exactly when the pitch is `2 * pi * R / (N - pi)` for the flat inner radius `R`. -/
theorem square_cell_iff (pi N Rin d : R) (hN : N ≠ 0) (hNpi : N - pi ≠ 0) :
    (2 * pi / N * (Rin + (1 / 2) * d) = d ↔ d * (N - pi) = 2 * pi * Rin) ∧
    (d = 2 * pi * Rin / (N - pi) ↔ d * (N - pi) = 2 * pi * Rin) := by
  refine ⟨?_, eq_div_iff hNpi⟩
  rw [div_mul_eq_mul_div, div_eq_iff hN]
  constructor <;> intro h <;> linear_combination (-1 : R) * h

/-- One ring hands the square cell on to the next one. -/
theorem ring_entry_square_step (M : MathOps R) (P : Params R) (SL iring : Nat)
    (hSL : SL < P.nSuperLayer.toNat)
    (hprev : (forLoop (superlayer_iteration M P) 0 SL (State.initial P)).error = none)
    (h : (forLoop (ring_iteration M P SL) 0 (iring + 1) (ring_entry M P SL 0)).error = none)
    (hN : ((P.nSWire + (SL : Int) * P.nSDeltaWire : Int) : R) ≠ 0)
    (hNpi : ((P.nSWire + (SL : Int) * P.nSDeltaWire : Int) : R) - M.pi ≠ 0)
    (hsq : (ring_entry M P SL iring).delta_radius_ring *
        (((P.nSWire + (SL : Int) * P.nSDeltaWire : Int) : R) - M.pi) =
      2 * M.pi * (ring_entry M P SL iring).radius_ringOut_0) :
    (ring_entry M P SL (iring + 1)).radius_ringOut_0 =
      (ring_entry M P SL iring).radius_ringOut_0 + (ring_entry M P SL iring).delta_radius_ring ∧
    (ring_entry M P SL (iring + 1)).delta_radius_ring *
        (((P.nSWire + (SL : Int) * P.nSDeltaWire : Int) : R) - M.pi) =
      2 * M.pi * (ring_entry M P SL (iring + 1)).radius_ringOut_0 := by
  have h0 := forLoop_error_of_le _ 0 _ _ h iring (by omega)
  have hr := ring_entry_radii_eq M P SL iring (ring_entry_zero_radii_eq M P SL hSL hprev)
  have hR : (ring_entry M P SL (iring + 1)).radius_ringOut_0 =
      (ring_entry M P SL iring).radius_ringOut_0 + (ring_entry M P SL iring).delta_radius_ring +
        -P.FWireDiameter - 2 * P.secure + P.FWireDiameter + 2 * P.secure := by
    rw [ring_entry_succ_radius_ringOut_0 M P SL iring h0, (ring_info_top_radii M P SL iring _).2.1,
      hr]
    ring
  refine ⟨by rw [hR]; ring, ?_⟩
  have hd := derived_pitch_eq M.pi _ _ _ P.FWireDiameter P.secure hN hNpi hsq
  rw [div_eq_iff hNpi] at hd
  rw [ring_entry_succ_delta_radius_ring M P SL iring h, ring_entry_scaleFactor, ← hd, hR]
  ring

/-- Every ring of a superlayer other than the first is entered with the pitch
`2 * pi * R / (N - pi)` for the flat radius `R` at which it starts. -/
theorem ring_entry_square (M : MathOps R) (P : Params R) (SL : Nat) (h0 : SL ≠ 0)
    (hSL : SL < P.nSuperLayer.toNat)
    (hprev : (forLoop (superlayer_iteration M P) 0 SL (State.initial P)).error = none)
    (hN : ((P.nSWire + (SL : Int) * P.nSDeltaWire : Int) : R) ≠ 0)
    (hNpi : ((P.nSWire + (SL : Int) * P.nSDeltaWire : Int) : R) - M.pi ≠ 0) :
    ∀ iring : Nat,
      (forLoop (ring_iteration M P SL) 0 iring (ring_entry M P SL 0)).error = none →
      (ring_entry M P SL iring).delta_radius_ring *
          (((P.nSWire + (SL : Int) * P.nSDeltaWire : Int) : R) - M.pi) =
        2 * M.pi * (ring_entry M P SL iring).radius_ringOut_0 := by
  obtain ⟨k, rfl⟩ := Nat.exists_eq_succ_of_ne_zero h0
  intro iring
  induction iring with
  | zero =>
    intro _
    have h1 := (ring_entry_succ_zero M P k hSL hprev).2
    exact (eq_div_iff hNpi).mp h1
  | succ i ih =>
    intro h
    exact (ring_entry_square_step M P (k + 1) i hSL hprev h hN hNpi
      (ih (forLoop_error_of_le _ 0 _ _ h i (by omega)))).2

/-- The two forms of the square cell, for a ring of the build. -/
theorem ring_square_iff (M : MathOps R) (P : Params R) (r : RingInfo R)
    (hr : r ∈ (build_layer M P).rings)
    (hN : ((P.nSWire + (r.SL : Int) * P.nSDeltaWire : Int) : R) ≠ 0)
    (hNpi : ((P.nSWire + (r.SL : Int) * P.nSDeltaWire : Int) : R) - M.pi ≠ 0) :
    (r.top.sense_wires.phi * r.top.sense_wires.radius = r.entry.delta_radius_ring ↔
      (ring_entry M P r.SL r.iring).delta_radius_ring *
          (((P.nSWire + (r.SL : Int) * P.nSDeltaWire : Int) : R) - M.pi) =
        2 * M.pi * (ring_entry M P r.SL r.iring).radius_ringOut_0) ∧
    (r.entry.delta_radius_ring =
        2 * M.pi * r.bottom.radius_ringIn_0 /
          (((P.nSWire + (r.SL : Int) * P.nSDeltaWire : Int) : R) - M.pi) ↔
      (ring_entry M P r.SL r.iring).delta_radius_ring *
          (((P.nSWire + (r.SL : Int) * P.nSDeltaWire : Int) : R) - M.pi) =
        2 * M.pi * (ring_entry M P r.SL r.iring).radius_ringOut_0) := by
  have e := (build_layer_rings_spec M P r hr).1
  have he := ring_entry_of_mem M P r hr
  have h0 := ring_radii_eq_of_mem M P r hr
  have hphi : r.top.sense_wires.phi = r.entry.phi := by
    conv_lhs => rw [e]
    rfl
  have hrad : r.top.sense_wires.radius =
      r.entry.radius_ring_0 + (1 / 2) * r.entry.delta_radius_ring := by
    conv_lhs => rw [e]
    rfl
  have hb : r.bottom.radius_ringIn_0 = r.entry.radius_ringOut_0 := by
    conv_lhs => rw [e]
    rfl
  rw [hphi, hrad, hb, h0, he, ring_entry_phi]
  exact square_cell_iff M.pi _ _ _ hN hNpi

/-- C22: for a ring of the build in a superlayer with `N ≥ 4` sense wires (and
`pi < 4`), the arc `phi * sense_wires.radius` of one sense wire is the pitch
`delta_radius_ring` exactly when the pitch is `2 * pi * R_in / (N - pi)` for the
flat inner radius `R_in` of the ring; both hold in every ring of a superlayer
other than the first; and a ring with this property hands it on to the next
ring of its superlayer, which starts `delta_radius_ring` further out with the
pitch multiplied by `scaleFactor`. -/
theorem square_cells (M : MathOps R) (P : Params R) (hpi : M.pi < 4) (r : RingInfo R)
    (hr : r ∈ (build_layer M P).rings) (hN : 4 ≤ P.nSWire + (r.SL : Int) * P.nSDeltaWire) :
    (r.top.sense_wires.phi * r.top.sense_wires.radius = r.entry.delta_radius_ring ↔
      r.entry.delta_radius_ring =
        2 * M.pi * r.bottom.radius_ringIn_0 /
          (((P.nSWire + (r.SL : Int) * P.nSDeltaWire : Int) : R) - M.pi)) ∧
    (r.SL ≠ 0 →
      r.top.sense_wires.phi * r.top.sense_wires.radius = r.entry.delta_radius_ring) ∧
    (∀ r2 ∈ (build_layer M P).rings, r2.SL = r.SL → r2.iring = r.iring + 1 →
      r.top.sense_wires.phi * r.top.sense_wires.radius = r.entry.delta_radius_ring →
      r2.entry.delta_radius_ring = r.entry.delta_radius_ring * r.entry.scaleFactor ∧
      r2.bottom.radius_ringIn_0 = r.bottom.radius_ringIn_0 + r.entry.delta_radius_ring ∧
      r2.top.sense_wires.phi * r2.top.sense_wires.radius = r2.entry.delta_radius_ring) := by
  have hNR : (4 : R) ≤ ((P.nSWire + (r.SL : Int) * P.nSDeltaWire : Int) : R) := by
    exact_mod_cast hN
  have hN0 : ((P.nSWire + (r.SL : Int) * P.nSDeltaWire : Int) : R) ≠ 0 :=
    ne_of_gt (lt_of_lt_of_le (by norm_num) hNR)
  have hNpi : ((P.nSWire + (r.SL : Int) * P.nSDeltaWire : Int) : R) - M.pi ≠ 0 :=
    sub_ne_zero.mpr (ne_of_gt (lt_of_lt_of_le hpi hNR))
  obtain ⟨i1, i2⟩ := ring_square_iff M P r hr hN0 hNpi
  obtain ⟨p1, _, p3, p4, _⟩ := ring_position M P r hr
  refine ⟨i1.trans i2.symm, ?_, ?_⟩
  · intro h0
    exact i1.mpr (ring_entry_square M P r.SL h0 p1 p3 hN0 hNpi r.iring p4)
  · intro r2 hr2 hSL hi hsq
    obtain ⟨_, _, _, q4, _⟩ := ring_position M P r2 hr2
    rw [hSL, hi] at q4
    have step := ring_entry_square_step M P r.SL r.iring p1 p3 q4 hN0 hNpi (i1.mp hsq)
    have he := ring_entry_of_mem M P r hr
    have he2 := ring_entry_of_mem M P r2 hr2
    rw [hSL, hi] at he2
    have hb : r.bottom.radius_ringIn_0 = r.entry.radius_ringOut_0 := by
      have e := (build_layer_rings_spec M P r hr).1
      conv_lhs => rw [e]
      rfl
    have hb2 : r2.bottom.radius_ringIn_0 = r2.entry.radius_ringOut_0 := by
      have e := (build_layer_rings_spec M P r2 hr2).1
      conv_lhs => rw [e]
      rfl
    refine ⟨?_, ?_, ?_⟩
    · rw [he2, he]
      exact ring_entry_succ_delta_radius_ring M P r.SL r.iring q4
    · rw [hb2, hb, he2, he]
      exact step.1
    · have hN0' : ((P.nSWire + (r2.SL : Int) * P.nSDeltaWire : Int) : R) ≠ 0 := by
        rw [hSL]; exact hN0
      have hNpi' : ((P.nSWire + (r2.SL : Int) * P.nSDeltaWire : Int) : R) - M.pi ≠ 0 := by
        rw [hSL]; exact hNpi
      refine (ring_square_iff M P r2 hr2 hN0' hNpi').1.mpr ?_
      rw [hSL, hi]
      exact step.2

theorem squareCell_ok : (build_layer exampleMath squareCellParams).error = none := by
  apply build_layer_succeeds
  intro SL _
  show (200 : Int) + (SL : Int) * 0 ≠ 0 ∧
    (200 : Int) + (SL : Int) * 0 ∣ Int.tdiv ((4 - 2) * ((200 : Int) + (SL : Int) * 0)) 2
  rw [mul_zero, add_zero]
  decide

theorem squareCell_ring_mem (iring : Nat) (hi : iring < 2) :
    ring_info exampleMath squareCellParams 1 iring (ring_entry exampleMath squareCellParams 1 iring) ∈
      (build_layer exampleMath squareCellParams).rings :=
  ring_mem_of_ok exampleMath squareCellParams squareCell_ok 1 iring (by decide) hi

theorem exampleMath_pi_lt : exampleMath.pi < 4 := by
  show (355 / 113 : ℚ) < 4
  norm_num

theorem square_cells_witness :
    (ring_info exampleMath squareCellParams 1 0
        (ring_entry exampleMath squareCellParams 1 0)).top.sense_wires.phi *
      (ring_info exampleMath squareCellParams 1 0
        (ring_entry exampleMath squareCellParams 1 0)).top.sense_wires.radius =
      (ring_entry exampleMath squareCellParams 1 0).delta_radius_ring ∧
    (ring_info exampleMath squareCellParams 1 1
        (ring_entry exampleMath squareCellParams 1 1)).top.sense_wires.phi *
      (ring_info exampleMath squareCellParams 1 1
        (ring_entry exampleMath squareCellParams 1 1)).top.sense_wires.radius =
      (ring_entry exampleMath squareCellParams 1 1).delta_radius_ring :=
  ⟨(square_cells exampleMath squareCellParams exampleMath_pi_lt _
      (squareCell_ring_mem 0 (by decide)) (by decide)).2.1 (by decide),
    ((square_cells exampleMath squareCellParams exampleMath_pi_lt _
      (squareCell_ring_mem 0 (by decide)) (by decide)).2.2 _
      (squareCell_ring_mem 1 (by decide)) rfl rfl
      ((square_cells exampleMath squareCellParams exampleMath_pi_lt _
        (squareCell_ring_mem 0 (by decide)) (by decide)).2.1 (by decide))).2.2⟩

/-! ## The solids of the created volumes -/

theorem createdSolids_append (a b : List (Event R)) :
    createdSolids (a ++ b) = createdSolids a ++ createdSolids b := by
  simp [createdSolids]

theorem created_eq_map_createdSolids (evs : List (Event R)) :
    created evs = (createdSolids evs).map Prod.fst := by
  induction evs with
  | nil => rfl
  | cons e l ih =>
    cases e <;> simp [created, createdSolids, Event.creation, Event.creationSolid] at ih ⊢ <;>
      exact ih

theorem createdSolids_eq_nil (evs : List (Event R)) (h : created evs = []) :
    createdSolids evs = [] := by
  rw [created_eq_map_createdSolids] at h
  exact List.map_eq_nil_iff.mp h

theorem createdSolids_apply_wire_coating (site : WireSite) (w : wire R) (outwrap halflength : R)
    (material : String) :
    createdSolids (apply_wire_coating site w outwrap halflength material).2 =
      [ (VolId.lvWireWrapVol site,
          Solid.Tube w.thickness (w.thickness + (1 / 2) * outwrap) halflength),
        (VolId.lvWireVol site, Solid.Tube 0 (w.thickness + (1 / 2) * outwrap) halflength) ] :=
  rfl

theorem createdSolids_PlaceWires (site : WireSite) (w : wire R) (outwrap halflength : R) :
    createdSolids (PlaceWires site w outwrap halflength).2 =
      [ (VolId.lvWireWrapVol site,
          Solid.Tube w.thickness (w.thickness + (1 / 2) * outwrap) halflength),
        (VolId.lvWireVol site, Solid.Tube 0 (w.thickness + (1 / 2) * outwrap) halflength) ] := by
  unfold PlaceWires
  rw [createdSolids_append, createdSolids_eq_nil _ (created_map_placeVolume _ _ _ _),
    List.append_nil]
  rfl

theorem halfLengthIs_wall_volumes (P : Params R) :
    ∀ x ∈ createdSolids (wall_volumes P), halfLengthIs P.halflength x := by
  intro x hx
  simp [createdSolids, wall_volumes, Event.creationSolid] at hx
  rcases hx with h | h | h | h | h | h | h | h | h | h | h <;> subst h <;>
    simp [halfLengthIs, isWireVolume, isHyperboloidVolume, Solid.isHyperboloid, Endcap_Gas,
      Endcap_Copper, Endcap_Kapton, Endcap_Carbon, InnerWall_Carbon, InnerWall_Copper,
      InnerWall_Gas, OuterWall_Copper, OuterWall_Carbon1, OuterWall_Foam, OuterWall_Carbon2]

theorem halfLengthIs_inner_guard_ring (M : MathOps R) (P : Params R) (st : State R) :
    ∀ x ∈ createdSolids (inner_guard_ring M P st).2, halfLengthIs P.halflength x := by
  intro x hx
  unfold inner_guard_ring at hx
  simp only [createdSolids_append, createdSolids_PlaceWires] at hx
  simp [createdSolids, Event.creationSolid] at hx
  rcases hx with h | h | h | h | h | h <;> subst h <;> simp [halfLengthIs, Solid.halfLength]

theorem halfLengthIs_initial_field_layer (M : MathOps R) (P : Params R) (SL : Nat)
    (st : State R) :
    ∀ x ∈ createdSolids (initial_field_layer M P SL st).2, halfLengthIs P.halflength x := by
  intro x hx
  unfold initial_field_layer at hx
  simp only [createdSolids_append, createdSolids_PlaceWires] at hx
  simp [createdSolids, Event.creationSolid] at hx
  rcases hx with h | h | h | h <;> subst h <;> simp [halfLengthIs, Solid.halfLength]

theorem halfLengthIs_outer_field_layer (M : MathOps R) (P : Params R) (SL : Nat)
    (st : State R) :
    ∀ x ∈ createdSolids (outer_field_layer M P SL st).2, halfLengthIs P.halflength x := by
  intro x hx
  unfold outer_field_layer at hx
  simp only [createdSolids_append, createdSolids_PlaceWires] at hx
  simp [createdSolids, Event.creationSolid] at hx
  rcases hx with h | h | h | h <;> subst h <;> simp [halfLengthIs, Solid.halfLength]

theorem halfLengthIs_outer_guard_ring (M : MathOps R) (P : Params R) (st : State R) :
    ∀ x ∈ createdSolids (outer_guard_ring M P st).2, halfLengthIs P.halflength x := by
  intro x hx
  unfold outer_guard_ring at hx
  simp only [createdSolids_append, createdSolids_PlaceWires] at hx
  simp [createdSolids, Event.creationSolid] at hx
  rcases hx with h | h | h | h | h | h <;> subst h <;> simp [halfLengthIs, Solid.halfLength]

theorem halfLengthIs_ring_geometry_events (M : MathOps R) (P : Params R) (SL iring : Nat)
    (st : State R) :
    ∀ x ∈ createdSolids (ring_geometry_events M P SL iring st), halfLengthIs P.halflength x := by
  intro x hx
  simp [ring_geometry_events, ring_bottom, ring_central, ring_upper, ring_top, whole_ring_volume,
    apply_wire_coating, createdSolids, Event.creationSolid, whole_ring_hyperboloid] at hx
  rcases hx with h | h | h | h | h | h | h | h | h | h | h <;> subst h <;>
    simp [halfLengthIs, Solid.halfLength]

theorem halfLengthIs_cells (P : Params R) (SL iring : Nat) (hyp : Solid R) (st : State R) :
    ∀ x ∈ createdSolids (cells P SL iring hyp st), halfLengthIs P.halflength x := by
  intro x hx
  unfold cells at hx
  rw [observe_flatMap createdSolids rfl createdSolids_append] at hx
  obtain ⟨q, _, hq⟩ := List.mem_flatMap.mp hx
  simp only [cell, createdSolids_append,
    createdSolids_eq_nil _ (created_field_wire_placements _ _ _ _ _), List.append_nil] at hq
  simp [createdSolids, Event.creationSolid] at hq
  subst hq
  simp [halfLengthIs, isWireVolume, isHyperboloidVolume, Solid.isHyperboloid]

/-! ## Every call of the build is a call of one of its blocks -/

theorem Outcome.mem_andThen_events (a : Outcome R) (f : State R → Outcome R) (e : Event R)
    (h : e ∈ (a.andThen f).events) : e ∈ a.events ∨ e ∈ (f a.st).events := by
  cases ha : a.error with
  | some e' => rw [Outcome.andThen_of_error_some a f e' ha] at h; exact Or.inl h
  | none =>
    rw [Outcome.andThen_of_error_none a f ha] at h
    exact List.mem_append.mp h

/-- A call made by a loop is made by one of its iterations. -/
theorem forLoop_events_mem (body : Nat → State R → Outcome R) (e : Event R) :
    ∀ (n i : Nat) (st : State R), e ∈ (forLoop body i n st).events →
      ∃ j st', e ∈ (body j st').events := by
  intro n
  induction n with
  | zero => intro i st h; simp [forLoop_zero, Outcome.ok] at h
  | succ n ih =>
    intro i st h
    rw [forLoop_succ] at h
    rcases Outcome.mem_andThen_events _ _ e h with h1 | h1
    · exact ⟨i, st, h1⟩
    · exact ih _ _ h1

/-- A call of the build is made where the walls are created, in one of the
blocks of the first and of the last superlayer, in a ring iteration, or where
the layers and the walls are placed. -/
theorem build_layer_events_mem (M : MathOps R) (P : Params R) (e : Event R)
    (h : e ∈ (build_layer M P).events) :
    e ∈ wall_volumes P ∨ (∃ st, e ∈ (inner_guard_ring M P st).2) ∨
    (∃ SL st, e ∈ (initial_field_layer M P SL st).2) ∨
    (∃ SL iring st, e ∈ (ring_iteration M P SL iring st).events) ∨
    (∃ SL st, e ∈ (outer_field_layer M P SL st).2) ∨
    (∃ st, e ∈ (outer_guard_ring M P st).2) ∨
    (∃ st : State R, e ∈ register_layers st) ∨ e ∈ place_walls P := by
  rw [build_layer_events, List.mem_append, List.mem_append] at h
  rcases h with (h | h) | h
  · exact Or.inl h
  · obtain ⟨SL, st, h1⟩ := forLoop_events_mem _ e _ _ _ h
    rw [superlayer_iteration_events, List.mem_append, List.mem_append] at h1
    rcases h1 with (h1 | h1) | h1
    · unfold first_superlayer_block at h1
      split at h1
      · rcases List.mem_append.mp h1 with h2 | h2
        · exact Or.inr (Or.inl ⟨_, h2⟩)
        · exact Or.inr (Or.inr (Or.inl ⟨_, _, h2⟩))
      · simp at h1
    · obtain ⟨i, st', h2⟩ := forLoop_events_mem _ e _ _ _ h1
      exact Or.inr (Or.inr (Or.inr (Or.inl ⟨SL, i, st', h2⟩)))
    · split at h1
      · unfold last_superlayer_block at h1
        split at h1
        · rcases List.mem_append.mp h1 with h2 | h2
          · exact Or.inr (Or.inr (Or.inr (Or.inr (Or.inl ⟨_, _, h2⟩))))
          · exact Or.inr (Or.inr (Or.inr (Or.inr (Or.inr (Or.inl ⟨_, h2⟩)))))
        · simp at h1
      · simp at h1
  · split at h
    · rcases List.mem_append.mp h with h2 | h2
      · exact Or.inr (Or.inr (Or.inr (Or.inr (Or.inr (Or.inr (Or.inl ⟨_, h2⟩))))))
      · exact Or.inr (Or.inr (Or.inr (Or.inr (Or.inr (Or.inr (Or.inr h2))))))
    · simp at h

theorem mem_createdSolids (x : VolId × Solid R) (evs : List (Event R)) :
    x ∈ createdSolids evs ↔ ∃ name material, Event.newVolume x.1 name x.2 material ∈ evs := by
  unfold createdSolids
  rw [List.mem_filterMap]
  constructor
  · rintro ⟨e, he, hx⟩
    cases e <;> simp [Event.creationSolid] at hx
    subst hx
    exact ⟨_, _, he⟩
  · rintro ⟨n, m, he⟩
    exact ⟨_, he, rfl⟩

/-- Every wire, layer and whole ring, and every hyperboloid, that the build
creates has half length `CDCH:zHalfLength`. -/
theorem halfLengthIs_build_layer (M : MathOps R) (P : Params R) :
    ∀ x ∈ createdSolids (build_layer M P).events, halfLengthIs P.halflength x := by
  intro x hx
  obtain ⟨n, m, he⟩ := (mem_createdSolids x _).mp hx
  have hback : ∀ evs : List (Event R), Event.newVolume x.1 n x.2 m ∈ evs → x ∈ createdSolids evs :=
    fun evs h => (mem_createdSolids x evs).mpr ⟨n, m, h⟩
  rcases build_layer_events_mem M P _ he with h | ⟨st, h⟩ | ⟨SL, st, h⟩ | ⟨SL, i, st, h⟩ |
    ⟨SL, st, h⟩ | ⟨st, h⟩ | ⟨st, h⟩ | h
  · exact halfLengthIs_wall_volumes P x (hback _ h)
  · exact halfLengthIs_inner_guard_ring M P st x (hback _ h)
  · exact halfLengthIs_initial_field_layer M P SL st x (hback _ h)
  · rw [ring_iteration_events, List.mem_append] at h
    rcases h with h | h
    · exact halfLengthIs_ring_geometry_events M P SL i st x (hback _ h)
    · split at h
      · simp at h
      · exact halfLengthIs_cells P SL i _ _ x (hback _ h)
  · exact halfLengthIs_outer_field_layer M P SL st x (hback _ h)
  · exact halfLengthIs_outer_guard_ring M P st x (hback _ h)
  · have := hback _ h
    rw [createdSolids_eq_nil _ (created_register_layers st)] at this
    simp at this
  · have := hback _ h
    rw [createdSolids_eq_nil _ (created_place_walls P)] at this
    simp at this

/-- The half lengths stored in the wires of a ring. -/
theorem ring_info_wire_halflength (M : MathOps R) (P : Params R) (SL iring : Nat)
    (st : State R) :
    (ring_info M P SL iring st).top.field_wires_bottom.halflength =
      (P.halflength - M.sin st.epsilon * P.FWradii) / M.cos st.epsilon ∧
    (ring_info M P SL iring st).top.sense_wires.halflength =
      (P.halflength - M.sin st.epsilon * P.CntFWradii) / M.cos st.epsilon ∧
    (ring_info M P SL iring st).top.field_wires_center.halflength =
      (P.halflength - M.sin st.epsilon * P.CntFWradii) / M.cos st.epsilon ∧
    (ring_info M P SL iring st).top.field_wires_top.halflength =
      (P.halflength - M.sin (ring_info M P SL iring st).central.epsilon * P.FWradii) /
        M.cos (ring_info M P SL iring st).central.epsilon ∧
    (ring_info M P SL iring st).upper.zlength = P.halflength :=
  ⟨rfl, rfl, rfl, rfl, rfl⟩

/-- C24: when the build creates a volume that is the conductor, the coating or
the total wire of a wire, or one of the layers `lvLayerInit`, `lvLayer_0`,
`lvLayerOut`, `lvLayerOutG`, or the volume of a whole ring, or any volume whose
solid is a hyperboloid, the half length of its solid is `CDCH:zHalfLength`;
the half length `(halflength - sin(epsilon) * radius) / cos(epsilon)` is what
the wire descriptors of a ring store. -/
theorem solids_keep_half_length (M : MathOps R) (P : Params R) (id : VolId)
    (name : String) (s : Solid R) (material : String)
    (h : Event.newVolume id name s material ∈ (build_layer M P).events)
    (hid : isWireVolume id = true ∨ isHyperboloidVolume id = true ∨ s.isHyperboloid = true) :
    s.halfLength = some P.zHalfLength ∧
    ∀ r ∈ (build_layer M P).rings,
      r.top.field_wires_bottom.halflength =
        (P.zHalfLength - M.sin r.entry.epsilon * P.FWradii) / M.cos r.entry.epsilon ∧
      r.top.sense_wires.halflength =
        (P.zHalfLength - M.sin r.entry.epsilon * P.CntFWradii) / M.cos r.entry.epsilon ∧
      r.top.field_wires_center.halflength =
        (P.zHalfLength - M.sin r.entry.epsilon * P.CntFWradii) / M.cos r.entry.epsilon ∧
      r.top.field_wires_top.halflength =
        (P.zHalfLength - M.sin r.central.epsilon * P.FWradii) / M.cos r.central.epsilon := by
  refine ⟨halfLengthIs_build_layer M P (id, s) ((mem_createdSolids _ _).mpr ⟨name, material, h⟩)
    hid, ?_⟩
  intro r hr
  have e := (build_layer_rings_spec M P r hr).1
  have k := ring_info_wire_halflength M P r.SL r.iring r.entry
  rw [← e] at k
  exact ⟨k.1, k.2.1, k.2.2.1, k.2.2.2.1⟩

theorem solids_keep_half_length_witness :
    (whole_ring_hyperboloid (first_ring exampleMath acceptScenarioParams).upper).halfLength =
      some 2000 :=
  (solids_keep_half_length exampleMath acceptScenarioParams _ _ _ _
    (whole_ring_creation_of_mem exampleMath acceptScenarioParams _ acceptScenario_first_ring_mem)
    (Or.inr (Or.inl rfl))).1

/-! ## What a total wire contains -/

theorem solidsOf_append (id : VolId) (a b : List (Event R)) :
    solidsOf id (a ++ b) = solidsOf id a ++ solidsOf id b := by
  simp [solidsOf, createdSolids_append]

theorem solidsOf_eq_nil (id : VolId) (evs : List (Event R)) (h : id ∉ created evs) :
    solidsOf id evs = [] := by
  unfold solidsOf
  rw [List.map_eq_nil_iff, List.filter_eq_nil_iff]
  intro x hx
  have hm : x.1 ∈ created evs := by
    rw [created_eq_map_createdSolids]
    exact List.mem_map_of_mem _ hx
  simp only [decide_eq_true_eq]
  intro e
  exact h (e ▸ hm)

theorem solidsOf_inner_guard_ring (M : MathOps R) (P : Params R) (st : State R) :
    solidsOf (VolId.lvWireWrapVol WireSite.innerGuardFirst) (inner_guard_ring M P st).2 =
      [ Solid.Tube ((1 / 2) * P.InGWireShellThickIn * enlarge)
          ((1 / 2) * P.InGWireShellThickIn * enlarge + (1 / 2) * P.FWireShellThickOut)
          P.halflength ] ∧
    solidsOf (VolId.lvWireWrapVol WireSite.innerGuardSecond) (inner_guard_ring M P st).2 =
      [ Solid.Tube ((1 / 2) * P.InGWireShellThickIn * enlarge)
          ((1 / 2) * P.InGWireShellThickIn * enlarge + (1 / 2) * P.FWireShellThickOut)
          P.halflength ] := by
  unfold inner_guard_ring solidsOf
  simp only [createdSolids_append, createdSolids_PlaceWires, PlaceWires_fst]
  constructor <;> simp [createdSolids, Event.creationSolid, List.filter_cons]

theorem solidsOf_outer_guard_ring (M : MathOps R) (P : Params R) (st : State R) :
    solidsOf (VolId.lvWireWrapVol WireSite.outerGuardFirst) (outer_guard_ring M P st).2 =
      [ Solid.Tube ((1 / 2) * P.OutGWireShellThickIn * enlarge)
          ((1 / 2) * P.OutGWireShellThickIn * enlarge + (1 / 2) * P.FWireShellThickOut)
          P.halflength ] ∧
    solidsOf (VolId.lvWireWrapVol WireSite.outerGuardSecond) (outer_guard_ring M P st).2 =
      [ Solid.Tube ((1 / 2) * P.OutGWireShellThickIn * enlarge)
          ((1 / 2) * P.OutGWireShellThickIn * enlarge + (1 / 2) * P.FWireShellThickOut)
          P.halflength ] := by
  unfold outer_guard_ring solidsOf
  simp only [createdSolids_append, createdSolids_PlaceWires, PlaceWires_fst]
  constructor <;> simp [createdSolids, Event.creationSolid, List.filter_cons]

/-- A ring iteration creates no coating of a guard wire. -/
theorem solidsOf_guard_coating_ring_iteration (M : MathOps R) (P : Params R) (SL iring : Nat)
    (st : State R) (site : WireSite)
    (hs : site = WireSite.innerGuardFirst ∨ site = WireSite.innerGuardSecond ∨
      site = WireSite.outerGuardFirst ∨ site = WireSite.outerGuardSecond) :
    solidsOf (VolId.lvWireWrapVol site) (ring_iteration M P SL iring st).events = [] := by
  apply solidsOf_eq_nil
  rw [ring_iteration_events, created_append, created_ring_geometry_events]
  split
  · rcases hs with h | h | h | h <;> subst h <;> simp [created]
  · rw [created_cells]
    rcases hs with h | h | h | h <;> subst h <;> simp

/-- The coating of a guard wire is created by the block of its guard ring only.  -/
theorem solidsOf_guard_coating_of_ok (M : MathOps R) (P : Params R)
    (h : (build_layer M P).error = none) (m : Nat) (hm : P.nSuperLayer.toNat = m + 1)
    (site : WireSite)
    (hs : site = WireSite.innerGuardFirst ∨ site = WireSite.innerGuardSecond ∨
      site = WireSite.outerGuardFirst ∨ site = WireSite.outerGuardSecond) :
    solidsOf (VolId.lvWireWrapVol site) (build_layer M P).events =
      solidsOf (VolId.lvWireWrapVol site) (inner_guard_ring M P (superlayer_factors M P 0
          (superlayer_wire_counts M P 0 (State.initial P)))).2 ++
        solidsOf (VolId.lvWireWrapVol site) (outer_guard_ring M P
          (outer_field_layer M P m (ring_entry M P m P.nRing.toNat)).1).2 := by
  rw [build_layer_observe_boundary M P (solidsOf (VolId.lvWireWrapVol site)) rfl
    (solidsOf_append _)
    (fun SL iring st => solidsOf_guard_coating_ring_iteration M P SL iring st site hs) h m hm]
  rw [solidsOf_eq_nil _ (wall_volumes P), solidsOf_eq_nil _ (initial_field_layer M P 0 _).2,
    solidsOf_eq_nil _ (outer_field_layer M P m _).2, solidsOf_eq_nil _ (register_layers _),
    solidsOf_eq_nil _ (place_walls P)]
  · simp
  · rw [created_place_walls]; simp
  · rw [created_register_layers]; simp
  · rw [created_outer_field_layer]
    rcases hs with h | h | h | h <;> subst h <;> simp
  · rw [created_initial_field_layer]
    rcases hs with h | h | h | h <;> subst h <;> simp
  · rw [created_wall_volumes]; simp

/-- The placements of the four boundary blocks are made in a total wire of
`PlaceWires` or in one of the four layers. -/
theorem placements_boundary_kind (M : MathOps R) (P : Params R) (SL : Nat) (st : State R) :
    (∀ x ∈ placements (inner_guard_ring M P st).2,
      isPlaceWiresVolume x.1 = true ∨ isLayerVolume x.1 = true) ∧
    (∀ x ∈ placements (initial_field_layer M P SL st).2,
      isPlaceWiresVolume x.1 = true ∨ isLayerVolume x.1 = true) ∧
    (∀ x ∈ placements (outer_field_layer M P SL st).2,
      isPlaceWiresVolume x.1 = true ∨ isLayerVolume x.1 = true) ∧
    (∀ x ∈ placements (outer_guard_ring M P st).2,
      isPlaceWiresVolume x.1 = true ∨ isLayerVolume x.1 = true) := by
  refine ⟨?_, ?_, ?_, ?_⟩
  · intro x hx
    simp only [placements_inner_guard_ring, List.mem_append, List.mem_cons, List.mem_singleton,
      List.mem_replicate, List.not_mem_nil, or_false] at hx
    rcases hx with (((h | h) | h) | (h | h)) | h
    all_goals first | (rw [h]; exact Or.inl rfl) | (rw [h.2]; exact Or.inr rfl)
  · intro x hx
    simp only [placements_initial_field_layer, List.mem_append, List.mem_cons,
      List.mem_singleton, List.mem_replicate, List.not_mem_nil, or_false] at hx
    rcases hx with (h | h) | h
    all_goals first | (rw [h]; exact Or.inl rfl) | (rw [h.2]; exact Or.inr rfl)
  · intro x hx
    simp only [placements_outer_field_layer, List.mem_append, List.mem_cons,
      List.mem_singleton, List.mem_replicate, List.not_mem_nil, or_false] at hx
    rcases hx with (h | h) | h
    all_goals first | (rw [h]; exact Or.inl rfl) | (rw [h.2]; exact Or.inr rfl)
  · intro x hx
    simp only [placements_outer_guard_ring, List.mem_append, List.mem_cons, List.mem_singleton,
      List.mem_replicate, List.not_mem_nil, or_false] at hx
    rcases hx with (((h | h) | h) | (h | h)) | h
    all_goals first | (rw [h]; exact Or.inl rfl) | (rw [h.2]; exact Or.inr rfl)

/-- The cells place nothing in a volume that is neither a whole ring nor a cell. -/
theorem placedIn_ring_iteration_geometry (M : MathOps R) (P : Params R) (SL iring : Nat)
    (st : State R) (m : VolId) (hm : ∀ c, ringOwned (m, c) = false) :
    placedIn m (ring_iteration M P SL iring st).events =
      placedIn m (ring_geometry_events M P SL iring st) := by
  rw [ring_iteration_events, placedIn_append]
  split
  · exact List.append_nil _
  · rw [placedIn_eq_nil m (cells P SL iring _ _), List.append_nil]
    rintro ⟨a, b⟩ hx e
    have h1 := placements_cells_ringOwned P SL iring _ _ _ hx
    simp only at e
    rw [e, hm b] at h1
    exact Bool.noConfusion h1

/-- What one ring iteration places in the total wires and in the conductors of
the ring `(SL', iring')`. -/
theorem placedIn_ring_iteration_wires (M : MathOps R) (P : Params R) (SL iring : Nat)
    (st : State R) (SL' iring' : Nat) :
    placedIn (VolId.lvWireVol (WireSite.bottom SL' iring')) (ring_iteration M P SL iring st).events =
      (if (SL, iring) = (SL', iring') then
        [VolId.lvFwire SL' iring', VolId.lvWireWrapVol (WireSite.bottom SL' iring')] else []) ∧
    placedIn (VolId.lvWireVol (WireSite.sense SL' iring')) (ring_iteration M P SL iring st).events =
      (if (SL, iring) = (SL', iring') then
        [VolId.lvSwire SL' iring', VolId.lvWireWrapVol (WireSite.sense SL' iring')] else []) ∧
    placedIn (VolId.lvWireVol (WireSite.center SL' iring')) (ring_iteration M P SL iring st).events =
      (if (SL, iring) = (SL', iring') then
        [VolId.lvFwire SL' iring', VolId.lvWireWrapVol (WireSite.center SL' iring')] else []) ∧
    placedIn (VolId.lvWireVol (WireSite.top SL' iring')) (ring_iteration M P SL iring st).events =
      (if (SL, iring) = (SL', iring') then
        [VolId.lvFwire SL' iring', VolId.lvWireWrapVol (WireSite.top SL' iring')] else []) ∧
    placedIn (VolId.lvFwire SL' iring') (ring_iteration M P SL iring st).events = [] ∧
    placedIn (VolId.lvSwire SL' iring') (ring_iteration M P SL iring st).events = [] := by
  rw [placedIn_ring_iteration_geometry M P SL iring st
      (VolId.lvWireVol (WireSite.bottom SL' iring')) (fun _ => rfl),
    placedIn_ring_iteration_geometry M P SL iring st
      (VolId.lvWireVol (WireSite.sense SL' iring')) (fun _ => rfl),
    placedIn_ring_iteration_geometry M P SL iring st
      (VolId.lvWireVol (WireSite.center SL' iring')) (fun _ => rfl),
    placedIn_ring_iteration_geometry M P SL iring st
      (VolId.lvWireVol (WireSite.top SL' iring')) (fun _ => rfl),
    placedIn_ring_iteration_geometry M P SL iring st (VolId.lvFwire SL' iring') (fun _ => rfl),
    placedIn_ring_iteration_geometry M P SL iring st (VolId.lvSwire SL' iring') (fun _ => rfl)]
  by_cases h : (SL, iring) = (SL', iring')
  · rw [if_pos h]
    simp only [Prod.mk.injEq] at h
    obtain ⟨rfl, rfl⟩ := h
    simp [placedIn, placements_ring_geometry_events, List.filter_cons]
  · rw [if_neg h]
    have h' : ¬ (SL = SL' ∧ iring = iring') := by simpa using h
    have h'' : SL = SL' → ¬ iring = iring' := fun a b => h' ⟨a, b⟩
    simp [placedIn, placements_ring_geometry_events, List.filter_cons, h', h'']

/-- The volumes placed by the whole build in a volume in which only the
iteration of one ring places something. -/
theorem placedIn_build_layer_of_ring (M : MathOps R) (P : Params R) (m : VolId)
    (hm1 : isPlaceWiresVolume m = false) (hm2 : isLayerVolume m = false)
    (hm3 : m ≠ VolId.parentVol) (r : RingInfo R) (hr : r ∈ (build_layer M P).rings)
    (hother : ∀ SL iring st, (SL, iring) ≠ (r.SL, r.iring) →
      placedIn m (ring_iteration M P SL iring st).events = []) :
    placedIn m (build_layer M P).events =
      placedIn m (ring_iteration M P r.SL r.iring r.entry).events := by
  have hne : ∀ x : VolId × VolId,
      isPlaceWiresVolume x.1 = true ∨ isLayerVolume x.1 = true → x.1 ≠ m := by
    intro x h e
    rw [e, hm1, hm2] at h
    simp at h
  refine build_layer_observe_ring M P (placedIn m) rfl (placedIn_append m) rfl ?_ ?_ ?_ r hr
    hother
  · intro SL st
    unfold first_superlayer_block
    split
    · rw [placedIn_append,
        placedIn_eq_nil m _ (fun x hx => hne x ((placements_boundary_kind M P 0 st).1 x hx)),
        placedIn_eq_nil m _ (fun x hx => hne x ((placements_boundary_kind M P SL _).2.1 x hx))]
      rfl
    · rfl
  · intro SL st
    unfold last_superlayer_block
    split
    · rw [placedIn_append,
        placedIn_eq_nil m _ (fun x hx => hne x ((placements_boundary_kind M P SL st).2.2.1 x hx)),
        placedIn_eq_nil m _ (fun x hx => hne x ((placements_boundary_kind M P SL _).2.2.2 x hx))]
      rfl
    · rfl
  · intro _
    rw [placedIn_append,
      placedIn_eq_nil m _ (fun x hx => by
        rw [placements_register_layers_mother _ x hx]; exact Ne.symm hm3),
      placedIn_eq_nil m _ (fun x hx => by
        rw [placements_place_walls_mother P x hx]; exact Ne.symm hm3)]
    rfl

/-- A ring iteration places nothing in the total wire of a guard wire. -/
theorem placedIn_guard_wire_ring_iteration (M : MathOps R) (P : Params R) (SL iring : Nat)
    (st : State R) (site : WireSite)
    (hs : site = WireSite.innerGuardFirst ∨ site = WireSite.innerGuardSecond ∨
      site = WireSite.outerGuardFirst ∨ site = WireSite.outerGuardSecond) :
    placedIn (VolId.lvWireVol site) (ring_iteration M P SL iring st).events = [] := by
  rw [placedIn_ring_iteration_geometry M P SL iring st (VolId.lvWireVol site) (fun _ => rfl)]
  rcases hs with h | h | h | h <;> subst h <;>
    simp [placedIn, placements_ring_geometry_events, List.filter_cons]

/-- In a build that does not throw, something is placed in the total wire of a
guard wire by the blocks of the two guard rings only. -/
theorem placedIn_guard_wire_of_ok (M : MathOps R) (P : Params R)
    (h : (build_layer M P).error = none) (m : Nat) (hm : P.nSuperLayer.toNat = m + 1)
    (site : WireSite)
    (hs : site = WireSite.innerGuardFirst ∨ site = WireSite.innerGuardSecond ∨
      site = WireSite.outerGuardFirst ∨ site = WireSite.outerGuardSecond) :
    placedIn (VolId.lvWireVol site) (build_layer M P).events =
      placedIn (VolId.lvWireVol site) (inner_guard_ring M P (superlayer_factors M P 0
          (superlayer_wire_counts M P 0 (State.initial P)))).2 ++
        placedIn (VolId.lvWireVol site) (outer_guard_ring M P
          (outer_field_layer M P m (ring_entry M P m P.nRing.toNat)).1).2 := by
  rw [build_layer_observe_boundary M P (placedIn (VolId.lvWireVol site)) rfl
    (placedIn_append _)
    (fun SL iring st => placedIn_guard_wire_ring_iteration M P SL iring st site hs) h m hm]
  have h1 : placedIn (VolId.lvWireVol site) (wall_volumes P) = [] := rfl
  have h2 : placedIn (VolId.lvWireVol site) (initial_field_layer M P 0
      (inner_guard_ring M P (superlayer_factors M P 0
        (superlayer_wire_counts M P 0 (State.initial P)))).1).2 = [] := by
    rcases hs with h | h | h | h <;> subst h <;>
      simp [placedIn, placements_initial_field_layer, List.filter_cons, List.filter_replicate]
  have h3 : placedIn (VolId.lvWireVol site)
      (outer_field_layer M P m (ring_entry M P m P.nRing.toNat)).2 = [] := by
    rcases hs with h | h | h | h <;> subst h <;>
      simp [placedIn, placements_outer_field_layer, List.filter_cons, List.filter_replicate]
  have h4 : placedIn (VolId.lvWireVol site) (register_layers (superlayer_entry M P (m + 1))) =
      [] :=
    placedIn_eq_nil _ _ (fun x hx => by
      rw [placements_register_layers_mother _ x hx]; exact fun e => VolId.noConfusion e)
  have h5 : placedIn (VolId.lvWireVol site) (place_walls P) = [] :=
    placedIn_eq_nil _ _ (fun x hx => by
      rw [placements_place_walls_mother P x hx]; exact fun e => VolId.noConfusion e)
  rw [h1, h2, h3, h4, h5]
  simp

/-- C25: in a build that does not throw, with at least one superlayer, the
total wire of the second population of inner guard wires contains the total
wire of the first population and a coating of its own, while the total wire of
the first population contains the conductor `Gwire_inner` and its coating; the
two coatings are created once each, with the same tube, from
`ground_wires.thickness` to `ground_wires.thickness + 0.5 * FWireShellThickOut`;
the layer `lvLayerInit` receives the first total wire and then the second one;
the same holds for the outer guard wires in `lvLayerOutG`.  Of a ring of the
build, each of the four wires placed in the cells is a total wire that
contains one conductor and one coating, and nothing is placed in the
conductors. -/
theorem guard_wires_coated_twice (M : MathOps R) (P : Params R)
    (h : (build_layer M P).error = none) (hn : 0 < P.nSuperLayer) :
    (placedIn (VolId.lvWireVol WireSite.innerGuardFirst) (build_layer M P).events =
        [VolId.Gwire_inner, VolId.lvWireWrapVol WireSite.innerGuardFirst] ∧
      placedIn (VolId.lvWireVol WireSite.innerGuardSecond) (build_layer M P).events =
        [VolId.lvWireVol WireSite.innerGuardFirst,
          VolId.lvWireWrapVol WireSite.innerGuardSecond] ∧
      solidsOf (VolId.lvWireWrapVol WireSite.innerGuardFirst) (build_layer M P).events =
        [ Solid.Tube ((1 / 2) * P.InGWireShellThickIn * enlarge)
            ((1 / 2) * P.InGWireShellThickIn * enlarge + (1 / 2) * P.FWireShellThickOut)
            P.zHalfLength ] ∧
      solidsOf (VolId.lvWireWrapVol WireSite.innerGuardSecond) (build_layer M P).events =
        [ Solid.Tube ((1 / 2) * P.InGWireShellThickIn * enlarge)
            ((1 / 2) * P.InGWireShellThickIn * enlarge + (1 / 2) * P.FWireShellThickOut)
            P.zHalfLength ] ∧
      placedIn VolId.lvLayerInit (build_layer M P).events =
        List.replicate (Int.tdiv P.nInGWire 2).toNat
            (VolId.lvWireVol WireSite.innerGuardFirst) ++
          List.replicate (Int.tdiv P.nInGWire 2).toNat
            (VolId.lvWireVol WireSite.innerGuardSecond)) ∧
    (placedIn (VolId.lvWireVol WireSite.outerGuardFirst) (build_layer M P).events =
        [VolId.Gwire_outer, VolId.lvWireWrapVol WireSite.outerGuardFirst] ∧
      placedIn (VolId.lvWireVol WireSite.outerGuardSecond) (build_layer M P).events =
        [VolId.lvWireVol WireSite.outerGuardFirst,
          VolId.lvWireWrapVol WireSite.outerGuardSecond] ∧
      solidsOf (VolId.lvWireWrapVol WireSite.outerGuardFirst) (build_layer M P).events =
        [ Solid.Tube ((1 / 2) * P.OutGWireShellThickIn * enlarge)
            ((1 / 2) * P.OutGWireShellThickIn * enlarge + (1 / 2) * P.FWireShellThickOut)
            P.zHalfLength ] ∧
      solidsOf (VolId.lvWireWrapVol WireSite.outerGuardSecond) (build_layer M P).events =
        [ Solid.Tube ((1 / 2) * P.OutGWireShellThickIn * enlarge)
            ((1 / 2) * P.OutGWireShellThickIn * enlarge + (1 / 2) * P.FWireShellThickOut)
            P.zHalfLength ] ∧
      placedIn VolId.lvLayerOutG (build_layer M P).events =
        List.replicate (Int.tdiv P.nOutGWire 2).toNat
            (VolId.lvWireVol WireSite.outerGuardFirst) ++
          List.replicate (Int.tdiv P.nOutGWire 2).toNat
            (VolId.lvWireVol WireSite.outerGuardSecond)) ∧
    ∀ r ∈ (build_layer M P).rings,
      (r.top.field_wires_bottom.volume = VolId.lvWireVol (WireSite.bottom r.SL r.iring) ∧
        placedIn (VolId.lvWireVol (WireSite.bottom r.SL r.iring)) (build_layer M P).events =
          [VolId.lvFwire r.SL r.iring, VolId.lvWireWrapVol (WireSite.bottom r.SL r.iring)]) ∧
      (r.top.sense_wires.volume = VolId.lvWireVol (WireSite.sense r.SL r.iring) ∧
        placedIn (VolId.lvWireVol (WireSite.sense r.SL r.iring)) (build_layer M P).events =
          [VolId.lvSwire r.SL r.iring, VolId.lvWireWrapVol (WireSite.sense r.SL r.iring)]) ∧
      (r.top.field_wires_center.volume = VolId.lvWireVol (WireSite.center r.SL r.iring) ∧
        placedIn (VolId.lvWireVol (WireSite.center r.SL r.iring)) (build_layer M P).events =
          [VolId.lvFwire r.SL r.iring, VolId.lvWireWrapVol (WireSite.center r.SL r.iring)]) ∧
      (r.top.field_wires_top.volume = VolId.lvWireVol (WireSite.top r.SL r.iring) ∧
        placedIn (VolId.lvWireVol (WireSite.top r.SL r.iring)) (build_layer M P).events =
          [VolId.lvFwire r.SL r.iring, VolId.lvWireWrapVol (WireSite.top r.SL r.iring)]) ∧
      placedIn (VolId.lvFwire r.SL r.iring) (build_layer M P).events = [] ∧
      placedIn (VolId.lvSwire r.SL r.iring) (build_layer M P).events = [] := by
  obtain ⟨m, hm⟩ : ∃ m, P.nSuperLayer.toNat = m + 1 := ⟨P.nSuperLayer.toNat - 1, by omega⟩
  have hg := placedIn_guard_layers_of_ok M P h hn
  refine ⟨⟨?_, ?_, ?_, ?_, hg.1⟩, ⟨?_, ?_, ?_, ?_, hg.2⟩, ?_⟩
  · rw [placedIn_guard_wire_of_ok M P h m hm _ (Or.inl rfl)]
    simp [placedIn, placements_inner_guard_ring, placements_outer_guard_ring, List.filter_cons,
      List.filter_replicate]
  · rw [placedIn_guard_wire_of_ok M P h m hm _ (Or.inr (Or.inl rfl))]
    simp [placedIn, placements_inner_guard_ring, placements_outer_guard_ring, List.filter_cons,
      List.filter_replicate]
  · rw [solidsOf_guard_coating_of_ok M P h m hm _ (Or.inl rfl),
      (solidsOf_inner_guard_ring M P _).1,
      solidsOf_eq_nil _ (outer_guard_ring M P _).2 (by rw [created_outer_guard_ring]; simp)]
    rfl
  · rw [solidsOf_guard_coating_of_ok M P h m hm _ (Or.inr (Or.inl rfl)),
      (solidsOf_inner_guard_ring M P _).2,
      solidsOf_eq_nil _ (outer_guard_ring M P _).2 (by rw [created_outer_guard_ring]; simp)]
    rfl
  · rw [placedIn_guard_wire_of_ok M P h m hm _ (Or.inr (Or.inr (Or.inl rfl)))]
    simp [placedIn, placements_inner_guard_ring, placements_outer_guard_ring, List.filter_cons,
      List.filter_replicate]
  · rw [placedIn_guard_wire_of_ok M P h m hm _ (Or.inr (Or.inr (Or.inr rfl)))]
    simp [placedIn, placements_inner_guard_ring, placements_outer_guard_ring, List.filter_cons,
      List.filter_replicate]
  · rw [solidsOf_guard_coating_of_ok M P h m hm _ (Or.inr (Or.inr (Or.inl rfl))),
      (solidsOf_outer_guard_ring M P _).1,
      solidsOf_eq_nil _ (inner_guard_ring M P _).2 (by rw [created_inner_guard_ring]; simp)]
    rfl
  · rw [solidsOf_guard_coating_of_ok M P h m hm _ (Or.inr (Or.inr (Or.inr rfl))),
      (solidsOf_outer_guard_ring M P _).2,
      solidsOf_eq_nil _ (inner_guard_ring M P _).2 (by rw [created_inner_guard_ring]; simp)]
    rfl
  · intro r hr
    have hv := ring_volumes_of_mem M P r hr
    have hw := placedIn_ring_iteration_wires M P r.SL r.iring r.entry r.SL r.iring
    simp only [if_pos] at hw
    have ho := fun SL iring st (hne : (SL, iring) ≠ (r.SL, r.iring)) =>
      placedIn_ring_iteration_wires M P SL iring st r.SL r.iring
    refine ⟨⟨hv.2.1, ?_⟩, ⟨hv.1, ?_⟩, ⟨hv.2.2.1, ?_⟩, ⟨hv.2.2.2, ?_⟩, ?_, ?_⟩
    · rw [placedIn_build_layer_of_ring M P (VolId.lvWireVol (WireSite.bottom r.SL r.iring)) rfl rfl
        (fun e => VolId.noConfusion e) r hr
        (fun SL iring st hne => by rw [(ho SL iring st hne).1, if_neg hne])]
      exact hw.1
    · rw [placedIn_build_layer_of_ring M P (VolId.lvWireVol (WireSite.sense r.SL r.iring)) rfl rfl
        (fun e => VolId.noConfusion e) r hr
        (fun SL iring st hne => by rw [(ho SL iring st hne).2.1, if_neg hne])]
      exact hw.2.1
    · rw [placedIn_build_layer_of_ring M P (VolId.lvWireVol (WireSite.center r.SL r.iring)) rfl rfl
        (fun e => VolId.noConfusion e) r hr
        (fun SL iring st hne => by rw [(ho SL iring st hne).2.2.1, if_neg hne])]
      exact hw.2.2.1
    · rw [placedIn_build_layer_of_ring M P (VolId.lvWireVol (WireSite.top r.SL r.iring)) rfl rfl
        (fun e => VolId.noConfusion e) r hr
        (fun SL iring st hne => by rw [(ho SL iring st hne).2.2.2.1, if_neg hne])]
      exact hw.2.2.2.1
    · rw [placedIn_build_layer_of_ring M P (VolId.lvFwire r.SL r.iring) rfl rfl
        (fun e => VolId.noConfusion e) r hr
        (fun SL iring st hne => (ho SL iring st hne).2.2.2.2.1)]
      exact hw.2.2.2.2.1
    · rw [placedIn_build_layer_of_ring M P (VolId.lvSwire r.SL r.iring) rfl rfl
        (fun e => VolId.noConfusion e) r hr
        (fun SL iring st hne => (ho SL iring st hne).2.2.2.2.2)]
      exact hw.2.2.2.2.2

theorem guard_wires_coated_twice_witness :
    placedIn (VolId.lvWireVol WireSite.innerGuardSecond)
        (build_layer exampleMath acceptScenarioParams).events =
      [VolId.lvWireVol WireSite.innerGuardFirst, VolId.lvWireWrapVol WireSite.innerGuardSecond] ∧
    solidsOf (VolId.lvWireWrapVol WireSite.innerGuardSecond)
        (build_layer exampleMath acceptScenarioParams).events =
      solidsOf (VolId.lvWireWrapVol WireSite.innerGuardFirst)
        (build_layer exampleMath acceptScenarioParams).events ∧
    placedIn (VolId.lvWireVol (WireSite.sense 0 0))
        (build_layer exampleMath acceptScenarioParams).events =
      [VolId.lvSwire 0 0, VolId.lvWireWrapVol (WireSite.sense 0 0)] :=
  ⟨(guard_wires_coated_twice exampleMath acceptScenarioParams acceptScenario_ok
      (by decide)).1.2.1,
    ((guard_wires_coated_twice exampleMath acceptScenarioParams acceptScenario_ok
      (by decide)).1.2.2.2.1).trans
      ((guard_wires_coated_twice exampleMath acceptScenarioParams acceptScenario_ok
        (by decide)).1.2.2.1).symm,
    ((guard_wires_coated_twice exampleMath acceptScenarioParams acceptScenario_ok
      (by decide)).2.2 _ acceptScenario_first_ring_mem).2.1.2⟩

/-! ## Binary32 rounding -/

theorem roundHalfEven_intCast (k : Int) : roundHalfEven ((k : Int) : ℚ) = k := by
  unfold roundHalfEven
  rw [Int.floor_intCast, sub_self, if_pos (by norm_num)]

theorem abs_sub_roundHalfEven_le (x : ℚ) : |x - ((roundHalfEven x : Int) : ℚ)| ≤ 1 / 2 := by
  have h1 := Int.floor_le x
  have h2 := Int.lt_floor_add_one x
  unfold roundHalfEven
  split_ifs with a b c
  · rw [abs_le]; constructor <;> linarith
  · rw [abs_le]; push_cast; constructor <;> linarith
  · rw [abs_le]; constructor <;> linarith
  · rw [abs_le]; push_cast; constructor <;> linarith

theorem two_zpow_pos (e : Int) : (0 : ℚ) < (2 : ℚ) ^ e := zpow_pos (by norm_num) e

/-- The binade of a nonzero rational. -/
theorem zpow_log_le_abs (q : ℚ) (hq : q ≠ 0) :
    (2 : ℚ) ^ Int.log 2 |q| ≤ |q| ∧ |q| < (2 : ℚ) ^ (Int.log 2 |q| + 1) := by
  have h1 := @Int.zpow_log_le_self ℚ _ _ 2 |q| (by norm_num) (abs_pos.mpr hq)
  have h2 := @Int.lt_zpow_succ_log_self ℚ _ _ 2 (by norm_num) |q|
  simp only [Nat.cast_ofNat] at h1 h2
  exact ⟨h1, h2⟩

theorem le_log_abs (q : ℚ) (e : Int) (h1 : (2 : ℚ) ^ e ≤ |q|) : e ≤ Int.log 2 |q| := by
  have hq : 0 < |q| := lt_of_lt_of_le (two_zpow_pos e) h1
  exact (@Int.zpow_le_iff_le_log ℚ _ _ 2 (by norm_num) e |q| hq).mp (by simpa using h1)

theorem log_abs_lt (q : ℚ) (e : Int) (hq : q ≠ 0) (h2 : |q| < (2 : ℚ) ^ e) :
    Int.log 2 |q| < e :=
  (@Int.lt_zpow_iff_log_lt ℚ _ _ 2 (by norm_num) e |q| (abs_pos.mpr hq)).mp (by simpa using h2)

theorem log_abs_eq (q : ℚ) (e : Int) (h1 : (2 : ℚ) ^ e ≤ |q|) (h2 : |q| < (2 : ℚ) ^ (e + 1)) :
    Int.log 2 |q| = e := by
  have hq : q ≠ 0 := abs_pos.mp (lt_of_lt_of_le (two_zpow_pos e) h1)
  have := log_abs_lt q (e + 1) hq h2
  have := le_log_abs q e h1
  omega

/-- The rounding of a rational of which the binade and the rounded significand
are known. -/
theorem roundToFloat_eq (q : ℚ) (e k : Int) (h1 : (2 : ℚ) ^ e ≤ |q|)
    (h2 : |q| < (2 : ℚ) ^ (e + 1)) (he : -126 ≤ e)
    (hk : roundHalfEven (q / (2 : ℚ) ^ (e - 23)) = k)
    (hfin : |((k : Int) : ℚ) * (2 : ℚ) ^ (e - 23)| < (2 : ℚ) ^ (128 : Nat)) :
    roundToFloat q = CFloat.finite (((k : Int) : ℚ) * (2 : ℚ) ^ (e - 23)) := by
  unfold roundToFloat binary32Exponent
  rw [log_abs_eq q e h1 h2, max_eq_left he, hk, if_neg (not_le.mpr hfin)]

theorem roundToFloat_zero : roundToFloat 0 = CFloat.finite 0 := by
  unfold roundToFloat binary32Exponent
  simp [roundHalfEven]

/-- A multiple `k * 2 ^ j` of a power of two with `|k| < 2 ^ 24` is a `float`. -/
theorem roundToFloat_of_representable (k j : Int) (hk : |k| < 2 ^ 24) (hj : -149 ≤ j)
    (hfin : |((k : Int) : ℚ) * (2 : ℚ) ^ j| < (2 : ℚ) ^ (128 : Nat)) :
    roundToFloat (((k : Int) : ℚ) * (2 : ℚ) ^ j) =
      CFloat.finite (((k : Int) : ℚ) * (2 : ℚ) ^ j) := by
  by_cases hk0 : k = 0
  · subst hk0; simp [roundToFloat_zero]
  have hq : ((k : Int) : ℚ) * (2 : ℚ) ^ j ≠ 0 :=
    mul_ne_zero (by exact_mod_cast hk0) (ne_of_gt (two_zpow_pos j))
  obtain ⟨b1, b2⟩ := zpow_log_le_abs _ hq
  have hkq : |((k : Int) : ℚ)| < (2 : ℚ) ^ (24 : Int) := by
    have : ((|k| : Int) : ℚ) < ((2 ^ 24 : Int) : ℚ) := by exact_mod_cast hk
    rw [Int.cast_abs] at this
    calc |((k : Int) : ℚ)| < ((2 ^ 24 : Int) : ℚ) := this
      _ = (2 : ℚ) ^ (24 : Int) := by norm_num
  -- the exponent of the binade is below `24 + j`
  have he : Int.log 2 |((k : Int) : ℚ) * (2 : ℚ) ^ j| < 24 + j := by
    apply log_abs_lt _ _ hq
    rw [abs_mul, abs_of_pos (two_zpow_pos j), zpow_add₀ (by norm_num : (2 : ℚ) ≠ 0)]
    exact mul_lt_mul_of_pos_right hkq (two_zpow_pos j)
  have hd : 0 ≤ j - (binary32Exponent (((k : Int) : ℚ) * (2 : ℚ) ^ j) - 23) := by
    unfold binary32Exponent
    rcases max_cases (Int.log 2 |((k : Int) : ℚ) * (2 : ℚ) ^ j|) (-126) with ⟨h, _⟩ | ⟨h, _⟩ <;>
      rw [h] <;> omega
  obtain ⟨d, hd'⟩ := Int.eq_ofNat_of_zero_le hd
  have hj' : j = (binary32Exponent (((k : Int) : ℚ) * (2 : ℚ) ^ j) - 23) + (d : Int) := by omega
  have hquot : ((k : Int) : ℚ) * (2 : ℚ) ^ j /
      (2 : ℚ) ^ (binary32Exponent (((k : Int) : ℚ) * (2 : ℚ) ^ j) - 23) =
        (((k * 2 ^ d : Int)) : ℚ) := by
    rw [div_eq_iff (ne_of_gt (two_zpow_pos _))]
    conv_lhs => rw [hj']
    rw [zpow_add₀ (by norm_num : (2 : ℚ) ≠ 0), zpow_natCast]
    push_cast
    ring
  have hr : (((roundHalfEven (((k : Int) : ℚ) * (2 : ℚ) ^ j /
      (2 : ℚ) ^ (binary32Exponent (((k : Int) : ℚ) * (2 : ℚ) ^ j) - 23)) : Int)) : ℚ) *
      (2 : ℚ) ^ (binary32Exponent (((k : Int) : ℚ) * (2 : ℚ) ^ j) - 23) =
        ((k : Int) : ℚ) * (2 : ℚ) ^ j := by
    rw [hquot, roundHalfEven_intCast, ← hquot,
      div_mul_cancel₀ _ (ne_of_gt (two_zpow_pos _))]
  unfold roundToFloat
  rw [hr, if_neg (not_le.mpr hfin)]

/-- An `int` below `2 ^ 24` in absolute value is converted to `float` exactly. -/
theorem floatOfInt_of_lt (n : Int) (h : |n| < 2 ^ 24) :
    floatOfInt n = CFloat.finite ((n : Int) : ℚ) := by
  have key := roundToFloat_of_representable n 0 h (by norm_num) ?_
  · simpa [floatOfInt] using key
  · rw [zpow_zero, mul_one]
    have : ((|n| : Int) : ℚ) < ((2 ^ 24 : Int) : ℚ) := by exact_mod_cast h
    rw [Int.cast_abs] at this
    calc |((n : Int) : ℚ)| < ((2 ^ 24 : Int) : ℚ) := this
      _ < (2 : ℚ) ^ (128 : Nat) := by norm_num

/-- The conversion of an `int` to `float` gives an integer or an infinity. -/
theorem roundToFloat_intCast_integral (n : Int) :
    (∃ z : Int, floatOfInt n = CFloat.finite ((z : Int) : ℚ)) ∨
      ∃ s, floatOfInt n = CFloat.infinite s := by
  unfold floatOfInt roundToFloat
  split_ifs with h
  · exact Or.inr ⟨_, rfl⟩
  · left
    rcases le_or_lt 0 (binary32Exponent ((n : Int) : ℚ) - 23) with hu | hu
    · obtain ⟨d, hd⟩ := Int.eq_ofNat_of_zero_le hu
      refine ⟨roundHalfEven (((n : Int) : ℚ) / (2 : ℚ) ^ (binary32Exponent ((n : Int) : ℚ) - 23)) *
        2 ^ d, ?_⟩
      rw [hd, zpow_natCast]
      push_cast
      rfl
    · obtain ⟨d, hd⟩ := Int.eq_ofNat_of_zero_le (show 0 ≤ -(binary32Exponent ((n : Int) : ℚ) - 23)
        by omega)
      have hu' : binary32Exponent ((n : Int) : ℚ) - 23 = -(d : Int) := by omega
      refine ⟨n, ?_⟩
      have hquot : ((n : Int) : ℚ) / (2 : ℚ) ^ (-(d : Int)) = (((n * 2 ^ d : Int)) : ℚ) := by
        rw [zpow_neg, zpow_natCast, div_inv_eq_mul]
        push_cast
        rfl
      rw [hu', hquot, roundHalfEven_intCast, ← hquot,
        div_mul_cancel₀ _ (ne_of_gt (two_zpow_pos _))]

/-- The test `ceilf(x) != x` is false for an `int` converted to `float`. -/
theorem ne_ceilf_floatOfInt (n : Int) :
    CFloat.ne (ceilf (floatOfInt n)) (floatOfInt n) = false := by
  rcases roundToFloat_intCast_integral n with ⟨z, h⟩ | ⟨s, h⟩
  · rw [h]; simp [ceilf, CFloat.ne]
  · rw [h]; simp [ceilf, CFloat.ne]

/-- The rounded quotient of two `int`s below `2 ^ 24` of which the second does
not divide the first is not an integer. -/
theorem roundToFloat_div_not_integral (a N : Int) (ha : |a| < 2 ^ 24) (hN : |N| < 2 ^ 24)
    (hN0 : N ≠ 0) (hnd : ¬ N ∣ a) :
    ∃ r : ℚ, roundToFloat (((a : Int) : ℚ) / ((N : Int) : ℚ)) = CFloat.finite r ∧
      ((⌈r⌉ : Int) : ℚ) ≠ r := by
  have ha0 : a ≠ 0 := by rintro rfl; exact hnd (dvd_zero N)
  have hNq : ((N : Int) : ℚ) ≠ 0 := by exact_mod_cast hN0
  have haq : ((a : Int) : ℚ) ≠ 0 := by exact_mod_cast ha0
  have hNpos : (0 : ℚ) < |((N : Int) : ℚ)| := abs_pos.mpr hNq
  have hN1 : (1 : ℚ) ≤ |((N : Int) : ℚ)| := by
    rw [← Int.cast_abs]
    exact_mod_cast Int.one_le_abs hN0
  have ha1 : (1 : ℚ) ≤ |((a : Int) : ℚ)| := by
    rw [← Int.cast_abs]
    exact_mod_cast Int.one_le_abs ha0
  have hN24 : |((N : Int) : ℚ)| < (2 : ℚ) ^ (24 : Int) := by
    have : ((|N| : Int) : ℚ) < ((2 ^ 24 : Int) : ℚ) := by exact_mod_cast hN
    rw [Int.cast_abs] at this
    calc |((N : Int) : ℚ)| < ((2 ^ 24 : Int) : ℚ) := this
      _ = (2 : ℚ) ^ (24 : Int) := by norm_num
  have ha24 : |((a : Int) : ℚ)| < (2 : ℚ) ^ (24 : Int) := by
    have : ((|a| : Int) : ℚ) < ((2 ^ 24 : Int) : ℚ) := by exact_mod_cast ha
    rw [Int.cast_abs] at this
    calc |((a : Int) : ℚ)| < ((2 ^ 24 : Int) : ℚ) := this
      _ = (2 : ℚ) ^ (24 : Int) := by norm_num
  have hq : ((a : Int) : ℚ) / ((N : Int) : ℚ) ≠ 0 := div_ne_zero haq hNq
  have habs : |((a : Int) : ℚ) / ((N : Int) : ℚ)| * |((N : Int) : ℚ)| = |((a : Int) : ℚ)| := by
    rw [abs_div, div_mul_cancel₀ _ (ne_of_gt hNpos)]
  obtain ⟨b1, b2⟩ := zpow_log_le_abs _ hq
  -- the binade of the quotient lies between `2 ^ (-24)` and `2 ^ 24`
  have hlow : (-24 : Int) ≤ Int.log 2 |((a : Int) : ℚ) / ((N : Int) : ℚ)| := by
    apply le_log_abs
    rw [abs_div, le_div_iff₀ hNpos]
    calc (2 : ℚ) ^ (-24 : Int) * |((N : Int) : ℚ)| ≤ (2 : ℚ) ^ (-24 : Int) * (2 : ℚ) ^ (24 : Int) :=
          mul_le_mul_of_nonneg_left (le_of_lt hN24) (le_of_lt (two_zpow_pos _))
      _ = 1 := by norm_num
      _ ≤ |((a : Int) : ℚ)| := ha1
  have hhigh : Int.log 2 |((a : Int) : ℚ) / ((N : Int) : ℚ)| < 24 := by
    apply log_abs_lt _ _ hq
    rw [abs_div, div_lt_iff₀ hNpos]
    calc |((a : Int) : ℚ)| < (2 : ℚ) ^ (24 : Int) := ha24
      _ ≤ (2 : ℚ) ^ (24 : Int) * |((N : Int) : ℚ)| := le_mul_of_one_le_right
          (le_of_lt (two_zpow_pos _)) hN1
  have hexp : binary32Exponent (((a : Int) : ℚ) / ((N : Int) : ℚ)) =
      Int.log 2 |((a : Int) : ℚ) / ((N : Int) : ℚ)| := by
    unfold binary32Exponent
    exact max_eq_left (by omega)
  generalize hedef : Int.log 2 |((a : Int) : ℚ) / ((N : Int) : ℚ)| = e at *
  have hu := two_zpow_pos (e - 23)
  have hround := abs_sub_roundHalfEven_le (((a : Int) : ℚ) / ((N : Int) : ℚ) / (2 : ℚ) ^ (e - 23))
  generalize hmdef :
    roundHalfEven (((a : Int) : ℚ) / ((N : Int) : ℚ) / (2 : ℚ) ^ (e - 23)) = m at *
  -- the distance between the quotient and its rounding is at most half a unit
  have hdist : |((a : Int) : ℚ) / ((N : Int) : ℚ) - ((m : Int) : ℚ) * (2 : ℚ) ^ (e - 23)| ≤
      (2 : ℚ) ^ (e - 23) / 2 := by
    have e1 : ((a : Int) : ℚ) / ((N : Int) : ℚ) - ((m : Int) : ℚ) * (2 : ℚ) ^ (e - 23) =
        (((a : Int) : ℚ) / ((N : Int) : ℚ) / (2 : ℚ) ^ (e - 23) - ((m : Int) : ℚ)) *
          (2 : ℚ) ^ (e - 23) := by
      field_simp
      ring
    rw [e1, abs_mul, abs_of_pos hu]
    calc |((a : Int) : ℚ) / ((N : Int) : ℚ) / (2 : ℚ) ^ (e - 23) - ((m : Int) : ℚ)| *
          (2 : ℚ) ^ (e - 23) ≤ 1 / 2 * (2 : ℚ) ^ (e - 23) :=
          mul_le_mul_of_nonneg_right hround (le_of_lt hu)
      _ = (2 : ℚ) ^ (e - 23) / 2 := by ring
  have hule : (2 : ℚ) ^ (e - 23) ≤ 1 := by
    have : (2 : ℚ) ^ (e - 23) ≤ (2 : ℚ) ^ (0 : Int) :=
      zpow_le_zpow_right₀ (by norm_num) (by omega)
    simpa using this
  have hqlt : |((a : Int) : ℚ) / ((N : Int) : ℚ)| < (2 : ℚ) ^ (24 : Int) := by
    calc |((a : Int) : ℚ) / ((N : Int) : ℚ)| < (2 : ℚ) ^ (e + 1) := b2
      _ ≤ (2 : ℚ) ^ (24 : Int) := zpow_le_zpow_right₀ (by norm_num) (by omega)
  have hfin : |((m : Int) : ℚ) * (2 : ℚ) ^ (e - 23)| < (2 : ℚ) ^ (128 : Nat) := by
    have t1 : |((m : Int) : ℚ) * (2 : ℚ) ^ (e - 23)| ≤
        |((a : Int) : ℚ) / ((N : Int) : ℚ)| +
          |((a : Int) : ℚ) / ((N : Int) : ℚ) - ((m : Int) : ℚ) * (2 : ℚ) ^ (e - 23)| := by
      have := abs_sub_abs_le_abs_sub (((m : Int) : ℚ) * (2 : ℚ) ^ (e - 23))
        (((a : Int) : ℚ) / ((N : Int) : ℚ))
      rw [abs_sub_comm] at this
      linarith
    have t2 : (2 : ℚ) ^ (24 : Int) + 1 < (2 : ℚ) ^ (128 : Nat) := by norm_num
    linarith
  refine ⟨((m : Int) : ℚ) * (2 : ℚ) ^ (e - 23), ?_, ?_⟩
  · unfold roundToFloat
    rw [hexp, hmdef, if_neg (not_le.mpr hfin)]
  · intro hz
    generalize ⌈((m : Int) : ℚ) * (2 : ℚ) ^ (e - 23)⌉ = z at hz
    rw [← hz] at hdist
    -- `a - z * N` is a nonzero integer
    have hne : a - z * N ≠ 0 := by
      intro h0
      exact hnd ⟨z, by linarith [mul_comm z N]⟩
    have h1 : (1 : ℚ) ≤ |((a - z * N : Int) : ℚ)| := by
      rw [← Int.cast_abs]
      exact_mod_cast Int.one_le_abs hne
    have h2 : |((a - z * N : Int) : ℚ)| =
        |((a : Int) : ℚ) / ((N : Int) : ℚ) - ((z : Int) : ℚ)| * |((N : Int) : ℚ)| := by
      rw [← abs_mul]
      congr 1
      push_cast
      field_simp
      ring
    have h3 : (2 : ℚ) ^ (e - 23) / 2 * |((N : Int) : ℚ)| < 1 := by
      have e2 : (2 : ℚ) ^ (e - 23) / 2 = (2 : ℚ) ^ e / (2 : ℚ) ^ (24 : Int) := by
        rw [zpow_sub₀ (by norm_num : (2 : ℚ) ≠ 0)]
        norm_num
        ring
      rw [e2, div_mul_eq_mul_div, div_lt_one (two_zpow_pos _)]
      calc (2 : ℚ) ^ e * |((N : Int) : ℚ)| ≤
            |((a : Int) : ℚ) / ((N : Int) : ℚ)| * |((N : Int) : ℚ)| :=
            mul_le_mul_of_nonneg_right b1 (le_of_lt hNpos)
        _ = |((a : Int) : ℚ)| := habs
        _ < (2 : ℚ) ^ (24 : Int) := ha24
    have h4 : |((a : Int) : ℚ) / ((N : Int) : ℚ) - ((z : Int) : ℚ)| * |((N : Int) : ℚ)| ≤
        (2 : ℚ) ^ (e - 23) / 2 * |((N : Int) : ℚ)| :=
      mul_le_mul_of_nonneg_right hdist (le_of_lt hNpos)
    linarith

/-! ## Counts below `2 ^ 24`: binary32 agrees with the exact ratios -/

theorem int_div_float_binary32_of_lt (a N : Int) (ha : |a| < 2 ^ 24) (hN : |N| < 2 ^ 24) :
    int_div_float_binary32 a N =
      if N = 0 then (if a = 0 then CFloat.nan else CFloat.infinite (decide (a < 0)))
      else roundToFloat (((a : Int) : ℚ) / ((N : Int) : ℚ)) := by
  unfold int_div_float_binary32
  rw [floatOfInt_of_lt a ha, floatOfInt_of_lt N hN]
  simp [CFloat.div]

theorem int_div_float_binary32_zero (a : Int) (ha : |a| < 2 ^ 24) :
    int_div_float_binary32 a 0 = CFloat.int_div_float a 0 := by
  rw [int_div_float_binary32_of_lt a 0 ha (by norm_num)]
  simp [CFloat.int_div_float]

/-- When the divisor divides the dividend, the binary32 quotient is the exact one. -/
theorem int_div_float_binary32_of_dvd (a N : Int) (ha : |a| < 2 ^ 24) (hN : |N| < 2 ^ 24)
    (hN0 : N ≠ 0) (h : N ∣ a) :
    int_div_float_binary32 a N = CFloat.int_div_float a N := by
  rw [int_div_float_binary32_of_lt a N ha hN, if_neg hN0, int_div_float_of_dvd a N hN0 h]
  obtain ⟨k, rfl⟩ := h
  have hk : |k| < 2 ^ 24 := by
    have h1 : |N * k| = |N| * |k| := abs_mul N k
    have h2 : 1 ≤ |N| := Int.one_le_abs hN0
    have h3 : 0 ≤ |k| := abs_nonneg k
    nlinarith
  have e : ((N * k : Int) : ℚ) / ((N : Int) : ℚ) = ((k : Int) : ℚ) := by
    have hNq : ((N : Int) : ℚ) ≠ 0 := by exact_mod_cast hN0
    push_cast
    field_simp
  rw [e, Int.mul_ediv_cancel_left k hN0]
  exact floatOfInt_of_lt k hk

/-- Below `2 ^ 24` the binary32 test `ceilf(a / float(N)) != a / float(N)` holds
exactly when `N` does not divide `a`. -/
theorem ne_ceilf_int_div_float_binary32 (a N : Int) (ha : |a| < 2 ^ 24) (hN : |N| < 2 ^ 24)
    (hN0 : N ≠ 0) :
    CFloat.ne (ceilf (int_div_float_binary32 a N)) (int_div_float_binary32 a N) = true ↔
      ¬ N ∣ a := by
  constructor
  · intro h hd
    rw [int_div_float_binary32_of_dvd a N ha hN hN0 hd] at h
    exact (ne_ceilf_int_div_float a N hN0).mp h hd
  · intro hnd
    obtain ⟨r, hr, hne⟩ := roundToFloat_div_not_integral a N ha hN hN0 hnd
    rw [int_div_float_binary32_of_lt a N ha hN, if_neg hN0, hr]
    simp [ceilf, CFloat.ne, hne]

/-- Below `2 ^ 24` the binary32 test and the exact test agree. -/
theorem ne_ceilf_binary32_eq (a N : Int) (ha : |a| < 2 ^ 24) (hN : |N| < 2 ^ 24) :
    CFloat.ne (ceilf (int_div_float_binary32 a N)) (int_div_float_binary32 a N) =
      CFloat.ne (ceilf (CFloat.int_div_float a N)) (CFloat.int_div_float a N) := by
  by_cases hN0 : N = 0
  · subst hN0
    rw [int_div_float_binary32_zero a ha]
  · rw [Bool.eq_iff_iff, ne_ceilf_int_div_float_binary32 a N ha hN hN0,
      ne_ceilf_int_div_float a N hN0]

theorem ratio_test_binary32_eq (st : State R) (hs : |st.sense_wires.num| < 2 ^ 24)
    (hc : |st.field_wires_center.num| < 2 ^ 24) (hb : |st.field_wires_bottom.num| < 2 ^ 24)
    (ht : |st.field_wires_top.num| < 2 ^ 24) :
    ratio_test_binary32 st = ratio_test st := by
  unfold ratio_test_binary32 ratio_test middle_to_middle_num_wire_ratio_binary32
    middle_to_bottom_num_wire_ratio_binary32 middle_to_top_num_wire_ratio_binary32
    middle_to_middle_num_wire_ratio middle_to_bottom_num_wire_ratio
    middle_to_top_num_wire_ratio
  rw [ne_ceilf_binary32_eq _ _ hc hs, ne_ceilf_binary32_eq _ _ hb hs,
    ne_ceilf_binary32_eq _ _ ht hs]

theorem parity_test_binary32_eq_false (st : State R) : parity_test_binary32 st = false :=
  ne_ceilf_floatOfInt st.nFWire1

/-! ## The field wire loops below `2 ^ 24` -/

/-- A loop of which the condition holds for the first `k` values and fails for
the next one. -/
theorem floatBoundedLoop_eq_range (bound : CFloat) :
    ∀ (k fuel : Nat) (s : Int), k < fuel →
      (∀ j : Nat, j < k → CFloat.lt (floatOfInt (s + (j : Int))) bound = true) →
      CFloat.lt (floatOfInt (s + (k : Int))) bound = false →
      floatBoundedLoop bound fuel s = (List.range k).map (fun (j : Nat) => s + (j : Int)) := by
  intro k
  induction k with
  | zero =>
    intro fuel s hf _ h2
    obtain ⟨f, rfl⟩ := Nat.exists_eq_succ_of_ne_zero (by omega : fuel ≠ 0)
    simp only [Nat.cast_zero, add_zero] at h2
    simp [floatBoundedLoop, h2]
  | succ k ih =>
    intro fuel s hf h1 h2
    obtain ⟨f, rfl⟩ := Nat.exists_eq_succ_of_ne_zero (by omega : fuel ≠ 0)
    have h0 := h1 0 (by omega)
    simp only [Nat.cast_zero, add_zero] at h0
    have hrec := ih f (s + 1) (by omega)
      (fun j hj => by
        have := h1 (j + 1) (by omega)
        rw [show s + 1 + (j : Int) = s + ((j + 1 : Nat) : Int) by push_cast; ring]
        exact this)
      (by
        rw [show s + 1 + (k : Int) = s + ((k + 1 : Nat) : Int) by push_cast; ring]
        exact h2)
    rw [floatBoundedLoop, if_pos h0, hrec, List.range_succ_eq_map]
    simp only [List.map_cons, List.map_map, Nat.cast_zero, add_zero]
    congr 1
    apply List.map_congr_left
    intro j _
    simp only [Function.comp_apply]
    push_cast
    ring

/-- Every value of the loop satisfies the condition of the loop. -/
theorem floatBoundedLoop_cond (bound : CFloat) :
    ∀ (fuel : Nat) (s x : Int), x ∈ floatBoundedLoop bound fuel s →
      CFloat.lt (floatOfInt x) bound = true := by
  intro fuel
  induction fuel with
  | zero => intro s x hx; simp [floatBoundedLoop] at hx
  | succ f ih =>
    intro s x hx
    rw [floatBoundedLoop] at hx
    split at hx
    · next h =>
      rcases List.mem_cons.mp hx with rfl | h'
      · exact h
      · exact ih _ _ h'
    · simp at hx

/-- The values of the loop are consecutive, from the start. -/
theorem floatBoundedLoop_consecutive (bound : CFloat) :
    ∀ (fuel : Nat) (s : Int),
      floatBoundedLoop bound fuel s =
        (List.range (floatBoundedLoop bound fuel s).length).map
          (fun (j : Nat) => s + (j : Int)) := by
  intro fuel
  induction fuel with
  | zero => intro s; simp [floatBoundedLoop]
  | succ f ih =>
    intro s
    rw [floatBoundedLoop]
    split
    · have h := ih (s + 1)
      rw [List.length_cons, List.range_succ_eq_map]
      simp only [List.map_cons, List.map_map, Nat.cast_zero, add_zero]
      congr 1
      conv_lhs => rw [h]
      apply List.map_congr_left
      intro j _
      simp only [Function.comp_apply]
      push_cast
      ring
    · simp

theorem intCast_abs_lt (n : Int) (h : |n| < 2 ^ 24) :
    |((n : Int) : ℚ)| < (2 : ℚ) ^ (128 : Nat) := by
  have : ((|n| : Int) : ℚ) < ((2 ^ 24 : Int) : ℚ) := by exact_mod_cast h
  rw [Int.cast_abs] at this
  calc |((n : Int) : ℚ)| < ((2 ^ 24 : Int) : ℚ) := this
    _ < (2 : ℚ) ^ (128 : Nat) := by norm_num

theorem roundToFloat_intCast (n : Int) (h : |n| < 2 ^ 24) :
    roundToFloat ((n : Int) : ℚ) = CFloat.finite ((n : Int) : ℚ) :=
  floatOfInt_of_lt n h

/-- For an integer ratio `r` and counts below `2 ^ 24` the loop over
`sub_phi_index`, evaluated in binary32, runs through the same values as with
exact arithmetic. -/
theorem sub_phi_indices_binary32_intCast (phi_index : Nat) (r : Int)
    (hp : |(phi_index : Int)| < 2 ^ 24) (h1 : |(phi_index : Int) * r| < 2 ^ 24)
    (h2 : |(phi_index : Int) * r + r| < 2 ^ 24) :
    sub_phi_indices_binary32 phi_index (CFloat.finite ((r : Int) : ℚ)) =
      sub_phi_indices phi_index (CFloat.finite ((r : Int) : ℚ)) := by
  have e1 : (((phi_index : Int) : Int) : ℚ) * ((r : Int) : ℚ) =
      (((phi_index : Int) * r : Int) : ℚ) := by push_cast; rfl
  have e2 : ((((phi_index : Int) * r : Int)) : ℚ) + ((r : Int) : ℚ) =
      (((phi_index : Int) * r + r : Int) : ℚ) := by push_cast; rfl
  rw [sub_phi_indices_intCast]
  unfold sub_phi_indices_binary32
  rw [floatOfInt_of_lt _ hp]
  simp only [CFloat.mul]
  rw [e1, roundToFloat_intCast _ h1]
  simp only [CFloat.add]
  rw [e2, roundToFloat_intCast _ h2, truncToInt_intCast]
  have b1 := abs_lt.mp h1
  have b2 := abs_lt.mp h2
  have hr : r.toNat < 2 ^ 32 := by omega
  refine floatBoundedLoop_eq_range _ r.toNat (2 ^ 32) _ hr ?_ ?_
  · intro j hj
    have hj' : (j : Int) < r := by omega
    have hb : |(phi_index : Int) * r + (j : Int)| < 2 ^ 24 := by
      rw [abs_lt]; constructor <;> omega
    rw [floatOfInt_of_lt _ hb]
    simp only [CFloat.lt, decide_eq_true_eq]
    exact_mod_cast (by omega : (phi_index : Int) * r + (j : Int) < (phi_index : Int) * r + r)
  · rcases le_or_lt 0 r with h0 | h0
    · rw [Int.toNat_of_nonneg h0, floatOfInt_of_lt _ h2]
      simp [CFloat.lt]
    · have e0 : r.toNat = 0 := by omega
      rw [e0, Nat.cast_zero, add_zero, floatOfInt_of_lt _ h1]
      simp only [CFloat.lt, decide_eq_false_iff_not, not_lt]
      exact_mod_cast (by omega : (phi_index : Int) * r + r ≤ (phi_index : Int) * r)

/-- Below `2 ^ 24` a field wire loop of a cell makes the same placements in
binary32 as with exact arithmetic, when the count of the family is a multiple
of the count of sense wires. -/
theorem field_wire_placements_binary32_eq (SL iring phi_index : Nat) (w : wire R) (a N : Int)
    (ha : |a| < 2 ^ 24) (hN : |N| < 2 ^ 24) (hq : (phi_index : Int) < N) (hd : N ∣ a) :
    field_wire_placements_binary32 SL iring phi_index w (int_div_float_binary32 a N) =
      field_wire_placements SL iring phi_index w (CFloat.int_div_float a N) := by
  have hN0 : N ≠ 0 := by omega
  have hNpos : 0 < N := by omega
  rw [int_div_float_binary32_of_dvd a N ha hN hN0 hd, int_div_float_of_dvd a N hN0 hd]
  unfold field_wire_placements_binary32 field_wire_placements
  obtain ⟨k, rfl⟩ := hd
  rw [Int.mul_ediv_cancel_left k hN0] at *
  have hNk : |N * k| = N * |k| := by rw [abs_mul, abs_of_pos hNpos]
  have hk0 : 0 ≤ |k| := abs_nonneg k
  have hp0 : (0 : Int) ≤ (phi_index : Int) := Int.natCast_nonneg _
  rw [sub_phi_indices_binary32_intCast phi_index k]
  · rw [abs_of_nonneg hp0]
    have := abs_lt.mp hN
    omega
  · rw [abs_mul, abs_of_nonneg hp0]
    nlinarith
  · have e : (phi_index : Int) * k + k = ((phi_index : Int) + 1) * k := by ring
    rw [e, abs_mul, abs_of_nonneg (by omega : (0 : Int) ≤ (phi_index : Int) + 1)]
    nlinarith

/-- Below `2 ^ 24` a cell of a ring that passes the ratio test is built in
binary32 as with exact arithmetic. -/
theorem cell_binary32_eq (P : Params R) (SL iring : Nat) (hyp : Solid R) (st : State R)
    (hs : |st.sense_wires.num| < 2 ^ 24) (hc : |st.field_wires_center.num| < 2 ^ 24)
    (hb : |st.field_wires_bottom.num| < 2 ^ 24) (ht : |st.field_wires_top.num| < 2 ^ 24)
    (hpass : ratio_test st = false) (phi_index : Nat)
    (hq : phi_index < st.sense_wires.num.toNat) :
    cell_binary32 P SL iring hyp st phi_index = cell P SL iring hyp st phi_index := by
  have hq' : (phi_index : Int) < st.sense_wires.num := by omega
  obtain ⟨db, dc, dt⟩ := dvd_of_pass st (by omega) hpass
  unfold cell_binary32 cell middle_to_middle_num_wire_ratio_binary32
    middle_to_bottom_num_wire_ratio_binary32 middle_to_top_num_wire_ratio_binary32
    middle_to_middle_num_wire_ratio middle_to_bottom_num_wire_ratio
    middle_to_top_num_wire_ratio
  rw [field_wire_placements_binary32_eq SL iring phi_index _ _ _ hb hs hq' db,
    field_wire_placements_binary32_eq SL iring phi_index _ _ _ hc hs hq' dc,
    field_wire_placements_binary32_eq SL iring phi_index _ _ _ ht hs hq' dt]

theorem cells_binary32_eq (P : Params R) (SL iring : Nat) (hyp : Solid R) (st : State R)
    (hs : |st.sense_wires.num| < 2 ^ 24) (hc : |st.field_wires_center.num| < 2 ^ 24)
    (hb : |st.field_wires_bottom.num| < 2 ^ 24) (ht : |st.field_wires_top.num| < 2 ^ 24)
    (hpass : ratio_test st = false) :
    cells_binary32 P SL iring hyp st = cells P SL iring hyp st := by
  unfold cells_binary32 cells
  apply List.flatMap_congr
  intro q hq
  exact cell_binary32_eq P SL iring hyp st hs hc hb ht hpass q (List.mem_range.mp hq)

/-- A ring entered with counts below `2 ^ 24` is built in binary32 as with
exact arithmetic. -/
theorem ring_iteration_binary32_eq (M : MathOps R) (P : Params R) (SL iring : Nat)
    (st : State R) (hN : |st.num_wire| < 2 ^ 24) (hA : |st.nFWire1| < 2 ^ 24) :
    ring_iteration_binary32 M P SL iring st = ring_iteration M P SL iring st := by
  have hs : |(ring_info M P SL iring st).top.sense_wires.num| < 2 ^ 24 := hN
  have hc : |(ring_info M P SL iring st).top.field_wires_center.num| < 2 ^ 24 := hN
  have hb : |(ring_info M P SL iring st).top.field_wires_bottom.num| < 2 ^ 24 := hA
  have ht : |(ring_info M P SL iring st).top.field_wires_top.num| < 2 ^ 24 := hA
  unfold ring_iteration_binary32 ring_iteration
  dsimp only
  rw [ratio_test_binary32_eq _ hs hc hb ht]
  by_cases hp : ratio_test (ring_info M P SL iring st).top = true
  · rw [if_pos hp, if_pos hp]
  · rw [if_neg hp, if_neg hp,
      cells_binary32_eq P SL iring _ _ hs hc hb ht (by simpa using hp)]

/-! ## The build below `2 ^ 24` -/

theorem Outcome.andThen_congr (a : Outcome R) (f g : State R → Outcome R)
    (h : f a.st = g a.st) : a.andThen f = a.andThen g := by
  unfold Outcome.andThen
  split
  · rfl
  · simp only [h]

/-- Two loops of which the bodies agree on the states that satisfy an
invariant of the second body agree on such a state. -/
theorem forLoop_congr (body1 body2 : Nat → State R → Outcome R) (Inv : State R → Prop)
    (hstep : ∀ i st, Inv st → Inv (body2 i st).st) :
    ∀ (n i : Nat) (st : State R), Inv st →
      (∀ j st', i ≤ j → j < i + n → Inv st' → body1 j st' = body2 j st') →
      forLoop body1 i n st = forLoop body2 i n st := by
  intro n
  induction n with
  | zero => intro i st _ _; rfl
  | succ n ih =>
    intro i st hst heq
    rw [forLoop_succ, forLoop_succ, heq i st (le_refl i) (by omega) hst]
    apply Outcome.andThen_congr
    exact ih (i + 1) _ (hstep i st hst) (fun j st' h1 h2 h3 => heq j st' (by omega) (by omega) h3)

/-- A superlayer of which the counts are below `2 ^ 24` is built in binary32
as with exact arithmetic. -/
theorem superlayer_iteration_binary32_eq (M : MathOps R) (P : Params R) (SL : Nat)
    (st : State R) (hN : |P.nSWire + (SL : Int) * P.nSDeltaWire| < 2 ^ 24)
    (hA : |Int.tdiv (P.nHorizontalFWire * (P.nSWire + (SL : Int) * P.nSDeltaWire)) 2| <
      2 ^ 24) :
    superlayer_iteration_binary32 M P SL st = superlayer_iteration M P SL st := by
  rw [superlayer_iteration_eq]
  unfold superlayer_iteration_binary32
  simp only [parity_test_binary32_eq_false]
  rw [if_neg (by simp)]
  apply Outcome.andThen_congr
  apply congrArg (fun o : Outcome R => o.andThen _)
  refine forLoop_congr _ _
    (fun s => s.num_wire = P.nSWire + (SL : Int) * P.nSDeltaWire ∧
      s.nFWire1 = Int.tdiv (P.nHorizontalFWire * (P.nSWire + (SL : Int) * P.nSDeltaWire)) 2)
    ?_ _ _ _ ?_ ?_
  · intro i s hs
    rw [ring_iteration_num_wire, ring_iteration_nFWire1]
    exact hs
  · exact ⟨ring_loop_entry_num_wire M P SL st, ring_loop_entry_nFWire1 M P SL st⟩
  · intro j s _ _ hs
    exact ring_iteration_binary32_eq M P SL j s (by rw [hs.1]; exact hN) (by rw [hs.2]; exact hA)

/-- The first `n` superlayers of a configuration with counts below `2 ^ 24`
are built in binary32 as with exact arithmetic. -/
theorem superlayer_loop_binary32_eq (M : MathOps R) (P : Params R) (n : Nat)
    (hb : P.countsBelowTwoPow24 n) (st : State R) :
    forLoop (superlayer_iteration_binary32 M P) 0 n st =
      forLoop (superlayer_iteration M P) 0 n st := by
  refine forLoop_congr _ _ (fun _ => True) (fun _ _ _ => trivial) n 0 st trivial ?_
  intro j s _ hj _
  exact superlayer_iteration_binary32_eq M P j s (hb j (by omega)).1 (hb j (by omega)).2

/-- With the counts of all superlayers below `2 ^ 24` the build with the `float`s in binary32 is
the build with exact ratios. -/
theorem build_layer_binary32_eq (M : MathOps R) (P : Params R)
    (hb : P.countsBelowTwoPow24 P.nSuperLayer.toNat) :
    build_layer_binary32 M P = build_layer M P := by
  unfold build_layer_binary32 build_layer
  apply Outcome.andThen_congr
  rw [superlayer_loop_binary32_eq M P _ hb]

/-! ## The claims on the wire counts, for the build in binary32 -/

/-- The counts with which a ring of the build is entered are those of its
superlayer. -/
theorem ring_counts_of_mem (M : MathOps R) (P : Params R)
    (hb : P.countsBelowTwoPow24 P.nSuperLayer.toNat) (r : RingInfo R)
    (hr : r ∈ (build_layer M P).rings) :
    |r.entry.num_wire| < 2 ^ 24 ∧ |r.entry.nFWire1| < 2 ^ 24 := by
  obtain ⟨_, h1, _, h3, h4, _⟩ := build_layer_rings_spec M P r hr
  rw [h3, h4]
  exact hb r.SL h1

theorem ring_top_counts_of_mem (M : MathOps R) (P : Params R)
    (hb : P.countsBelowTwoPow24 P.nSuperLayer.toNat) (r : RingInfo R)
    (hr : r ∈ (build_layer M P).rings) :
    |r.top.sense_wires.num| < 2 ^ 24 ∧ |r.top.field_wires_center.num| < 2 ^ 24 ∧
    |r.top.field_wires_bottom.num| < 2 ^ 24 ∧ |r.top.field_wires_top.num| < 2 ^ 24 := by
  obtain ⟨h1, h2⟩ := ring_counts_of_mem M P hb r hr
  have e := (build_layer_rings_spec M P r hr).1
  rw [e]
  exact ⟨h1, h1, h2, h2⟩

/-- Below `2 ^ 24` the values of `sub_phi_index` of a cell are the same in
binary32 as with exact arithmetic, when the count of the family is a multiple
of the count of sense wires. -/
theorem sub_phi_indices_binary32_eq (phi_index : Nat) (a N : Int)
    (ha : |a| < 2 ^ 24) (hN : |N| < 2 ^ 24) (hq : (phi_index : Int) < N) (hd : N ∣ a) :
    sub_phi_indices_binary32 phi_index (int_div_float_binary32 a N) =
      sub_phi_indices phi_index (CFloat.int_div_float a N) := by
  have hN0 : N ≠ 0 := by omega
  have hNpos : 0 < N := by omega
  rw [int_div_float_binary32_of_dvd a N ha hN hN0 hd, int_div_float_of_dvd a N hN0 hd]
  obtain ⟨k, rfl⟩ := hd
  rw [Int.mul_ediv_cancel_left k hN0] at *
  have hNk : |N * k| = N * |k| := by rw [abs_mul, abs_of_pos hNpos]
  have hk0 : 0 ≤ |k| := abs_nonneg k
  have hp0 : (0 : Int) ≤ (phi_index : Int) := Int.natCast_nonneg _
  apply sub_phi_indices_binary32_intCast phi_index k
  · rw [abs_of_nonneg hp0]
    have := abs_lt.mp hN
    omega
  · rw [abs_mul, abs_of_nonneg hp0]
    nlinarith
  · have e : (phi_index : Int) * k + k = ((phi_index : Int) + 1) * k := by ring
    rw [e, abs_mul, abs_of_nonneg (by omega : (0 : Int) ≤ (phi_index : Int) + 1)]
    nlinarith

/-- C6, amended: in a configuration of which every superlayer has its counts of
sense wires and of bottom (and top) field wires below `2 ^ 24` in absolute
value, and with the ratios, the ratio test and the field wire loops evaluated
in binary32: at every ring that the build goes through and that passes the
ratio test with `N = sense_wires.num > 0` sense wires and non-negative ratios,
the three ratios are exact, the whole build makes exactly
`N * (1 + r_bottom + r_center + r_top)` placements in the cells of the ring,
and every cell receives the sense wire once, then the bottom field wire
`r_bottom` times, the central one `r_center` times and the top one `r_top`
times (four different wire volumes). -/
theorem wire_placements_in_ring_binary32 (M : MathOps R) (P : Params R)
    (hcounts : P.countsBelowTwoPow24 P.nSuperLayer.toNat) (r : RingInfo R)
    (hr : r ∈ (build_layer_binary32 M P).rings) (hN : 0 < r.top.sense_wires.num)
    (hpass : (ring_iteration_binary32 M P r.SL r.iring r.entry).error = none)
    (hb : 0 ≤ r.top.field_wires_bottom.num / r.top.sense_wires.num)
    (hc : 0 ≤ r.top.field_wires_center.num / r.top.sense_wires.num)
    (ht : 0 ≤ r.top.field_wires_top.num / r.top.sense_wires.num) :
    (r.top.sense_wires.num ∣ r.top.field_wires_bottom.num ∧
      r.top.sense_wires.num ∣ r.top.field_wires_center.num ∧
      r.top.sense_wires.num ∣ r.top.field_wires_top.num) ∧
    ((wirePlacementsInCells r.SL r.iring (build_layer_binary32 M P).events).length : Int) =
      r.top.sense_wires.num *
        (1 + r.top.field_wires_bottom.num / r.top.sense_wires.num +
          r.top.field_wires_center.num / r.top.sense_wires.num +
          r.top.field_wires_top.num / r.top.sense_wires.num) ∧
    (∀ q, q < r.top.sense_wires.num.toNat →
      placedIn (VolId.cellID_volume r.SL r.iring q) (build_layer_binary32 M P).events =
        r.top.sense_wires.volume ::
          (List.replicate (r.top.field_wires_bottom.num / r.top.sense_wires.num).toNat
              r.top.field_wires_bottom.volume ++
            List.replicate (r.top.field_wires_center.num / r.top.sense_wires.num).toNat
              r.top.field_wires_center.volume ++
            List.replicate (r.top.field_wires_top.num / r.top.sense_wires.num).toNat
              r.top.field_wires_top.volume)) ∧
    (r.top.sense_wires.volume = VolId.lvWireVol (WireSite.sense r.SL r.iring) ∧
      r.top.field_wires_bottom.volume = VolId.lvWireVol (WireSite.bottom r.SL r.iring) ∧
      r.top.field_wires_center.volume = VolId.lvWireVol (WireSite.center r.SL r.iring) ∧
      r.top.field_wires_top.volume = VolId.lvWireVol (WireSite.top r.SL r.iring)) := by
  rw [build_layer_binary32_eq M P hcounts] at hr ⊢
  obtain ⟨c1, c2⟩ := ring_counts_of_mem M P hcounts r hr
  rw [ring_iteration_binary32_eq M P _ _ _ c1 c2] at hpass
  exact wire_placements_in_ring M P r hr hN hpass hb hc ht

theorem acceptScenario_counts :
    acceptScenarioParams.countsBelowTwoPow24 acceptScenarioParams.nSuperLayer.toNat := by
  intro SL hSL
  have h0 : SL = 0 := by
    have : acceptScenarioParams.nSuperLayer.toNat = 1 := rfl
    omega
  subst h0
  constructor <;> rw [abs_lt] <;> constructor <;> decide

theorem acceptScenario_first_ring_mem_binary32 :
    first_ring exampleMath acceptScenarioParams ∈
      (build_layer_binary32 exampleMath acceptScenarioParams).rings := by
  rw [build_layer_binary32_eq _ _ acceptScenario_counts]
  exact acceptScenario_first_ring_mem

theorem acceptScenario_first_ring_passes_binary32 :
    (ring_iteration_binary32 exampleMath acceptScenarioParams 0 0
      (first_ring exampleMath acceptScenarioParams).entry).error = none := by
  obtain ⟨c1, c2⟩ := ring_counts_of_mem exampleMath acceptScenarioParams acceptScenario_counts _
    acceptScenario_first_ring_mem
  rw [ring_iteration_binary32_eq _ _ _ _ _ c1 c2]
  exact acceptScenario_first_ring_passes

theorem wire_placements_in_ring_binary32_witness :
    acceptScenarioParams.countsBelowTwoPow24 acceptScenarioParams.nSuperLayer.toNat ∧
    first_ring exampleMath acceptScenarioParams ∈
      (build_layer_binary32 exampleMath acceptScenarioParams).rings ∧
    0 < (first_ring exampleMath acceptScenarioParams).top.sense_wires.num ∧
    ((wirePlacementsInCells 0 0
        (build_layer_binary32 exampleMath acceptScenarioParams).events).length : Int) =
      (first_ring exampleMath acceptScenarioParams).top.sense_wires.num *
        (1 + (first_ring exampleMath acceptScenarioParams).top.field_wires_bottom.num /
              (first_ring exampleMath acceptScenarioParams).top.sense_wires.num +
          (first_ring exampleMath acceptScenarioParams).top.field_wires_center.num /
              (first_ring exampleMath acceptScenarioParams).top.sense_wires.num +
          (first_ring exampleMath acceptScenarioParams).top.field_wires_top.num /
              (first_ring exampleMath acceptScenarioParams).top.sense_wires.num) :=
  have hs := acceptScenario_first_ring_nums.1
  have hb := acceptScenario_first_ring_nums.2.1
  have hc := acceptScenario_first_ring_nums.2.2.1
  have ht := acceptScenario_first_ring_nums.2.2.2
  ⟨acceptScenario_counts, acceptScenario_first_ring_mem_binary32, by rw [hs]; decide,
    (wire_placements_in_ring_binary32 exampleMath acceptScenarioParams acceptScenario_counts _
      acceptScenario_first_ring_mem_binary32 (by rw [hs]; decide)
      acceptScenario_first_ring_passes_binary32 (by rw [hs, hb]; decide)
      (by rw [hs, hc]; decide) (by rw [hs, ht]; decide)).2.1⟩

/-- C15, amended: in a configuration of which every superlayer has its counts
below `2 ^ 24` in absolute value, and with the ratios, the ratio test and the
field wire loops evaluated in binary32: in a ring that passes the ratio test,
with `N > 0` sense wires, the values of `sub_phi_index` that the cells
`0, ..., N - 1` go through for a family of field wires (bottom, center, top)
are `0, ..., num - 1` for the number `num` of wires of the family, each once
and in increasing order; and the transforms with which the cells place the
wires of the family are, in program order, those with which the loop of
`PlaceWires` would place them: the rotation by `phioffset + phi * n` after the
translation to `radius` and the stereo rotation, for `n = 0, ..., num - 1`. -/
theorem field_wires_as_PlaceWires_binary32 (M : MathOps R) (P : Params R)
    (hcounts : P.countsBelowTwoPow24 P.nSuperLayer.toNat) (r : RingInfo R)
    (hr : r ∈ (build_layer_binary32 M P).rings) (hN : 0 < r.top.sense_wires.num)
    (hpass : (ring_iteration_binary32 M P r.SL r.iring r.entry).error = none) :
    ((List.range r.top.sense_wires.num.toNat).flatMap
          (fun p => sub_phi_indices_binary32 p (middle_to_bottom_num_wire_ratio_binary32 r.top)) =
        (List.range r.top.field_wires_bottom.num.toNat).map (fun (n : Nat) => (n : Int)) ∧
      (List.range r.top.sense_wires.num.toNat).flatMap
          (fun p => sub_phi_indices_binary32 p (middle_to_middle_num_wire_ratio_binary32 r.top)) =
        (List.range r.top.field_wires_center.num.toNat).map (fun (n : Nat) => (n : Int)) ∧
      (List.range r.top.sense_wires.num.toNat).flatMap
          (fun p => sub_phi_indices_binary32 p (middle_to_top_num_wire_ratio_binary32 r.top)) =
        (List.range r.top.field_wires_top.num.toNat).map (fun (n : Nat) => (n : Int))) ∧
    (cellTransforms r.SL r.iring r.top.field_wires_bottom.volume
          (build_layer_binary32 M P).events =
        placeWiresTransforms r.top.field_wires_bottom ∧
      cellTransforms r.SL r.iring r.top.field_wires_center.volume
          (build_layer_binary32 M P).events =
        placeWiresTransforms r.top.field_wires_center ∧
      cellTransforms r.SL r.iring r.top.field_wires_top.volume
          (build_layer_binary32 M P).events =
        placeWiresTransforms r.top.field_wires_top) ∧
    (∀ (site : WireSite) (w : wire R) (outwrap halflength : R),
      VolId.lvWireVol site ≠ w.mother_volume →
      transformsIn w.mother_volume (VolId.lvWireVol site)
        (PlaceWires site w outwrap halflength).2 = placeWiresTransforms w) := by
  rw [build_layer_binary32_eq M P hcounts] at hr ⊢
  obtain ⟨c1, c2⟩ := ring_counts_of_mem M P hcounts r hr
  obtain ⟨ts, tc, tb, tt⟩ := ring_top_counts_of_mem M P hcounts r hr
  rw [ring_iteration_binary32_eq M P _ _ _ c1 c2] at hpass
  have hp : ratio_test r.top = false := (ring_error_of_mem M P r hr).1.mp hpass
  obtain ⟨db, dc, dt⟩ := dvd_of_pass r.top (ne_of_gt hN) hp
  obtain ⟨⟨i1, i2, i3⟩, k2, k3⟩ := field_wires_as_PlaceWires M P r hr hN hpass
  refine ⟨⟨?_, ?_, ?_⟩, k2, k3⟩
  · rw [← i1]
    apply List.flatMap_congr
    intro p hp'
    exact sub_phi_indices_binary32_eq p _ _ tb ts (by have := List.mem_range.mp hp'; omega) db
  · rw [← i2]
    apply List.flatMap_congr
    intro p hp'
    exact sub_phi_indices_binary32_eq p _ _ tc ts (by have := List.mem_range.mp hp'; omega) dc
  · rw [← i3]
    apply List.flatMap_congr
    intro p hp'
    exact sub_phi_indices_binary32_eq p _ _ tt ts (by have := List.mem_range.mp hp'; omega) dt

theorem field_wires_as_PlaceWires_binary32_witness :
    first_ring exampleMath acceptScenarioParams ∈
      (build_layer_binary32 exampleMath acceptScenarioParams).rings ∧
    0 < (first_ring exampleMath acceptScenarioParams).top.sense_wires.num ∧
    cellTransforms 0 0 (first_ring exampleMath acceptScenarioParams).top.field_wires_bottom.volume
        (build_layer_binary32 exampleMath acceptScenarioParams).events =
      placeWiresTransforms (first_ring exampleMath acceptScenarioParams).top.field_wires_bottom ∧
    (placeWiresTransforms
      (first_ring exampleMath acceptScenarioParams).top.field_wires_bottom).length = 200 := by
  have hN : 0 < (first_ring exampleMath acceptScenarioParams).top.sense_wires.num := by
    rw [acceptScenario_first_ring_nums.1]; decide
  refine ⟨acceptScenario_first_ring_mem_binary32, hN,
    (field_wires_as_PlaceWires_binary32 exampleMath acceptScenarioParams acceptScenario_counts _
      acceptScenario_first_ring_mem_binary32 hN acceptScenario_first_ring_passes_binary32).2.1.1,
    ?_⟩
  unfold placeWiresTransforms
  rw [List.length_map, List.length_range, acceptScenario_first_ring_nums.2.1]
  rfl

/-- A loop that throws in its first `n` turns makes no further turn. -/
theorem forLoop_eq_of_error (body : Nat → State R → Outcome R) (i n m : Nat) (st : State R)
    (e : BuildError) (h : (forLoop body i n st).error = some e) :
    forLoop body i (n + m) st = forLoop body i n st := by
  rw [forLoop_add, Outcome.andThen_of_error_some _ _ e h]

/-- When the build with exact ratios throws in superlayer `SL` and the counts of
the superlayers `0, ..., SL` are below `2 ^ 24`, the build in binary32 is the
same. -/
theorem build_layer_binary32_eq_of_error (M : MathOps R) (P : Params R) (SL : Nat)
    (hSL : SL < P.nSuperLayer.toNat) (hcounts : P.countsBelowTwoPow24 (SL + 1))
    (e : BuildError)
    (h : (forLoop (superlayer_iteration M P) 0 (SL + 1) (State.initial P)).error = some e) :
    build_layer_binary32 M P = build_layer M P := by
  obtain ⟨m, hm⟩ : ∃ m, P.nSuperLayer.toNat = SL + 1 + m := ⟨P.nSuperLayer.toNat - (SL + 1), by omega⟩
  have h' : (forLoop (superlayer_iteration_binary32 M P) 0 (SL + 1) (State.initial P)).error =
      some e := by
    rw [superlayer_loop_binary32_eq M P _ hcounts]; exact h
  unfold build_layer_binary32 build_layer
  apply Outcome.andThen_congr
  show (forLoop (superlayer_iteration_binary32 M P) 0 P.nSuperLayer.toNat
      (State.initial P)).andThen _ =
    (forLoop (superlayer_iteration M P) 0 P.nSuperLayer.toNat (State.initial P)).andThen _
  rw [hm, forLoop_eq_of_error _ _ _ _ _ e h, forLoop_eq_of_error _ _ _ _ _ e h',
    superlayer_loop_binary32_eq M P _ hcounts]

/-- C23, amended: with the ratios and the ratio test evaluated in binary32,
when the build reaches a superlayer `SL` (no superlayer before it throws) that
has `N = nSWire + SL * nSDeltaWire ≥ 2` sense wires, with
`(nStoFWireRatio - nVerticalFWire) * N` positive and odd, `nRing ≥ 1`, and the
counts of sense wires and of bottom field wires of the superlayers
`0, ..., SL` below `2 ^ 24` in absolute value, then half that product, rounded
down, is not a multiple of `N`, ring 0 of the superlayer throws the ratio error
and so does the build, no later ring is entered, and the calls of the build
end with the calls of lines 403-603 of that ring, among which its whole-ring
volume is created, registered and placed in the parent volume. -/
theorem odd_product_aborts_binary32 (M : MathOps R) (P : Params R) (SL : Nat)
    (hSL : SL < P.nSuperLayer.toNat) (hR : 1 ≤ P.nRing)
    (hN : 2 ≤ P.nSWire + (SL : Int) * P.nSDeltaWire)
    (hpos : 0 < (P.nStoFWireRatio - P.nVerticalFWire) * (P.nSWire + (SL : Int) * P.nSDeltaWire))
    (hodd : ((P.nStoFWireRatio - P.nVerticalFWire) *
      (P.nSWire + (SL : Int) * P.nSDeltaWire)) % 2 = 1)
    (hcounts : P.countsBelowTwoPow24 (SL + 1))
    (hprev : (forLoop (superlayer_iteration_binary32 M P) 0 SL (State.initial P)).error =
      none) :
    ¬ (P.nSWire + (SL : Int) * P.nSDeltaWire ∣
      Int.tdiv ((P.nStoFWireRatio - P.nVerticalFWire) *
        (P.nSWire + (SL : Int) * P.nSDeltaWire)) 2) ∧
    (build_layer_binary32 M P).error = some BuildError.ratio ∧
    (∃ r ∈ (build_layer_binary32 M P).rings, r.SL = SL ∧ r.iring = 0 ∧
      (ring_iteration_binary32 M P SL 0 r.entry).error = some BuildError.ratio ∧
      ∃ pre, (build_layer_binary32 M P).events = pre ++ ring_geometry_events M P SL 0 r.entry) ∧
    (∀ r ∈ (build_layer_binary32 M P).rings, r.SL < SL ∨ (r.SL = SL ∧ r.iring = 0)) ∧
    VolId.whole_ring_hyperboloid_volume SL 0 ∈ created (build_layer_binary32 M P).events ∧
    (wholeHyperboloidVolumeName SL 0, VolId.whole_ring_hyperboloid_volume SL 0) ∈
      registered (build_layer_binary32 M P).events ∧
    VolId.whole_ring_hyperboloid_volume SL 0 ∈
      placedIn VolId.parentVol (build_layer_binary32 M P).events := by
  have hprev' : (forLoop (superlayer_iteration M P) 0 SL (State.initial P)).error = none := by
    rw [← superlayer_loop_binary32_eq M P SL (fun k hk => hcounts k (by omega))]
    exact hprev
  have hR0 : 0 < P.nRing.toNat := by omega
  obtain ⟨a1, a2, a3, a4, a5, a6, a7, a8, a9⟩ :=
    odd_product_aborts_at_first_ring M P SL hSL hR hN hpos hodd hprev'
  obtain ⟨e, he⟩ : ∃ e, (forLoop (superlayer_iteration M P) 0 (SL + 1)
      (State.initial P)).error = some e := by
    cases h : (forLoop (superlayer_iteration M P) 0 (SL + 1) (State.initial P)).error with
    | some e => exact ⟨e, rfl⟩
    | none =>
      exfalso
      have h5 := forLoop_error_step _ 0 _ _ h SL (by omega)
      rw [Nat.zero_add] at h5
      have h6 := (superlayer_iteration_error_entry M P SL).symm.trans h5
      have h7 := forLoop_error_step _ 0 _ _ h6 0 hR0
      rw [Nat.zero_add] at h7
      have h8 : (ring_iteration M P SL 0 (ring_entry M P SL 0)).error = none := h7
      rw [a3] at h8
      exact Option.noConfusion h8
  rw [build_layer_binary32_eq_of_error M P SL hSL hcounts e he]
  refine ⟨a1, a4, ⟨_, a2, rfl, rfl, ?_, a6⟩, a5, a7, a8, a9⟩
  rw [ring_iteration_binary32_eq M P SL 0 _
    (by rw [ring_info_entry, (ring_entry_num_wire M P SL 0).1]; exact (hcounts SL (by omega)).1)
    (by rw [ring_info_entry, (ring_entry_num_wire M P SL 0).2]; exact (hcounts SL (by omega)).2)]
  exact a3

theorem oddSecondLayer_counts : oddSecondLayerParams.countsBelowTwoPow24 (1 + 1) := by
  intro SL hSL
  have h0 : SL = 0 ∨ SL = 1 := by omega
  rcases h0 with rfl | rfl <;> constructor <;> rw [abs_lt] <;> constructor <;> decide

theorem odd_product_aborts_binary32_witness :
    oddSecondLayerParams.countsBelowTwoPow24 (1 + 1) ∧
    (build_layer_binary32 exampleMath oddSecondLayerParams).error = some BuildError.ratio ∧
    (∀ r ∈ (build_layer_binary32 exampleMath oddSecondLayerParams).rings,
      r.SL < 1 ∨ (r.SL = 1 ∧ r.iring = 0)) ∧
    VolId.whole_ring_hyperboloid_volume 1 0 ∈
      placedIn VolId.parentVol (build_layer_binary32 exampleMath oddSecondLayerParams).events :=
  have hprev : (forLoop (superlayer_iteration_binary32 exampleMath oddSecondLayerParams) 0 1
      (State.initial oddSecondLayerParams)).error = none := by
    rw [superlayer_loop_binary32_eq exampleMath oddSecondLayerParams 1
      (fun k hk => oddSecondLayer_counts k (by omega))]
    exact oddSecondLayer_first_superlayer_ok
  ⟨oddSecondLayer_counts,
    (odd_product_aborts_binary32 exampleMath oddSecondLayerParams 1 (by decide) (by decide)
      (by decide) (by decide) (by decide) oddSecondLayer_counts hprev).2.1,
    (odd_product_aborts_binary32 exampleMath oddSecondLayerParams 1 (by decide) (by decide)
      (by decide) (by decide) (by decide) oddSecondLayer_counts hprev).2.2.2.1,
    (odd_product_aborts_binary32 exampleMath oddSecondLayerParams 1 (by decide) (by decide)
      (by decide) (by decide) (by decide) oddSecondLayer_counts hprev).2.2.2.2.2.2⟩

/-! ## Counts that binary32 does not hold -/

/-- A value halfway between the even integer `k` and `k + 1` rounds to `k`. -/
theorem roundHalfEven_tie (k : Int) (hk : k % 2 = 0) :
    roundHalfEven (((k : Int) : ℚ) + 1 / 2) = k := by
  have hf : ⌊((k : Int) : ℚ) + 1 / 2⌋ = k := by
    rw [Int.floor_eq_iff]
    constructor <;> linarith
  unfold roundHalfEven
  rw [hf]
  have e : ((k : Int) : ℚ) + 1 / 2 - ((k : Int) : ℚ) = 1 / 2 := by ring
  rw [e]
  simp [hk]

/-- The conversion of the `int` 25165825 to `float` is a tie between 25165824
and 25165826, and goes to the even significand. -/
theorem floatOfInt_25165825 : floatOfInt 25165825 = CFloat.finite 25165824 := by
  unfold floatOfInt
  have hk : roundHalfEven ((((25165825 : Int) : Int) : ℚ) / (2 : ℚ) ^ ((24 : Int) - 23)) =
      12582912 := by
    have e : (((25165825 : Int) : ℚ)) / (2 : ℚ) ^ ((24 : Int) - 23) =
        ((12582912 : Int) : ℚ) + 1 / 2 := by norm_num
    rw [e]
    exact roundHalfEven_tie 12582912 (by decide)
  rw [roundToFloat_eq _ 24 12582912 (by norm_num) (by norm_num) (by norm_num) hk (by norm_num)]
  norm_num

/-- The conversion of the `int` 33554434 to `float` is a tie between 33554432
and 33554436, and goes to the even significand. -/
theorem floatOfInt_33554434 : floatOfInt 33554434 = CFloat.finite 33554432 := by
  unfold floatOfInt
  have hk : roundHalfEven ((((33554434 : Int) : Int) : ℚ) / (2 : ℚ) ^ ((25 : Int) - 23)) =
      8388608 := by
    have e : (((33554434 : Int) : ℚ)) / (2 : ℚ) ^ ((25 : Int) - 23) =
        ((8388608 : Int) : ℚ) + 1 / 2 := by norm_num
    rw [e]
    exact roundHalfEven_tie 8388608 (by decide)
  rw [roundToFloat_eq _ 25 8388608 (by norm_num) (by norm_num) (by norm_num) hk (by norm_num)]
  norm_num

theorem roundToFloat_16777216 : roundToFloat 16777216 = CFloat.finite 16777216 := by
  have e : (16777216 : ℚ) = ((1 : Int) : ℚ) * (2 : ℚ) ^ (24 : Int) := by norm_num
  rw [e]
  exact roundToFloat_of_representable 1 24 (by norm_num) (by norm_num) (by norm_num)

theorem roundToFloat_33554432 : roundToFloat 33554432 = CFloat.finite 33554432 := by
  have e : (33554432 : ℚ) = ((1 : Int) : ℚ) * (2 : ℚ) ^ (25 : Int) := by norm_num
  rw [e]
  exact roundToFloat_of_representable 1 25 (by norm_num) (by norm_num) (by norm_num)

theorem floatOfInt_16777216 : floatOfInt 16777216 = CFloat.finite 16777216 := by
  unfold floatOfInt
  have e : (((16777216 : Int) : Int) : ℚ) = 16777216 := by norm_num
  rw [e, roundToFloat_16777216]

theorem floatOfInt_33554432 : floatOfInt 33554432 = CFloat.finite 33554432 := by
  unfold floatOfInt
  have e : (((33554432 : Int) : Int) : ℚ) = 33554432 := by norm_num
  rw [e, roundToFloat_33554432]

theorem CFloat.div_finite (p q : ℚ) (hq : q ≠ 0) :
    CFloat.div (CFloat.finite p) (CFloat.finite q) = roundToFloat (p / q) := by
  simp [CFloat.div, hq]

theorem CFloat.mul_finite (p q : ℚ) :
    CFloat.mul (CFloat.finite p) (CFloat.finite q) = roundToFloat (p * q) := rfl

theorem CFloat.add_finite (p q : ℚ) :
    CFloat.add (CFloat.finite p) (CFloat.finite q) = roundToFloat (p + q) := rfl

theorem CFloat.lt_finite (p q : ℚ) :
    CFloat.lt (CFloat.finite p) (CFloat.finite q) = decide (p < q) := rfl

theorem ne_ceilf_finite_intCast (n : Int) :
    CFloat.ne (ceilf (CFloat.finite ((n : Int) : ℚ))) (CFloat.finite ((n : Int) : ℚ)) =
      false := by
  simp [ceilf, CFloat.ne]

/-- The ratio `25165825 / float(3)` is stored as `8388608`. -/
theorem int_div_float_binary32_25165825 :
    int_div_float_binary32 25165825 3 = CFloat.finite (((8388608 : Int) : Int) : ℚ) := by
  unfold int_div_float_binary32
  rw [floatOfInt_25165825, floatOfInt_of_lt 3 (by norm_num),
    CFloat.div_finite _ _ (by norm_num)]
  have e : (25165824 : ℚ) / (((3 : Int) : Int) : ℚ) = (((8388608 : Int) : Int) : ℚ) := by
    norm_num
  rw [e]
  exact roundToFloat_intCast 8388608 (by norm_num)

/-- The ratio `33554434 / float(2)` is stored as `16777216`. -/
theorem int_div_float_binary32_33554434 :
    int_div_float_binary32 33554434 2 = CFloat.finite 16777216 := by
  unfold int_div_float_binary32
  rw [floatOfInt_33554434, floatOfInt_of_lt 2 (by norm_num),
    CFloat.div_finite _ _ (by norm_num)]
  have e : (33554432 : ℚ) / (((2 : Int) : Int) : ℚ) = 16777216 := by norm_num
  rw [e]
  exact roundToFloat_16777216

/-- A ratio of a count to itself is stored as `1`. -/
theorem int_div_float_binary32_self (n : Int) (h : |n| < 2 ^ 24) (h0 : n ≠ 0) :
    int_div_float_binary32 n n = CFloat.finite (((1 : Int) : Int) : ℚ) := by
  rw [int_div_float_binary32_of_dvd n n h h h0 (dvd_refl n),
    int_div_float_of_dvd n n h0 (dvd_refl n), Int.ediv_self h0]

/-! ## The field wire loops in binary32 -/

/-- The loop stops at the latest at the first value that fails its condition. -/
theorem floatBoundedLoop_length_le (bound : CFloat) (fuel : Nat) (s : Int) (L : Nat)
    (h : CFloat.lt (floatOfInt (s + (L : Int))) bound = false) :
    (floatBoundedLoop bound fuel s).length ≤ L := by
  by_contra hlt
  push_neg at hlt
  have hmem : s + (L : Int) ∈ floatBoundedLoop bound fuel s := by
    rw [floatBoundedLoop_consecutive bound fuel s]
    exact List.mem_map.mpr ⟨L, List.mem_range.mpr hlt, rfl⟩
  rw [floatBoundedLoop_cond bound fuel s _ hmem] at h
  exact absurd h (by simp)

theorem sub_phi_indices_binary32_of_eq (phi_index : Nat) (ratio : CFloat) (p : ℚ)
    (h : CFloat.mul (floatOfInt (phi_index : Int)) ratio = CFloat.finite p) :
    sub_phi_indices_binary32 phi_index ratio =
      floatBoundedLoop (CFloat.add (CFloat.finite p) ratio) (2 ^ 32) (truncToInt p) := by
  unfold sub_phi_indices_binary32
  rw [h]

/-- The field wire loop of cell 0 for the stored ratio `16777216`. -/
theorem sub_phi_indices_binary32_cell0 :
    sub_phi_indices_binary32 0 (CFloat.finite 16777216) =
      floatBoundedLoop (CFloat.finite 16777216) (2 ^ 32) 0 := by
  have h : CFloat.mul (floatOfInt ((0 : Nat) : Int)) (CFloat.finite 16777216) =
      CFloat.finite 0 := by
    rw [floatOfInt_of_lt _ (by norm_num), CFloat.mul_finite]
    have e : (((0 : Nat) : Int) : ℚ) * 16777216 = 0 := by norm_num
    rw [e, roundToFloat_zero]
  rw [sub_phi_indices_binary32_of_eq 0 _ 0 h, CFloat.add_finite]
  have e : (0 : ℚ) + 16777216 = 16777216 := by norm_num
  have t : truncToInt 0 = 0 := by simp [truncToInt]
  rw [e, roundToFloat_16777216, t]

/-- The field wire loop of cell 1 for the stored ratio `16777216`. -/
theorem sub_phi_indices_binary32_cell1 :
    sub_phi_indices_binary32 1 (CFloat.finite 16777216) =
      floatBoundedLoop (CFloat.finite 33554432) (2 ^ 32) 16777216 := by
  have h : CFloat.mul (floatOfInt ((1 : Nat) : Int)) (CFloat.finite 16777216) =
      CFloat.finite 16777216 := by
    rw [floatOfInt_of_lt _ (by norm_num), CFloat.mul_finite]
    have e : (((1 : Nat) : Int) : ℚ) * 16777216 = 16777216 := by norm_num
    rw [e, roundToFloat_16777216]
  rw [sub_phi_indices_binary32_of_eq 1 _ 16777216 h, CFloat.add_finite]
  have e : (16777216 : ℚ) + 16777216 = 33554432 := by norm_num
  have t : truncToInt 16777216 = 16777216 := by
    have c : (16777216 : ℚ) = (((16777216 : Int) : Int) : ℚ) := by norm_num
    rw [c, truncToInt_intCast]
  rw [e, roundToFloat_33554432, t]

/-- For the stored ratio `16777216` the field wire loop of a cell makes at most
16777216 turns. -/
theorem length_sub_phi_indices_binary32_le :
    (sub_phi_indices_binary32 0 (CFloat.finite 16777216)).length ≤ 16777216 ∧
    (sub_phi_indices_binary32 1 (CFloat.finite 16777216)).length ≤ 16777216 := by
  constructor
  · rw [sub_phi_indices_binary32_cell0]
    apply floatBoundedLoop_length_le
    have e : (0 : Int) + ((16777216 : Nat) : Int) = 16777216 := by norm_num
    rw [e, floatOfInt_16777216, CFloat.lt_finite]
    simp
  · rw [sub_phi_indices_binary32_cell1]
    apply floatBoundedLoop_length_le
    have e : (16777216 : Int) + ((16777216 : Nat) : Int) = 33554432 := by norm_num
    rw [e, floatOfInt_33554432, CFloat.lt_finite]
    simp

/-- For the stored ratio `16777216` no cell goes through the value 33554432 of
`sub_phi_index`. -/
theorem not_mem_sub_phi_indices_binary32 :
    (33554432 : Int) ∉ sub_phi_indices_binary32 0 (CFloat.finite 16777216) ∧
    (33554432 : Int) ∉ sub_phi_indices_binary32 1 (CFloat.finite 16777216) := by
  constructor
  · rw [sub_phi_indices_binary32_cell0]
    intro hm
    have h := floatBoundedLoop_cond _ _ _ _ hm
    rw [floatOfInt_33554432, CFloat.lt_finite] at h
    revert h
    norm_num
  · rw [sub_phi_indices_binary32_cell1]
    intro hm
    have h := floatBoundedLoop_cond _ _ _ _ hm
    rw [floatOfInt_33554432, CFloat.lt_finite] at h
    revert h
    norm_num

/-- For the ratio `1` the field wire loop of a cell makes one turn. -/
theorem length_sub_phi_indices_binary32_one (phi_index : Nat) (h : phi_index < 2) :
    (sub_phi_indices_binary32 phi_index (CFloat.finite (((1 : Int) : Int) : ℚ))).length = 1 := by
  have h0 : phi_index = 0 ∨ phi_index = 1 := by omega
  rw [sub_phi_indices_binary32_intCast phi_index 1
    (by rcases h0 with rfl | rfl <;> norm_num) (by rcases h0 with rfl | rfl <;> norm_num)
    (by rcases h0 with rfl | rfl <;> norm_num), sub_phi_indices_intCast]
  simp

/-! ## The placements of the cells in binary32 -/

theorem placements_field_wire_placements_binary32 (SL iring phi_index : Nat) (w : wire R)
    (ratio : CFloat) :
    placements (field_wire_placements_binary32 SL iring phi_index w ratio) =
      List.replicate (sub_phi_indices_binary32 phi_index ratio).length
        (VolId.cellID_volume SL iring phi_index, w.volume) := by
  simp only [placements, field_wire_placements_binary32, List.filterMap_map]
  induction sub_phi_indices_binary32 phi_index ratio with
  | nil => rfl
  | cons a l ih => simp [List.replicate_succ, ih, Event.placement]

theorem wirePlacementsInCells_cell_binary32 (P : Params R) (SL iring : Nat) (hyp : Solid R)
    (st : State R) (phi_index : Nat) :
    wirePlacementsInCells SL iring (cell_binary32 P SL iring hyp st phi_index) =
      (VolId.cellID_volume SL iring phi_index, st.sense_wires.volume) ::
      (List.replicate
          (sub_phi_indices_binary32 phi_index
            (middle_to_bottom_num_wire_ratio_binary32 st)).length
          (VolId.cellID_volume SL iring phi_index, st.field_wires_bottom.volume) ++
        List.replicate
          (sub_phi_indices_binary32 phi_index
            (middle_to_middle_num_wire_ratio_binary32 st)).length
          (VolId.cellID_volume SL iring phi_index, st.field_wires_center.volume) ++
        List.replicate
          (sub_phi_indices_binary32 phi_index (middle_to_top_num_wire_ratio_binary32 st)).length
          (VolId.cellID_volume SL iring phi_index, st.field_wires_top.volume)) := by
  simp only [wirePlacementsInCells, cell_binary32, placements_append,
    placements_field_wire_placements_binary32]
  simp [placements, Event.placement, List.filter_cons, List.filter_replicate, isCellOf]

theorem cellTransforms_field_wire_placements_binary32 (SL iring phi_index : Nat) (c : VolId)
    (w : wire R) (ratio : CFloat) :
    cellTransforms SL iring c (field_wire_placements_binary32 SL iring phi_index w ratio) =
      if w.volume = c then
        (sub_phi_indices_binary32 phi_index ratio).map (fun sub_phi_index =>
          [ Motion.RotationZ (w.phioffset + w.phi * ((sub_phi_index : Int) : R)),
            Motion.Translation3D w.radius 0 0, Motion.RotationX w.stereo ])
      else [] := by
  unfold cellTransforms field_wire_placements_binary32
  rw [List.filterMap_map]
  have hcell : isCellOf SL iring (VolId.cellID_volume SL iring phi_index) = true := by
    simp [isCellOf]
  by_cases h : w.volume = c
  · rw [if_pos h]
    induction sub_phi_indices_binary32 phi_index ratio with
    | nil => rfl
    | cons a l ih =>
      rw [List.filterMap_cons, List.map_cons, ih]
      simp only [Function.comp_apply, hcell, h, and_self, if_true]
  · rw [if_neg h]
    induction sub_phi_indices_binary32 phi_index ratio with
    | nil => rfl
    | cons a l ih =>
      rw [List.filterMap_cons, ih]
      simp only [Function.comp_apply, h, and_false, if_false]

theorem cellTransforms_cell_binary32 (P : Params R) (SL iring : Nat) (hyp : Solid R)
    (st : State R) (phi_index : Nat) (c : VolId) (hc : st.sense_wires.volume ≠ c) :
    cellTransforms SL iring c (cell_binary32 P SL iring hyp st phi_index) =
      cellTransforms SL iring c
        (field_wire_placements_binary32 SL iring phi_index st.field_wires_bottom
          (middle_to_bottom_num_wire_ratio_binary32 st)) ++
      cellTransforms SL iring c
        (field_wire_placements_binary32 SL iring phi_index st.field_wires_center
          (middle_to_middle_num_wire_ratio_binary32 st)) ++
      cellTransforms SL iring c
        (field_wire_placements_binary32 SL iring phi_index st.field_wires_top
          (middle_to_top_num_wire_ratio_binary32 st)) := by
  unfold cell_binary32
  simp only [cellTransforms_append]
  congr 2
  simp [cellTransforms, isCellOf, hc]

/-- The transforms with which the cells of a ring place its bottom field
wires, with the loops in binary32. -/
theorem cellTransforms_cells_binary32_bottom (P : Params R) (SL iring : Nat) (hyp : Solid R)
    (st : State R)
    (hs : st.sense_wires.volume = VolId.lvWireVol (WireSite.sense SL iring))
    (hb : st.field_wires_bottom.volume = VolId.lvWireVol (WireSite.bottom SL iring))
    (hc : st.field_wires_center.volume = VolId.lvWireVol (WireSite.center SL iring))
    (ht : st.field_wires_top.volume = VolId.lvWireVol (WireSite.top SL iring)) :
    cellTransforms SL iring (VolId.lvWireVol (WireSite.bottom SL iring))
        (cells_binary32 P SL iring hyp st) =
      ((List.range st.sense_wires.num.toNat).flatMap (fun p =>
        sub_phi_indices_binary32 p (middle_to_bottom_num_wire_ratio_binary32 st))).map
        (fun sub_phi_index =>
          [ Motion.RotationZ (st.field_wires_bottom.phioffset +
              st.field_wires_bottom.phi * ((sub_phi_index : Int) : R)),
            Motion.Translation3D st.field_wires_bottom.radius 0 0,
            Motion.RotationX st.field_wires_bottom.stereo ]) := by
  unfold cells_binary32
  rw [observe_flatMap _ rfl (cellTransforms_append SL iring _), List.map_flatMap]
  apply List.flatMap_congr
  intro p _
  rw [cellTransforms_cell_binary32 P SL iring hyp st p _ (by rw [hs]; simp)]
  simp only [cellTransforms_field_wire_placements_binary32, hb, hc, ht]
  simp only [VolId.lvWireVol.injEq, reduceCtorEq, if_true, if_false,
    List.append_nil, List.nil_append]

/-! ## A build in binary32 with one superlayer and one ring -/

theorem superlayer_iteration_binary32_shape (M : MathOps R) (P : Params R) (SL : Nat)
    (st : State R) :
    superlayer_iteration_binary32 M P SL st =
      (Outcome.ok (first_superlayer_block M P SL
          (superlayer_factors M P SL (superlayer_wire_counts M P SL st)))).andThen
        (fun st => (forLoop (ring_iteration_binary32 M P SL) 0 P.nRing.toNat st).andThen
          (fun st => Outcome.ok (last_superlayer_block M P SL st))) := by
  unfold superlayer_iteration_binary32
  simp only [parity_test_binary32_eq_false]
  rfl

theorem ring_iteration_binary32_error_none (M : MathOps R) (P : Params R) (SL iring : Nat)
    (st : State R) :
    (ring_iteration_binary32 M P SL iring st).error = none ↔
      ratio_test_binary32 (ring_info M P SL iring st).top = false := by
  unfold ring_iteration_binary32; dsimp only; split <;> simp_all

theorem ring_iteration_binary32_rings (M : MathOps R) (P : Params R) (SL iring : Nat)
    (st : State R) :
    (ring_iteration_binary32 M P SL iring st).rings = [ring_info M P SL iring st] := by
  unfold ring_iteration_binary32; dsimp only; split <;> rfl

theorem ring_iteration_binary32_events_of_pass (M : MathOps R) (P : Params R) (SL iring : Nat)
    (st : State R) (h : ratio_test_binary32 (ring_info M P SL iring st).top = false) :
    (ring_iteration_binary32 M P SL iring st).events =
      ring_geometry_events M P SL iring st ++
        cells_binary32 P SL iring (whole_ring_hyperboloid (ring_info M P SL iring st).upper)
          (ring_info M P SL iring st).top := by
  unfold ring_iteration_binary32; dsimp only; rw [if_neg (by simp [h])]

/-- The superlayer of a build in binary32 with one ring. -/
theorem superlayer_iteration_binary32_single (M : MathOps R) (P : Params R) (SL : Nat)
    (st : State R) (h2 : P.nRing = 1) :
    (superlayer_iteration_binary32 M P SL st).error =
      (ring_iteration_binary32 M P SL 0 (ring_loop_entry M P SL st)).error ∧
    (superlayer_iteration_binary32 M P SL st).rings =
      (ring_iteration_binary32 M P SL 0 (ring_loop_entry M P SL st)).rings ∧
    ((ring_iteration_binary32 M P SL 0 (ring_loop_entry M P SL st)).error = none →
      (superlayer_iteration_binary32 M P SL st).events =
        (first_superlayer_block M P SL
          (superlayer_factors M P SL (superlayer_wire_counts M P SL st))).2 ++
        ((ring_iteration_binary32 M P SL 0 (ring_loop_entry M P SL st)).events ++
          (last_superlayer_block M P SL
            (ring_iteration_binary32 M P SL 0 (ring_loop_entry M P SL st)).st).2)) := by
  have e2 : P.nRing.toNat = 1 := by rw [h2]; rfl
  rw [superlayer_iteration_binary32_shape, Outcome.andThen_ok, e2]
  simp only [forLoop_one]
  refine ⟨Outcome.andThen_ok_right_error _ _, Outcome.andThen_ok_right_rings _ _, ?_⟩
  intro h
  show _ ++ ((ring_iteration_binary32 M P SL 0 (ring_loop_entry M P SL st)).andThen
    (fun st => Outcome.ok (last_superlayer_block M P SL st))).events = _
  rw [Outcome.andThen_ok_right_events _ _ h]

/-- The error and the rings of a build in binary32 with one superlayer and
one ring are those of its ring. -/
theorem build_layer_binary32_single (M : MathOps R) (P : Params R) (h1 : P.nSuperLayer = 1)
    (h2 : P.nRing = 1) :
    (build_layer_binary32 M P).error =
      (ring_iteration_binary32 M P 0 0 (first_ring M P).entry).error ∧
    (build_layer_binary32 M P).rings = [first_ring M P] := by
  have e1 : P.nSuperLayer.toNat = 1 := by rw [h1]; rfl
  obtain ⟨a, b, _⟩ := superlayer_iteration_binary32_single M P 0 (State.initial P) h2
  unfold build_layer_binary32
  rw [Outcome.andThen_ok, e1]
  simp only [forLoop_one]
  constructor
  · exact (Outcome.andThen_ok_right_error _
      (fun st => (st, register_layers st ++ place_walls P))).trans a
  · exact ((Outcome.andThen_ok_right_rings _
      (fun st => (st, register_layers st ++ place_walls P))).trans b).trans
        (ring_iteration_binary32_rings M P 0 0 _)

theorem wirePlacementsInCells_eq_nil_of_not_cell (SL iring : Nat) (evs : List (Event R))
    (h : ∀ x ∈ placements evs, isCellOf SL iring x.1 = false) :
    wirePlacementsInCells SL iring evs = [] := by
  unfold wirePlacementsInCells
  rw [List.filter_eq_nil_iff]
  intro x hx
  simp [h x hx]

theorem not_isCellOf_of_not_ringOwned (SL iring : Nat) (x : VolId × VolId)
    (h : ringOwned x = false) : isCellOf SL iring x.1 = false := by
  by_contra hne
  have := isCellOf_ringOwned SL iring x (by simpa using hne)
  rw [h] at this
  exact absurd this (by simp)

/-- An observation of the placements in the cells of the ring sees, in a
build in binary32 with one superlayer and one ring that passes the ratio test,
what it sees in the cells. -/
theorem build_layer_binary32_observe_single {β : Type} (M : MathOps R) (P : Params R)
    (h1 : P.nSuperLayer = 1) (h2 : P.nRing = 1)
    (hpass : ratio_test_binary32 (first_ring M P).top = false)
    (g : List (Event R) → List β) (happ : ∀ a b, g (a ++ b) = g a ++ g b)
    (hg : ∀ evs, wirePlacementsInCells 0 0 evs = [] → g evs = []) :
    g (build_layer_binary32 M P).events =
      g (cells_binary32 P 0 0 (whole_ring_hyperboloid (first_ring M P).upper)
        (first_ring M P).top) := by
  have e1 : P.nSuperLayer.toNat = 1 := by rw [h1]; rfl
  have hp : (ring_iteration_binary32 M P 0 0 (ring_loop_entry M P 0 (State.initial P))).error =
      none := (ring_iteration_binary32_error_none M P 0 0 _).mpr hpass
  obtain ⟨a, _, c⟩ := superlayer_iteration_binary32_single M P 0 (State.initial P) h2
  have hev : (build_layer_binary32 M P).events =
      wall_volumes P ++ ((superlayer_iteration_binary32 M P 0 (State.initial P)).events ++
        (register_layers (superlayer_iteration_binary32 M P 0 (State.initial P)).st ++
          place_walls P)) := by
    unfold build_layer_binary32
    rw [Outcome.andThen_ok, e1]
    simp only [forLoop_one]
    show _ ++ ((superlayer_iteration_binary32 M P 0 (State.initial P)).andThen
      (fun st => Outcome.ok (st, register_layers st ++ place_walls P))).events = _
    rw [Outcome.andThen_ok_right_events _
      (fun st => (st, register_layers st ++ place_walls P)) (a.trans hp)]
  have g1 : g (wall_volumes P) = [] :=
    hg _ (wirePlacementsInCells_eq_nil_of_not_cell _ _ _
      (by rw [placements_wall_volumes]; intro x hx; exact absurd hx (List.not_mem_nil _)))
  have g2 : g (first_superlayer_block M P 0
      (superlayer_factors M P 0 (superlayer_wire_counts M P 0 (State.initial P)))).2 = [] :=
    hg _ (wirePlacementsInCells_eq_nil_of_not_cell _ _ _ (fun x hx =>
      not_isCellOf_of_not_ringOwned 0 0 x (ringOwned_first_superlayer_block M P 0 _ x hx)))
  have g3 : g (ring_geometry_events M P 0 0 (ring_loop_entry M P 0 (State.initial P))) = [] :=
    hg _ (wirePlacementsInCells_geometry M P 0 0 _ 0 0)
  have g4 : g (last_superlayer_block M P 0
      (ring_iteration_binary32 M P 0 0 (ring_loop_entry M P 0 (State.initial P))).st).2 = [] :=
    hg _ (wirePlacementsInCells_eq_nil_of_not_cell _ _ _ (fun x hx =>
      not_isCellOf_of_not_ringOwned 0 0 x (ringOwned_last_superlayer_block M P 0 _ x hx)))
  have g5 : g (register_layers (superlayer_iteration_binary32 M P 0 (State.initial P)).st) =
      [] :=
    hg _ (wirePlacementsInCells_eq_nil_of_not_cell _ _ _ (fun x hx => by
      rw [placements_register_layers_mother _ x hx]; rfl))
  have g6 : g (place_walls P) = [] :=
    hg _ (wirePlacementsInCells_eq_nil_of_not_cell _ _ _ (fun x hx => by
      rw [placements_place_walls_mother P x hx]; rfl))
  rw [hev, c hp, ring_iteration_binary32_events_of_pass M P 0 0 _ hpass]
  simp only [happ]
  rw [g1, g2, g3, g4, g5, g6]
  simp only [List.nil_append, List.append_nil]
  rfl

theorem placements_cell_binary32 (P : Params R) (SL iring : Nat) (hyp : Solid R) (st : State R)
    (phi_index : Nat) :
    placements (cell_binary32 P SL iring hyp st phi_index) =
      (VolId.whole_ring_hyperboloid_volume SL iring, VolId.cellID_volume SL iring phi_index) ::
      (VolId.cellID_volume SL iring phi_index, st.sense_wires.volume) ::
      (List.replicate
          (sub_phi_indices_binary32 phi_index
            (middle_to_bottom_num_wire_ratio_binary32 st)).length
          (VolId.cellID_volume SL iring phi_index, st.field_wires_bottom.volume) ++
        List.replicate
          (sub_phi_indices_binary32 phi_index
            (middle_to_middle_num_wire_ratio_binary32 st)).length
          (VolId.cellID_volume SL iring phi_index, st.field_wires_center.volume) ++
        List.replicate
          (sub_phi_indices_binary32 phi_index (middle_to_top_num_wire_ratio_binary32 st)).length
          (VolId.cellID_volume SL iring phi_index, st.field_wires_top.volume)) := by
  simp only [cell_binary32, placements_append, placements_field_wire_placements_binary32]
  simp [placements, Event.placement]

theorem placedIn_cell_cell_binary32 (P : Params R) (SL iring : Nat) (hyp : Solid R)
    (st : State R) (phi_index q : Nat) :
    placedIn (VolId.cellID_volume SL iring q) (cell_binary32 P SL iring hyp st phi_index) =
      if phi_index = q then
        st.sense_wires.volume ::
          (List.replicate
              (sub_phi_indices_binary32 q (middle_to_bottom_num_wire_ratio_binary32 st)).length
              st.field_wires_bottom.volume ++
            List.replicate
              (sub_phi_indices_binary32 q (middle_to_middle_num_wire_ratio_binary32 st)).length
              st.field_wires_center.volume ++
            List.replicate
              (sub_phi_indices_binary32 q (middle_to_top_num_wire_ratio_binary32 st)).length
              st.field_wires_top.volume)
      else [] := by
  by_cases h : phi_index = q
  · subst h
    simp [placedIn, placements_cell_binary32, List.filter_cons, List.filter_replicate]
  · simp [placedIn, placements_cell_binary32, List.filter_cons, List.filter_replicate, h]

theorem placedIn_cell_eq_nil (SL iring q : Nat) (evs : List (Event R))
    (h : wirePlacementsInCells SL iring evs = []) :
    placedIn (VolId.cellID_volume SL iring q) evs = [] := by
  unfold wirePlacementsInCells at h
  rw [List.filter_eq_nil_iff] at h
  apply placedIn_eq_nil
  intro x hx hq
  apply h x hx
  rw [hq]
  simp [isCellOf]

theorem length_flatMap_pair {α : Type} (f : Nat → List α) :
    (([0, 1] : List Nat).flatMap f).length = (f 0).length + (f 1).length := by
  simp

theorem length_cell_wires {α : Type} (x b c t : α) (nb nc nt : Nat) :
    (x :: (List.replicate nb b ++ List.replicate nc c ++ List.replicate nt t)).length =
      1 + nb + nc + nt := by
  simp only [List.length_cons, List.length_append, List.length_replicate]
  omega

/-- The number of wires placed in the cells of a ring of two cells, with the
loops in binary32. -/
theorem length_wirePlacementsInCells_cells_binary32 (P : Params R) (SL iring : Nat)
    (hyp : Solid R) (st : State R) (h : List.range st.sense_wires.num.toNat = [0, 1]) :
    (wirePlacementsInCells SL iring (cells_binary32 P SL iring hyp st)).length =
      (1 + (sub_phi_indices_binary32 0 (middle_to_bottom_num_wire_ratio_binary32 st)).length +
        (sub_phi_indices_binary32 0 (middle_to_middle_num_wire_ratio_binary32 st)).length +
        (sub_phi_indices_binary32 0 (middle_to_top_num_wire_ratio_binary32 st)).length) +
      (1 + (sub_phi_indices_binary32 1 (middle_to_bottom_num_wire_ratio_binary32 st)).length +
        (sub_phi_indices_binary32 1 (middle_to_middle_num_wire_ratio_binary32 st)).length +
        (sub_phi_indices_binary32 1 (middle_to_top_num_wire_ratio_binary32 st)).length) := by
  unfold cells_binary32
  rw [h, wirePlacementsInCells_flatMap, length_flatMap_pair]
  rw [wirePlacementsInCells_cell_binary32, wirePlacementsInCells_cell_binary32,
    length_cell_wires, length_cell_wires]

/-- The number of wires placed in cell 0 of a ring of two cells, with the loops
in binary32. -/
theorem length_placedIn_cells_binary32 (P : Params R) (SL iring : Nat)
    (hyp : Solid R) (st : State R) (h : List.range st.sense_wires.num.toNat = [0, 1]) :
    (placedIn (VolId.cellID_volume SL iring 0) (cells_binary32 P SL iring hyp st)).length =
      1 + (sub_phi_indices_binary32 0 (middle_to_bottom_num_wire_ratio_binary32 st)).length +
        (sub_phi_indices_binary32 0 (middle_to_middle_num_wire_ratio_binary32 st)).length +
        (sub_phi_indices_binary32 0 (middle_to_top_num_wire_ratio_binary32 st)).length := by
  unfold cells_binary32
  rw [h, placedIn_flatMap, length_flatMap_pair]
  rw [placedIn_cell_cell_binary32, placedIn_cell_cell_binary32, if_pos rfl,
    if_neg (by decide), length_cell_wires, List.length_nil]
  rfl

/-! ## The ring of 3 sense wires and 25165825 bottom field wires -/

theorem roundedOddProduct_nums :
    (first_ring exampleMath roundedOddProductParams).top.sense_wires.num = 3 ∧
    (first_ring exampleMath roundedOddProductParams).top.field_wires_center.num = 3 ∧
    (first_ring exampleMath roundedOddProductParams).top.field_wires_bottom.num = 25165825 ∧
    (first_ring exampleMath roundedOddProductParams).top.field_wires_top.num = 25165825 := by
  obtain ⟨a, b, c, d⟩ := first_ring_nums exampleMath roundedOddProductParams
  exact ⟨a, b, c.trans (by decide), d.trans (by decide)⟩

theorem roundedOddProduct_bottom_ratio :
    middle_to_bottom_num_wire_ratio_binary32
      (first_ring exampleMath roundedOddProductParams).top =
        CFloat.finite (((8388608 : Int) : Int) : ℚ) := by
  obtain ⟨a, _, c, _⟩ := roundedOddProduct_nums
  unfold middle_to_bottom_num_wire_ratio_binary32
  rw [a, c, int_div_float_binary32_25165825]

theorem roundedOddProduct_passes :
    ratio_test_binary32 (first_ring exampleMath roundedOddProductParams).top = false := by
  obtain ⟨a, b, c, d⟩ := roundedOddProduct_nums
  unfold ratio_test_binary32 middle_to_middle_num_wire_ratio_binary32
    middle_to_bottom_num_wire_ratio_binary32 middle_to_top_num_wire_ratio_binary32
  rw [a, b, c, d, int_div_float_binary32_25165825,
    int_div_float_binary32_self 3 (by norm_num) (by norm_num), ne_ceilf_finite_intCast,
    ne_ceilf_finite_intCast]
  rfl

/-- C23, counterexample: with one superlayer of one ring, `nSWire = 3`,
`nStoFWireRatio = 16777219` and `nVerticalFWire = 2`, superlayer 0 is reached,
has `N = 3 ≥ 2` sense wires, and the product
`(nStoFWireRatio - nVerticalFWire) * N = 50331651` is positive and odd; half of
it, rounded down, is the count 25165825 of bottom field wires, which is not a
multiple of 3.  But `float` does not hold 25165825: line 630 stores the ratio
`25165824 / 3 = 8388608`, the ratio test of line 632 is false, ring 0 runs to
its end, and the build does not throw. -/
theorem odd_product_passes_in_binary32 :
    0 < roundedOddProductParams.nSuperLayer.toNat ∧
    1 ≤ roundedOddProductParams.nRing ∧
    roundedOddProductParams.nSWire + ((0 : Nat) : Int) * roundedOddProductParams.nSDeltaWire =
      3 ∧
    (roundedOddProductParams.nStoFWireRatio - roundedOddProductParams.nVerticalFWire) *
      (roundedOddProductParams.nSWire +
        ((0 : Nat) : Int) * roundedOddProductParams.nSDeltaWire) = 50331651 ∧
    (50331651 : Int) % 2 = 1 ∧
    (forLoop (superlayer_iteration_binary32 exampleMath roundedOddProductParams) 0 0
      (State.initial roundedOddProductParams)).error = none ∧
    (first_ring exampleMath roundedOddProductParams).top.field_wires_bottom.num =
      Int.tdiv 50331651 2 ∧
    ¬ ((3 : Int) ∣ Int.tdiv 50331651 2) ∧
    middle_to_bottom_num_wire_ratio_binary32
      (first_ring exampleMath roundedOddProductParams).top =
        CFloat.finite (((8388608 : Int) : Int) : ℚ) ∧
    ratio_test_binary32 (first_ring exampleMath roundedOddProductParams).top = false ∧
    (build_layer_binary32 exampleMath roundedOddProductParams).rings =
      [first_ring exampleMath roundedOddProductParams] ∧
    (ring_iteration_binary32 exampleMath roundedOddProductParams 0 0
      (first_ring exampleMath roundedOddProductParams).entry).error = none ∧
    (build_layer_binary32 exampleMath roundedOddProductParams).error = none := by
  obtain ⟨e, r⟩ := build_layer_binary32_single exampleMath roundedOddProductParams rfl rfl
  have hp := (ring_iteration_binary32_error_none exampleMath roundedOddProductParams 0 0
    (first_ring exampleMath roundedOddProductParams).entry).mpr roundedOddProduct_passes
  exact ⟨by decide, by decide, by decide, by decide, by decide, rfl,
    roundedOddProduct_nums.2.2.1, by decide, roundedOddProduct_bottom_ratio,
    roundedOddProduct_passes, r, hp, e.trans hp⟩

/-! ## The ring of 2 sense wires and 33554434 bottom field wires -/

theorem roundedRatio_nums :
    (first_ring exampleMath roundedRatioParams).top.sense_wires.num = 2 ∧
    (first_ring exampleMath roundedRatioParams).top.field_wires_center.num = 2 ∧
    (first_ring exampleMath roundedRatioParams).top.field_wires_bottom.num = 33554434 ∧
    (first_ring exampleMath roundedRatioParams).top.field_wires_top.num = 33554434 := by
  obtain ⟨a, b, c, d⟩ := first_ring_nums exampleMath roundedRatioParams
  exact ⟨a, b, c.trans (by decide), d.trans (by decide)⟩

theorem roundedRatio_ratios :
    middle_to_bottom_num_wire_ratio_binary32 (first_ring exampleMath roundedRatioParams).top =
      CFloat.finite 16777216 ∧
    middle_to_middle_num_wire_ratio_binary32 (first_ring exampleMath roundedRatioParams).top =
      CFloat.finite (((1 : Int) : Int) : ℚ) ∧
    middle_to_top_num_wire_ratio_binary32 (first_ring exampleMath roundedRatioParams).top =
      CFloat.finite 16777216 := by
  obtain ⟨a, b, c, d⟩ := roundedRatio_nums
  unfold middle_to_middle_num_wire_ratio_binary32
    middle_to_bottom_num_wire_ratio_binary32 middle_to_top_num_wire_ratio_binary32
  rw [a, b, c, d]
  exact ⟨int_div_float_binary32_33554434,
    int_div_float_binary32_self 2 (by norm_num) (by norm_num), int_div_float_binary32_33554434⟩

theorem roundedRatio_passes :
    ratio_test_binary32 (first_ring exampleMath roundedRatioParams).top = false := by
  obtain ⟨rb, rc, rt⟩ := roundedRatio_ratios
  unfold ratio_test_binary32
  rw [rb, rc, rt, ne_ceilf_finite_intCast]
  have e : (16777216 : ℚ) = (((16777216 : Int) : Int) : ℚ) := by norm_num
  rw [e, ne_ceilf_finite_intCast]
  rfl

theorem roundedRatio_range :
    List.range (first_ring exampleMath roundedRatioParams).top.sense_wires.num.toNat =
      [0, 1] := by
  rw [roundedRatio_nums.1]
  rfl

/-- C6, counterexample: with one superlayer of one ring, `nSWire = 2`,
`nStoFWireRatio = 33554436` and `nVerticalFWire = 2`, the ring has `N = 2` sense
wires, `2 * 16777217` bottom, `2 * 1` center and `2 * 16777217` top field
wires, so that the three ratios are the non-negative integers 16777217, 1
and 16777217.  But `float` does not hold 33554434: line 630 stores the ratio
`33554432 / 2 = 16777216`, the ring passes the ratio test, cell 0 receives
fewer than `1 + 16777217 + 1 + 16777217` wires and the cells of the ring
together fewer than `2 * (1 + 16777217 + 1 + 16777217)`. -/
theorem wire_placements_short_in_binary32 :
    first_ring exampleMath roundedRatioParams ∈
      (build_layer_binary32 exampleMath roundedRatioParams).rings ∧
    (ring_iteration_binary32 exampleMath roundedRatioParams 0 0
      (first_ring exampleMath roundedRatioParams).entry).error = none ∧
    (first_ring exampleMath roundedRatioParams).top.sense_wires.num = 2 ∧
    (first_ring exampleMath roundedRatioParams).top.field_wires_bottom.num = 2 * 16777217 ∧
    (first_ring exampleMath roundedRatioParams).top.field_wires_center.num = 2 * 1 ∧
    (first_ring exampleMath roundedRatioParams).top.field_wires_top.num = 2 * 16777217 ∧
    (placedIn (VolId.cellID_volume 0 0 0)
      (build_layer_binary32 exampleMath roundedRatioParams).events).length <
        1 + 16777217 + 1 + 16777217 ∧
    (wirePlacementsInCells 0 0
      (build_layer_binary32 exampleMath roundedRatioParams).events).length <
        2 * (1 + 16777217 + 1 + 16777217) := by
  obtain ⟨_, r⟩ := build_layer_binary32_single exampleMath roundedRatioParams rfl rfl
  have hp := (ring_iteration_binary32_error_none exampleMath roundedRatioParams 0 0
    (first_ring exampleMath roundedRatioParams).entry).mpr roundedRatio_passes
  obtain ⟨a, b, c, d⟩ := roundedRatio_nums
  obtain ⟨rb, rc, rt⟩ := roundedRatio_ratios
  obtain ⟨l0, l1⟩ := length_sub_phi_indices_binary32_le
  have c0 := length_sub_phi_indices_binary32_one 0 (by norm_num)
  have c1 := length_sub_phi_indices_binary32_one 1 (by norm_num)
  refine ⟨by rw [r]; exact List.mem_singleton.mpr rfl, hp, a, c.trans (by norm_num),
    b.trans (by norm_num), d.trans (by norm_num), ?_, ?_⟩
  · rw [build_layer_binary32_observe_single exampleMath roundedRatioParams rfl rfl
      roundedRatio_passes (placedIn (VolId.cellID_volume 0 0 0))
      (placedIn_append _) (placedIn_cell_eq_nil 0 0 0)]
    rw [length_placedIn_cells_binary32 _ _ _ _ _ roundedRatio_range, rb, rc, rt, c0]
    omega
  · rw [build_layer_binary32_observe_single exampleMath roundedRatioParams rfl rfl
      roundedRatio_passes (wirePlacementsInCells 0 0)
      (wirePlacementsInCells_append 0 0) (fun _ h => h)]
    rw [length_wirePlacementsInCells_cells_binary32 _ _ _ _ _ roundedRatio_range, rb, rc, rt,
      c0, c1]
    omega

/-- C15, counterexample: with one superlayer of one ring, `nSWire = 2`,
`nStoFWireRatio = 33554436` and `nVerticalFWire = 2`, the ring has `N = 2` sense
wires and `33554434 = 2 * 16777217` bottom field wires, and passes the ratio
test.  But line 630 stores the ratio `16777216`, and the loops of line 655
compare `sub_phi_index` with a `float`: the two cells do not go through the
value 33554432 of `sub_phi_index`, they go through at most 33554432 values,
and they place at most 33554432 bottom field wires, where the loop of
`PlaceWires` places 33554434. -/
theorem field_wire_indices_short_in_binary32 :
    first_ring exampleMath roundedRatioParams ∈
      (build_layer_binary32 exampleMath roundedRatioParams).rings ∧
    (ring_iteration_binary32 exampleMath roundedRatioParams 0 0
      (first_ring exampleMath roundedRatioParams).entry).error = none ∧
    (first_ring exampleMath roundedRatioParams).top.sense_wires.num = 2 ∧
    (first_ring exampleMath roundedRatioParams).top.field_wires_bottom.num = 2 * 16777217 ∧
    middle_to_bottom_num_wire_ratio_binary32 (first_ring exampleMath roundedRatioParams).top =
      CFloat.finite 16777216 ∧
    (33554432 : Int) ∉
      (List.range (first_ring exampleMath roundedRatioParams).top.sense_wires.num.toNat).flatMap
        (fun p => sub_phi_indices_binary32 p
          (middle_to_bottom_num_wire_ratio_binary32
            (first_ring exampleMath roundedRatioParams).top)) ∧
    ((List.range (first_ring exampleMath roundedRatioParams).top.sense_wires.num.toNat).flatMap
        (fun p => sub_phi_indices_binary32 p
          (middle_to_bottom_num_wire_ratio_binary32
            (first_ring exampleMath roundedRatioParams).top))).length ≤ 33554432 ∧
    (cellTransforms 0 0 (first_ring exampleMath roundedRatioParams).top.field_wires_bottom.volume
      (build_layer_binary32 exampleMath roundedRatioParams).events).length ≤ 33554432 ∧
    (placeWiresTransforms
      (first_ring exampleMath roundedRatioParams).top.field_wires_bottom).length = 33554434 := by
  obtain ⟨_, r⟩ := build_layer_binary32_single exampleMath roundedRatioParams rfl rfl
  have hp := (ring_iteration_binary32_error_none exampleMath roundedRatioParams 0 0
    (first_ring exampleMath roundedRatioParams).entry).mpr roundedRatio_passes
  obtain ⟨a, _, c, _⟩ := roundedRatio_nums
  obtain ⟨rb, _, _⟩ := roundedRatio_ratios
  obtain ⟨l0, l1⟩ := length_sub_phi_indices_binary32_le
  obtain ⟨n0, n1⟩ := not_mem_sub_phi_indices_binary32
  have hlen : ((List.range
      (first_ring exampleMath roundedRatioParams).top.sense_wires.num.toNat).flatMap
        (fun p => sub_phi_indices_binary32 p
          (middle_to_bottom_num_wire_ratio_binary32
            (first_ring exampleMath roundedRatioParams).top))).length ≤ 33554432 := by
    rw [roundedRatio_range, rb]
    simp only [List.flatMap_cons, List.flatMap_nil, List.append_nil, List.length_append]
    omega
  refine ⟨by rw [r]; exact List.mem_singleton.mpr rfl, hp, a, c.trans (by norm_num), rb, ?_,
    hlen, ?_, ?_⟩
  · rw [roundedRatio_range, rb]
    simp only [List.flatMap_cons, List.flatMap_nil, List.append_nil, List.mem_append]
    exact fun h => h.elim n0 n1
  · rw [build_layer_binary32_observe_single exampleMath roundedRatioParams rfl rfl
      roundedRatio_passes
      (cellTransforms 0 0 (first_ring exampleMath roundedRatioParams).top.field_wires_bottom.volume)
      (cellTransforms_append 0 0 _) (cellTransforms_eq_nil 0 0 _)]
    have hv := cellTransforms_cells_binary32_bottom roundedRatioParams 0 0
      (whole_ring_hyperboloid (first_ring exampleMath roundedRatioParams).upper)
      (first_ring exampleMath roundedRatioParams).top rfl rfl rfl rfl
    rw [show (first_ring exampleMath roundedRatioParams).top.field_wires_bottom.volume =
      VolId.lvWireVol (WireSite.bottom 0 0) from rfl, hv, List.length_map]
    exact hlen
  · unfold placeWiresTransforms
    rw [List.length_map, List.length_range, c]
    rfl

end Lemmas

end CDCH
